import Mathlib

/-! SM4 block cipher: reference, AES-NI and GFNI implementations; SM3 compression function

A shallow embedding of `project_1/sm4.cpp`, `project_1/sm4_aesni_implementation/sm4_aesni.cpp`
and `project_1/sm4_gfni_implementation/sm4_gfni.cpp`, and of `processBlock` in the five files of
`project_4`.

* `uint8_t` and `uint32_t` values are natural numbers; truncation to the machine
  width is written out (`% 2 ^ 32`) wherever the C++ arithmetic can overflow.
* `std::vector<uint8_t>` and C arrays are lists of natural numbers, read with
  `List.getD`.
* `std::string` is a list of characters.
* A failed `assert` and the exceptions thrown by `std::stoul` are the values of
  `Failure`, carried by `Except`.
* A `__m128i` register is the list of its 16 bytes, byte 0 being the least
  significant one (the order in which the register is stored to memory).
-/

set_option maxRecDepth 100000

/-- The ways in which a public entry point stops without returning a string.  The `assert`s are
taken as compiled in (`NDEBUG` not defined): a failed one stops the program, and the value
records which of the two asserted conditions failed, the one on the length of the text
(`plain_hex.length() == 32`, `cipher_hex.length() == 32`, `... % 32 == 0`) or the one on the
length of the key (`key_hex.length() == 32`). -/
inductive Failure where
  | input_length_assertion
  | key_length_assertion
  | invalid_argument
  | out_of_range
deriving DecidableEq, Repr

deriving instance DecidableEq for Except

/-! ## Hexadecimal text (`hex_to_bytes`, `bytes_to_hex`; the same text in all three classes) -/

/-- The value of a hexadecimal digit, if the character is one. -/
def hexval (c : Char) : Option Nat :=
  let n := c.toNat
  if 48 ≤ n ∧ n ≤ 57 then some (n - 48)
  else if 97 ≤ n ∧ n ≤ 102 then some (n - 87)
  else if 65 ≤ n ∧ n ≤ 70 then some (n - 55)
  else none

/-- The C locale's `isspace`: space, and the control characters 9 to 13. -/
def isspace (c : Char) : Bool :=
  c.toNat = 32 ∨ (9 ≤ c.toNat ∧ c.toNat ≤ 13)

/-- The leading hexadecimal digits of a string, as values. -/
def hexDigits : List Char → List Nat
  | [] => []
  | c :: cs =>
    match hexval c with
    | some d => d :: hexDigits cs
    | none => []

/-- Drops a `0x` or `0X` prefix when a hexadecimal digit follows it. -/
def dropHexPrefix (s : List Char) : List Char :=
  match s with
  | c0 :: cx :: d :: rest =>
    if c0.toNat = 48 ∧ (cx.toNat = 120 ∨ cx.toNat = 88) ∧ (hexval d).isSome then d :: rest else s
  | _ => s

/-- The call `std::stoul(s, nullptr, 16)` with a 64-bit `unsigned long`: leading white space, an
optional sign, an optional `0x` prefix, then the longest run of hexadecimal digits.  No digit at
all throws `std::invalid_argument`; a value above `ULONG_MAX` throws `std::out_of_range`; a minus
sign negates the value modulo `2 ^ 64`. -/
def stoul16 (s : List Char) : Except Failure Nat :=
  let s1 := s.dropWhile isspace
  let (neg, s2) :=
    match s1 with
    | c :: rest =>
      if c.toNat = 45 then (true, rest) else if c.toNat = 43 then (false, rest) else (false, s1)
    | [] => (false, s1)
  let ds := hexDigits (dropHexPrefix s2)
  if ds = [] then Except.error Failure.invalid_argument
  else
    let v := ds.foldl (fun acc d => 16 * acc + d) 0
    if 2 ^ 64 ≤ v then Except.error Failure.out_of_range
    else Except.ok (if neg then (2 ^ 64 - v) % 2 ^ 64 else v)

/-- The string `s.substr(pos, n)` for `pos` within the string (the three classes use it in the
same way). -/
def SM4_GFNI.substr (s : List Char) (pos n : Nat) : List Char := (s.drop pos).take n

namespace SM4

/-- The loop of `hex_to_bytes`: `i` advances by two and `hex.substr(i, 2)` holds the next two
characters (one, at the end of a string of odd length); the value is cast to `uint8_t`. -/
def hex_to_bytes : List Char → Except Failure (List Nat)
  | [] => Except.ok []
  | [c] => do
    let v ← stoul16 [c]
    Except.ok [v % 256]
  | c1 :: c2 :: rest => do
    let v ← stoul16 [c1, c2]
    let bytes ← hex_to_bytes rest
    Except.ok (v % 256 :: bytes)

/-- One lowercase hexadecimal digit, as `std::hex` prints it. -/
def hexChar (d : Nat) : Char :=
  Char.ofNat (if d < 10 then 48 + d else 87 + d)

/-- The function `bytes_to_hex`: every byte printed with `std::hex`, `setw(2)`, `setfill('0')`. -/
def bytes_to_hex (bytes : List Nat) : List Char :=
  bytes.flatMap (fun byte => [hexChar (byte / 16), hexChar (byte % 16)])

def SBOX : List Nat := [
  0xd6, 0x90, 0xe9, 0xfe, 0xcc, 0xe1, 0x3d, 0xb7, 0x16, 0xb6, 0x14, 0xc2, 0x28, 0xfb, 0x2c, 0x05,
  0x2b, 0x67, 0x9a, 0x76, 0x2a, 0xbe, 0x04, 0xc3, 0xaa, 0x44, 0x13, 0x26, 0x49, 0x86, 0x06, 0x99,
  0x9c, 0x42, 0x50, 0xf4, 0x91, 0xef, 0x98, 0x7a, 0x33, 0x54, 0x0b, 0x43, 0xed, 0xcf, 0xac, 0x62,
  0xe4, 0xb3, 0x1c, 0xa9, 0xc9, 0x08, 0xe8, 0x95, 0x80, 0xdf, 0x94, 0xfa, 0x75, 0x8f, 0x3f, 0xa6,
  0x47, 0x07, 0xa7, 0xfc, 0xf3, 0x73, 0x17, 0xba, 0x83, 0x59, 0x3c, 0x19, 0xe6, 0x85, 0x4f, 0xa8,
  0x68, 0x6b, 0x81, 0xb2, 0x71, 0x64, 0xda, 0x8b, 0xf8, 0xeb, 0x0f, 0x4b, 0x70, 0x56, 0x9d, 0x35,
  0x1e, 0x24, 0x0e, 0x5e, 0x63, 0x58, 0xd1, 0xa2, 0x25, 0x22, 0x7c, 0x3b, 0x01, 0x21, 0x78, 0x87,
  0xd4, 0x00, 0x46, 0x57, 0x9f, 0xd3, 0x27, 0x52, 0x4c, 0x36, 0x02, 0xe7, 0xa0, 0xc4, 0xc8, 0x9e,
  0xea, 0xbf, 0x8a, 0xd2, 0x40, 0xc7, 0x38, 0xb5, 0xa3, 0xf7, 0xf2, 0xce, 0xf9, 0x61, 0x15, 0xa1,
  0xe0, 0xae, 0x5d, 0xa4, 0x9b, 0x34, 0x1a, 0x55, 0xad, 0x93, 0x32, 0x30, 0xf5, 0x8c, 0xb1, 0xe3,
  0x1d, 0xf6, 0xe2, 0x2e, 0x82, 0x66, 0xca, 0x60, 0xc0, 0x29, 0x23, 0xab, 0x0d, 0x53, 0x4e, 0x6f,
  0xd5, 0xdb, 0x37, 0x45, 0xde, 0xfd, 0x8e, 0x2f, 0x03, 0xff, 0x6a, 0x72, 0x6d, 0x6c, 0x5b, 0x51,
  0x8d, 0x1b, 0xaf, 0x92, 0xbb, 0xdd, 0xbc, 0x7f, 0x11, 0xd9, 0x5c, 0x41, 0x1f, 0x10, 0x5a, 0xd8,
  0x0a, 0xc1, 0x31, 0x88, 0xa5, 0xcd, 0x7b, 0xbd, 0x2d, 0x74, 0xd0, 0x12, 0xb8, 0xe5, 0xb4, 0xb0,
  0x89, 0x69, 0x97, 0x4a, 0x0c, 0x96, 0x77, 0x7e, 0x65, 0xb9, 0xf1, 0x09, 0xc5, 0x6e, 0xc6, 0x84,
  0x18, 0xf0, 0x7d, 0xec, 0x3a, 0xdc, 0x4d, 0x20, 0x79, 0xee, 0x5f, 0x3e, 0xd7, 0xcb, 0x39, 0x48]

def FK : List Nat := [0xa3b1bac6, 0x56aa3350, 0x677d9197, 0xb27022dc]

def CK : List Nat := [
  0x00070e15, 0x1c232a31, 0x383f464d, 0x545b6269,
  0x70777e85, 0x8c939aa1, 0xa8afb6bd, 0xc4cbd2d9,
  0xe0e7eef5, 0xfc030a11, 0x181f262d, 0x343b4249,
  0x50575e65, 0x6c737a81, 0x888f969d, 0xa4abb2b9,
  0xc0c7ced5, 0xdce3eaf1, 0xf8ff060d, 0x141b2229,
  0x30373e45, 0x4c535a61, 0x686f767d, 0x848b9299,
  0xa0a7aeb5, 0xbcc3cad1, 0xd8dfe6ed, 0xf4fb0209,
  0x10171e25, 0x2c333a41, 0x484f565d, 0x646b7279]

def uint32_to_bytes (value : Nat) : List Nat :=
  [(value >>> 24) &&& 0xFF, (value >>> 16) &&& 0xFF, (value >>> 8) &&& 0xFF, value &&& 0xFF]

def bytes_to_uint32 (bytes : List Nat) (offset : Nat) : Nat :=
  (bytes.getD offset 0 <<< 24) ||| (bytes.getD (offset + 1) 0 <<< 16) |||
    (bytes.getD (offset + 2) 0 <<< 8) ||| bytes.getD (offset + 3) 0

def tau (A : Nat) : Nat :=
  let a0 := (A >>> 24) &&& 0xFF
  let a1 := (A >>> 16) &&& 0xFF
  let a2 := (A >>> 8) &&& 0xFF
  let a3 := A &&& 0xFF
  (SBOX.getD a0 0 <<< 24) ||| (SBOX.getD a1 0 <<< 16) ||| (SBOX.getD a2 0 <<< 8) ||| SBOX.getD a3 0

/-- The function `left_rotate` on `uint32_t`: the left shift is truncated to 32 bits. -/
def left_rotate (value : Nat) (bits : Nat) : Nat :=
  ((value <<< bits) % 2 ^ 32) ||| (value >>> (32 - bits))

def L (B : Nat) : Nat :=
  B ^^^ left_rotate B 2 ^^^ left_rotate B 10 ^^^ left_rotate B 18 ^^^ left_rotate B 24

def L_prime (B : Nat) : Nat :=
  B ^^^ left_rotate B 13 ^^^ left_rotate B 23

def T (X : Nat) : Nat := L (tau X)

def T_prime (X : Nat) : Nat := L_prime (tau X)

/-- The function `key_schedule`: `K` is the 36-word array, `round_keys` the 32-word vector; both
loops run over their index. -/
def key_schedule (key : List Nat) : List Nat :=
  let MK := Nat.fold (fun i MK => MK.set i (bytes_to_uint32 key (i * 4))) 4 (List.replicate 4 0)
  let K := Nat.fold (fun i K => K.set i (MK.getD i 0 ^^^ FK.getD i 0)) 4 (List.replicate 36 0)
  let st := Nat.fold (fun i (st : List Nat × List Nat) =>
      let K := st.1.set (i + 4)
        (st.1.getD i 0 ^^^
          T_prime (st.1.getD (i + 1) 0 ^^^ st.1.getD (i + 2) 0 ^^^ st.1.getD (i + 3) 0 ^^^
            CK.getD i 0))
      (K, st.2.set i (K.getD (i + 4) 0))) 32 (K, List.replicate 32 0)
  st.2

/-- The function `encrypt_block`: `X` is the 36-word array; the last loop runs `i` from 3 down
to 0 (`i = 3 - n` in iteration `n`), so the ciphertext collects the bytes of `X[35]`, `X[34]`,
`X[33]`, `X[32]`. -/
def encrypt_block (plaintext : List Nat) (round_keys : List Nat) : List Nat :=
  let X := Nat.fold (fun i X => X.set i (bytes_to_uint32 plaintext (i * 4))) 4
    (List.replicate 36 0)
  let X := Nat.fold (fun i X =>
      X.set (i + 4)
        (X.getD i 0 ^^^
          T (X.getD (i + 1) 0 ^^^ X.getD (i + 2) 0 ^^^ X.getD (i + 3) 0 ^^^
            round_keys.getD i 0))) 32 X
  Nat.fold (fun n ciphertext => ciphertext ++ uint32_to_bytes (X.getD (32 + (3 - n)) 0)) 4 []

def decrypt_block (ciphertext : List Nat) (round_keys : List Nat) : List Nat :=
  let reverse_keys := round_keys.reverse
  encrypt_block ciphertext reverse_keys

def encrypt_block_hex (plain_hex key_hex : List Char) : Except Failure (List Char) :=
  if plain_hex.length ≠ 32 then Except.error Failure.input_length_assertion
  else if key_hex.length ≠ 32 then Except.error Failure.key_length_assertion
  else do
    let plaintext ← hex_to_bytes plain_hex
    let key ← hex_to_bytes key_hex
    let round_keys := key_schedule key
    let ciphertext := encrypt_block plaintext round_keys
    Except.ok (bytes_to_hex ciphertext)

def decrypt_block_hex (cipher_hex key_hex : List Char) : Except Failure (List Char) :=
  if cipher_hex.length ≠ 32 then Except.error Failure.input_length_assertion
  else if key_hex.length ≠ 32 then Except.error Failure.key_length_assertion
  else do
    let ciphertext ← hex_to_bytes cipher_hex
    let key ← hex_to_bytes key_hex
    let round_keys := key_schedule key
    let plaintext := decrypt_block ciphertext round_keys
    Except.ok (bytes_to_hex plaintext)

/-- The loop `for (i = 0; i < plain_hex.length(); i += 32)` of `encrypt_hex`, on the state
`(i, result)`.  The first argument bounds the number of iterations; the length of the text is
always enough, since `i` grows by 32. -/
def encrypt_hex_loop (round_keys : List Nat) (plain_hex : List Char) :
    Nat → Nat → List Char → Except Failure (List Char)
  | 0, _, result => Except.ok result
  | fuel + 1, i, result =>
    if i < plain_hex.length then do
      let block := SM4_GFNI.substr plain_hex i 32
      let plaintext_block ← hex_to_bytes block
      let ciphertext_block := encrypt_block plaintext_block round_keys
      encrypt_hex_loop round_keys plain_hex fuel (i + 32)
        (result ++ bytes_to_hex ciphertext_block)
    else Except.ok result

def encrypt_hex (plain_hex key_hex : List Char) : Except Failure (List Char) :=
  if plain_hex.length % 32 ≠ 0 then Except.error Failure.input_length_assertion
  else if key_hex.length ≠ 32 then Except.error Failure.key_length_assertion
  else do
    let key ← hex_to_bytes key_hex
    let round_keys := key_schedule key
    encrypt_hex_loop round_keys plain_hex plain_hex.length 0 []

/-- The loop `for (i = 0; i < cipher_hex.length(); i += 32)` of `decrypt_hex`, on the state
`(i, result)`.  The first argument bounds the number of iterations; the length of the text is
always enough. -/
def decrypt_hex_loop (round_keys : List Nat) (cipher_hex : List Char) :
    Nat → Nat → List Char → Except Failure (List Char)
  | 0, _, result => Except.ok result
  | fuel + 1, i, result =>
    if i < cipher_hex.length then do
      let block := SM4_GFNI.substr cipher_hex i 32
      let ciphertext_block ← hex_to_bytes block
      let plaintext_block := decrypt_block ciphertext_block round_keys
      decrypt_hex_loop round_keys cipher_hex fuel (i + 32)
        (result ++ bytes_to_hex plaintext_block)
    else Except.ok result

def decrypt_hex (cipher_hex key_hex : List Char) : Except Failure (List Char) :=
  if cipher_hex.length % 32 ≠ 0 then Except.error Failure.input_length_assertion
  else if key_hex.length ≠ 32 then Except.error Failure.key_length_assertion
  else do
    let key ← hex_to_bytes key_hex
    let round_keys := key_schedule key
    decrypt_hex_loop round_keys cipher_hex cipher_hex.length 0 []

end SM4

/-! ## The SIMD instructions used by the two accelerated classes

Each definition follows the operation section of the instruction in the Intel intrinsics guide.
A register is the list of its 16 bytes; byte 0 is the least significant. -/

/-- A `__m128i` value, as 16 bytes in memory order. -/
abbrev M128 := List Nat

/-- The 32-bit lane `j` of a register (little-endian). -/
def lane32 (x : M128) (j : Nat) : Nat :=
  x.getD (4 * j) 0 + 256 * x.getD (4 * j + 1) 0 + 65536 * x.getD (4 * j + 2) 0 +
    16777216 * x.getD (4 * j + 3) 0

/-- The four bytes of a 32-bit value, least significant first; higher bits are dropped. -/
def bytes32 (w : Nat) : List Nat :=
  [w % 256, w / 256 % 256, w / 65536 % 256, w / 16777216 % 256]

/-- The 64-bit lane `j` of a register (little-endian). -/
def lane64 (x : M128) (j : Nat) : Nat :=
  lane32 x (2 * j) + 4294967296 * lane32 x (2 * j + 1)

/-- The eight bytes of a 64-bit value, least significant first; higher bits are dropped. -/
def bytes64 (q : Nat) : List Nat :=
  bytes32 q ++ bytes32 (q / 4294967296)

/-- A 128-bit constant written as the GCC vector literal `{ lo, hi }`. -/
def m128_of_qwords (lo hi : Nat) : M128 := bytes64 lo ++ bytes64 hi

def _mm_set_epi64x (e1 e0 : Nat) : M128 := bytes64 e0 ++ bytes64 e1

def _mm_set_epi32 (e3 e2 e1 e0 : Nat) : M128 :=
  bytes32 e0 ++ bytes32 e1 ++ bytes32 e2 ++ bytes32 e3

def _mm_setr_epi32 (e3 e2 e1 e0 : Nat) : M128 :=
  bytes32 e3 ++ bytes32 e2 ++ bytes32 e1 ++ bytes32 e0

def _mm_set1_epi32 (a : Nat) : M128 :=
  bytes32 a ++ bytes32 a ++ bytes32 a ++ bytes32 a

/-- The first 16 bytes at an address: `_mm_load_si128` and `_mm_loadu_si128`. -/
def _mm_load_si128 (mem : List Nat) : M128 := mem.take 16

def _mm_and_si128 (a b : M128) : M128 := List.zipWith (fun x y => x &&& y) a b

def _mm_or_si128 (a b : M128) : M128 := List.zipWith (fun x y => x ||| y) a b

def _mm_xor_si128 (a b : M128) : M128 := List.zipWith (fun x y => x ^^^ y) a b

/-- The instruction `pandn`: `(NOT a) AND b`. -/
def _mm_andnot_si128 (a b : M128) : M128 := List.zipWith (fun x y => (255 - x) &&& y) a b

/-- The instruction `pshufb`: byte `i` of the result is 0 when bit 7 of `b[i]` is set, and byte
`b[i] & 15` of `a` otherwise. -/
def _mm_shuffle_epi8 (a b : M128) : M128 :=
  b.map (fun m => if m &&& 0x80 ≠ 0 then 0 else a.getD (m &&& 0x0F) 0)

def _mm_srli_epi64 (a : M128) (imm8 : Nat) : M128 :=
  bytes64 (lane64 a 0 >>> imm8) ++ bytes64 (lane64 a 1 >>> imm8)

def _mm_slli_epi32 (a : M128) (imm8 : Nat) : M128 :=
  bytes32 (lane32 a 0 <<< imm8) ++ bytes32 (lane32 a 1 <<< imm8) ++
    bytes32 (lane32 a 2 <<< imm8) ++ bytes32 (lane32 a 3 <<< imm8)

def _mm_srli_epi32 (a : M128) (imm8 : Nat) : M128 :=
  bytes32 (lane32 a 0 >>> imm8) ++ bytes32 (lane32 a 1 >>> imm8) ++
    bytes32 (lane32 a 2 >>> imm8) ++ bytes32 (lane32 a 3 >>> imm8)

/-- The instruction `pshufd`: lane `j` of the result is lane `(imm8 >> 2j) & 3` of `a`. -/
def _mm_shuffle_epi32 (a : M128) (imm8 : Nat) : M128 :=
  bytes32 (lane32 a (imm8 % 4)) ++ bytes32 (lane32 a (imm8 / 4 % 4)) ++
    bytes32 (lane32 a (imm8 / 16 % 4)) ++ bytes32 (lane32 a (imm8 / 64 % 4))

/-- The macro `_MM_SHUFFLE(z, y, x, w)`. -/
def _MM_SHUFFLE (z y x w : Nat) : Nat := (z <<< 6) ||| (y <<< 4) ||| (x <<< 2) ||| w

def _mm_extract_epi32 (a : M128) (imm8 : Nat) : Nat := lane32 a (imm8 % 4)

def _mm_unpacklo_epi32 (a b : M128) : M128 :=
  bytes32 (lane32 a 0) ++ bytes32 (lane32 b 0) ++ bytes32 (lane32 a 1) ++ bytes32 (lane32 b 1)

def _mm_unpackhi_epi32 (a b : M128) : M128 :=
  bytes32 (lane32 a 2) ++ bytes32 (lane32 b 2) ++ bytes32 (lane32 a 3) ++ bytes32 (lane32 b 3)

def _mm_unpacklo_epi64 (a b : M128) : M128 := bytes64 (lane64 a 0) ++ bytes64 (lane64 b 0)

def _mm_unpackhi_epi64 (a b : M128) : M128 := bytes64 (lane64 a 1) ++ bytes64 (lane64 b 1)

/-- One step of the shift-and-add product in GF(2^8): the state is `(a, b, r)`. -/
def gf2p8mul_step (st : Nat × Nat × Nat) : Nat × Nat × Nat :=
  let r := if st.2.1 % 2 = 1 then st.2.2 ^^^ st.1 else st.2.2
  let a := st.1 <<< 1
  (if 256 ≤ a then a ^^^ 0x11B else a, st.2.1 >>> 1, r)

/-- Multiplication in GF(2^8) modulo `x^8 + x^4 + x^3 + x + 1`, the field of AES and of the
GF2P8 instructions. -/
def gf2p8mul (a b : Nat) : Nat :=
  (Nat.fold (fun _ st => gf2p8mul_step st) 8 (a, b, 0)).2.2

/-- The inverse in GF(2^8), with 0 sent to 0: the power `x ^ 254`. -/
def gf2p8inv (x : Nat) : Nat :=
  let x2 := gf2p8mul x x
  let x3 := gf2p8mul x2 x
  let x6 := gf2p8mul x3 x3
  let x12 := gf2p8mul x6 x6
  let x15 := gf2p8mul x12 x3
  let x30 := gf2p8mul x15 x15
  let x60 := gf2p8mul x30 x30
  let x120 := gf2p8mul x60 x60
  let x126 := gf2p8mul x120 x6
  let x127 := gf2p8mul x126 x
  gf2p8mul x127 x127

/-- The parity of the set bits of a byte. -/
def parity8 (x : Nat) : Nat :=
  (x ^^^ (x >>> 1) ^^^ (x >>> 2) ^^^ (x >>> 3) ^^^ (x >>> 4) ^^^ (x >>> 5) ^^^ (x >>> 6) ^^^
    (x >>> 7)) % 2

/-- The helper `affine_byte` of the GF2P8AFFINE instructions: bit `i` of the result is the
parity of `tsrc2qw.byte[7 - i] AND src1byte`, exclusive-or bit `i` of `imm8`. -/
def affine_byte (tsrc2qw src1byte imm8 : Nat) : Nat :=
  Nat.fold (fun i ret =>
    ret + 2 ^ i *
      ((parity8 (((tsrc2qw >>> (8 * (7 - i))) % 256) &&& src1byte) + (imm8 >>> i) % 2) % 2)) 8 0

/-- The instruction `gf2p8affineqb`: byte `i` of `x` goes through the matrix held in the 64-bit
lane of `A` that contains byte `i`. -/
def _mm_gf2p8affine_epi64_epi8 (x A : M128) (b : Nat) : M128 :=
  (List.range 16).map (fun i => affine_byte (lane64 A (i / 8)) (x.getD i 0) b)

/-- The instruction `gf2p8affineinvqb`: as `gf2p8affineqb`, on the field inverse of each byte. -/
def _mm_gf2p8affineinv_epi64_epi8 (x A : M128) (b : Nat) : M128 :=
  (List.range 16).map (fun i => affine_byte (lane64 A (i / 8)) (gf2p8inv (x.getD i 0)) b)

/-- The AES S-box of FIPS 197: the field inverse followed by the affine map with constant
`0x63`. -/
def aes_sbox (x : Nat) : Nat := affine_byte 0xF1E3C78F1F3E7CF8 (gf2p8inv x) 0x63

/-- The instruction `aesenclast`: ShiftRows, SubBytes, then exclusive-or with the round key. -/
def _mm_aesenclast_si128 (a RoundKey : M128) : M128 :=
  _mm_xor_si128 ((List.range 16).map (fun i => aes_sbox (a.getD (5 * i % 16) 0))) RoundKey

/-- The 32-bit word `k` read through a `uint32_t*` cast of a byte array (little-endian). -/
def load32 (mem : List Nat) (k : Nat) : Nat := lane32 mem k

/-- The byte array after a 32-bit word is written at index `k` through a `uint32_t*` cast. -/
def store32 (mem : List Nat) (k : Nat) (v : Nat) : List Nat :=
  (((mem.set (4 * k) (v % 256)).set (4 * k + 1) (v / 256 % 256)).set (4 * k + 2)
    (v / 65536 % 256)).set (4 * k + 3) (v / 16777216 % 256)

/-- The call `memcpy(dst + off, src, n)`. -/
def memcpy (dst : List Nat) (off : Nat) (src : List Nat) (n : Nat) : List Nat :=
  dst.take off ++ (List.range n).map (fun i => src.getD i 0) ++ dst.drop (off + n)

/-- The call `memset(dst + off, val, n)`. -/
def memset (dst : List Nat) (off val n : Nat) : List Nat :=
  dst.take off ++ List.replicate n val ++ dst.drop (off + n)

/-! ## The AES-NI class (`sm4_aesni.cpp`) -/

/-- The table `SM4_TO_AES_TRANSFORM` at the head of `sm4_aesni.cpp`. -/
def SM4_TO_AES_TRANSFORM : List Nat := [
  0x63, 0x7c, 0x77, 0x7b, 0xf2, 0x6b, 0x6f, 0xc5, 0x30, 0x01, 0x67, 0x2b, 0xfe, 0xd7, 0xab, 0x76,
  0xca, 0x82, 0xc9, 0x7d, 0xfa, 0x59, 0x47, 0xf0, 0xad, 0xd4, 0xa2, 0xaf, 0x9c, 0xa4, 0x72, 0xc0,
  0xb7, 0xfd, 0x93, 0x26, 0x36, 0x3f, 0xf7, 0xcc, 0x34, 0xa5, 0xe5, 0xf1, 0x71, 0xd8, 0x31, 0x15,
  0x04, 0xc7, 0x23, 0xc3, 0x18, 0x96, 0x05, 0x9a, 0x07, 0x12, 0x80, 0xe2, 0xeb, 0x27, 0xb2, 0x75,
  0x09, 0x83, 0x2c, 0x1a, 0x1b, 0x6e, 0x5a, 0xa0, 0x52, 0x3b, 0xd6, 0xb3, 0x29, 0xe3, 0x2f, 0x84,
  0x53, 0xd1, 0x00, 0xed, 0x20, 0xfc, 0xb1, 0x5b, 0x6a, 0xcb, 0xbe, 0x39, 0x4a, 0x4c, 0x58, 0xcf,
  0xd0, 0xef, 0xaa, 0xfb, 0x43, 0x4d, 0x33, 0x85, 0x45, 0xf9, 0x02, 0x7f, 0x50, 0x3c, 0x9f, 0xa8,
  0x51, 0xa3, 0x40, 0x8f, 0x92, 0x9d, 0x38, 0xf5, 0xbc, 0xb6, 0xda, 0x21, 0x10, 0xff, 0xf3, 0xd2,
  0xcd, 0x0c, 0x13, 0xec, 0x5f, 0x97, 0x44, 0x17, 0xc4, 0xa7, 0x7e, 0x3d, 0x64, 0x5d, 0x19, 0x73,
  0x60, 0x81, 0x4f, 0xdc, 0x22, 0x2a, 0x90, 0x88, 0x46, 0xee, 0xb8, 0x14, 0xde, 0x5e, 0x0b, 0xdb,
  0xe0, 0x32, 0x3a, 0x0a, 0x49, 0x06, 0x24, 0x5c, 0xc2, 0xd3, 0xac, 0x62, 0x91, 0x95, 0xe4, 0x79,
  0xe7, 0xc8, 0x37, 0x6d, 0x8d, 0xd5, 0x4e, 0xa9, 0x6c, 0x56, 0xf4, 0xea, 0x65, 0x7a, 0xae, 0x08,
  0xba, 0x78, 0x25, 0x2e, 0x1c, 0xa6, 0xb4, 0xc6, 0xe8, 0xdd, 0x74, 0x1f, 0x4b, 0xbd, 0x8b, 0x8a,
  0x70, 0x3e, 0xb5, 0x66, 0x48, 0x03, 0xf6, 0x0e, 0x61, 0x35, 0x57, 0xb9, 0x86, 0xc1, 0x1d, 0x9e,
  0xe1, 0xf8, 0x98, 0x11, 0x69, 0xd9, 0x8e, 0x94, 0x9b, 0x1e, 0x87, 0xe9, 0xce, 0x55, 0x28, 0xdf,
  0x8c, 0xa1, 0x89, 0x0d, 0xbf, 0xe6, 0x42, 0x68, 0x41, 0x99, 0x2d, 0x0f, 0xb0, 0x54, 0xbb, 0x16]

namespace SM4_AESNI

def FK : List Nat := [0xa3b1bac6, 0x56aa3350, 0x677d9197, 0xb27022dc]

def CK : List Nat := [
  0x00070e15, 0x1c232a31, 0x383f464d, 0x545b6269,
  0x70777e85, 0x8c939aa1, 0xa8afb6bd, 0xc4cbd2d9,
  0xe0e7eef5, 0xfc030a11, 0x181f262d, 0x343b4249,
  0x50575e65, 0x6c737a81, 0x888f969d, 0xa4abb2b9,
  0xc0c7ced5, 0xdce3eaf1, 0xf8ff060d, 0x141b2229,
  0x30373e45, 0x4c535a61, 0x686f767d, 0x848b9299,
  0xa0a7aeb5, 0xbcc3cad1, 0xd8dfe6ed, 0xf4fb0209,
  0x10171e25, 0x2c333a41, 0x484f565d, 0x646b7279]

def bytes_to_uint32 (bytes : List Nat) (offset : Nat) : Nat :=
  (bytes.getD offset 0 <<< 24) ||| (bytes.getD (offset + 1) 0 <<< 16) |||
    (bytes.getD (offset + 2) 0 <<< 8) ||| bytes.getD (offset + 3) 0

def left_rotate (value : Nat) (bits : Nat) : Nat :=
  ((value <<< bits) % 2 ^ 32) ||| (value >>> (32 - bits))

def c0f : M128 := m128_of_qwords 0x0F0F0F0F0F0F0F0F 0x0F0F0F0F0F0F0F0F

def flp : M128 := m128_of_qwords 0x0405060700010203 0x0C0D0E0F08090A0B

def shr : M128 := m128_of_qwords 0x0B0E0104070A0D00 0x0306090C0F020508

def m1l : M128 := _mm_set_epi64x 0xC7C1B4B222245157 0x9197E2E474720701

def m1h : M128 := _mm_set_epi64x 0xF052B91BF95BB012 0xE240AB09EB49A200

def m2l : M128 := _mm_set_epi64x 0xEDD14478172BBE82 0x5B67F2CEA19D0834

def m2h : M128 := _mm_set_epi64x 0x11CDBE62CC1063BF 0xAE7201DD73AFDC00

def r08 : M128 := m128_of_qwords 0x0605040702010003 0x0E0D0C0F0A09080B

def r16 : M128 := m128_of_qwords 0x0504070601000302 0x0D0C0F0E09080B0A

def r24 : M128 := m128_of_qwords 0x0407060500030201 0x0C0F0E0D080B0A09

/-- The function `sm4_sbox_4x_aesni`, statement by statement. -/
def sm4_sbox_4x_aesni (x : M128) : M128 :=
  let y := _mm_and_si128 x c0f
  let y := _mm_shuffle_epi8 m1l y
  let x := _mm_srli_epi64 x 4
  let x := _mm_and_si128 x c0f
  let x := _mm_xor_si128 (_mm_shuffle_epi8 m1h x) y
  let x := _mm_shuffle_epi8 x shr
  let x := _mm_aesenclast_si128 x c0f
  let y := _mm_andnot_si128 x c0f
  let y := _mm_shuffle_epi8 m2l y
  let x := _mm_srli_epi64 x 4
  let x := _mm_and_si128 x c0f
  let x := _mm_xor_si128 (_mm_shuffle_epi8 m2h x) y
  x

def tau_aesni (A : Nat) : Nat :=
  let input_bytes := List.replicate 16 0
  let input_bytes := input_bytes.set 0 ((A >>> 24) &&& 0xFF)
  let input_bytes := input_bytes.set 1 ((A >>> 16) &&& 0xFF)
  let input_bytes := input_bytes.set 2 ((A >>> 8) &&& 0xFF)
  let input_bytes := input_bytes.set 3 (A &&& 0xFF)
  let input_vec := _mm_load_si128 input_bytes
  let result_vec := sm4_sbox_4x_aesni input_vec
  let output_bytes := result_vec
  (output_bytes.getD 0 0 <<< 24) ||| (output_bytes.getD 1 0 <<< 16) |||
    (output_bytes.getD 2 0 <<< 8) ||| output_bytes.getD 3 0

def L (B : Nat) : Nat :=
  B ^^^ left_rotate B 2 ^^^ left_rotate B 10 ^^^ left_rotate B 18 ^^^ left_rotate B 24

def L_prime (B : Nat) : Nat :=
  B ^^^ left_rotate B 13 ^^^ left_rotate B 23

def T (X : Nat) : Nat := L (tau_aesni X)

def T_prime (X : Nat) : Nat := L_prime (tau_aesni X)

def key_schedule (key : List Nat) : List Nat :=
  let MK := Nat.fold (fun i MK => MK.set i (bytes_to_uint32 key (i * 4))) 4 (List.replicate 4 0)
  let K := Nat.fold (fun i K => K.set i (MK.getD i 0 ^^^ FK.getD i 0)) 4 (List.replicate 36 0)
  let st := Nat.fold (fun i (st : List Nat × List Nat) =>
      let K := st.1.set (i + 4)
        (st.1.getD i 0 ^^^
          T_prime (st.1.getD (i + 1) 0 ^^^ st.1.getD (i + 2) 0 ^^^ st.1.getD (i + 3) 0 ^^^
            CK.getD i 0))
      (K, st.2.set i (K.getD (i + 4) 0))) 32 (K, List.replicate 32 0)
  st.2

/-- The body of the round loop of `encrypt_4blocks_aesni`, on the registers `(t0, t1, t2, t3)`
with the round key `k`. -/
def encrypt_4blocks_round (k : Nat) (t : M128 × M128 × M128 × M128) : M128 × M128 × M128 × M128 :=
  let t0 := t.1
  let t1 := t.2.1
  let t2 := t.2.2.1
  let t3 := t.2.2.2
  let x := _mm_xor_si128 (_mm_xor_si128 (_mm_xor_si128 t1 t2) t3) (_mm_set_epi32 k k k k)
  let y := _mm_and_si128 x c0f
  let y := _mm_shuffle_epi8 m1l y
  let x := _mm_srli_epi64 x 4
  let x := _mm_and_si128 x c0f
  let x := _mm_xor_si128 (_mm_shuffle_epi8 m1h x) y
  let x := _mm_shuffle_epi8 x shr
  let x := _mm_aesenclast_si128 x c0f
  let y := _mm_andnot_si128 x c0f
  let y := _mm_shuffle_epi8 m2l y
  let x := _mm_srli_epi64 x 4
  let x := _mm_and_si128 x c0f
  let x := _mm_xor_si128 (_mm_shuffle_epi8 m2h x) y
  let y := _mm_xor_si128 (_mm_xor_si128 x (_mm_shuffle_epi8 x r08)) (_mm_shuffle_epi8 x r16)
  let y := _mm_xor_si128 (_mm_slli_epi32 y 2) (_mm_srli_epi32 y 30)
  let x := _mm_xor_si128 (_mm_xor_si128 x y) (_mm_shuffle_epi8 x r24)
  let x := _mm_xor_si128 x t0
  (t1, t2, t3, x)

/-- The function `encrypt_4blocks_aesni`; the result is the 64-byte array `dst`. -/
def encrypt_4blocks_aesni (rk : List Nat) (src : List Nat) : List Nat :=
  let p32 := load32 src
  let t0 := _mm_set_epi32 (p32 12) (p32 8) (p32 4) (p32 0)
  let t0 := _mm_shuffle_epi8 t0 flp
  let t1 := _mm_set_epi32 (p32 13) (p32 9) (p32 5) (p32 1)
  let t1 := _mm_shuffle_epi8 t1 flp
  let t2 := _mm_set_epi32 (p32 14) (p32 10) (p32 6) (p32 2)
  let t2 := _mm_shuffle_epi8 t2 flp
  let t3 := _mm_set_epi32 (p32 15) (p32 11) (p32 7) (p32 3)
  let t3 := _mm_shuffle_epi8 t3 flp
  let t := Nat.fold (fun i t => encrypt_4blocks_round (rk.getD i 0) t) 32 (t0, t1, t2, t3)
  let dst := List.replicate 64 0
  let v := _mm_shuffle_epi8 t.2.2.2 flp
  let dst := store32 (store32 (store32 (store32 dst 0 (lane32 v 0)) 4 (lane32 v 1)) 8
    (lane32 v 2)) 12 (lane32 v 3)
  let v := _mm_shuffle_epi8 t.2.2.1 flp
  let dst := store32 (store32 (store32 (store32 dst 1 (lane32 v 0)) 5 (lane32 v 1)) 9
    (lane32 v 2)) 13 (lane32 v 3)
  let v := _mm_shuffle_epi8 t.2.1 flp
  let dst := store32 (store32 (store32 (store32 dst 2 (lane32 v 0)) 6 (lane32 v 1)) 10
    (lane32 v 2)) 14 (lane32 v 3)
  let v := _mm_shuffle_epi8 t.1 flp
  let dst := store32 (store32 (store32 (store32 dst 3 (lane32 v 0)) 7 (lane32 v 1)) 11
    (lane32 v 2)) 15 (lane32 v 3)
  dst

def encrypt_block (plaintext : List Nat) (round_keys : List Nat) : List Nat :=
  let src := Nat.fold (fun i src => memcpy src (i * 16) plaintext 16) 4 (List.replicate 64 0)
  let dst := encrypt_4blocks_aesni round_keys src
  memcpy (List.replicate 16 0) 0 dst 16

def decrypt_block (ciphertext : List Nat) (round_keys : List Nat) : List Nat :=
  let reverse_keys := round_keys.reverse
  encrypt_block ciphertext reverse_keys

def encrypt_block_hex (plain_hex key_hex : List Char) : Except Failure (List Char) :=
  if plain_hex.length ≠ 32 then Except.error Failure.input_length_assertion
  else if key_hex.length ≠ 32 then Except.error Failure.key_length_assertion
  else do
    let plaintext ← SM4.hex_to_bytes plain_hex
    let key ← SM4.hex_to_bytes key_hex
    let round_keys := key_schedule key
    let ciphertext := encrypt_block plaintext round_keys
    Except.ok (SM4.bytes_to_hex ciphertext)

def decrypt_block_hex (cipher_hex key_hex : List Char) : Except Failure (List Char) :=
  if cipher_hex.length ≠ 32 then Except.error Failure.input_length_assertion
  else if key_hex.length ≠ 32 then Except.error Failure.key_length_assertion
  else do
    let ciphertext ← SM4.hex_to_bytes cipher_hex
    let key ← SM4.hex_to_bytes key_hex
    let round_keys := key_schedule key
    let plaintext := decrypt_block ciphertext round_keys
    Except.ok (SM4.bytes_to_hex plaintext)

/-- The first inner loop of the batch loop of `encrypt_hex`: blocks `i .. i + 3` are decoded and
copied into `src`. -/
def encrypt_hex_fill (plain_hex : List Char) (i : Nat) : Nat → List Nat → Except Failure (List Nat)
  | 0, src => Except.ok src
  | n + 1, src => do
    let j := 3 - n
    let block := SM4_GFNI.substr plain_hex ((i + j) * 32) 32
    let block_bytes ← SM4.hex_to_bytes block
    encrypt_hex_fill plain_hex i n (memcpy src (j * 16) block_bytes 16)

/-- The batch loop `while (i + 4 <= num_blocks)` of `encrypt_hex`, on the state `(i, result)`.
The first argument bounds the number of iterations; `num_blocks` is always enough, since `i`
grows by 4. -/
def encrypt_hex_batch (round_keys : List Nat) (plain_hex : List Char) (num_blocks : Nat) :
    Nat → Nat → List Char → Except Failure (Nat × List Char)
  | 0, i, result => Except.ok (i, result)
  | fuel + 1, i, result =>
    if i + 4 ≤ num_blocks then do
      let src ← encrypt_hex_fill plain_hex i 4 (List.replicate 64 0)
      let dst := encrypt_4blocks_aesni round_keys src
      let result := Nat.fold (fun j result =>
        result ++ SM4.bytes_to_hex ((dst.drop (j * 16)).take 16)) 4 result
      encrypt_hex_batch round_keys plain_hex num_blocks fuel (i + 4) result
    else Except.ok (i, result)

/-- The tail loop `while (i < num_blocks)` of `encrypt_hex`, on the state `(i, result)`.  The
first argument bounds the number of iterations; `num_blocks` is always enough. -/
def encrypt_hex_tail (round_keys : List Nat) (plain_hex : List Char) (num_blocks : Nat) :
    Nat → Nat → List Char → Except Failure (List Char)
  | 0, _, result => Except.ok result
  | fuel + 1, i, result =>
    if i < num_blocks then do
      let block := SM4_GFNI.substr plain_hex (i * 32) 32
      let plaintext_block ← SM4.hex_to_bytes block
      let ciphertext_block := encrypt_block plaintext_block round_keys
      encrypt_hex_tail round_keys plain_hex num_blocks fuel (i + 1)
        (result ++ SM4.bytes_to_hex ciphertext_block)
    else Except.ok result

def encrypt_hex (plain_hex key_hex : List Char) : Except Failure (List Char) :=
  if plain_hex.length % 32 ≠ 0 then Except.error Failure.input_length_assertion
  else if key_hex.length ≠ 32 then Except.error Failure.key_length_assertion
  else do
    let key ← SM4.hex_to_bytes key_hex
    let round_keys := key_schedule key
    let num_blocks := plain_hex.length / 32
    let st ← encrypt_hex_batch round_keys plain_hex num_blocks num_blocks 0 []
    encrypt_hex_tail round_keys plain_hex num_blocks num_blocks st.1 st.2

/-- The loop `for (i = 0; i < cipher_hex.length(); i += 32)` of `decrypt_hex`, on the state
`(i, result)`.  The first argument bounds the number of iterations; the length of the text is
always enough. -/
def decrypt_hex_loop (round_keys : List Nat) (cipher_hex : List Char) :
    Nat → Nat → List Char → Except Failure (List Char)
  | 0, _, result => Except.ok result
  | fuel + 1, i, result =>
    if i < cipher_hex.length then do
      let block := SM4_GFNI.substr cipher_hex i 32
      let ciphertext_block ← SM4.hex_to_bytes block
      let plaintext_block := decrypt_block ciphertext_block round_keys
      decrypt_hex_loop round_keys cipher_hex fuel (i + 32)
        (result ++ SM4.bytes_to_hex plaintext_block)
    else Except.ok result

def decrypt_hex (cipher_hex key_hex : List Char) : Except Failure (List Char) :=
  if cipher_hex.length % 32 ≠ 0 then Except.error Failure.input_length_assertion
  else if key_hex.length ≠ 32 then Except.error Failure.key_length_assertion
  else do
    let key ← SM4.hex_to_bytes key_hex
    let round_keys := key_schedule key
    decrypt_hex_loop round_keys cipher_hex cipher_hex.length 0 []

end SM4_AESNI

/-! ## The GFNI class (`sm4_gfni.cpp`) -/

namespace SM4_GFNI

def FK : List Nat := [0xA3B1BAC6, 0x56AA3350, 0x677D9197, 0xB27022DC]

def CK : List Nat := [
  0x00070E15, 0x1C232A31, 0x383F464D, 0x545B6269,
  0x70777E85, 0x8C939AA1, 0xA8AFB6BD, 0xC4CBD2D9,
  0xE0E7EEF5, 0xFC030A11, 0x181F262D, 0x343B4249,
  0x50575E65, 0x6C737A81, 0x888F969D, 0xA4ABB2B9,
  0xC0C7CED5, 0xDCE3EAF1, 0xF8FF060D, 0x141B2229,
  0x30373E45, 0x4C535A61, 0x686F767D, 0x848B9299,
  0xA0A7AEB5, 0xBCC3CAD1, 0xD8DFE6ED, 0xF4FB0209,
  0x10171E25, 0x2C333A41, 0x484F565D, 0x646B7279]

/-- The array `PRE_AFFINE_MATRIX` of four `uint64_t`. -/
def PRE_AFFINE_MATRIX : List Nat :=
  [0x52bc2d029e25ac34, 0x52bc2d029e25ac34, 0x52bc2d029e25ac34, 0x52bc2d029e25ac34]

/-- The array `POST_AFFINE_MATRIX` of four `uint64_t`. -/
def POST_AFFINE_MATRIX : List Nat :=
  [0x198b6c1e518e2dd7, 0x198b6c1e518e2dd7, 0x198b6c1e518e2dd7, 0x198b6c1e518e2dd7]

def ROL_8_MASK : List Nat := [
  3, 0, 1, 2, 7, 4, 5, 6, 11, 8, 9, 10, 15, 12, 13, 14,
  3, 0, 1, 2, 7, 4, 5, 6, 11, 8, 9, 10, 15, 12, 13, 14]

def ROL_16_MASK : List Nat := [
  2, 3, 0, 1, 6, 7, 4, 5, 10, 11, 8, 9, 14, 15, 12, 13,
  2, 3, 0, 1, 6, 7, 4, 5, 10, 11, 8, 9, 14, 15, 12, 13]

def ROL_24_MASK : List Nat := [
  1, 2, 3, 0, 5, 6, 7, 4, 9, 10, 11, 8, 13, 14, 15, 12,
  1, 2, 3, 0, 5, 6, 7, 4, 9, 10, 11, 8, 13, 14, 15, 12]

def BSWAP32_MASK : List Nat := [
  3, 2, 1, 0, 7, 6, 5, 4, 11, 10, 9, 8, 15, 14, 13, 12,
  3, 2, 1, 0, 7, 6, 5, 4, 11, 10, 9, 8, 15, 14, 13, 12]

/-- The bytes in memory of an array of `uint64_t` (little-endian). -/
def qwords_mem (qs : List Nat) : List Nat := qs.flatMap bytes64

/-- The function `bytes_to_uint32_be(bytes + offset)`. -/
def bytes_to_uint32_be (bytes : List Nat) (offset : Nat) : Nat :=
  (bytes.getD offset 0 <<< 24) ||| (bytes.getD (offset + 1) 0 <<< 16) |||
    (bytes.getD (offset + 2) 0 <<< 8) ||| bytes.getD (offset + 3) 0

/-- The function `transpose_4x4`; the result is the new `(x0, x1, x2, x3)`. -/
def transpose_4x4 (x : M128 × M128 × M128 × M128) : M128 × M128 × M128 × M128 :=
  let t0 := _mm_unpacklo_epi32 x.1 x.2.1
  let t1 := _mm_unpackhi_epi32 x.1 x.2.1
  let t2 := _mm_unpacklo_epi32 x.2.2.1 x.2.2.2
  let t3 := _mm_unpackhi_epi32 x.2.2.1 x.2.2.2
  (_mm_unpacklo_epi64 t0 t2, _mm_unpackhi_epi64 t0 t2, _mm_unpacklo_epi64 t1 t3,
    _mm_unpackhi_epi64 t1 t3)

def gfni_sbox (input : M128) : M128 :=
  let pre_matrix := _mm_load_si128 (qwords_mem PRE_AFFINE_MATRIX)
  let post_matrix := _mm_load_si128 (qwords_mem POST_AFFINE_MATRIX)
  let transformed := _mm_gf2p8affine_epi64_epi8 input pre_matrix 0x65
  let result := _mm_gf2p8affineinv_epi64_epi8 transformed post_matrix 0xd3
  result

def linear_transform (x : M128) : M128 :=
  let rol8_mask := _mm_load_si128 ROL_8_MASK
  let rol16_mask := _mm_load_si128 ROL_16_MASK
  let rol24_mask := _mm_load_si128 ROL_24_MASK
  let x_rol8 := _mm_shuffle_epi8 x rol8_mask
  let temp1 := _mm_xor_si128 x x_rol8
  let x_rol16 := _mm_shuffle_epi8 x rol16_mask
  let temp2 := _mm_xor_si128 temp1 x_rol16
  let x_rol24 := _mm_shuffle_epi8 x rol24_mask
  let result := _mm_xor_si128 temp2 x_rol24
  let temp2_rol2 := _mm_or_si128 (_mm_slli_epi32 temp2 2) (_mm_srli_epi32 temp2 30)
  let result := _mm_xor_si128 result temp2_rol2
  result

def key_linear_transform (x : M128) : M128 :=
  let x_rol13 := _mm_or_si128 (_mm_slli_epi32 x 13) (_mm_srli_epi32 x 19)
  let x_rol23 := _mm_or_si128 (_mm_slli_epi32 x 23) (_mm_srli_epi32 x 9)
  _mm_xor_si128 (_mm_xor_si128 x x_rol13) x_rol23

def sm4_round (x0 x1 x2 x3 : M128) (rk : Nat) : M128 :=
  let round_key := _mm_set1_epi32 rk
  let temp := _mm_xor_si128 (_mm_xor_si128 x1 x2) x3
  let temp := _mm_xor_si128 temp round_key
  let temp := gfni_sbox temp
  let temp := linear_transform temp
  _mm_xor_si128 x0 temp

/-- The body of the round-key loop of `expand_key`: the state is the window `k` and the member
array `round_keys`. -/
def expand_key_round (i : Nat) (st : List Nat × List Nat) : List Nat × List Nat :=
  let k := st.1
  let k_vec := _mm_setr_epi32 (k.getD 0 0) (k.getD 1 0) (k.getD 2 0) (k.getD 3 0)
  let ck_vec := _mm_set1_epi32 (CK.getD i 0)
  let temp := _mm_xor_si128 (_mm_xor_si128
    (_mm_shuffle_epi32 k_vec (_MM_SHUFFLE 3 3 3 1))
    (_mm_shuffle_epi32 k_vec (_MM_SHUFFLE 3 3 3 2)))
    (_mm_shuffle_epi32 k_vec (_MM_SHUFFLE 3 3 3 3))
  let temp := _mm_xor_si128 temp ck_vec
  let temp := gfni_sbox temp
  let temp := key_linear_transform temp
  let new_key := _mm_xor_si128 (_mm_shuffle_epi32 k_vec (_MM_SHUFFLE 3 3 3 0)) temp
  let round_keys := st.2.set i (_mm_extract_epi32 new_key 0)
  let k := k.set 0 (k.getD 1 0)
  let k := k.set 1 (k.getD 2 0)
  let k := k.set 2 (k.getD 3 0)
  let k := k.set 3 (round_keys.getD i 0)
  (k, round_keys)

/-- The method `expand_key`; the result is the member array `round_keys`. -/
def expand_key (key : List Nat) : List Nat :=
  let mk := Nat.fold (fun i mk => mk.set i (bytes_to_uint32_be key (i * 4))) 4
    (List.replicate 4 0)
  let k := Nat.fold (fun i k => k.set i (mk.getD i 0 ^^^ FK.getD i 0)) 4 (List.replicate 4 0)
  (Nat.fold expand_key_round 32 (k, List.replicate 32 0)).2

/-- One iteration of either round loop of `crypt_4blocks`, with the round key `rk`. -/
def crypt_4blocks_round (rk : Nat) (x : M128 × M128 × M128 × M128) :
    M128 × M128 × M128 × M128 :=
  let new_x := sm4_round x.1 x.2.1 x.2.2.1 x.2.2.2 rk
  (x.2.1, x.2.2.1, x.2.2.2, new_x)

/-- The method `crypt_4blocks`; the result is the 64-byte `output`.  The decryption loop runs
`i` from 31 down to 0. -/
def crypt_4blocks (round_keys : List Nat) (input : List Nat) (encrypt : Bool) : List Nat :=
  let bswap_mask := _mm_load_si128 BSWAP32_MASK
  let x0 := _mm_shuffle_epi8 (_mm_load_si128 (input.drop 0)) bswap_mask
  let x1 := _mm_shuffle_epi8 (_mm_load_si128 (input.drop 16)) bswap_mask
  let x2 := _mm_shuffle_epi8 (_mm_load_si128 (input.drop 32)) bswap_mask
  let x3 := _mm_shuffle_epi8 (_mm_load_si128 (input.drop 48)) bswap_mask
  let x := transpose_4x4 (x0, x1, x2, x3)
  let x :=
    if encrypt then
      Nat.fold (fun i x => crypt_4blocks_round (round_keys.getD i 0) x) 32 x
    else
      Nat.fold (fun n x => crypt_4blocks_round (round_keys.getD (31 - n) 0) x) 32 x
  let x := (x.2.2.2, x.2.2.1, x.2.1, x.1)
  let x := transpose_4x4 x
  let x0 := _mm_shuffle_epi8 x.1 bswap_mask
  let x1 := _mm_shuffle_epi8 x.2.1 bswap_mask
  let x2 := _mm_shuffle_epi8 x.2.2.1 bswap_mask
  let x3 := _mm_shuffle_epi8 x.2.2.2 bswap_mask
  x0 ++ x1 ++ x2 ++ x3

def encrypt_block (plaintext : List Nat) (key : List Nat) : List Nat :=
  let round_keys := expand_key key
  let padded_input := memcpy (List.replicate 64 0) 0 plaintext 16
  let padded_input := memset padded_input 16 0 48
  let padded_output := crypt_4blocks round_keys padded_input true
  padded_output.take 16

def decrypt_block (ciphertext : List Nat) (key : List Nat) : List Nat :=
  let round_keys := expand_key key
  let padded_input := memcpy (List.replicate 64 0) 0 ciphertext 16
  let padded_input := memset padded_input 16 0 48
  let padded_output := crypt_4blocks round_keys padded_input false
  padded_output.take 16

def encrypt_block_hex (plain_hex key_hex : List Char) : Except Failure (List Char) :=
  if plain_hex.length ≠ 32 then Except.error Failure.input_length_assertion
  else if key_hex.length ≠ 32 then Except.error Failure.key_length_assertion
  else do
    let plaintext ← SM4.hex_to_bytes plain_hex
    let key ← SM4.hex_to_bytes key_hex
    let ciphertext := encrypt_block plaintext key
    Except.ok (SM4.bytes_to_hex ciphertext)

def decrypt_block_hex (cipher_hex key_hex : List Char) : Except Failure (List Char) :=
  if cipher_hex.length ≠ 32 then Except.error Failure.input_length_assertion
  else if key_hex.length ≠ 32 then Except.error Failure.key_length_assertion
  else do
    let ciphertext ← SM4.hex_to_bytes cipher_hex
    let key ← SM4.hex_to_bytes key_hex
    let plaintext := decrypt_block ciphertext key
    Except.ok (SM4.bytes_to_hex plaintext)

/-- The first inner loop of the batch loop of `encrypt_hex`: blocks `i .. i + 3` are decoded and
copied into `src`. -/
def encrypt_hex_fill (plain_hex : List Char) (i : Nat) : Nat → List Nat → Except Failure (List Nat)
  | 0, src => Except.ok src
  | n + 1, src => do
    let j := 3 - n
    let block := substr plain_hex ((i + j) * 32) 32
    let block_bytes ← SM4.hex_to_bytes block
    encrypt_hex_fill plain_hex i n (memcpy src (j * 16) block_bytes 16)

/-- The batch loop `while (i + 4 <= num_blocks)` of `encrypt_hex`, on the state `(i, result)`.
The first argument bounds the number of iterations; `num_blocks` is always enough, since `i`
grows by 4. -/
def encrypt_hex_batch (round_keys : List Nat) (plain_hex : List Char) (num_blocks : Nat) :
    Nat → Nat → List Char → Except Failure (Nat × List Char)
  | 0, i, result => Except.ok (i, result)
  | fuel + 1, i, result =>
    if i + 4 ≤ num_blocks then do
      let src ← encrypt_hex_fill plain_hex i 4 (List.replicate 64 0)
      let dst := crypt_4blocks round_keys src true
      let result := Nat.fold (fun j result =>
        result ++ SM4.bytes_to_hex ((dst.drop (j * 16)).take 16)) 4 result
      encrypt_hex_batch round_keys plain_hex num_blocks fuel (i + 4) result
    else Except.ok (i, result)

/-- The tail loop `while (i < num_blocks)` of `encrypt_hex`, on the state `(i, result)`.  The
first argument bounds the number of iterations; `num_blocks` is always enough. -/
def encrypt_hex_tail (key : List Nat) (plain_hex : List Char) (num_blocks : Nat) :
    Nat → Nat → List Char → Except Failure (List Char)
  | 0, _, result => Except.ok result
  | fuel + 1, i, result =>
    if i < num_blocks then do
      let block := substr plain_hex (i * 32) 32
      let plaintext_block ← SM4.hex_to_bytes block
      let ciphertext_block := encrypt_block plaintext_block key
      encrypt_hex_tail key plain_hex num_blocks fuel (i + 1)
        (result ++ SM4.bytes_to_hex ciphertext_block)
    else Except.ok result

def encrypt_hex (plain_hex key_hex : List Char) : Except Failure (List Char) :=
  if plain_hex.length % 32 ≠ 0 then Except.error Failure.input_length_assertion
  else if key_hex.length ≠ 32 then Except.error Failure.key_length_assertion
  else do
    let key ← SM4.hex_to_bytes key_hex
    let round_keys := expand_key key
    let num_blocks := plain_hex.length / 32
    let st ← encrypt_hex_batch round_keys plain_hex num_blocks num_blocks 0 []
    encrypt_hex_tail key plain_hex num_blocks num_blocks st.1 st.2

/-- The batch loop `while (i + 4 <= num_blocks)` of `decrypt_hex`, on the state `(i, result)`;
its first inner loop is the one of `encrypt_hex`, on `cipher_hex`.  The first argument bounds
the number of iterations; `num_blocks` is always enough. -/
def decrypt_hex_batch (round_keys : List Nat) (cipher_hex : List Char) (num_blocks : Nat) :
    Nat → Nat → List Char → Except Failure (Nat × List Char)
  | 0, i, result => Except.ok (i, result)
  | fuel + 1, i, result =>
    if i + 4 ≤ num_blocks then do
      let src ← encrypt_hex_fill cipher_hex i 4 (List.replicate 64 0)
      let dst := crypt_4blocks round_keys src false
      let result := Nat.fold (fun j result =>
        result ++ SM4.bytes_to_hex ((dst.drop (j * 16)).take 16)) 4 result
      decrypt_hex_batch round_keys cipher_hex num_blocks fuel (i + 4) result
    else Except.ok (i, result)

/-- The tail loop `while (i < num_blocks)` of `decrypt_hex`, on the state `(i, result)`.  The
first argument bounds the number of iterations; `num_blocks` is always enough. -/
def decrypt_hex_tail (key : List Nat) (cipher_hex : List Char) (num_blocks : Nat) :
    Nat → Nat → List Char → Except Failure (List Char)
  | 0, _, result => Except.ok result
  | fuel + 1, i, result =>
    if i < num_blocks then do
      let block := substr cipher_hex (i * 32) 32
      let ciphertext_block ← SM4.hex_to_bytes block
      let plaintext_block := decrypt_block ciphertext_block key
      decrypt_hex_tail key cipher_hex num_blocks fuel (i + 1)
        (result ++ SM4.bytes_to_hex plaintext_block)
    else Except.ok result

def decrypt_hex (cipher_hex key_hex : List Char) : Except Failure (List Char) :=
  if cipher_hex.length % 32 ≠ 0 then Except.error Failure.input_length_assertion
  else if key_hex.length ≠ 32 then Except.error Failure.key_length_assertion
  else do
    let key ← SM4.hex_to_bytes key_hex
    let round_keys := expand_key key
    let num_blocks := cipher_hex.length / 32
    let st ← decrypt_hex_batch round_keys cipher_hex num_blocks num_blocks 0 []
    decrypt_hex_tail key cipher_hex num_blocks num_blocks st.1 st.2

end SM4_GFNI


/-! ## The round recurrence on a sliding window of four words (used by the proofs) -/

/-- One round on the window `(X[i], X[i+1], X[i+2], X[i+3])`, with round function `F`. -/
def feistelStep (F : Nat → Nat) (k : Nat) (s : Nat × Nat × Nat × Nat) : Nat × Nat × Nat × Nat :=
  (s.2.1, s.2.2.1, s.2.2.2, s.1 ^^^ F (s.2.1 ^^^ s.2.2.1 ^^^ s.2.2.2 ^^^ k))

/-- The window after `n` rounds with the keys `kf 0, ..., kf (n - 1)`. -/
def feistelRounds (F : Nat → Nat) (kf : Nat → Nat) : Nat → Nat × Nat × Nat × Nat →
    Nat × Nat × Nat × Nat
  | 0, s => s
  | n + 1, s => feistelStep F (kf n) (feistelRounds F kf n s)

/-- The window in reverse order. -/
def revWindow (s : Nat × Nat × Nat × Nat) : Nat × Nat × Nat × Nat :=
  (s.2.2.2, s.2.2.1, s.2.1, s.1)

/-- The body of the round loop on the 36-word array, with round function `F` and keys `kf`. -/
def arrayStep (F : Nat → Nat) (kf : Nat → Nat) (i : Nat) (X : List Nat) : List Nat :=
  X.set (i + 4)
    (X.getD i 0 ^^^ F (X.getD (i + 1) 0 ^^^ X.getD (i + 2) 0 ^^^ X.getD (i + 3) 0 ^^^ kf i))

/-- The four words of the array starting at index `n`. -/
def windowAt (X : List Nat) (n : Nat) : Nat × Nat × Nat × Nat :=
  (X.getD n 0, X.getD (n + 1) 0, X.getD (n + 2) 0, X.getD (n + 3) 0)

/-- The four big-endian words of a 16-byte block. -/
def blockWords (P : List Nat) : Nat × Nat × Nat × Nat :=
  (SM4.bytes_to_uint32 P 0, SM4.bytes_to_uint32 P 4, SM4.bytes_to_uint32 P 8,
    SM4.bytes_to_uint32 P 12)

/-- The 16 bytes of four words, each big-endian. -/
def wordsBlock (s : Nat × Nat × Nat × Nat) : List Nat :=
  SM4.uint32_to_bytes s.1 ++ SM4.uint32_to_bytes s.2.1 ++ SM4.uint32_to_bytes s.2.2.1 ++
    SM4.uint32_to_bytes s.2.2.2

/-- All four words of a window fit in 32 bits. -/
def Window32 (s : Nat × Nat × Nat × Nat) : Prop :=
  s.1 < 2 ^ 32 ∧ s.2.1 < 2 ^ 32 ∧ s.2.2.1 < 2 ^ 32 ∧ s.2.2.2 < 2 ^ 32

/-- What `sm4_sbox_4x_aesni` does to one byte: the two nibble tables before the AES S-box, the
exclusive-or with the round key byte `0x0F`, and the two nibble tables after it. -/
def aesni_sbox_byte (b : Nat) : Nat :=
  let p := SM4_AESNI.m1h.getD (b / 16) 0 ^^^ SM4_AESNI.m1l.getD (b % 16) 0
  let a := aes_sbox p ^^^ 15
  SM4_AESNI.m2h.getD (a / 16) 0 ^^^ SM4_AESNI.m2l.getD ((255 - a) &&& 15) 0

/-- The three statements of the round loop of `encrypt_4blocks_aesni` that follow the S-box:
`y = x ^ shuffle(x, r08) ^ shuffle(x, r16)`, `y = (y << 2) ^ (y >> 30)`,
`x = x ^ y ^ shuffle(x, r24)`. -/
def aesni_linear (x : M128) : M128 :=
  let y := _mm_xor_si128 (_mm_xor_si128 x (_mm_shuffle_epi8 x SM4_AESNI.r08))
    (_mm_shuffle_epi8 x SM4_AESNI.r16)
  let y := _mm_xor_si128 (_mm_slli_epi32 y 2) (_mm_srli_epi32 y 30)
  _mm_xor_si128 (_mm_xor_si128 x y) (_mm_shuffle_epi8 x SM4_AESNI.r24)

/-- Four windows, one per block, laid out as the kernel keeps them: register `i` holds word `i`
of each block, block `j` in lane `j`. -/
def packState (s0 s1 s2 s3 : Nat × Nat × Nat × Nat) : M128 × M128 × M128 × M128 :=
  (_mm_setr_epi32 s0.1 s1.1 s2.1 s3.1, _mm_setr_epi32 s0.2.1 s1.2.1 s2.2.1 s3.2.1,
    _mm_setr_epi32 s0.2.2.1 s1.2.2.1 s2.2.2.1 s3.2.2.1,
    _mm_setr_epi32 s0.2.2.2 s1.2.2.2 s2.2.2.2 s3.2.2.2)

/-- The four registers that `encrypt_4blocks_aesni` loads from `src` before the round loop. -/
def aesni_load (src : List Nat) : M128 × M128 × M128 × M128 :=
  let p32 := load32 src
  (_mm_shuffle_epi8 (_mm_set_epi32 (p32 12) (p32 8) (p32 4) (p32 0)) SM4_AESNI.flp,
    _mm_shuffle_epi8 (_mm_set_epi32 (p32 13) (p32 9) (p32 5) (p32 1)) SM4_AESNI.flp,
    _mm_shuffle_epi8 (_mm_set_epi32 (p32 14) (p32 10) (p32 6) (p32 2)) SM4_AESNI.flp,
    _mm_shuffle_epi8 (_mm_set_epi32 (p32 15) (p32 11) (p32 7) (p32 3)) SM4_AESNI.flp)

/-- The array `dst` that `encrypt_4blocks_aesni` writes from the four registers after the round
loop. -/
def aesni_store (t : M128 × M128 × M128 × M128) : List Nat :=
  let dst := List.replicate 64 0
  let v := _mm_shuffle_epi8 t.2.2.2 SM4_AESNI.flp
  let dst := store32 (store32 (store32 (store32 dst 0 (lane32 v 0)) 4 (lane32 v 1)) 8
    (lane32 v 2)) 12 (lane32 v 3)
  let v := _mm_shuffle_epi8 t.2.2.1 SM4_AESNI.flp
  let dst := store32 (store32 (store32 (store32 dst 1 (lane32 v 0)) 5 (lane32 v 1)) 9
    (lane32 v 2)) 13 (lane32 v 3)
  let v := _mm_shuffle_epi8 t.2.1 SM4_AESNI.flp
  let dst := store32 (store32 (store32 (store32 dst 2 (lane32 v 0)) 6 (lane32 v 1)) 10
    (lane32 v 2)) 14 (lane32 v 3)
  let v := _mm_shuffle_epi8 t.1 SM4_AESNI.flp
  let dst := store32 (store32 (store32 (store32 dst 3 (lane32 v 0)) 7 (lane32 v 1)) 11
    (lane32 v 2)) 15 (lane32 v 3)
  dst

/-! ## The GFNI class on one lane (used by the proofs) -/

/-- What `gfni_sbox` does to one byte, with the two matrices as the arrays hold them. -/
def gfni_sbox_byte (b : Nat) : Nat :=
  affine_byte 0x198b6c1e518e2dd7 (gf2p8inv (affine_byte 0x52bc2d029e25ac34 b 0x65)) 0xd3

/-- The byte function `gfni_sbox_byte` on the four bytes of a word. -/
def gfni_tau (A : Nat) : Nat :=
  16777216 * gfni_sbox_byte (A / 16777216 % 256) + 65536 * gfni_sbox_byte (A / 65536 % 256) +
    256 * gfni_sbox_byte (A / 256 % 256) + gfni_sbox_byte (A % 256)

/-- The statements of `linear_transform` on one 32-bit lane. -/
def gfni_L (x : Nat) : Nat :=
  let temp2 := x ^^^ SM4.left_rotate x 8 ^^^ SM4.left_rotate x 16
  (temp2 ^^^ SM4.left_rotate x 24) ^^^ SM4.left_rotate temp2 2

/-- The round function of the GFNI class on one lane. -/
def gfni_T (X : Nat) : Nat := gfni_L (gfni_tau X)

/-- Four windows, one per block, laid out as `crypt_4blocks` loads them: register `j` holds the
four words of block `j`. -/
def rowState (s0 s1 s2 s3 : Nat × Nat × Nat × Nat) : M128 × M128 × M128 × M128 :=
  (_mm_setr_epi32 s0.1 s0.2.1 s0.2.2.1 s0.2.2.2, _mm_setr_epi32 s1.1 s1.2.1 s1.2.2.1 s1.2.2.2,
    _mm_setr_epi32 s2.1 s2.2.1 s2.2.2.1 s2.2.2.2, _mm_setr_epi32 s3.1 s3.2.1 s3.2.2.1 s3.2.2.2)

/-- The order in which `crypt_4blocks` uses the round keys: forward to encrypt, from index 31
down to 0 to decrypt. -/
def gfni_keys (round_keys : List Nat) (encrypt : Bool) : Nat → Nat :=
  if encrypt then fun i => round_keys.getD i 0 else fun n => round_keys.getD (31 - n) 0

/-- What `crypt_4blocks` computes for one 16-byte block: 32 rounds with `gfni_T` on the
big-endian words, the window reversed at the end. -/
def gfni_block (round_keys : List Nat) (encrypt : Bool) (B : List Nat) : List Nat :=
  wordsBlock (revWindow (feistelRounds gfni_T (gfni_keys round_keys encrypt) 32 (blockWords B)))

/-- The bytes that `hex_to_bytes` returns for block `k` of a hexadecimal text (the empty list
when it throws). -/
def decodeBlock (s : List Char) (k : Nat) : List Nat :=
  match SM4.hex_to_bytes (SM4_GFNI.substr s (k * 32) 32) with
  | Except.ok P => P
  | Except.error _ => []

/-- The hexadecimal ciphertext of block `k` of a text, as the GFNI class computes it with the
round keys `rks`. -/
def gfni_hex_block (rks : List Nat) (s : List Char) (k : Nat) : List Char :=
  SM4.bytes_to_hex (gfni_block rks true (decodeBlock s k))

/-- The hexadecimal text that the block function `f` gives for block `k` of a hexadecimal
text. -/
def mapBlock (f : List Nat → List Nat) (s : List Char) (k : Nat) : List Char :=
  SM4.bytes_to_hex (f (decodeBlock s k))

/-- A digit `0` to `9` or a letter `a` to `f`. -/
def isLowerHex (c : Char) : Bool :=
  (48 ≤ c.toNat ∧ c.toNat ≤ 57) ∨ (97 ≤ c.toNat ∧ c.toNat ≤ 102)

/-! ## The words of the specification

The specification describes the key schedule and the block encryption with rotations and
big-endian words; these definitions say what those words mean, by arithmetic on numbers, and are
compared with the functions of the code. -/

/-- The rotation `rotl(x, n)` of a 32-bit word: the low `32 - n` bits move up by `n` places and
the high `n` bits come down. -/
def spec_rotl (x n : Nat) : Nat := 2 ^ n * (x % 2 ^ (32 - n)) + x / 2 ^ (32 - n)

/-- The transform `L'(x) = x XOR rotl(x,13) XOR rotl(x,23)` of the key schedule. -/
def spec_L_prime (x : Nat) : Nat := x ^^^ spec_rotl x 13 ^^^ spec_rotl x 23

/-- The transform `L(x) = x XOR rotl(x,2) XOR rotl(x,10) XOR rotl(x,18) XOR rotl(x,24)` of the
rounds. -/
def spec_L (x : Nat) : Nat :=
  x ^^^ spec_rotl x 2 ^^^ spec_rotl x 10 ^^^ spec_rotl x 18 ^^^ spec_rotl x 24

/-- The big-endian word number `i` of a byte string. -/
def spec_be_word (bytes : List Nat) (i : Nat) : Nat :=
  16777216 * bytes.getD (4 * i) 0 + 65536 * bytes.getD (4 * i + 1) 0 +
    256 * bytes.getD (4 * i + 2) 0 + bytes.getD (4 * i + 3) 0

/-- The big-endian encoding of a 32-bit word in four bytes. -/
def spec_be_bytes (w : Nat) : List Nat :=
  [w / 16777216 % 256, w / 65536 % 256, w / 256 % 256, w % 256]

/-! ## Sample inputs -/

/-- A key of 32 hexadecimal characters. -/
def sampleKey : List Char := "0123456789abcdeffedcba9876543210".toList

/-- A plaintext of five blocks of 32 hexadecimal characters. -/
def sampleFiveBlocks : List Char :=
  ("0123456789abcdeffedcba9876543210" ++ "00000000000000000000000000000000" ++
    "ffffffffffffffffffffffffffffffff" ++ "00112233445566778899AABBCCDDEEFF" ++
    "0f1e2d3c4b5a69788796a5b4c3d2e1f0").toList

/-- A plaintext of five blocks of 32 lowercase hexadecimal characters. -/
def sampleLowerBlocks : List Char :=
  ("0123456789abcdeffedcba9876543210" ++ "00000000000000000000000000000000" ++
    "ffffffffffffffffffffffffffffffff" ++ "00112233445566778899aabbccddeeff" ++
    "0f1e2d3c4b5a69788796a5b4c3d2e1f0").toList

/-- The 16 bytes of the key `0123456789abcdeffedcba9876543210`. -/
def sampleKeyBytes : List Nat :=
  [0x01, 0x23, 0x45, 0x67, 0x89, 0xab, 0xcd, 0xef, 0xfe, 0xdc, 0xba, 0x98, 0x76, 0x54, 0x32, 0x10]

/-! ## SM3 (project_4): the compression function in five variants

Words are `uint32_t`: sums are reduced modulo `2 ^ 32` and a left shift drops the bits it moves
out.  Arrays are lists read with `getD` and written with `set`; an array that the code leaves
uninitialised starts as zeros (every entry is written before it is read).  The chaining value
`H` is a list of eight words and `processBlock` returns the new `H`. -/

/-- The working variables `A, B, C, D, E, F, G, H_var` of `processBlock`. -/
structure SM3_Vars where
  A : Nat
  B : Nat
  C : Nat
  D : Nat
  E : Nat
  F : Nat
  G : Nat
  H_var : Nat
deriving DecidableEq, Repr

/-- The expression `(block[a] << 24) | (block[b] << 16) | (block[c] << 8) | block[d]` on bytes
cast to `uint32_t`. -/
def be32 (block : List Nat) (a b c d : Nat) : Nat :=
  (block.getD a 0 <<< 24) ||| (block.getD b 0 <<< 16) ||| (block.getD c 0 <<< 8) |||
    block.getD d 0

/-- The load `_mm_loadu_si128` (or `_mm_load_si128`) at the address of word `i` of an array of
`uint32_t`: the four words `i .. i + 3`, each little-endian. -/
def _mm_loadu_si128_u32 (mem : List Nat) (i : Nat) : M128 :=
  bytes32 (mem.getD i 0) ++ bytes32 (mem.getD (i + 1) 0) ++ bytes32 (mem.getD (i + 2) 0) ++
    bytes32 (mem.getD (i + 3) 0)

/-- The store `_mm_storeu_si128` (or `_mm_store_si128`) at the address of word `i` of an array
of `uint32_t`: the four lanes go to the words `i .. i + 3`. -/
def _mm_storeu_si128_u32 (mem : List Nat) (i : Nat) (a : M128) : List Nat :=
  (((mem.set i (lane32 a 0)).set (i + 1) (lane32 a 1)).set (i + 2) (lane32 a 2)).set (i + 3)
    (lane32 a 3)

namespace SM3_Unrolled

def IV : List Nat :=
  [0x7380166f, 0x4914b2b9, 0x172442d7, 0xda8a0600, 0xa96f30bc, 0x163138aa, 0xe38dee4d,
  0xb0fb0e4e]

/-- The function `rotl` on `uint32_t`.  For `n = 0` the C++ expression shifts right by 32, which
the language leaves undefined; here that shift gives 0 and `rotl x 0 = x` for a 32-bit `x`, which
is also what the x86 shift (count taken modulo 32) gives. -/
def rotl (x : Nat) (n : Nat) : Nat :=
  ((x <<< n) % 2 ^ 32) ||| (x >>> (32 - n))

def FF_0_15 (x y z : Nat) : Nat := x ^^^ y ^^^ z

def FF_16_63 (x y z : Nat) : Nat := (x &&& y) ||| (x &&& z) ||| (y &&& z)

def GG_0_15 (x y z : Nat) : Nat := x ^^^ y ^^^ z

/-- The function `GG_16_63`; `~x` is the complement of the 32 bits of `x`. -/
def GG_16_63 (x y z : Nat) : Nat := (x &&& y) ||| ((0xFFFFFFFF ^^^ x) &&& z)

def P0 (x : Nat) : Nat := x ^^^ rotl x 9 ^^^ rotl x 17

def P1 (x : Nat) : Nat := x ^^^ rotl x 15 ^^^ rotl x 23

/-- The function `Tj`; `j` is never negative. -/
def Tj (j : Nat) : Nat :=
  if j ≤ 15 then 0x79cc4519
  else if 16 ≤ j ∧ j ≤ 63 then 0x7a879d8a
  else 0

/-- The macro `ROUND(j, FF_func, GG_func)`, on the working variables and the arrays `W` and
`W_prime`. -/
def ROUND (j : Nat) (FF_func GG_func : Nat → Nat → Nat → Nat) (W W_prime : List Nat)
    (v : SM3_Vars) : SM3_Vars :=
  let SS1 := rotl ((rotl v.A 12 + v.E + rotl (Tj j) (j % 32)) % 2 ^ 32) 7
  let SS2 := SS1 ^^^ rotl v.A 12
  let TT1 := (FF_func v.A v.B v.C + v.D + SS2 + W_prime.getD j 0) % 2 ^ 32
  let TT2 := (GG_func v.E v.F v.G + v.H_var + SS1 + W.getD j 0) % 2 ^ 32
  let D := v.C
  let C := rotl v.B 9
  let B := v.A
  let A := TT1
  let H_var := v.G
  let G := rotl v.F 19
  let F := v.E
  let E := P0 TT2
  { A := A, B := B, C := C, D := D, E := E, F := F, G := G, H_var := H_var }

/-- The first two loops of `processBlock`: the 16 big-endian words of the block, then the
expansion for `j = 16 .. 67` (`j = n + 16` in iteration `n`). -/
def processBlock_W (block : List Nat) : List Nat :=
  let W := Nat.fold (fun i W =>
      W.set i ((block.getD (i * 4) 0 <<< 24) ||| (block.getD (i * 4 + 1) 0 <<< 16) |||
        (block.getD (i * 4 + 2) 0 <<< 8) ||| block.getD (i * 4 + 3) 0)) 16
    (List.replicate 68 0)
  Nat.fold (fun n W =>
      let j := n + 16
      W.set j (P1 (W.getD (j - 16) 0 ^^^ W.getD (j - 9) 0 ^^^ rotl (W.getD (j - 3) 0) 15) ^^^
        rotl (W.getD (j - 13) 0) 7 ^^^ W.getD (j - 6) 0)) 52 W

/-- The third loop of `processBlock`. -/
def processBlock_W_prime (W : List Nat) : List Nat :=
  Nat.fold (fun j W_prime => W_prime.set j (W.getD j 0 ^^^ W.getD (j + 4) 0)) 64
    (List.replicate 64 0)

/-- The 64 invocations of `ROUND` in `processBlock`, in their order. -/
def processBlock_rounds (W W_prime : List Nat) (v : SM3_Vars) : SM3_Vars :=
  let v := ROUND 0 FF_0_15 GG_0_15 W W_prime v
  let v := ROUND 1 FF_0_15 GG_0_15 W W_prime v
  let v := ROUND 2 FF_0_15 GG_0_15 W W_prime v
  let v := ROUND 3 FF_0_15 GG_0_15 W W_prime v
  let v := ROUND 4 FF_0_15 GG_0_15 W W_prime v
  let v := ROUND 5 FF_0_15 GG_0_15 W W_prime v
  let v := ROUND 6 FF_0_15 GG_0_15 W W_prime v
  let v := ROUND 7 FF_0_15 GG_0_15 W W_prime v
  let v := ROUND 8 FF_0_15 GG_0_15 W W_prime v
  let v := ROUND 9 FF_0_15 GG_0_15 W W_prime v
  let v := ROUND 10 FF_0_15 GG_0_15 W W_prime v
  let v := ROUND 11 FF_0_15 GG_0_15 W W_prime v
  let v := ROUND 12 FF_0_15 GG_0_15 W W_prime v
  let v := ROUND 13 FF_0_15 GG_0_15 W W_prime v
  let v := ROUND 14 FF_0_15 GG_0_15 W W_prime v
  let v := ROUND 15 FF_0_15 GG_0_15 W W_prime v
  let v := ROUND 16 FF_16_63 GG_16_63 W W_prime v
  let v := ROUND 17 FF_16_63 GG_16_63 W W_prime v
  let v := ROUND 18 FF_16_63 GG_16_63 W W_prime v
  let v := ROUND 19 FF_16_63 GG_16_63 W W_prime v
  let v := ROUND 20 FF_16_63 GG_16_63 W W_prime v
  let v := ROUND 21 FF_16_63 GG_16_63 W W_prime v
  let v := ROUND 22 FF_16_63 GG_16_63 W W_prime v
  let v := ROUND 23 FF_16_63 GG_16_63 W W_prime v
  let v := ROUND 24 FF_16_63 GG_16_63 W W_prime v
  let v := ROUND 25 FF_16_63 GG_16_63 W W_prime v
  let v := ROUND 26 FF_16_63 GG_16_63 W W_prime v
  let v := ROUND 27 FF_16_63 GG_16_63 W W_prime v
  let v := ROUND 28 FF_16_63 GG_16_63 W W_prime v
  let v := ROUND 29 FF_16_63 GG_16_63 W W_prime v
  let v := ROUND 30 FF_16_63 GG_16_63 W W_prime v
  let v := ROUND 31 FF_16_63 GG_16_63 W W_prime v
  let v := ROUND 32 FF_16_63 GG_16_63 W W_prime v
  let v := ROUND 33 FF_16_63 GG_16_63 W W_prime v
  let v := ROUND 34 FF_16_63 GG_16_63 W W_prime v
  let v := ROUND 35 FF_16_63 GG_16_63 W W_prime v
  let v := ROUND 36 FF_16_63 GG_16_63 W W_prime v
  let v := ROUND 37 FF_16_63 GG_16_63 W W_prime v
  let v := ROUND 38 FF_16_63 GG_16_63 W W_prime v
  let v := ROUND 39 FF_16_63 GG_16_63 W W_prime v
  let v := ROUND 40 FF_16_63 GG_16_63 W W_prime v
  let v := ROUND 41 FF_16_63 GG_16_63 W W_prime v
  let v := ROUND 42 FF_16_63 GG_16_63 W W_prime v
  let v := ROUND 43 FF_16_63 GG_16_63 W W_prime v
  let v := ROUND 44 FF_16_63 GG_16_63 W W_prime v
  let v := ROUND 45 FF_16_63 GG_16_63 W W_prime v
  let v := ROUND 46 FF_16_63 GG_16_63 W W_prime v
  let v := ROUND 47 FF_16_63 GG_16_63 W W_prime v
  let v := ROUND 48 FF_16_63 GG_16_63 W W_prime v
  let v := ROUND 49 FF_16_63 GG_16_63 W W_prime v
  let v := ROUND 50 FF_16_63 GG_16_63 W W_prime v
  let v := ROUND 51 FF_16_63 GG_16_63 W W_prime v
  let v := ROUND 52 FF_16_63 GG_16_63 W W_prime v
  let v := ROUND 53 FF_16_63 GG_16_63 W W_prime v
  let v := ROUND 54 FF_16_63 GG_16_63 W W_prime v
  let v := ROUND 55 FF_16_63 GG_16_63 W W_prime v
  let v := ROUND 56 FF_16_63 GG_16_63 W W_prime v
  let v := ROUND 57 FF_16_63 GG_16_63 W W_prime v
  let v := ROUND 58 FF_16_63 GG_16_63 W W_prime v
  let v := ROUND 59 FF_16_63 GG_16_63 W W_prime v
  let v := ROUND 60 FF_16_63 GG_16_63 W W_prime v
  let v := ROUND 61 FF_16_63 GG_16_63 W W_prime v
  let v := ROUND 62 FF_16_63 GG_16_63 W W_prime v
  let v := ROUND 63 FF_16_63 GG_16_63 W W_prime v
  v

def processBlock (H block : List Nat) : List Nat :=
  let W := processBlock_W block
  let W_prime := processBlock_W_prime W
  let v : SM3_Vars :=
    { A := H.getD 0 0, B := H.getD 1 0, C := H.getD 2 0, D := H.getD 3 0, E := H.getD 4 0,
      F := H.getD 5 0, G := H.getD 6 0, H_var := H.getD 7 0 }
  let v := processBlock_rounds W W_prime v
  let H := H.set 0 (H.getD 0 0 ^^^ v.A)
  let H := H.set 1 (H.getD 1 0 ^^^ v.B)
  let H := H.set 2 (H.getD 2 0 ^^^ v.C)
  let H := H.set 3 (H.getD 3 0 ^^^ v.D)
  let H := H.set 4 (H.getD 4 0 ^^^ v.E)
  let H := H.set 5 (H.getD 5 0 ^^^ v.F)
  let H := H.set 6 (H.getD 6 0 ^^^ v.G)
  let H := H.set 7 (H.getD 7 0 ^^^ v.H_var)
  H

end SM3_Unrolled

namespace SM3_RegAlloc

def IV : List Nat :=
  [0x7380166f, 0x4914b2b9, 0x172442d7, 0xda8a0600, 0xa96f30bc, 0x163138aa, 0xe38dee4d,
  0xb0fb0e4e]

/-- The function `rotl` on `uint32_t`.  For `n = 0` the C++ expression shifts right by 32, which
the language leaves undefined; here that shift gives 0 and `rotl x 0 = x` for a 32-bit `x`, which
is also what the x86 shift (count taken modulo 32) gives. -/
def rotl (x : Nat) (n : Nat) : Nat :=
  ((x <<< n) % 2 ^ 32) ||| (x >>> (32 - n))

def FF (x y z : Nat) (j : Nat) : Nat :=
  if j ≤ 15 then x ^^^ y ^^^ z
  else (x &&& y) ||| (x &&& z) ||| (y &&& z)

/-- The function `GG`; `~x` is the complement of the 32 bits of `x`. -/
def GG (x y z : Nat) (j : Nat) : Nat :=
  if j ≤ 15 then x ^^^ y ^^^ z
  else (x &&& y) ||| ((0xFFFFFFFF ^^^ x) &&& z)

def P0 (x : Nat) : Nat := x ^^^ rotl x 9 ^^^ rotl x 17

def P1 (x : Nat) : Nat := x ^^^ rotl x 15 ^^^ rotl x 23

def Tj (j : Nat) : Nat := if j ≤ 15 then 0x79cc4519 else 0x7a879d8a

/-- The statement `Wk = (block[a] << 24) | (block[b] << 16) | (block[c] << 8) | block[d]`.  The 68
scalar variables `W0 .. W67` are kept as the entries of the list `W`: variable `Wk` is entry
`k`. -/
def load (k a b c d : Nat) (block : List Nat) (W : List Nat) : List Nat :=
  W.set k ((block.getD a 0 <<< 24) ||| (block.getD b 0 <<< 16) ||| (block.getD c 0 <<< 8) |||
    block.getD d 0)

/-- The statement `Wk = P1(Wa ^ Wb ^ rotl(Wc, 15)) ^ rotl(Wd, 7) ^ We` on the variables
`W0 .. W67`. -/
def expand (k a b c d e : Nat) (W : List Nat) : List Nat :=
  W.set k (P1 (W.getD a 0 ^^^ W.getD b 0 ^^^ rotl (W.getD c 0) 15) ^^^ rotl (W.getD d 0) 7 ^^^
    W.getD e 0)

/-- The 68 assignments to `W0 .. W67` at the start of `processBlock`, in their order, each with
the variables that the source line names. -/
def processBlock_W (block : List Nat) : List Nat :=
  let W := List.replicate 68 0
  let W := load 0 0 1 2 3 block W
  let W := load 1 4 5 6 7 block W
  let W := load 2 8 9 10 11 block W
  let W := load 3 12 13 14 15 block W
  let W := load 4 16 17 18 19 block W
  let W := load 5 20 21 22 23 block W
  let W := load 6 24 25 26 27 block W
  let W := load 7 28 29 30 31 block W
  let W := load 8 32 33 34 35 block W
  let W := load 9 36 37 38 39 block W
  let W := load 10 40 41 42 43 block W
  let W := load 11 44 45 46 47 block W
  let W := load 12 48 49 50 51 block W
  let W := load 13 52 53 54 55 block W
  let W := load 14 56 57 58 59 block W
  let W := load 15 60 61 62 63 block W
  let W := expand 16 0 7 13 3 10 W
  let W := expand 17 1 8 14 4 11 W
  let W := expand 18 2 9 15 5 12 W
  let W := expand 19 3 10 16 6 13 W
  let W := expand 20 4 11 17 7 14 W
  let W := expand 21 5 12 18 8 15 W
  let W := expand 22 6 13 19 9 16 W
  let W := expand 23 7 14 20 10 17 W
  let W := expand 24 8 15 21 11 18 W
  let W := expand 25 9 16 22 12 19 W
  let W := expand 26 10 17 23 13 20 W
  let W := expand 27 11 18 24 14 21 W
  let W := expand 28 12 19 25 15 22 W
  let W := expand 29 13 20 26 16 23 W
  let W := expand 30 14 21 27 17 24 W
  let W := expand 31 15 22 28 18 25 W
  let W := expand 32 16 23 29 19 26 W
  let W := expand 33 17 24 30 20 27 W
  let W := expand 34 18 25 31 21 28 W
  let W := expand 35 19 26 32 22 29 W
  let W := expand 36 20 27 33 23 30 W
  let W := expand 37 21 28 34 24 31 W
  let W := expand 38 22 29 35 25 32 W
  let W := expand 39 23 30 36 26 33 W
  let W := expand 40 24 31 37 27 34 W
  let W := expand 41 25 32 38 28 35 W
  let W := expand 42 26 33 39 29 36 W
  let W := expand 43 27 34 40 30 37 W
  let W := expand 44 28 35 41 31 38 W
  let W := expand 45 29 36 42 32 39 W
  let W := expand 46 30 37 43 33 40 W
  let W := expand 47 31 38 44 34 41 W
  let W := expand 48 32 39 45 35 42 W
  let W := expand 49 33 40 46 36 43 W
  let W := expand 50 34 41 47 37 44 W
  let W := expand 51 35 42 48 38 45 W
  let W := expand 52 36 43 49 39 46 W
  let W := expand 53 37 44 50 40 47 W
  let W := expand 54 38 45 51 41 48 W
  let W := expand 55 39 46 52 42 49 W
  let W := expand 56 40 47 53 43 50 W
  let W := expand 57 41 48 54 44 51 W
  let W := expand 58 42 49 55 45 52 W
  let W := expand 59 43 50 56 46 53 W
  let W := expand 60 44 51 57 47 54 W
  let W := expand 61 45 52 58 48 55 W
  let W := expand 62 46 53 59 49 56 W
  let W := expand 63 47 54 60 50 57 W
  let W := expand 64 48 55 61 51 58 W
  let W := expand 65 49 56 62 52 59 W
  let W := expand 66 50 57 63 53 60 W
  let W := expand 67 51 58 64 54 61 W
  W

/-- The first `switch (j)` of the round loop: the value of `W_val`.  The switch has no default
label; `j` is always one of the labels. -/
def switch_W_val (W : List Nat) (j : Nat) : Nat :=
  match j with
  | 0 => W.getD 0 0 | 1 => W.getD 1 0 | 2 => W.getD 2 0 | 3 => W.getD 3 0 | 4 => W.getD 4 0
  | 5 => W.getD 5 0 | 6 => W.getD 6 0 | 7 => W.getD 7 0 | 8 => W.getD 8 0 | 9 => W.getD 9 0
  | 10 => W.getD 10 0 | 11 => W.getD 11 0 | 12 => W.getD 12 0 | 13 => W.getD 13 0
  | 14 => W.getD 14 0 | 15 => W.getD 15 0 | 16 => W.getD 16 0 | 17 => W.getD 17 0
  | 18 => W.getD 18 0 | 19 => W.getD 19 0 | 20 => W.getD 20 0 | 21 => W.getD 21 0
  | 22 => W.getD 22 0 | 23 => W.getD 23 0 | 24 => W.getD 24 0 | 25 => W.getD 25 0
  | 26 => W.getD 26 0 | 27 => W.getD 27 0 | 28 => W.getD 28 0 | 29 => W.getD 29 0
  | 30 => W.getD 30 0 | 31 => W.getD 31 0 | 32 => W.getD 32 0 | 33 => W.getD 33 0
  | 34 => W.getD 34 0 | 35 => W.getD 35 0 | 36 => W.getD 36 0 | 37 => W.getD 37 0
  | 38 => W.getD 38 0 | 39 => W.getD 39 0 | 40 => W.getD 40 0 | 41 => W.getD 41 0
  | 42 => W.getD 42 0 | 43 => W.getD 43 0 | 44 => W.getD 44 0 | 45 => W.getD 45 0
  | 46 => W.getD 46 0 | 47 => W.getD 47 0 | 48 => W.getD 48 0 | 49 => W.getD 49 0
  | 50 => W.getD 50 0 | 51 => W.getD 51 0 | 52 => W.getD 52 0 | 53 => W.getD 53 0
  | 54 => W.getD 54 0 | 55 => W.getD 55 0 | 56 => W.getD 56 0 | 57 => W.getD 57 0
  | 58 => W.getD 58 0 | 59 => W.getD 59 0 | 60 => W.getD 60 0 | 61 => W.getD 61 0
  | 62 => W.getD 62 0 | 63 => W.getD 63 0
  | _ => 0

/-- The second `switch (j)` of the round loop: the value of `W_prime_val`. -/
def switch_W_prime_val (W : List Nat) (j : Nat) : Nat :=
  match j with
  | 0 => W.getD 0 0 ^^^ W.getD 4 0 | 1 => W.getD 1 0 ^^^ W.getD 5 0
  | 2 => W.getD 2 0 ^^^ W.getD 6 0 | 3 => W.getD 3 0 ^^^ W.getD 7 0
  | 4 => W.getD 4 0 ^^^ W.getD 8 0 | 5 => W.getD 5 0 ^^^ W.getD 9 0
  | 6 => W.getD 6 0 ^^^ W.getD 10 0 | 7 => W.getD 7 0 ^^^ W.getD 11 0
  | 8 => W.getD 8 0 ^^^ W.getD 12 0 | 9 => W.getD 9 0 ^^^ W.getD 13 0
  | 10 => W.getD 10 0 ^^^ W.getD 14 0 | 11 => W.getD 11 0 ^^^ W.getD 15 0
  | 12 => W.getD 12 0 ^^^ W.getD 16 0 | 13 => W.getD 13 0 ^^^ W.getD 17 0
  | 14 => W.getD 14 0 ^^^ W.getD 18 0 | 15 => W.getD 15 0 ^^^ W.getD 19 0
  | 16 => W.getD 16 0 ^^^ W.getD 20 0 | 17 => W.getD 17 0 ^^^ W.getD 21 0
  | 18 => W.getD 18 0 ^^^ W.getD 22 0 | 19 => W.getD 19 0 ^^^ W.getD 23 0
  | 20 => W.getD 20 0 ^^^ W.getD 24 0 | 21 => W.getD 21 0 ^^^ W.getD 25 0
  | 22 => W.getD 22 0 ^^^ W.getD 26 0 | 23 => W.getD 23 0 ^^^ W.getD 27 0
  | 24 => W.getD 24 0 ^^^ W.getD 28 0 | 25 => W.getD 25 0 ^^^ W.getD 29 0
  | 26 => W.getD 26 0 ^^^ W.getD 30 0 | 27 => W.getD 27 0 ^^^ W.getD 31 0
  | 28 => W.getD 28 0 ^^^ W.getD 32 0 | 29 => W.getD 29 0 ^^^ W.getD 33 0
  | 30 => W.getD 30 0 ^^^ W.getD 34 0 | 31 => W.getD 31 0 ^^^ W.getD 35 0
  | 32 => W.getD 32 0 ^^^ W.getD 36 0 | 33 => W.getD 33 0 ^^^ W.getD 37 0
  | 34 => W.getD 34 0 ^^^ W.getD 38 0 | 35 => W.getD 35 0 ^^^ W.getD 39 0
  | 36 => W.getD 36 0 ^^^ W.getD 40 0 | 37 => W.getD 37 0 ^^^ W.getD 41 0
  | 38 => W.getD 38 0 ^^^ W.getD 42 0 | 39 => W.getD 39 0 ^^^ W.getD 43 0
  | 40 => W.getD 40 0 ^^^ W.getD 44 0 | 41 => W.getD 41 0 ^^^ W.getD 45 0
  | 42 => W.getD 42 0 ^^^ W.getD 46 0 | 43 => W.getD 43 0 ^^^ W.getD 47 0
  | 44 => W.getD 44 0 ^^^ W.getD 48 0 | 45 => W.getD 45 0 ^^^ W.getD 49 0
  | 46 => W.getD 46 0 ^^^ W.getD 50 0 | 47 => W.getD 47 0 ^^^ W.getD 51 0
  | 48 => W.getD 48 0 ^^^ W.getD 52 0 | 49 => W.getD 49 0 ^^^ W.getD 53 0
  | 50 => W.getD 50 0 ^^^ W.getD 54 0 | 51 => W.getD 51 0 ^^^ W.getD 55 0
  | 52 => W.getD 52 0 ^^^ W.getD 56 0 | 53 => W.getD 53 0 ^^^ W.getD 57 0
  | 54 => W.getD 54 0 ^^^ W.getD 58 0 | 55 => W.getD 55 0 ^^^ W.getD 59 0
  | 56 => W.getD 56 0 ^^^ W.getD 60 0 | 57 => W.getD 57 0 ^^^ W.getD 61 0
  | 58 => W.getD 58 0 ^^^ W.getD 62 0 | 59 => W.getD 59 0 ^^^ W.getD 63 0
  | 60 => W.getD 60 0 ^^^ W.getD 64 0 | 61 => W.getD 61 0 ^^^ W.getD 65 0
  | 62 => W.getD 62 0 ^^^ W.getD 66 0 | 63 => W.getD 63 0 ^^^ W.getD 67 0
  | _ => 0

/-- The body of the round loop of `processBlock`. -/
def processBlock_round (W : List Nat) (j : Nat) (v : SM3_Vars) : SM3_Vars :=
  let W_val := switch_W_val W j
  let W_prime_val := switch_W_prime_val W j
  let SS1 := rotl ((rotl v.A 12 + v.E + rotl (Tj j) (j % 32)) % 2 ^ 32) 7
  let SS2 := SS1 ^^^ rotl v.A 12
  let TT1 := (FF v.A v.B v.C j + v.D + SS2 + W_prime_val) % 2 ^ 32
  let TT2 := (GG v.E v.F v.G j + v.H_var + SS1 + W_val) % 2 ^ 32
  let D := v.C
  let C := rotl v.B 9
  let B := v.A
  let A := TT1
  let H_var := v.G
  let G := rotl v.F 19
  let F := v.E
  let E := P0 TT2
  { A := A, B := B, C := C, D := D, E := E, F := F, G := G, H_var := H_var }

def processBlock (H block : List Nat) : List Nat :=
  let W := processBlock_W block
  let v : SM3_Vars :=
    { A := H.getD 0 0, B := H.getD 1 0, C := H.getD 2 0, D := H.getD 3 0, E := H.getD 4 0,
      F := H.getD 5 0, G := H.getD 6 0, H_var := H.getD 7 0 }
  let v := Nat.fold (fun j v => processBlock_round W j v) 64 v
  let H := H.set 0 (H.getD 0 0 ^^^ v.A)
  let H := H.set 1 (H.getD 1 0 ^^^ v.B)
  let H := H.set 2 (H.getD 2 0 ^^^ v.C)
  let H := H.set 3 (H.getD 3 0 ^^^ v.D)
  let H := H.set 4 (H.getD 4 0 ^^^ v.E)
  let H := H.set 5 (H.getD 5 0 ^^^ v.F)
  let H := H.set 6 (H.getD 6 0 ^^^ v.G)
  let H := H.set 7 (H.getD 7 0 ^^^ v.H_var)
  H

end SM3_RegAlloc

namespace SM3

def IV : List Nat :=
  [0x7380166f, 0x4914b2b9, 0x172442d7, 0xda8a0600, 0xa96f30bc, 0x163138aa, 0xe38dee4d,
  0xb0fb0e4e]

/-- The function `rotl` on `uint32_t`.  For `n = 0` the C++ expression shifts right by 32, which
the language leaves undefined; here that shift gives 0 and `rotl x 0 = x` for a 32-bit `x`, which
is also what the x86 shift (count taken modulo 32) gives. -/
def rotl (x : Nat) (n : Nat) : Nat :=
  ((x <<< n) % 2 ^ 32) ||| (x >>> (32 - n))

/-- The function `FF`; `j` is never negative. -/
def FF (x y z : Nat) (j : Nat) : Nat :=
  if j ≤ 15 then x ^^^ y ^^^ z
  else if 16 ≤ j ∧ j ≤ 63 then (x &&& y) ||| (x &&& z) ||| (y &&& z)
  else 0

/-- The function `GG`; `~x` is the complement of the 32 bits of `x`. -/
def GG (x y z : Nat) (j : Nat) : Nat :=
  if j ≤ 15 then x ^^^ y ^^^ z
  else if 16 ≤ j ∧ j ≤ 63 then (x &&& y) ||| ((0xFFFFFFFF ^^^ x) &&& z)
  else 0

def P0 (x : Nat) : Nat := x ^^^ rotl x 9 ^^^ rotl x 17

def P1 (x : Nat) : Nat := x ^^^ rotl x 15 ^^^ rotl x 23

/-- The function `xor_arrays_simd`; the result is the array `dest`.  The first loop runs
`i = 4 * n` for `n` below `simd_count / 4`, the second `i = simd_count + n`. -/
def xor_arrays_simd (dest src1 src2 : List Nat) (count : Nat) : List Nat :=
  let simd_count := (count / 4) * 4
  let dest := Nat.fold (fun n dest =>
      let i := 4 * n
      let a := _mm_loadu_si128_u32 src1 i
      let b := _mm_loadu_si128_u32 src2 i
      let result := _mm_xor_si128 a b
      _mm_storeu_si128_u32 dest i result) (simd_count / 4) dest
  Nat.fold (fun n dest =>
      let i := simd_count + n
      dest.set i (src1.getD i 0 ^^^ src2.getD i 0)) (count - simd_count) dest

/-- The function `Tj`; `j` is never negative. -/
def Tj (j : Nat) : Nat :=
  if j ≤ 15 then 0x79cc4519
  else if 16 ≤ j ∧ j ≤ 63 then 0x7a879d8a
  else 0

/-- The first two loops of `processBlock`. -/
def processBlock_W (block : List Nat) : List Nat :=
  let W := Nat.fold (fun i W =>
      W.set i ((block.getD (i * 4) 0 <<< 24) ||| (block.getD (i * 4 + 1) 0 <<< 16) |||
        (block.getD (i * 4 + 2) 0 <<< 8) ||| block.getD (i * 4 + 3) 0)) 16
    (List.replicate 68 0)
  Nat.fold (fun n W =>
      let j := n + 16
      W.set j (P1 (W.getD (j - 16) 0 ^^^ W.getD (j - 9) 0 ^^^ rotl (W.getD (j - 3) 0) 15) ^^^
        rotl (W.getD (j - 13) 0) 7 ^^^ W.getD (j - 6) 0)) 52 W

/-- The body of the round loop of `processBlock`; the assignments `A = A` to `G = G` at its end
change nothing. -/
def processBlock_round (W W_prime : List Nat) (j : Nat) (v : SM3_Vars) : SM3_Vars :=
  let SS1 := rotl ((rotl v.A 12 + v.E + rotl (Tj j) (j % 32)) % 2 ^ 32) 7
  let SS2 := SS1 ^^^ rotl v.A 12
  let TT1 := (FF v.A v.B v.C j + v.D + SS2 + W_prime.getD j 0) % 2 ^ 32
  let TT2 := (GG v.E v.F v.G j + v.H_var + SS1 + W.getD j 0) % 2 ^ 32
  let D := v.C
  let C := rotl v.B 9
  let B := v.A
  let A := TT1
  let H_var := v.G
  let G := rotl v.F 19
  let F := v.E
  let E := P0 TT2
  { A := A, B := B, C := C, D := D, E := E, F := F, G := G, H_var := H_var }

def processBlock (H block : List Nat) : List Nat :=
  let W := processBlock_W block
  let W_prime := xor_arrays_simd (List.replicate 64 0) W (W.drop 4) 64
  let v : SM3_Vars :=
    { A := H.getD 0 0, B := H.getD 1 0, C := H.getD 2 0, D := H.getD 3 0, E := H.getD 4 0,
      F := H.getD 5 0, G := H.getD 6 0, H_var := H.getD 7 0 }
  let v := Nat.fold (fun j v => processBlock_round W W_prime j v) 64 v
  let hash_low := _mm_loadu_si128_u32 H 0
  let hash_high := _mm_loadu_si128_u32 H 4
  let working_low := _mm_set_epi32 v.D v.C v.B v.A
  let working_high := _mm_set_epi32 v.H_var v.G v.F v.E
  let hash_low := _mm_xor_si128 hash_low working_low
  let hash_high := _mm_xor_si128 hash_high working_high
  let H := _mm_storeu_si128_u32 H 0 hash_low
  let H := _mm_storeu_si128_u32 H 4 hash_high
  H

end SM3

namespace SM3_OnTheFly

def IV : List Nat :=
  [0x7380166f, 0x4914b2b9, 0x172442d7, 0xda8a0600, 0xa96f30bc, 0x163138aa, 0xe38dee4d,
  0xb0fb0e4e]

/-- The function `rotl` on `uint32_t`.  For `n = 0` the C++ expression shifts right by 32, which
the language leaves undefined; here that shift gives 0 and `rotl x 0 = x` for a 32-bit `x`, which
is also what the x86 shift (count taken modulo 32) gives. -/
def rotl (x : Nat) (n : Nat) : Nat :=
  ((x <<< n) % 2 ^ 32) ||| (x >>> (32 - n))

def FF (x y z : Nat) (j : Nat) : Nat :=
  if j ≤ 15 then x ^^^ y ^^^ z
  else (x &&& y) ||| (x &&& z) ||| (y &&& z)

/-- The function `GG`; `~x` is the complement of the 32 bits of `x`. -/
def GG (x y z : Nat) (j : Nat) : Nat :=
  if j ≤ 15 then x ^^^ y ^^^ z
  else (x &&& y) ||| ((0xFFFFFFFF ^^^ x) &&& z)

def P0 (x : Nat) : Nat := x ^^^ rotl x 9 ^^^ rotl x 17

def P1 (x : Nat) : Nat := x ^^^ rotl x 15 ^^^ rotl x 23

def Tj (j : Nat) : Nat := if j ≤ 15 then 0x79cc4519 else 0x7a879d8a

/-- The function `computeW`, which returns a word and may write to `W_cache`: the result is the
word and the cache after the call.  The first argument bounds the depth of the recursion and
`none` says that the bound was reached; `j + 1` is always enough, since every inner call has a
smaller `j`. -/
def computeW (W_base : List Nat) : Nat → Nat → List Nat → Option (Nat × List Nat)
  | 0, _, _ => none
  | fuel + 1, j, W_cache =>
    if j < 16 then some (W_base.getD j 0, W_cache)
    else if W_cache.getD j 0 ≠ 0xFFFFFFFF then some (W_cache.getD j 0, W_cache)
    else
      (computeW W_base fuel (j - 16) W_cache).bind fun r16 =>
      (computeW W_base fuel (j - 9) r16.2).bind fun r9 =>
      (computeW W_base fuel (j - 3) r9.2).bind fun r3 =>
      (computeW W_base fuel (j - 13) r3.2).bind fun r13 =>
      (computeW W_base fuel (j - 6) r13.2).bind fun r6 =>
        let w_j_minus_16 := r16.1
        let w_j_minus_9 := r9.1
        let w_j_minus_3 := r3.1
        let w_j_minus_13 := r13.1
        let w_j_minus_6 := r6.1
        let result := P1 (w_j_minus_16 ^^^ w_j_minus_9 ^^^ rotl w_j_minus_3 15) ^^^
          rotl w_j_minus_13 7 ^^^ w_j_minus_6
        some (result, r6.2.set j result)

/-- The body of the round loop of `processBlock`, on the working variables and `W_cache`;
`computeW` is called with the bound 68, above every `j` that occurs. -/
def processBlock_round (W_base : List Nat) (j : Nat) (st : SM3_Vars × List Nat) :
    Option (SM3_Vars × List Nat) :=
  let v := st.1
  (computeW W_base 68 j st.2).bind fun r =>
  (computeW W_base 68 (j + 4) r.2).bind fun r4 =>
    let W_j := r.1
    let W_j_plus_4 := r4.1
    let W_cache := r4.2
    let W_prime_j := W_j ^^^ W_j_plus_4
    let SS1 := rotl ((rotl v.A 12 + v.E + rotl (Tj j) (j % 32)) % 2 ^ 32) 7
    let SS2 := SS1 ^^^ rotl v.A 12
    let TT1 := (FF v.A v.B v.C j + v.D + SS2 + W_prime_j) % 2 ^ 32
    let TT2 := (GG v.E v.F v.G j + v.H_var + SS1 + W_j) % 2 ^ 32
    let D := v.C
    let C := rotl v.B 9
    let B := v.A
    let A := TT1
    let H_var := v.G
    let G := rotl v.F 19
    let F := v.E
    let E := P0 TT2
    let W_cache :=
      if j ≥ 16 then
        if j - 16 < 52 then W_cache
        else W_cache.set (j - 16) 0xFFFFFFFF
      else W_cache
    some ({ A := A, B := B, C := C, D := D, E := E, F := F, G := G, H_var := H_var }, W_cache)

/-- The two loops at the start of `processBlock`: the state is `(W_base, W_cache)`. -/
def processBlock_init (block : List Nat) : List Nat × List Nat :=
  let W_cache := Nat.fold (fun i W_cache => W_cache.set i 0xFFFFFFFF) 68 (List.replicate 68 0)
  Nat.fold (fun i (st : List Nat × List Nat) =>
      let W_base := st.1.set i ((block.getD (i * 4) 0 <<< 24) |||
        (block.getD (i * 4 + 1) 0 <<< 16) ||| (block.getD (i * 4 + 2) 0 <<< 8) |||
        block.getD (i * 4 + 3) 0)
      (W_base, st.2.set i (W_base.getD i 0))) 16 (List.replicate 16 0, W_cache)

def processBlock (H block : List Nat) : Option (List Nat) :=
  let st := processBlock_init block
  let W_base := st.1
  let W_cache := st.2
  let v : SM3_Vars :=
    { A := H.getD 0 0, B := H.getD 1 0, C := H.getD 2 0, D := H.getD 3 0, E := H.getD 4 0,
      F := H.getD 5 0, G := H.getD 6 0, H_var := H.getD 7 0 }
  (Nat.fold (fun j st => st.bind (processBlock_round W_base j)) 64 (some (v, W_cache))).bind
    fun st =>
      let v := st.1
      let H := H.set 0 (H.getD 0 0 ^^^ v.A)
      let H := H.set 1 (H.getD 1 0 ^^^ v.B)
      let H := H.set 2 (H.getD 2 0 ^^^ v.C)
      let H := H.set 3 (H.getD 3 0 ^^^ v.D)
      let H := H.set 4 (H.getD 4 0 ^^^ v.E)
      let H := H.set 5 (H.getD 5 0 ^^^ v.F)
      let H := H.set 6 (H.getD 6 0 ^^^ v.G)
      let H := H.set 7 (H.getD 7 0 ^^^ v.H_var)
      some H

end SM3_OnTheFly

namespace SM3_Flatten

def IV : List Nat :=
  [0x7380166f, 0x4914b2b9, 0x172442d7, 0xda8a0600, 0xa96f30bc, 0x163138aa, 0xe38dee4d,
  0xb0fb0e4e]

/-- The macro `ROTL` on `uint32_t` operands.  For `n = 0` the C++ expression shifts right by 32,
which the language leaves undefined; here that shift gives 0 and `ROTL x 0 = x` for a 32-bit
`x`. -/
def ROTL (x : Nat) (n : Nat) : Nat :=
  ((x <<< n) % 2 ^ 32) ||| (x >>> (32 - n))

def FF_0_15 (x y z : Nat) : Nat := x ^^^ y ^^^ z

def FF_16_63 (x y z : Nat) : Nat := (x &&& y) ||| (x &&& z) ||| (y &&& z)

def GG_0_15 (x y z : Nat) : Nat := x ^^^ y ^^^ z

/-- The macro `GG_16_63`; `~x` is the complement of the 32 bits of `x`. -/
def GG_16_63 (x y z : Nat) : Nat := (x &&& y) ||| ((0xFFFFFFFF ^^^ x) &&& z)

def P0 (x : Nat) : Nat := x ^^^ ROTL x 9 ^^^ ROTL x 17

def P1 (x : Nat) : Nat := x ^^^ ROTL x 15 ^^^ ROTL x 23

def TJ_0_15 : Nat := 0x79cc4519

def TJ_16_63 : Nat := 0x7a879d8a

/-- The macro `ROUND_0_15(j, A, B, C, D, E, F, G, H_var, W_j, W_prime_j)`; the variables are
always the working variables of `processBlock`. -/
def ROUND_0_15 (j : Nat) (v : SM3_Vars) (W_j W_prime_j : Nat) : SM3_Vars :=
  let rot_A_12 := ROTL v.A 12
  let SS1 := ROTL ((rot_A_12 + v.E + ROTL TJ_0_15 (j % 32)) % 2 ^ 32) 7
  let SS2 := SS1 ^^^ rot_A_12
  let TT1 := (FF_0_15 v.A v.B v.C + v.D + SS2 + W_prime_j) % 2 ^ 32
  let TT2 := (GG_0_15 v.E v.F v.G + v.H_var + SS1 + W_j) % 2 ^ 32
  let D := v.C
  let C := ROTL v.B 9
  let B := v.A
  let A := TT1
  let H_var := v.G
  let G := ROTL v.F 19
  let F := v.E
  let E := P0 TT2
  { A := A, B := B, C := C, D := D, E := E, F := F, G := G, H_var := H_var }

/-- The macro `ROUND_16_63(j, A, B, C, D, E, F, G, H_var, W_j, W_prime_j)`. -/
def ROUND_16_63 (j : Nat) (v : SM3_Vars) (W_j W_prime_j : Nat) : SM3_Vars :=
  let rot_A_12 := ROTL v.A 12
  let SS1 := ROTL ((rot_A_12 + v.E + ROTL TJ_16_63 (j % 32)) % 2 ^ 32) 7
  let SS2 := SS1 ^^^ rot_A_12
  let TT1 := (FF_16_63 v.A v.B v.C + v.D + SS2 + W_prime_j) % 2 ^ 32
  let TT2 := (GG_16_63 v.E v.F v.G + v.H_var + SS1 + W_j) % 2 ^ 32
  let D := v.C
  let C := ROTL v.B 9
  let B := v.A
  let A := TT1
  let H_var := v.G
  let G := ROTL v.F 19
  let F := v.E
  let E := P0 TT2
  { A := A, B := B, C := C, D := D, E := E, F := F, G := G, H_var := H_var }

/-- The macro `EXPAND_W(j, W)`. -/
def EXPAND_W (j : Nat) (W : List Nat) : List Nat :=
  W.set j (P1 (W.getD (j - 16) 0 ^^^ W.getD (j - 9) 0 ^^^ ROTL (W.getD (j - 3) 0) 15) ^^^
    ROTL (W.getD (j - 13) 0) 7 ^^^ W.getD (j - 6) 0)

/-- The 16 assignments to `W[0] .. W[15]` and the 52 invocations of `EXPAND_W` in `processBlock`,
in their order. -/
def processBlock_W (block : List Nat) : List Nat :=
  let W := List.replicate 68 0
  let W := W.set 0 (be32 block 0 1 2 3)
  let W := W.set 1 (be32 block 4 5 6 7)
  let W := W.set 2 (be32 block 8 9 10 11)
  let W := W.set 3 (be32 block 12 13 14 15)
  let W := W.set 4 (be32 block 16 17 18 19)
  let W := W.set 5 (be32 block 20 21 22 23)
  let W := W.set 6 (be32 block 24 25 26 27)
  let W := W.set 7 (be32 block 28 29 30 31)
  let W := W.set 8 (be32 block 32 33 34 35)
  let W := W.set 9 (be32 block 36 37 38 39)
  let W := W.set 10 (be32 block 40 41 42 43)
  let W := W.set 11 (be32 block 44 45 46 47)
  let W := W.set 12 (be32 block 48 49 50 51)
  let W := W.set 13 (be32 block 52 53 54 55)
  let W := W.set 14 (be32 block 56 57 58 59)
  let W := W.set 15 (be32 block 60 61 62 63)
  let W := EXPAND_W 16 W
  let W := EXPAND_W 17 W
  let W := EXPAND_W 18 W
  let W := EXPAND_W 19 W
  let W := EXPAND_W 20 W
  let W := EXPAND_W 21 W
  let W := EXPAND_W 22 W
  let W := EXPAND_W 23 W
  let W := EXPAND_W 24 W
  let W := EXPAND_W 25 W
  let W := EXPAND_W 26 W
  let W := EXPAND_W 27 W
  let W := EXPAND_W 28 W
  let W := EXPAND_W 29 W
  let W := EXPAND_W 30 W
  let W := EXPAND_W 31 W
  let W := EXPAND_W 32 W
  let W := EXPAND_W 33 W
  let W := EXPAND_W 34 W
  let W := EXPAND_W 35 W
  let W := EXPAND_W 36 W
  let W := EXPAND_W 37 W
  let W := EXPAND_W 38 W
  let W := EXPAND_W 39 W
  let W := EXPAND_W 40 W
  let W := EXPAND_W 41 W
  let W := EXPAND_W 42 W
  let W := EXPAND_W 43 W
  let W := EXPAND_W 44 W
  let W := EXPAND_W 45 W
  let W := EXPAND_W 46 W
  let W := EXPAND_W 47 W
  let W := EXPAND_W 48 W
  let W := EXPAND_W 49 W
  let W := EXPAND_W 50 W
  let W := EXPAND_W 51 W
  let W := EXPAND_W 52 W
  let W := EXPAND_W 53 W
  let W := EXPAND_W 54 W
  let W := EXPAND_W 55 W
  let W := EXPAND_W 56 W
  let W := EXPAND_W 57 W
  let W := EXPAND_W 58 W
  let W := EXPAND_W 59 W
  let W := EXPAND_W 60 W
  let W := EXPAND_W 61 W
  let W := EXPAND_W 62 W
  let W := EXPAND_W 63 W
  let W := EXPAND_W 64 W
  let W := EXPAND_W 65 W
  let W := EXPAND_W 66 W
  let W := EXPAND_W 67 W
  W

/-- The 64 assignments to `W_prime[0] .. W_prime[63]` in `processBlock`, in their order. -/
def processBlock_W_prime (W : List Nat) : List Nat :=
  let W_prime := List.replicate 64 0
  let W_prime := W_prime.set 0 (W.getD 0 0 ^^^ W.getD 4 0)
  let W_prime := W_prime.set 1 (W.getD 1 0 ^^^ W.getD 5 0)
  let W_prime := W_prime.set 2 (W.getD 2 0 ^^^ W.getD 6 0)
  let W_prime := W_prime.set 3 (W.getD 3 0 ^^^ W.getD 7 0)
  let W_prime := W_prime.set 4 (W.getD 4 0 ^^^ W.getD 8 0)
  let W_prime := W_prime.set 5 (W.getD 5 0 ^^^ W.getD 9 0)
  let W_prime := W_prime.set 6 (W.getD 6 0 ^^^ W.getD 10 0)
  let W_prime := W_prime.set 7 (W.getD 7 0 ^^^ W.getD 11 0)
  let W_prime := W_prime.set 8 (W.getD 8 0 ^^^ W.getD 12 0)
  let W_prime := W_prime.set 9 (W.getD 9 0 ^^^ W.getD 13 0)
  let W_prime := W_prime.set 10 (W.getD 10 0 ^^^ W.getD 14 0)
  let W_prime := W_prime.set 11 (W.getD 11 0 ^^^ W.getD 15 0)
  let W_prime := W_prime.set 12 (W.getD 12 0 ^^^ W.getD 16 0)
  let W_prime := W_prime.set 13 (W.getD 13 0 ^^^ W.getD 17 0)
  let W_prime := W_prime.set 14 (W.getD 14 0 ^^^ W.getD 18 0)
  let W_prime := W_prime.set 15 (W.getD 15 0 ^^^ W.getD 19 0)
  let W_prime := W_prime.set 16 (W.getD 16 0 ^^^ W.getD 20 0)
  let W_prime := W_prime.set 17 (W.getD 17 0 ^^^ W.getD 21 0)
  let W_prime := W_prime.set 18 (W.getD 18 0 ^^^ W.getD 22 0)
  let W_prime := W_prime.set 19 (W.getD 19 0 ^^^ W.getD 23 0)
  let W_prime := W_prime.set 20 (W.getD 20 0 ^^^ W.getD 24 0)
  let W_prime := W_prime.set 21 (W.getD 21 0 ^^^ W.getD 25 0)
  let W_prime := W_prime.set 22 (W.getD 22 0 ^^^ W.getD 26 0)
  let W_prime := W_prime.set 23 (W.getD 23 0 ^^^ W.getD 27 0)
  let W_prime := W_prime.set 24 (W.getD 24 0 ^^^ W.getD 28 0)
  let W_prime := W_prime.set 25 (W.getD 25 0 ^^^ W.getD 29 0)
  let W_prime := W_prime.set 26 (W.getD 26 0 ^^^ W.getD 30 0)
  let W_prime := W_prime.set 27 (W.getD 27 0 ^^^ W.getD 31 0)
  let W_prime := W_prime.set 28 (W.getD 28 0 ^^^ W.getD 32 0)
  let W_prime := W_prime.set 29 (W.getD 29 0 ^^^ W.getD 33 0)
  let W_prime := W_prime.set 30 (W.getD 30 0 ^^^ W.getD 34 0)
  let W_prime := W_prime.set 31 (W.getD 31 0 ^^^ W.getD 35 0)
  let W_prime := W_prime.set 32 (W.getD 32 0 ^^^ W.getD 36 0)
  let W_prime := W_prime.set 33 (W.getD 33 0 ^^^ W.getD 37 0)
  let W_prime := W_prime.set 34 (W.getD 34 0 ^^^ W.getD 38 0)
  let W_prime := W_prime.set 35 (W.getD 35 0 ^^^ W.getD 39 0)
  let W_prime := W_prime.set 36 (W.getD 36 0 ^^^ W.getD 40 0)
  let W_prime := W_prime.set 37 (W.getD 37 0 ^^^ W.getD 41 0)
  let W_prime := W_prime.set 38 (W.getD 38 0 ^^^ W.getD 42 0)
  let W_prime := W_prime.set 39 (W.getD 39 0 ^^^ W.getD 43 0)
  let W_prime := W_prime.set 40 (W.getD 40 0 ^^^ W.getD 44 0)
  let W_prime := W_prime.set 41 (W.getD 41 0 ^^^ W.getD 45 0)
  let W_prime := W_prime.set 42 (W.getD 42 0 ^^^ W.getD 46 0)
  let W_prime := W_prime.set 43 (W.getD 43 0 ^^^ W.getD 47 0)
  let W_prime := W_prime.set 44 (W.getD 44 0 ^^^ W.getD 48 0)
  let W_prime := W_prime.set 45 (W.getD 45 0 ^^^ W.getD 49 0)
  let W_prime := W_prime.set 46 (W.getD 46 0 ^^^ W.getD 50 0)
  let W_prime := W_prime.set 47 (W.getD 47 0 ^^^ W.getD 51 0)
  let W_prime := W_prime.set 48 (W.getD 48 0 ^^^ W.getD 52 0)
  let W_prime := W_prime.set 49 (W.getD 49 0 ^^^ W.getD 53 0)
  let W_prime := W_prime.set 50 (W.getD 50 0 ^^^ W.getD 54 0)
  let W_prime := W_prime.set 51 (W.getD 51 0 ^^^ W.getD 55 0)
  let W_prime := W_prime.set 52 (W.getD 52 0 ^^^ W.getD 56 0)
  let W_prime := W_prime.set 53 (W.getD 53 0 ^^^ W.getD 57 0)
  let W_prime := W_prime.set 54 (W.getD 54 0 ^^^ W.getD 58 0)
  let W_prime := W_prime.set 55 (W.getD 55 0 ^^^ W.getD 59 0)
  let W_prime := W_prime.set 56 (W.getD 56 0 ^^^ W.getD 60 0)
  let W_prime := W_prime.set 57 (W.getD 57 0 ^^^ W.getD 61 0)
  let W_prime := W_prime.set 58 (W.getD 58 0 ^^^ W.getD 62 0)
  let W_prime := W_prime.set 59 (W.getD 59 0 ^^^ W.getD 63 0)
  let W_prime := W_prime.set 60 (W.getD 60 0 ^^^ W.getD 64 0)
  let W_prime := W_prime.set 61 (W.getD 61 0 ^^^ W.getD 65 0)
  let W_prime := W_prime.set 62 (W.getD 62 0 ^^^ W.getD 66 0)
  let W_prime := W_prime.set 63 (W.getD 63 0 ^^^ W.getD 67 0)
  W_prime

/-- The 64 invocations of `ROUND_0_15` and `ROUND_16_63` in `processBlock`, in their order. -/
def processBlock_rounds (W W_prime : List Nat) (v : SM3_Vars) : SM3_Vars :=
  let v := ROUND_0_15 0 v (W.getD 0 0) (W_prime.getD 0 0)
  let v := ROUND_0_15 1 v (W.getD 1 0) (W_prime.getD 1 0)
  let v := ROUND_0_15 2 v (W.getD 2 0) (W_prime.getD 2 0)
  let v := ROUND_0_15 3 v (W.getD 3 0) (W_prime.getD 3 0)
  let v := ROUND_0_15 4 v (W.getD 4 0) (W_prime.getD 4 0)
  let v := ROUND_0_15 5 v (W.getD 5 0) (W_prime.getD 5 0)
  let v := ROUND_0_15 6 v (W.getD 6 0) (W_prime.getD 6 0)
  let v := ROUND_0_15 7 v (W.getD 7 0) (W_prime.getD 7 0)
  let v := ROUND_0_15 8 v (W.getD 8 0) (W_prime.getD 8 0)
  let v := ROUND_0_15 9 v (W.getD 9 0) (W_prime.getD 9 0)
  let v := ROUND_0_15 10 v (W.getD 10 0) (W_prime.getD 10 0)
  let v := ROUND_0_15 11 v (W.getD 11 0) (W_prime.getD 11 0)
  let v := ROUND_0_15 12 v (W.getD 12 0) (W_prime.getD 12 0)
  let v := ROUND_0_15 13 v (W.getD 13 0) (W_prime.getD 13 0)
  let v := ROUND_0_15 14 v (W.getD 14 0) (W_prime.getD 14 0)
  let v := ROUND_0_15 15 v (W.getD 15 0) (W_prime.getD 15 0)
  let v := ROUND_16_63 16 v (W.getD 16 0) (W_prime.getD 16 0)
  let v := ROUND_16_63 17 v (W.getD 17 0) (W_prime.getD 17 0)
  let v := ROUND_16_63 18 v (W.getD 18 0) (W_prime.getD 18 0)
  let v := ROUND_16_63 19 v (W.getD 19 0) (W_prime.getD 19 0)
  let v := ROUND_16_63 20 v (W.getD 20 0) (W_prime.getD 20 0)
  let v := ROUND_16_63 21 v (W.getD 21 0) (W_prime.getD 21 0)
  let v := ROUND_16_63 22 v (W.getD 22 0) (W_prime.getD 22 0)
  let v := ROUND_16_63 23 v (W.getD 23 0) (W_prime.getD 23 0)
  let v := ROUND_16_63 24 v (W.getD 24 0) (W_prime.getD 24 0)
  let v := ROUND_16_63 25 v (W.getD 25 0) (W_prime.getD 25 0)
  let v := ROUND_16_63 26 v (W.getD 26 0) (W_prime.getD 26 0)
  let v := ROUND_16_63 27 v (W.getD 27 0) (W_prime.getD 27 0)
  let v := ROUND_16_63 28 v (W.getD 28 0) (W_prime.getD 28 0)
  let v := ROUND_16_63 29 v (W.getD 29 0) (W_prime.getD 29 0)
  let v := ROUND_16_63 30 v (W.getD 30 0) (W_prime.getD 30 0)
  let v := ROUND_16_63 31 v (W.getD 31 0) (W_prime.getD 31 0)
  let v := ROUND_16_63 32 v (W.getD 32 0) (W_prime.getD 32 0)
  let v := ROUND_16_63 33 v (W.getD 33 0) (W_prime.getD 33 0)
  let v := ROUND_16_63 34 v (W.getD 34 0) (W_prime.getD 34 0)
  let v := ROUND_16_63 35 v (W.getD 35 0) (W_prime.getD 35 0)
  let v := ROUND_16_63 36 v (W.getD 36 0) (W_prime.getD 36 0)
  let v := ROUND_16_63 37 v (W.getD 37 0) (W_prime.getD 37 0)
  let v := ROUND_16_63 38 v (W.getD 38 0) (W_prime.getD 38 0)
  let v := ROUND_16_63 39 v (W.getD 39 0) (W_prime.getD 39 0)
  let v := ROUND_16_63 40 v (W.getD 40 0) (W_prime.getD 40 0)
  let v := ROUND_16_63 41 v (W.getD 41 0) (W_prime.getD 41 0)
  let v := ROUND_16_63 42 v (W.getD 42 0) (W_prime.getD 42 0)
  let v := ROUND_16_63 43 v (W.getD 43 0) (W_prime.getD 43 0)
  let v := ROUND_16_63 44 v (W.getD 44 0) (W_prime.getD 44 0)
  let v := ROUND_16_63 45 v (W.getD 45 0) (W_prime.getD 45 0)
  let v := ROUND_16_63 46 v (W.getD 46 0) (W_prime.getD 46 0)
  let v := ROUND_16_63 47 v (W.getD 47 0) (W_prime.getD 47 0)
  let v := ROUND_16_63 48 v (W.getD 48 0) (W_prime.getD 48 0)
  let v := ROUND_16_63 49 v (W.getD 49 0) (W_prime.getD 49 0)
  let v := ROUND_16_63 50 v (W.getD 50 0) (W_prime.getD 50 0)
  let v := ROUND_16_63 51 v (W.getD 51 0) (W_prime.getD 51 0)
  let v := ROUND_16_63 52 v (W.getD 52 0) (W_prime.getD 52 0)
  let v := ROUND_16_63 53 v (W.getD 53 0) (W_prime.getD 53 0)
  let v := ROUND_16_63 54 v (W.getD 54 0) (W_prime.getD 54 0)
  let v := ROUND_16_63 55 v (W.getD 55 0) (W_prime.getD 55 0)
  let v := ROUND_16_63 56 v (W.getD 56 0) (W_prime.getD 56 0)
  let v := ROUND_16_63 57 v (W.getD 57 0) (W_prime.getD 57 0)
  let v := ROUND_16_63 58 v (W.getD 58 0) (W_prime.getD 58 0)
  let v := ROUND_16_63 59 v (W.getD 59 0) (W_prime.getD 59 0)
  let v := ROUND_16_63 60 v (W.getD 60 0) (W_prime.getD 60 0)
  let v := ROUND_16_63 61 v (W.getD 61 0) (W_prime.getD 61 0)
  let v := ROUND_16_63 62 v (W.getD 62 0) (W_prime.getD 62 0)
  let v := ROUND_16_63 63 v (W.getD 63 0) (W_prime.getD 63 0)
  v

def processBlock (H block : List Nat) : List Nat :=
  let W := processBlock_W block
  let W_prime := processBlock_W_prime W
  let v : SM3_Vars :=
    { A := H.getD 0 0, B := H.getD 1 0, C := H.getD 2 0, D := H.getD 3 0, E := H.getD 4 0,
      F := H.getD 5 0, G := H.getD 6 0, H_var := H.getD 7 0 }
  let v := processBlock_rounds W W_prime v
  let H := H.set 0 (H.getD 0 0 ^^^ v.A)
  let H := H.set 1 (H.getD 1 0 ^^^ v.B)
  let H := H.set 2 (H.getD 2 0 ^^^ v.C)
  let H := H.set 3 (H.getD 3 0 ^^^ v.D)
  let H := H.set 4 (H.getD 4 0 ^^^ v.E)
  let H := H.set 5 (H.getD 5 0 ^^^ v.F)
  let H := H.set 6 (H.getD 6 0 ^^^ v.G)
  let H := H.set 7 (H.getD 7 0 ^^^ v.H_var)
  H

end SM3_Flatten

/-! ## The compression function of SM3 in one form, for the comparison of the variants -/

/-- The step of the word expansion: `W[j] = P1(W[j-16] ^ W[j-9] ^ rotl(W[j-3], 15)) ^
rotl(W[j-13], 7) ^ W[j-6]`. -/
def sm3_expand (j : Nat) (W : List Nat) : List Nat :=
  W.set j (SM3_Unrolled.P1 (W.getD (j - 16) 0 ^^^ W.getD (j - 9) 0 ^^^
    SM3_Unrolled.rotl (W.getD (j - 3) 0) 15) ^^^ SM3_Unrolled.rotl (W.getD (j - 13) 0) 7 ^^^
    W.getD (j - 6) 0)

/-- The 68 words of a block: the 16 big-endian words, then the expansion. -/
def sm3_words (block : List Nat) : List Nat :=
  Nat.fold (fun n W => sm3_expand (n + 16) W) 52
    (Nat.fold (fun i W => W.set i (be32 block (i * 4) (i * 4 + 1) (i * 4 + 2) (i * 4 + 3))) 16
      (List.replicate 68 0))

/-- Round `j` on the working variables, with the words `W[j]` and `W'[j]` given. -/
def sm3_round (j W_j W_prime_j : Nat) (v : SM3_Vars) : SM3_Vars :=
  let SS1 := SM3_Unrolled.rotl ((SM3_Unrolled.rotl v.A 12 + v.E +
    SM3_Unrolled.rotl (if j ≤ 15 then 0x79cc4519 else 0x7a879d8a) (j % 32)) % 2 ^ 32) 7
  let SS2 := SS1 ^^^ SM3_Unrolled.rotl v.A 12
  let TT1 := ((if j ≤ 15 then v.A ^^^ v.B ^^^ v.C
    else (v.A &&& v.B) ||| (v.A &&& v.C) ||| (v.B &&& v.C)) + v.D + SS2 + W_prime_j) % 2 ^ 32
  let TT2 := ((if j ≤ 15 then v.E ^^^ v.F ^^^ v.G
    else (v.E &&& v.F) ||| ((0xFFFFFFFF ^^^ v.E) &&& v.G)) + v.H_var + SS1 + W_j) % 2 ^ 32
  { A := TT1, B := v.A, C := SM3_Unrolled.rotl v.B 9, D := v.C, E := SM3_Unrolled.P0 TT2,
    F := v.E, G := SM3_Unrolled.rotl v.F 19, H_var := v.G }

/-- The working variables at the start of `processBlock`. -/
def sm3_init (H : List Nat) : SM3_Vars :=
  { A := H.getD 0 0, B := H.getD 1 0, C := H.getD 2 0, D := H.getD 3 0, E := H.getD 4 0,
    F := H.getD 5 0, G := H.getD 6 0, H_var := H.getD 7 0 }

/-- The eight statements `H[i] ^= ...` at the end of `processBlock`. -/
def sm3_finish (H : List Nat) (v : SM3_Vars) : List Nat :=
  let H := H.set 0 (H.getD 0 0 ^^^ v.A)
  let H := H.set 1 (H.getD 1 0 ^^^ v.B)
  let H := H.set 2 (H.getD 2 0 ^^^ v.C)
  let H := H.set 3 (H.getD 3 0 ^^^ v.D)
  let H := H.set 4 (H.getD 4 0 ^^^ v.E)
  let H := H.set 5 (H.getD 5 0 ^^^ v.F)
  let H := H.set 6 (H.getD 6 0 ^^^ v.G)
  let H := H.set 7 (H.getD 7 0 ^^^ v.H_var)
  H

/-- The 64 rounds as one loop over `j`, on the words of the list `W`. -/
def sm3_rounds (W : List Nat) (v : SM3_Vars) : SM3_Vars :=
  Nat.fold (fun j v => sm3_round j (W.getD j 0) (W.getD j 0 ^^^ W.getD (j + 4) 0) v) 64 v

/-- The compression function: the new chaining value. -/
def sm3_compress (H block : List Nat) : List Nat :=
  sm3_finish H (sm3_rounds (sm3_words block) (sm3_init H))

/-- All eight working variables fit in 32 bits. -/
def SM3_Vars32 (v : SM3_Vars) : Prop :=
  v.A < 2 ^ 32 ∧ v.B < 2 ^ 32 ∧ v.C < 2 ^ 32 ∧ v.D < 2 ^ 32 ∧ v.E < 2 ^ 32 ∧ v.F < 2 ^ 32 ∧
    v.G < 2 ^ 32 ∧ v.H_var < 2 ^ 32

/-- The 68 words that the expansion gives for 16 given words. -/
def sm3_expand_base (W_base : List Nat) : List Nat :=
  Nat.fold (fun n W => sm3_expand (n + 16) W) 52 (W_base ++ List.replicate 52 0)

/-- The function `SM4_GFNI::is_supported`.  Its argument is what `__get_cpuid_count(7, 0, ...)`
gives on the processor at hand: `none` when the call returns 0, and the registers
`(eax, ebx, ecx, edx)` otherwise. -/
def SM4_GFNI.is_supported (cpuid : Option (Nat × Nat × Nat × Nat)) : Bool :=
  match cpuid with
  | some (_, ebx, ecx, _) =>
    let gfni_supported := (ecx &&& (1 <<< 8)) ≠ 0
    let avx2_supported := (ebx &&& (1 <<< 5)) ≠ 0
    gfni_supported && avx2_supported
  | none => false

/-- The padded block of the message `abc`. -/
def sampleSM3Block : List Nat :=
  [0x61, 0x62, 0x63, 0x80] ++ List.replicate 59 0 ++ [24]

/-- Sixteen words whose expansion has `W[16] = 0xFFFFFFFF`. -/
def sampleSentinelBase : List Nat :=
  [0, 0, 0, 0, 0, 0, 0, 0, 0, 0, 0xFFFFFFFF, 0, 0, 0, 0, 0]

/-! ## SM3: the streaming interface of `SM3_Unrolled` -/

namespace SM3_Unrolled

/-- The data members of the class: the chaining value `H`, the `buffer` of bytes not yet
compressed, and the 64-bit counter `total_length`. -/
structure State where
  H : List Nat
  buffer : List Nat
  total_length : Nat
deriving DecidableEq, Repr

/-- The loop `while ((buffer.size() % 64) != 56) buffer.push_back(0x00)` of `padMessage`, with a
bound on the number of iterations. -/
def padMessage_loop : Nat → List Nat → List Nat
  | 0, buffer => buffer
  | fuel + 1, buffer =>
    if buffer.length % 64 ≠ 56 then padMessage_loop fuel (buffer ++ [0x00]) else buffer

/-- The function `padMessage`.  The last loop runs `i = 7, 6, .., 0` (`i = 7 - n` in iteration
`n`); `bit_length` is a `uint64_t`. -/
def padMessage (st : State) : State :=
  let bit_length := (st.total_length * 8) % 2 ^ 64
  let buffer := st.buffer ++ [0x80]
  let buffer := padMessage_loop 64 buffer
  let buffer := Nat.fold (fun n buffer =>
      let i := 7 - n
      buffer ++ [(bit_length >>> (i * 8)) &&& 0xFF]) 8 buffer
  { st with buffer := buffer }

/-- The function `reset`, which is also what the constructor runs: every entry of `H` is
overwritten, so the state before does not matter. -/
def reset : State :=
  { H := Nat.fold (fun i H => H.set i (IV.getD i 0)) 8 (List.replicate 8 0)
    buffer := []
    total_length := 0 }

/-- The loop `while (buffer.size() >= 64)` of `update` on `(H, buffer)`, with a bound on the
number of iterations; `processBlock` is handed the address of the first byte. -/
def update_loop : Nat → List Nat → List Nat → List Nat × List Nat
  | 0, H, buffer => (H, buffer)
  | fuel + 1, H, buffer =>
    if 64 ≤ buffer.length then update_loop fuel (processBlock H buffer) (buffer.drop 64)
    else (H, buffer)

/-- The function `update`; `data` holds the `length` bytes that the pointer refers to.  The loop
bound is the number of bytes in the buffer, more than the number of blocks. -/
def update (st : State) (data : List Nat) : State :=
  let length := data.length
  let total_length := (st.total_length + length) % 2 ^ 64
  let buffer := Nat.fold (fun i buffer => buffer ++ [data.getD i 0]) length st.buffer
  let r := update_loop buffer.length st.H buffer
  { H := r.1, buffer := r.2, total_length := total_length }

/-- The loop `for (size_t i = 0; i < buffer.size(); i += 64)` of `finalize`, with a bound on the
number of iterations; `processBlock` is handed the address of byte `i`. -/
def finalize_loop : Nat → Nat → List Nat → List Nat → List Nat
  | 0, _, H, _ => H
  | fuel + 1, i, H, buffer =>
    if i < buffer.length then finalize_loop fuel (i + 64) (processBlock H (buffer.drop i)) buffer
    else H

/-- What `ss << std::hex << std::setfill('0') << std::setw(8) << w` appends: the hexadecimal
digits of `w` in lower case, padded on the left with `0` to a width of 8. -/
def stream_hex8 (w : Nat) : List Char :=
  let digits := Nat.toDigits 16 w
  List.replicate (8 - digits.length) '0' ++ digits

/-- The function `finalize`: the returned string and the state it leaves. -/
def finalize (st : State) : List Char × State :=
  let st := padMessage st
  let H := finalize_loop st.buffer.length 0 st.H st.buffer
  let ss := Nat.fold (fun i ss => ss ++ stream_hex8 (H.getD i 0)) 8 []
  (ss, { st with H := H })

/-- The function `rotl` with the limits of the C++ shift operators made explicit: on a
`uint32_t` both `x << n` and `x >> (32 - n)` are defined only for a count in `0 .. 31`; `none`
stands for a call that leaves this range. -/
def rotl_checked (x : Nat) (n : Nat) : Option Nat :=
  if n < 32 ∧ 32 - n < 32 then some (rotl x n) else none

/-- The function `P0` over `rotl_checked`. -/
def P0_checked (x : Nat) : Option Nat := do
  let r9 ← rotl_checked x 9
  let r17 ← rotl_checked x 17
  pure (x ^^^ r9 ^^^ r17)

/-- The macro `ROUND(j, FF_func, GG_func)` over `rotl_checked`: `none` as soon as one of its
calls of `rotl` shifts out of range. -/
def ROUND_checked (j : Nat) (FF_func GG_func : Nat → Nat → Nat → Nat) (W W_prime : List Nat)
    (v : SM3_Vars) : Option SM3_Vars := do
  let a12 ← rotl_checked v.A 12
  let t ← rotl_checked (Tj j) (j % 32)
  let SS1 ← rotl_checked ((a12 + v.E + t) % 2 ^ 32) 7
  let a12b ← rotl_checked v.A 12
  let SS2 := SS1 ^^^ a12b
  let TT1 := (FF_func v.A v.B v.C + v.D + SS2 + W_prime.getD j 0) % 2 ^ 32
  let TT2 := (GG_func v.E v.F v.G + v.H_var + SS1 + W.getD j 0) % 2 ^ 32
  let D := v.C
  let C ← rotl_checked v.B 9
  let B := v.A
  let A := TT1
  let H_var := v.G
  let G ← rotl_checked v.F 19
  let F := v.E
  let E ← P0_checked TT2
  pure { A := A, B := B, C := C, D := D, E := E, F := F, G := G, H_var := H_var }

end SM3_Unrolled

/-- The bytes of all the arguments of a sequence of `update` calls, in order. -/
def concatInputs (ds : List (List Nat)) : List Nat :=
  ds.foldr (fun d acc => d ++ acc) []

/-- The big-endian encoding of a 64-bit value in eight bytes. -/
def spec_be64 (x : Nat) : List Nat :=
  [x / 2 ^ 56 % 256, x / 2 ^ 48 % 256, x / 2 ^ 40 % 256, x / 2 ^ 32 % 256, x / 2 ^ 24 % 256,
    x / 2 ^ 16 % 256, x / 2 ^ 8 % 256, x % 256]

/-- The three bytes of the message `abc`. -/
def sampleAbc : List Nat := [0x61, 0x62, 0x63]

/-- Register `i` of four registers; `i` is 0, 1, 2 or 3. -/
def quadReg (x : M128 × M128 × M128 × M128) (i : Nat) : M128 :=
  match i with
  | 0 => x.1
  | 1 => x.2.1
  | 2 => x.2.2.1
  | _ => x.2.2.2

/-- Four registers with distinct words. -/
def sampleQuad : M128 × M128 × M128 × M128 :=
  ([0, 1, 2, 3, 4, 5, 6, 7, 8, 9, 10, 11, 12, 13, 14, 15],
    [16, 17, 18, 19, 20, 21, 22, 23, 24, 25, 26, 27, 28, 29, 30, 31],
    [32, 33, 34, 35, 36, 37, 38, 39, 40, 41, 42, 43, 44, 45, 46, 47],
    [48, 49, 50, 51, 52, 53, 54, 55, 56, 57, 58, 59, 60, 61, 62, 63])

/-! ## Lemmas -/

theorem nat_fold_succ {α : Type} (f : Nat → α → α) (n : Nat) (a : α) :
    Nat.fold f (n + 1) a = f n (Nat.fold f n a) := rfl

theorem nat_fold_zero {α : Type} (f : Nat → α → α) (a : α) : Nat.fold f 0 a = a := rfl

theorem getD_set_ne (X : List Nat) (i j v : Nat) (h : i ≠ j) :
    (X.set i v).getD j 0 = X.getD j 0 := by
  simp [List.getD_eq_getElem?_getD, List.getElem?_set, h]

theorem getD_set_eq (X : List Nat) (i v : Nat) (h : i < X.length) :
    (X.set i v).getD i 0 = v := by
  simp [List.getD_eq_getElem?_getD, List.getElem?_set, h]

/-- The array loop keeps the last four written words equal to the window. -/
theorem arrayLoop_window (F : Nat → Nat) (kf : Nat → Nat) (X0 : List Nat) (h : X0.length = 36)
    (n : Nat) (hn : n ≤ 32) :
    (Nat.fold (arrayStep F kf) n X0).length = 36 ∧
    windowAt (Nat.fold (arrayStep F kf) n X0) n = feistelRounds F kf n (windowAt X0 0) := by
  induction n with
  | zero => exact ⟨h, rfl⟩
  | succ n ih =>
    obtain ⟨hl, hw⟩ := ih (by omega)
    refine ⟨by rw [nat_fold_succ, arrayStep, List.length_set]; exact hl, ?_⟩
    rw [nat_fold_succ, feistelRounds, ← hw]
    simp only [feistelStep, windowAt, arrayStep]
    rw [getD_set_ne _ _ _ _ (by omega), getD_set_ne _ _ _ _ (by omega),
      getD_set_ne _ _ _ _ (by omega), getD_set_eq _ _ _ (by omega)]

theorem feistelStep_rev (F : Nat → Nat) (k : Nat) (s : Nat × Nat × Nat × Nat) :
    feistelStep F k (revWindow (feistelStep F k s)) = revWindow s := by
  obtain ⟨a, b, c, d⟩ := s
  simp only [feistelStep, revWindow]
  have h : d ^^^ c ^^^ b ^^^ k = b ^^^ c ^^^ d ^^^ k := by ac_rfl
  rw [h, Nat.xor_assoc, Nat.xor_self, Nat.xor_zero]

/-- Running the rounds with the keys in reverse order undoes them, up to window reversal. -/
theorem feistelRounds_rev (F : Nat → Nat) (kf : Nat → Nat) (N : Nat) (s : Nat × Nat × Nat × Nat)
    (n : Nat) (hn : n ≤ N) :
    feistelRounds F (fun i => kf (N - 1 - i)) n (revWindow (feistelRounds F kf N s)) =
      revWindow (feistelRounds F kf (N - n) s) := by
  induction n with
  | zero => rfl
  | succ n ih =>
    have h1 : N - n = (N - (n + 1)) + 1 := by omega
    have h2 : N - 1 - n = N - (n + 1) := by omega
    rw [feistelRounds, ih (by omega), h1, feistelRounds, h2]
    exact feistelStep_rev F _ _

theorem and_255 (x : Nat) : x &&& 0xFF = x % 256 := Nat.and_pow_two_sub_one_eq_mod x 8

theorem and_15 (x : Nat) : x &&& 0x0F = x % 16 := Nat.and_pow_two_sub_one_eq_mod x 4

theorem testBit_div_two_pow (x k i : Nat) : (x / 2 ^ k).testBit i = x.testBit (k + i) := by
  rw [← Nat.shiftRight_eq_div_pow, Nat.testBit_shiftRight]

theorem xor_div_two_pow (a b k : Nat) : (a ^^^ b) / 2 ^ k = a / 2 ^ k ^^^ b / 2 ^ k := by
  apply Nat.eq_of_testBit_eq
  intro i
  simp [testBit_div_two_pow]

theorem xor_mod_two_pow (a b k : Nat) : (a ^^^ b) % 2 ^ k = a % 2 ^ k ^^^ b % 2 ^ k := by
  apply Nat.eq_of_testBit_eq
  intro i
  simp only [Nat.testBit_mod_two_pow, Nat.testBit_xor]
  cases decide (i < k) <;> simp

/-- Four bytes joined by shifts and ors are the big-endian number. -/
theorem be_or_eq (b0 b1 b2 b3 : Nat) (h1 : b1 < 256) (h2 : b2 < 256) (h3 : b3 < 256) :
    (b0 <<< 24) ||| (b1 <<< 16) ||| (b2 <<< 8) ||| b3 =
      16777216 * b0 + 65536 * b1 + 256 * b2 + b3 := by
  have e3 : 2 ^ 8 * b2 ||| b3 = 2 ^ 8 * b2 + b3 := (Nat.mul_add_lt_is_or (by simpa using h3) _).symm
  have e2 : 2 ^ 16 * b1 ||| (2 ^ 8 * b2 + b3) = 2 ^ 16 * b1 + (2 ^ 8 * b2 + b3) :=
    (Nat.mul_add_lt_is_or (by norm_num; omega) _).symm
  have e1 : 2 ^ 24 * b0 ||| (2 ^ 16 * b1 + (2 ^ 8 * b2 + b3)) =
      2 ^ 24 * b0 + (2 ^ 16 * b1 + (2 ^ 8 * b2 + b3)) :=
    (Nat.mul_add_lt_is_or (by norm_num; omega) _).symm
  rw [Nat.shiftLeft_eq, Nat.shiftLeft_eq, Nat.shiftLeft_eq, Nat.or_assoc, Nat.or_assoc,
    Nat.mul_comm b0, Nat.mul_comm b1, Nat.mul_comm b2, e3, e2, e1]
  omega

theorem uint32_to_bytes_eq (v : Nat) :
    SM4.uint32_to_bytes v = [v / 16777216 % 256, v / 65536 % 256, v / 256 % 256, v % 256] := by
  simp only [SM4.uint32_to_bytes, and_255, Nat.shiftRight_eq_div_pow]

theorem bytes_to_uint32_eq (P : List Nat) (off : Nat) (h : ∀ b ∈ P, b < 256) :
    SM4.bytes_to_uint32 P off =
      16777216 * P.getD off 0 + 65536 * P.getD (off + 1) 0 + 256 * P.getD (off + 2) 0 +
        P.getD (off + 3) 0 := by
  have hb : ∀ i, P.getD i 0 < 256 := by
    intro i
    rw [List.getD_eq_getElem?_getD]
    cases hi : P[i]? with
    | none => simp
    | some b => simp; exact h b (List.getElem?_mem hi)
  exact be_or_eq _ _ _ _ (hb _) (hb _) (hb _)

theorem getD_lt_of_forall {P : List Nat} {n : Nat} (h : ∀ b ∈ P, b < n) (hn : 0 < n) (i : Nat) :
    P.getD i 0 < n := by
  rw [List.getD_eq_getElem?_getD]
  cases hi : P[i]? with
  | none => simpa using hn
  | some b => simpa using h b (List.getElem?_mem hi)

theorem SBOX_getD_lt (b : Nat) : SM4.SBOX.getD b 0 < 256 :=
  getD_lt_of_forall (by decide) (by decide) b

theorem tau_eq (A : Nat) :
    SM4.tau A = 16777216 * SM4.SBOX.getD (A / 16777216 % 256) 0 +
      65536 * SM4.SBOX.getD (A / 65536 % 256) 0 + 256 * SM4.SBOX.getD (A / 256 % 256) 0 +
      SM4.SBOX.getD (A % 256) 0 := by
  simp only [SM4.tau, and_255, Nat.shiftRight_eq_div_pow]
  rw [be_or_eq _ _ _ _ (SBOX_getD_lt _) (SBOX_getD_lt _) (SBOX_getD_lt _)]

theorem tau_lt (A : Nat) : SM4.tau A < 2 ^ 32 := by
  rw [tau_eq]
  have h0 := SBOX_getD_lt (A / 16777216 % 256)
  have h1 := SBOX_getD_lt (A / 65536 % 256)
  have h2 := SBOX_getD_lt (A / 256 % 256)
  have h3 := SBOX_getD_lt (A % 256)
  omega

theorem left_rotate_lt (v n : Nat) (hv : v < 2 ^ 32) : SM4.left_rotate v n < 2 ^ 32 := by
  unfold SM4.left_rotate
  apply Nat.or_lt_two_pow
  · exact Nat.mod_lt _ (by norm_num)
  · rw [Nat.shiftRight_eq_div_pow]
    exact lt_of_le_of_lt (Nat.div_le_self _ _) hv

theorem L_lt (B : Nat) (hB : B < 2 ^ 32) : SM4.L B < 2 ^ 32 := by
  unfold SM4.L
  exact Nat.xor_lt_two_pow (Nat.xor_lt_two_pow (Nat.xor_lt_two_pow (Nat.xor_lt_two_pow hB
    (left_rotate_lt _ _ hB)) (left_rotate_lt _ _ hB)) (left_rotate_lt _ _ hB))
    (left_rotate_lt _ _ hB)

theorem L_prime_lt (B : Nat) (hB : B < 2 ^ 32) : SM4.L_prime B < 2 ^ 32 := by
  unfold SM4.L_prime
  exact Nat.xor_lt_two_pow (Nat.xor_lt_two_pow hB (left_rotate_lt _ _ hB)) (left_rotate_lt _ _ hB)

theorem T_lt (X : Nat) : SM4.T X < 2 ^ 32 := L_lt _ (tau_lt X)

theorem T_prime_lt (X : Nat) : SM4.T_prime X < 2 ^ 32 := L_prime_lt _ (tau_lt X)

theorem feistelStep_window32 (F : Nat → Nat) (hF : ∀ x, F x < 2 ^ 32) (k : Nat)
    (s : Nat × Nat × Nat × Nat) (hs : Window32 s) : Window32 (feistelStep F k s) := by
  obtain ⟨h0, h1, h2, h3⟩ := hs
  exact ⟨h1, h2, h3, Nat.xor_lt_two_pow h0 (hF _)⟩

theorem feistelRounds_window32 (F : Nat → Nat) (hF : ∀ x, F x < 2 ^ 32) (kf : Nat → Nat)
    (n : Nat) (s : Nat × Nat × Nat × Nat) (hs : Window32 s) :
    Window32 (feistelRounds F kf n s) := by
  induction n with
  | zero => exact hs
  | succ n ih => exact feistelStep_window32 F hF _ _ ih

theorem feistelRounds_congr (F : Nat → Nat) (kf kg : Nat → Nat) (n : Nat)
    (s : Nat × Nat × Nat × Nat) (h : ∀ i, i < n → kf i = kg i) :
    feistelRounds F kf n s = feistelRounds F kg n s := by
  induction n with
  | zero => rfl
  | succ n ih =>
    rw [feistelRounds, feistelRounds, ih (fun i hi => h i (by omega)), h n (by omega)]

theorem bytes_to_uint32_lt (P : List Nat) (off : Nat) (h : ∀ b ∈ P, b < 256) :
    SM4.bytes_to_uint32 P off < 2 ^ 32 := by
  rw [bytes_to_uint32_eq _ _ h]
  have hb := getD_lt_of_forall h (by decide)
  have h0 := hb off
  have h1 := hb (off + 1)
  have h2 := hb (off + 2)
  have h3 := hb (off + 3)
  omega

theorem blockWords_window32 (P : List Nat) (h : ∀ b ∈ P, b < 256) : Window32 (blockWords P) :=
  ⟨bytes_to_uint32_lt _ _ h, bytes_to_uint32_lt _ _ h, bytes_to_uint32_lt _ _ h,
    bytes_to_uint32_lt _ _ h⟩

theorem wordsBlock_length (s : Nat × Nat × Nat × Nat) : (wordsBlock s).length = 16 := by
  simp [wordsBlock, SM4.uint32_to_bytes]

theorem wordsBlock_lt (s : Nat × Nat × Nat × Nat) : ∀ b ∈ wordsBlock s, b < 256 := by
  intro b hb
  simp only [wordsBlock, uint32_to_bytes_eq, List.mem_append, List.mem_cons, List.mem_singleton,
    List.not_mem_nil, or_false] at hb
  omega

theorem blockWords_wordsBlock (s : Nat × Nat × Nat × Nat) (hs : Window32 s) :
    blockWords (wordsBlock s) = s := by
  obtain ⟨a, b, c, d⟩ := s
  obtain ⟨ha, hb, hc, hd⟩ := hs
  simp only [blockWords, bytes_to_uint32_eq _ _ (wordsBlock_lt _)]
  simp only [wordsBlock, uint32_to_bytes_eq]
  simp only [List.cons_append, List.nil_append, List.getD_cons_zero, List.getD_cons_succ]
  simp only [Prod.mk.injEq]
  norm_num at ha hb hc hd
  refine ⟨?_, ?_, ?_, ?_⟩ <;> omega

theorem wordsBlock_blockWords (P : List Nat) (hl : P.length = 16) (h : ∀ b ∈ P, b < 256) :
    wordsBlock (blockWords P) = P := by
  simp only [wordsBlock, blockWords, bytes_to_uint32_eq _ _ h, uint32_to_bytes_eq]
  match P, hl with
  | [b0, b1, b2, b3, b4, b5, b6, b7, b8, b9, b10, b11, b12, b13, b14, b15], _ =>
    simp only [List.mem_cons, List.mem_singleton, List.not_mem_nil, or_false, forall_eq_or_imp,
      forall_eq] at h
    simp only [List.getD_cons_zero, List.getD_cons_succ, List.cons_append, List.nil_append,
      List.cons.injEq, and_true]
    refine ⟨?_, ?_, ?_, ?_, ?_, ?_, ?_, ?_, ?_, ?_, ?_, ?_, ?_, ?_, ?_, ?_⟩ <;> omega

/-- The reference `encrypt_block` is the window recurrence between decoding and encoding. -/
theorem encrypt_block_eq (P rk : List Nat) :
    SM4.encrypt_block P rk =
      wordsBlock (revWindow (feistelRounds SM4.T (fun i => rk.getD i 0) 32 (blockWords P))) := by
  have h := arrayLoop_window SM4.T (fun i => rk.getD i 0)
    (Nat.fold (fun i X => X.set i (SM4.bytes_to_uint32 P (i * 4))) 4 (List.replicate 36 0))
    rfl 32 (le_refl _)
  have hw : windowAt
      (Nat.fold (fun i X => X.set i (SM4.bytes_to_uint32 P (i * 4))) 4 (List.replicate 36 0)) 0 =
      blockWords P := rfl
  rw [hw] at h
  rw [← h.2]
  simp only [SM4.encrypt_block, wordsBlock, revWindow, windowAt]
  rfl

theorem reverse_getD (rk : List Nat) (h : rk.length = 32) (i : Nat) (hi : i < 32) :
    rk.reverse.getD i 0 = rk.getD (32 - 1 - i) 0 := by
  simp only [List.getD_eq_getElem?_getD]
  rw [List.getElem?_reverse (by omega), h]

theorem decrypt_encrypt_block (P rk : List Nat) (hP : P.length = 16) (hb : ∀ b ∈ P, b < 256)
    (hrk : rk.length = 32) :
    SM4.decrypt_block (SM4.encrypt_block P rk) rk = P := by
  rw [SM4.decrypt_block, encrypt_block_eq, encrypt_block_eq]
  rw [blockWords_wordsBlock]
  · rw [feistelRounds_congr SM4.T (fun i => rk.reverse.getD i 0)
      (fun i => (fun j => rk.getD j 0) (32 - 1 - i)) 32 _ (fun i hi => reverse_getD rk hrk i hi)]
    rw [feistelRounds_rev SM4.T (fun j => rk.getD j 0) 32 _ 32 (le_refl _)]
    exact wordsBlock_blockWords P hP hb
  · obtain ⟨h0, h1, h2, h3⟩ := feistelRounds_window32 SM4.T T_lt (fun i => rk.getD i 0) 32 _
      (blockWords_window32 P hb)
    exact ⟨h3, h2, h1, h0⟩

theorem c0f_eq : SM4_AESNI.c0f = [15, 15, 15, 15, 15, 15, 15, 15, 15, 15, 15, 15, 15, 15, 15, 15] := by
  decide

theorem shr_eq : SM4_AESNI.shr = [0, 13, 10, 7, 4, 1, 14, 11, 8, 5, 2, 15, 12, 9, 6, 3] := by
  decide

theorem and_c0f (x : M128) (hl : x.length = 16) :
    _mm_and_si128 x SM4_AESNI.c0f = x.map (fun b => b % 16) := by
  match x, hl with
  | [b0, b1, b2, b3, b4, b5, b6, b7, b8, b9, b10, b11, b12, b13, b14, b15], _ =>
    rw [c0f_eq]
    simp only [_mm_and_si128, List.zipWith, List.map, and_15]

theorem andnot_c0f (x : M128) (hl : x.length = 16) :
    _mm_andnot_si128 x SM4_AESNI.c0f = x.map (fun b => (255 - b) &&& 15) := by
  match x, hl with
  | [b0, b1, b2, b3, b4, b5, b6, b7, b8, b9, b10, b11, b12, b13, b14, b15], _ =>
    rw [c0f_eq]
    simp only [_mm_andnot_si128, List.zipWith, List.map]

theorem nibble_mask : ∀ m, m < 16 → m &&& 0x80 = 0 ∧ m &&& 0x0F = m := by decide

theorem shuffle_lookup (t y : M128) (hy : ∀ m ∈ y, m < 16) :
    _mm_shuffle_epi8 t y = y.map (fun m => t.getD m 0) := by
  unfold _mm_shuffle_epi8
  apply List.map_congr_left
  intro m hm
  obtain ⟨h1, h2⟩ := nibble_mask m (hy m hm)
  rw [h1, h2]
  simp

theorem srli4_and_c0f (x : M128) (hl : x.length = 16) (hb : ∀ b ∈ x, b < 256) :
    _mm_and_si128 (_mm_srli_epi64 x 4) SM4_AESNI.c0f = x.map (fun b => b / 16) := by
  match x, hl with
  | [b0, b1, b2, b3, b4, b5, b6, b7, b8, b9, b10, b11, b12, b13, b14, b15], _ =>
    simp only [List.mem_cons, List.mem_singleton, List.not_mem_nil, or_false, forall_eq_or_imp,
      forall_eq] at hb
    rw [c0f_eq]
    simp only [_mm_and_si128, _mm_srli_epi64, bytes64, bytes32, lane64, lane32,
      List.zipWith, List.map, and_15, List.getD_cons_zero, List.getD_cons_succ,
      List.cons_append, List.nil_append, Nat.shiftRight_eq_div_pow, List.cons.injEq, and_true,
      Nat.reduceMul, Nat.reduceAdd, Nat.reducePow]
    refine ⟨?_, ?_, ?_, ?_, ?_, ?_, ?_, ?_, ?_, ?_, ?_, ?_, ?_, ?_, ?_, ?_⟩ <;> omega

theorem aesenclast_shr (x : M128) (hl : x.length = 16) :
    _mm_aesenclast_si128 (_mm_shuffle_epi8 x SM4_AESNI.shr) SM4_AESNI.c0f =
      x.map (fun b => aes_sbox b ^^^ 15) := by
  match x, hl with
  | [b0, b1, b2, b3, b4, b5, b6, b7, b8, b9, b10, b11, b12, b13, b14, b15], _ =>
    rw [shr_eq, c0f_eq]
    rfl

theorem affine_byte_lt (q x c : Nat) : affine_byte q x c < 256 := by
  simp only [affine_byte, nat_fold_succ, nat_fold_zero]
  omega

theorem aes_sbox_lt (x : Nat) : aes_sbox x < 256 := affine_byte_lt _ _ _

theorem m1l_lt : ∀ b ∈ SM4_AESNI.m1l, b < 256 := by decide

theorem m1h_lt : ∀ b ∈ SM4_AESNI.m1h, b < 256 := by decide

theorem xor_lt_256 {a b : Nat} (ha : a < 256) (hb : b < 256) : a ^^^ b < 256 :=
  Nat.xor_lt_two_pow (n := 8) ha hb

theorem zipWith_map_map {α : Type} (f g : α → Nat) (h : Nat → Nat → Nat) (x : List α) :
    List.zipWith h (x.map f) (x.map g) = x.map (fun b => h (f b) (g b)) := by
  induction x with
  | nil => rfl
  | cons a x ih => simp [ih]

/-- The register-level S-box is the byte function applied to each of the 16 bytes. -/
theorem sm4_sbox_4x_aesni_map (x : M128) (hl : x.length = 16) (hb : ∀ b ∈ x, b < 256) :
    SM4_AESNI.sm4_sbox_4x_aesni x = x.map aesni_sbox_byte := by
  have hlo : ∀ m ∈ x.map (fun b => b % 16), m < 16 := by
    intro m hm
    obtain ⟨b, _, rfl⟩ := List.mem_map.1 hm
    exact Nat.mod_lt _ (by decide)
  have hhi : ∀ m ∈ x.map (fun b => b / 16), m < 16 := by
    intro m hm
    obtain ⟨b, hb', rfl⟩ := List.mem_map.1 hm
    have := hb b hb'
    omega
  have h1 : _mm_xor_si128
      (_mm_shuffle_epi8 SM4_AESNI.m1h (_mm_and_si128 (_mm_srli_epi64 x 4) SM4_AESNI.c0f))
      (_mm_shuffle_epi8 SM4_AESNI.m1l (_mm_and_si128 x SM4_AESNI.c0f)) =
      x.map (fun b => SM4_AESNI.m1h.getD (b / 16) 0 ^^^ SM4_AESNI.m1l.getD (b % 16) 0) := by
    rw [srli4_and_c0f x hl hb, and_c0f x hl, shuffle_lookup _ _ hlo, shuffle_lookup _ _ hhi]
    simp only [List.map_map]
    rw [_mm_xor_si128, zipWith_map_map]
    rfl
  have hp : ∀ p ∈ x.map (fun b => SM4_AESNI.m1h.getD (b / 16) 0 ^^^ SM4_AESNI.m1l.getD (b % 16) 0),
      p < 256 := by
    intro p hp
    obtain ⟨b, _, rfl⟩ := List.mem_map.1 hp
    exact xor_lt_256 (getD_lt_of_forall m1h_lt (by decide) _)
      (getD_lt_of_forall m1l_lt (by decide) _)
  have h2 := aesenclast_shr _ (by simpa using hl :
    (x.map (fun b => SM4_AESNI.m1h.getD (b / 16) 0 ^^^ SM4_AESNI.m1l.getD (b % 16) 0)).length = 16)
  rw [List.map_map] at h2
  have ha : ∀ a ∈ x.map ((fun b => aes_sbox b ^^^ 15) ∘
      (fun b => SM4_AESNI.m1h.getD (b / 16) 0 ^^^ SM4_AESNI.m1l.getD (b % 16) 0)), a < 256 := by
    intro a ha
    obtain ⟨b, _, rfl⟩ := List.mem_map.1 ha
    exact xor_lt_256 (aes_sbox_lt _) (by decide)
  have hal : (x.map ((fun b => aes_sbox b ^^^ 15) ∘
      (fun b => SM4_AESNI.m1h.getD (b / 16) 0 ^^^ SM4_AESNI.m1l.getD (b % 16) 0))).length = 16 := by
    simpa using hl
  have hlo2 : ∀ m ∈ (x.map ((fun b => aes_sbox b ^^^ 15) ∘
      (fun b => SM4_AESNI.m1h.getD (b / 16) 0 ^^^ SM4_AESNI.m1l.getD (b % 16) 0))).map
        (fun b => (255 - b) &&& 15), m < 16 := by
    intro m hm
    obtain ⟨b, _, rfl⟩ := List.mem_map.1 hm
    rw [and_15]
    exact Nat.mod_lt _ (by decide)
  have hhi2 : ∀ m ∈ (x.map ((fun b => aes_sbox b ^^^ 15) ∘
      (fun b => SM4_AESNI.m1h.getD (b / 16) 0 ^^^ SM4_AESNI.m1l.getD (b % 16) 0))).map
        (fun b => b / 16), m < 16 := by
    intro m hm
    obtain ⟨b, hb', rfl⟩ := List.mem_map.1 hm
    have := ha b hb'
    omega
  unfold SM4_AESNI.sm4_sbox_4x_aesni
  simp only []
  rw [h1, h2, srli4_and_c0f _ hal ha, andnot_c0f _ hal, shuffle_lookup _ _ hlo2,
    shuffle_lookup _ _ hhi2]
  simp only [List.map_map]
  rw [_mm_xor_si128, zipWith_map_map]
  rfl

theorem aesni_sbox_byte_eq : ∀ b, b < 256 → aesni_sbox_byte b = SM4.SBOX.getD b 0 := by
  decide!

theorem and_255_lt (x : Nat) : x &&& 0xFF < 256 := by
  rw [and_255]
  exact Nat.mod_lt _ (by decide)

/-- The AES-NI substitution of a word is the table substitution. -/
theorem tau_aesni_eq_tau (A : Nat) : SM4_AESNI.tau_aesni A = SM4.tau A := by
  have hv : _mm_load_si128 ((((List.replicate 16 0).set 0 ((A >>> 24) &&& 0xFF)).set 1
      ((A >>> 16) &&& 0xFF)).set 2 ((A >>> 8) &&& 0xFF) |>.set 3 (A &&& 0xFF)) =
      [(A >>> 24) &&& 0xFF, (A >>> 16) &&& 0xFF, (A >>> 8) &&& 0xFF, A &&& 0xFF,
        0, 0, 0, 0, 0, 0, 0, 0, 0, 0, 0, 0] := rfl
  have hb : ∀ b ∈ [(A >>> 24) &&& 0xFF, (A >>> 16) &&& 0xFF, (A >>> 8) &&& 0xFF, A &&& 0xFF,
      0, 0, 0, 0, 0, 0, 0, 0, 0, 0, 0, 0], b < 256 := by
    intro b hb
    simp only [List.mem_cons, List.mem_singleton, List.not_mem_nil, or_false] at hb
    rcases hb with h | h | h | h | h | h | h | h | h | h | h | h | h | h | h | h <;> subst h <;>
      first | exact and_255_lt _ | decide
  unfold SM4_AESNI.tau_aesni
  simp only []
  rw [hv, sm4_sbox_4x_aesni_map _ (by rfl) hb]
  simp only [List.map, List.getD_cons_zero, List.getD_cons_succ]
  rw [aesni_sbox_byte_eq _ (and_255_lt _), aesni_sbox_byte_eq _ (and_255_lt _),
    aesni_sbox_byte_eq _ (and_255_lt _), aesni_sbox_byte_eq _ (and_255_lt _)]
  rfl

theorem T_aesni_eq : SM4_AESNI.T = SM4.T := by
  funext X
  simp only [SM4_AESNI.T, SM4.T, tau_aesni_eq_tau]
  rfl

theorem T_prime_aesni_eq : SM4_AESNI.T_prime = SM4.T_prime := by
  funext X
  simp only [SM4_AESNI.T_prime, SM4.T_prime, tau_aesni_eq_tau]
  rfl

theorem key_schedule_aesni_eq (key : List Nat) :
    SM4_AESNI.key_schedule key = SM4.key_schedule key := by
  unfold SM4_AESNI.key_schedule SM4.key_schedule
  rw [T_prime_aesni_eq]
  rfl

theorem testBit_eq_false_of_lt_le {x n i : Nat} (hx : x < 2 ^ n) (hi : n ≤ i) :
    x.testBit i = false :=
  Nat.testBit_lt_two_pow (lt_of_lt_of_le hx (Nat.pow_le_pow_right (by decide) hi))

/-- Bit `j` of a rotated 32-bit word. -/
theorem testBit_left_rotate (v n j : Nat) (hn : 0 < n) (hn2 : n < 32) (hv : v < 2 ^ 32) :
    (SM4.left_rotate v n).testBit j =
      if j < n then v.testBit (32 - n + j) else (decide (j < 32) && v.testBit (j - n)) := by
  unfold SM4.left_rotate
  rw [Nat.testBit_or, Nat.testBit_mod_two_pow, Nat.testBit_shiftLeft, Nat.testBit_shiftRight]
  by_cases hj : j < n
  · have h1 : decide (j ≥ n) = false := by simp; omega
    simp [h1, hj]
  · have h1 : decide (j ≥ n) = true := by simp; omega
    have h2 : v.testBit (32 - n + j) = false := testBit_eq_false_of_lt_le hv (by omega)
    simp [h1, hj, h2]

theorem left_rotate_xor (a b n : Nat) (hn : 0 < n) (hn2 : n < 32) (ha : a < 2 ^ 32)
    (hb : b < 2 ^ 32) :
    SM4.left_rotate (a ^^^ b) n = SM4.left_rotate a n ^^^ SM4.left_rotate b n := by
  apply Nat.eq_of_testBit_eq
  intro j
  rw [Nat.testBit_xor, testBit_left_rotate _ _ _ hn hn2 (Nat.xor_lt_two_pow ha hb),
    testBit_left_rotate _ _ _ hn hn2 ha, testBit_left_rotate _ _ _ hn hn2 hb]
  by_cases hj : j < n
  · simp [hj]
  · by_cases hj2 : j < 32 <;> simp [hj, hj2]

theorem left_rotate_left_rotate (v m n : Nat) (hm : 0 < m) (hn : 0 < n) (hmn : m + n < 32)
    (hv : v < 2 ^ 32) :
    SM4.left_rotate (SM4.left_rotate v m) n = SM4.left_rotate v (m + n) := by
  apply Nat.eq_of_testBit_eq
  intro j
  rw [testBit_left_rotate _ _ _ hn (by omega) (left_rotate_lt _ _ hv),
    testBit_left_rotate _ _ _ hm (by omega) hv, testBit_left_rotate _ _ _ hm (by omega) hv,
    testBit_left_rotate _ _ _ (by omega) hmn hv]
  by_cases h1 : j < n
  · have h2 : ¬ (32 - n + j < m) := by omega
    have h3 : j < m + n := by omega
    have h4 : 32 - n + j < 32 := by omega
    have h5 : 32 - n + j - m = 32 - (m + n) + j := by omega
    simp [h1, h2, h3, h4, h5]
  · by_cases h2 : j - n < m
    · have h3 : j < m + n := by omega
      have h4 : j < 32 := by omega
      have h5 : 32 - m + (j - n) = 32 - (m + n) + j := by omega
      simp [h1, h2, h3, h4, h5]
    · have h3 : ¬ (j < m + n) := by omega
      have h5 : j - n - m = j - (m + n) := by omega
      by_cases h4 : j < 32
      · have h6 : j - n < 32 := by omega
        simp [h1, h2, h3, h4, h5, h6]
      · simp [h1, h2, h3, h4, h5]

/-- The rotation by two written with an exclusive-or, as the AES-NI kernel has it. -/
theorem shl_xor_shr_eq (y : Nat) (hy : y < 2 ^ 32) :
    ((y <<< 2) % 2 ^ 32) ^^^ (y >>> 30) = SM4.left_rotate y 2 := by
  apply Nat.eq_of_testBit_eq
  intro j
  rw [testBit_left_rotate _ _ _ (by decide) (by decide) hy, Nat.testBit_xor,
    Nat.testBit_mod_two_pow, Nat.testBit_shiftLeft, Nat.testBit_shiftRight]
  by_cases hj : j < 2
  · have h1 : decide (j ≥ 2) = false := by simp; omega
    simp [h1, hj]
  · have h1 : decide (j ≥ 2) = true := by simp; omega
    have h2 : y.testBit (30 + j) = false := testBit_eq_false_of_lt_le hy (by omega)
    simp [h1, hj, h2]

/-- The linear step of the AES-NI kernel, on one 32-bit lane. -/
theorem aesni_linear_word (x : Nat) (hx : x < 2 ^ 32) :
    x ^^^ ((((x ^^^ SM4.left_rotate x 8 ^^^ SM4.left_rotate x 16) <<< 2) % 2 ^ 32) ^^^
      ((x ^^^ SM4.left_rotate x 8 ^^^ SM4.left_rotate x 16) >>> 30)) ^^^ SM4.left_rotate x 24 =
      SM4.L x := by
  have h8 := left_rotate_lt x 8 hx
  have h16 := left_rotate_lt x 16 hx
  rw [shl_xor_shr_eq _ (Nat.xor_lt_two_pow (Nat.xor_lt_two_pow hx h8) h16),
    left_rotate_xor _ _ _ (by decide) (by decide) (Nat.xor_lt_two_pow hx h8) h16,
    left_rotate_xor _ _ _ (by decide) (by decide) hx h8,
    left_rotate_left_rotate _ 8 2 (by decide) (by decide) (by decide) hx,
    left_rotate_left_rotate _ 16 2 (by decide) (by decide) (by decide) hx]
  simp only [Nat.reduceAdd]
  unfold SM4.L
  ac_rfl

/-- A rotation of a 32-bit word in arithmetic form. -/
theorem left_rotate_eq_add (w n : Nat) (hn : n ≤ 32) (hw : w < 2 ^ 32) :
    SM4.left_rotate w n = 2 ^ n * (w % 2 ^ (32 - n)) + w / 2 ^ (32 - n) := by
  unfold SM4.left_rotate
  have hp : 2 ^ 32 = 2 ^ n * 2 ^ (32 - n) := by
    rw [← Nat.pow_add]
    congr 1
    omega
  have h1 : (w <<< n) % 2 ^ 32 = 2 ^ n * (w % 2 ^ (32 - n)) := by
    rw [Nat.shiftLeft_eq, Nat.mul_comm, hp, Nat.mul_mod_mul_left]
  have h2 : w / 2 ^ (32 - n) < 2 ^ n := by
    rw [Nat.div_lt_iff_lt_mul (Nat.pow_pos (by decide))]
    rw [hp] at hw
    exact hw
  rw [h1, Nat.shiftRight_eq_div_pow, ← Nat.mul_add_lt_is_or h2]

theorem word_decomp (w : Nat) (hw : w < 2 ^ 32) :
    ∃ c0 c1 c2 c3, c0 < 256 ∧ c1 < 256 ∧ c2 < 256 ∧ c3 < 256 ∧
      w = c0 + 256 * c1 + 65536 * c2 + 16777216 * c3 :=
  ⟨w % 256, w / 256 % 256, w / 65536 % 256, w / 16777216, by omega, by omega, by omega,
    by omega, by omega⟩

theorem bytes32_sum (c0 c1 c2 c3 : Nat) (h0 : c0 < 256) (h1 : c1 < 256) (h2 : c2 < 256)
    (h3 : c3 < 256) :
    bytes32 (c0 + 256 * c1 + 65536 * c2 + 16777216 * c3) = [c0, c1, c2, c3] := by
  simp only [bytes32, List.cons.injEq, and_true]
  refine ⟨?_, ?_, ?_, ?_⟩ <;> omega

theorem sum_lt (c0 c1 c2 c3 : Nat) (h0 : c0 < 256) (h1 : c1 < 256) (h2 : c2 < 256)
    (h3 : c3 < 256) : c0 + 256 * c1 + 65536 * c2 + 16777216 * c3 < 2 ^ 32 := by
  omega

theorem left_rotate_sum_8 (c0 c1 c2 c3 : Nat) (h0 : c0 < 256) (h1 : c1 < 256) (h2 : c2 < 256)
    (h3 : c3 < 256) :
    SM4.left_rotate (c0 + 256 * c1 + 65536 * c2 + 16777216 * c3) 8 =
      c3 + 256 * c0 + 65536 * c1 + 16777216 * c2 := by
  rw [left_rotate_eq_add _ 8 (by decide) (sum_lt _ _ _ _ h0 h1 h2 h3)]
  have e1 : (c0 + 256 * c1 + 65536 * c2 + 16777216 * c3) % 16777216 =
      c0 + 256 * c1 + 65536 * c2 := by omega
  have e2 : (c0 + 256 * c1 + 65536 * c2 + 16777216 * c3) / 16777216 = c3 := by omega
  simp only [Nat.reducePow, Nat.reduceSub, e1, e2]
  omega

theorem left_rotate_sum_16 (c0 c1 c2 c3 : Nat) (h0 : c0 < 256) (h1 : c1 < 256) (h2 : c2 < 256)
    (h3 : c3 < 256) :
    SM4.left_rotate (c0 + 256 * c1 + 65536 * c2 + 16777216 * c3) 16 =
      c2 + 256 * c3 + 65536 * c0 + 16777216 * c1 := by
  rw [left_rotate_eq_add _ 16 (by decide) (sum_lt _ _ _ _ h0 h1 h2 h3)]
  have e1 : (c0 + 256 * c1 + 65536 * c2 + 16777216 * c3) % 65536 = c0 + 256 * c1 := by omega
  have e2 : (c0 + 256 * c1 + 65536 * c2 + 16777216 * c3) / 65536 = c2 + 256 * c3 := by omega
  simp only [Nat.reducePow, Nat.reduceSub, e1, e2]
  omega

theorem left_rotate_sum_24 (c0 c1 c2 c3 : Nat) (h0 : c0 < 256) (h1 : c1 < 256) (h2 : c2 < 256)
    (h3 : c3 < 256) :
    SM4.left_rotate (c0 + 256 * c1 + 65536 * c2 + 16777216 * c3) 24 =
      c1 + 256 * c2 + 65536 * c3 + 16777216 * c0 := by
  rw [left_rotate_eq_add _ 24 (by decide) (sum_lt _ _ _ _ h0 h1 h2 h3)]
  have e1 : (c0 + 256 * c1 + 65536 * c2 + 16777216 * c3) % 256 = c0 := by omega
  have e2 : (c0 + 256 * c1 + 65536 * c2 + 16777216 * c3) / 256 =
      c1 + 256 * c2 + 65536 * c3 := by omega
  simp only [Nat.reducePow, Nat.reduceSub, e1, e2]
  omega

theorem xor_byte (a b k : Nat) :
    (a ^^^ b) / 2 ^ k % 2 ^ 8 = (a / 2 ^ k % 2 ^ 8) ^^^ (b / 2 ^ k % 2 ^ 8) := by
  rw [xor_div_two_pow, xor_mod_two_pow]

theorem bytes32_xor (a b : Nat) :
    bytes32 (a ^^^ b) = List.zipWith (fun x y => x ^^^ y) (bytes32 a) (bytes32 b) := by
  have h0 := xor_byte a b 0
  have h1 := xor_byte a b 8
  have h2 := xor_byte a b 16
  have h3 := xor_byte a b 24
  simp only [Nat.reducePow, Nat.div_one] at h0 h1 h2 h3
  simp only [bytes32, List.zipWith, h0, h1, h2, h3]

theorem bytes32_length (w : Nat) : (bytes32 w).length = 4 := rfl

theorem zipWith_append4 (f : Nat → Nat → Nat) (a0 a1 a2 a3 b0 b1 b2 b3 : List Nat)
    (h0 : a0.length = b0.length) (h1 : a1.length = b1.length) (h2 : a2.length = b2.length) :
    List.zipWith f (a0 ++ a1 ++ a2 ++ a3) (b0 ++ b1 ++ b2 ++ b3) =
      List.zipWith f a0 b0 ++ List.zipWith f a1 b1 ++ List.zipWith f a2 b2 ++
        List.zipWith f a3 b3 := by
  rw [List.zipWith_append, List.zipWith_append, List.zipWith_append] <;>
    simp [h0, h1, h2]

theorem xor_setr (a0 a1 a2 a3 b0 b1 b2 b3 : Nat) :
    _mm_xor_si128 (_mm_setr_epi32 a0 a1 a2 a3) (_mm_setr_epi32 b0 b1 b2 b3) =
      _mm_setr_epi32 (a0 ^^^ b0) (a1 ^^^ b1) (a2 ^^^ b2) (a3 ^^^ b3) := by
  unfold _mm_xor_si128 _mm_setr_epi32
  rw [zipWith_append4 _ (bytes32 a0) (bytes32 a1) (bytes32 a2) (bytes32 a3) (bytes32 b0)
    (bytes32 b1) (bytes32 b2) (bytes32 b3) rfl rfl rfl, bytes32_xor, bytes32_xor, bytes32_xor,
    bytes32_xor]

theorem bytes32_lt (w : Nat) : ∀ b ∈ bytes32 w, b < 256 := by
  intro b hb
  simp only [bytes32, List.mem_cons, List.mem_singleton, List.not_mem_nil, or_false] at hb
  omega

theorem setr_length (a0 a1 a2 a3 : Nat) : (_mm_setr_epi32 a0 a1 a2 a3).length = 16 := rfl

theorem setr_lt (a0 a1 a2 a3 : Nat) : ∀ b ∈ _mm_setr_epi32 a0 a1 a2 a3, b < 256 := by
  intro b hb
  simp only [_mm_setr_epi32, List.mem_append] at hb
  rcases hb with ((h | h) | h) | h <;> exact bytes32_lt _ b h

theorem bytes32_tau (w : Nat) :
    bytes32 (SM4.tau w) = (bytes32 w).map (fun b => SM4.SBOX.getD b 0) := by
  rw [tau_eq]
  have h0 := SBOX_getD_lt (w / 16777216 % 256)
  have h1 := SBOX_getD_lt (w / 65536 % 256)
  have h2 := SBOX_getD_lt (w / 256 % 256)
  have h3 := SBOX_getD_lt (w % 256)
  simp only [bytes32, List.map, List.cons.injEq, and_true]
  refine ⟨?_, ?_, ?_, ?_⟩ <;> omega

theorem map_sbox_congr (x : List Nat) (hb : ∀ b ∈ x, b < 256) :
    x.map aesni_sbox_byte = x.map (fun b => SM4.SBOX.getD b 0) :=
  List.map_congr_left (fun b h => aesni_sbox_byte_eq b (hb b h))

/-- The register-level S-box on four packed words is `tau` on each word. -/
theorem sm4_sbox_4x_aesni_setr (w0 w1 w2 w3 : Nat) :
    SM4_AESNI.sm4_sbox_4x_aesni (_mm_setr_epi32 w0 w1 w2 w3) =
      _mm_setr_epi32 (SM4.tau w0) (SM4.tau w1) (SM4.tau w2) (SM4.tau w3) := by
  rw [sm4_sbox_4x_aesni_map _ (setr_length _ _ _ _) (setr_lt _ _ _ _),
    map_sbox_congr _ (setr_lt _ _ _ _)]
  simp only [_mm_setr_epi32, List.map_append, bytes32_tau]

theorem bytes32_left_rotate_8 (w : Nat) (hw : w < 2 ^ 32) :
    bytes32 (SM4.left_rotate w 8) =
      [w / 16777216 % 256, w % 256, w / 256 % 256, w / 65536 % 256] := by
  obtain ⟨c0, c1, c2, c3, h0, h1, h2, h3, rfl⟩ := word_decomp w hw
  rw [left_rotate_sum_8 _ _ _ _ h0 h1 h2 h3, bytes32_sum _ _ _ _ h3 h0 h1 h2]
  simp only [List.cons.injEq, and_true]
  refine ⟨?_, ?_, ?_, ?_⟩ <;> omega

theorem bytes32_left_rotate_16 (w : Nat) (hw : w < 2 ^ 32) :
    bytes32 (SM4.left_rotate w 16) =
      [w / 65536 % 256, w / 16777216 % 256, w % 256, w / 256 % 256] := by
  obtain ⟨c0, c1, c2, c3, h0, h1, h2, h3, rfl⟩ := word_decomp w hw
  rw [left_rotate_sum_16 _ _ _ _ h0 h1 h2 h3, bytes32_sum _ _ _ _ h2 h3 h0 h1]
  simp only [List.cons.injEq, and_true]
  refine ⟨?_, ?_, ?_, ?_⟩ <;> omega

theorem bytes32_left_rotate_24 (w : Nat) (hw : w < 2 ^ 32) :
    bytes32 (SM4.left_rotate w 24) =
      [w / 256 % 256, w / 65536 % 256, w / 16777216 % 256, w % 256] := by
  obtain ⟨c0, c1, c2, c3, h0, h1, h2, h3, rfl⟩ := word_decomp w hw
  rw [left_rotate_sum_24 _ _ _ _ h0 h1 h2 h3, bytes32_sum _ _ _ _ h1 h2 h3 h0]
  simp only [List.cons.injEq, and_true]
  refine ⟨?_, ?_, ?_, ?_⟩ <;> omega

theorem r08_eq : SM4_AESNI.r08 = [3, 0, 1, 2, 7, 4, 5, 6, 11, 8, 9, 10, 15, 12, 13, 14] := by
  decide

theorem r16_eq : SM4_AESNI.r16 = [2, 3, 0, 1, 6, 7, 4, 5, 10, 11, 8, 9, 14, 15, 12, 13] := by
  decide

theorem r24_eq : SM4_AESNI.r24 = [1, 2, 3, 0, 5, 6, 7, 4, 9, 10, 11, 8, 13, 14, 15, 12] := by
  decide

theorem flp_eq : SM4_AESNI.flp = [3, 2, 1, 0, 7, 6, 5, 4, 11, 10, 9, 8, 15, 14, 13, 12] := by
  decide

theorem shuffle_r08_setr (w0 w1 w2 w3 : Nat) (h0 : w0 < 2 ^ 32) (h1 : w1 < 2 ^ 32)
    (h2 : w2 < 2 ^ 32) (h3 : w3 < 2 ^ 32) :
    _mm_shuffle_epi8 (_mm_setr_epi32 w0 w1 w2 w3) SM4_AESNI.r08 =
      _mm_setr_epi32 (SM4.left_rotate w0 8) (SM4.left_rotate w1 8) (SM4.left_rotate w2 8)
        (SM4.left_rotate w3 8) := by
  rw [r08_eq]
  unfold _mm_setr_epi32
  rw [bytes32_left_rotate_8 _ h0, bytes32_left_rotate_8 _ h1, bytes32_left_rotate_8 _ h2,
    bytes32_left_rotate_8 _ h3]
  rfl

theorem shuffle_r16_setr (w0 w1 w2 w3 : Nat) (h0 : w0 < 2 ^ 32) (h1 : w1 < 2 ^ 32)
    (h2 : w2 < 2 ^ 32) (h3 : w3 < 2 ^ 32) :
    _mm_shuffle_epi8 (_mm_setr_epi32 w0 w1 w2 w3) SM4_AESNI.r16 =
      _mm_setr_epi32 (SM4.left_rotate w0 16) (SM4.left_rotate w1 16) (SM4.left_rotate w2 16)
        (SM4.left_rotate w3 16) := by
  rw [r16_eq]
  unfold _mm_setr_epi32
  rw [bytes32_left_rotate_16 _ h0, bytes32_left_rotate_16 _ h1, bytes32_left_rotate_16 _ h2,
    bytes32_left_rotate_16 _ h3]
  rfl

theorem shuffle_r24_setr (w0 w1 w2 w3 : Nat) (h0 : w0 < 2 ^ 32) (h1 : w1 < 2 ^ 32)
    (h2 : w2 < 2 ^ 32) (h3 : w3 < 2 ^ 32) :
    _mm_shuffle_epi8 (_mm_setr_epi32 w0 w1 w2 w3) SM4_AESNI.r24 =
      _mm_setr_epi32 (SM4.left_rotate w0 24) (SM4.left_rotate w1 24) (SM4.left_rotate w2 24)
        (SM4.left_rotate w3 24) := by
  rw [r24_eq]
  unfold _mm_setr_epi32
  rw [bytes32_left_rotate_24 _ h0, bytes32_left_rotate_24 _ h1, bytes32_left_rotate_24 _ h2,
    bytes32_left_rotate_24 _ h3]
  rfl

theorem lane32_bytes32 (w : Nat) (hw : w < 2 ^ 32) :
    w % 256 + 256 * (w / 256 % 256) + 65536 * (w / 65536 % 256) +
      16777216 * (w / 16777216 % 256) = w := by
  omega

theorem lane32_setr (w0 w1 w2 w3 : Nat) (h0 : w0 < 2 ^ 32) (h1 : w1 < 2 ^ 32)
    (h2 : w2 < 2 ^ 32) (h3 : w3 < 2 ^ 32) :
    lane32 (_mm_setr_epi32 w0 w1 w2 w3) 0 = w0 ∧ lane32 (_mm_setr_epi32 w0 w1 w2 w3) 1 = w1 ∧
    lane32 (_mm_setr_epi32 w0 w1 w2 w3) 2 = w2 ∧ lane32 (_mm_setr_epi32 w0 w1 w2 w3) 3 = w3 :=
  ⟨lane32_bytes32 w0 h0, lane32_bytes32 w1 h1, lane32_bytes32 w2 h2, lane32_bytes32 w3 h3⟩

theorem bytes32_mod (v : Nat) : bytes32 (v % 2 ^ 32) = bytes32 v := by
  simp only [bytes32, Nat.reducePow, List.cons.injEq, and_true]
  refine ⟨?_, ?_, ?_, ?_⟩ <;> omega

theorem slli_setr (w0 w1 w2 w3 n : Nat) (h0 : w0 < 2 ^ 32) (h1 : w1 < 2 ^ 32)
    (h2 : w2 < 2 ^ 32) (h3 : w3 < 2 ^ 32) :
    _mm_slli_epi32 (_mm_setr_epi32 w0 w1 w2 w3) n =
      _mm_setr_epi32 ((w0 <<< n) % 2 ^ 32) ((w1 <<< n) % 2 ^ 32) ((w2 <<< n) % 2 ^ 32)
        ((w3 <<< n) % 2 ^ 32) := by
  obtain ⟨e0, e1, e2, e3⟩ := lane32_setr w0 w1 w2 w3 h0 h1 h2 h3
  rw [_mm_slli_epi32, e0, e1, e2, e3]
  simp only [_mm_setr_epi32, bytes32_mod]

theorem srli_setr (w0 w1 w2 w3 n : Nat) (h0 : w0 < 2 ^ 32) (h1 : w1 < 2 ^ 32)
    (h2 : w2 < 2 ^ 32) (h3 : w3 < 2 ^ 32) :
    _mm_srli_epi32 (_mm_setr_epi32 w0 w1 w2 w3) n =
      _mm_setr_epi32 (w0 >>> n) (w1 >>> n) (w2 >>> n) (w3 >>> n) := by
  obtain ⟨e0, e1, e2, e3⟩ := lane32_setr w0 w1 w2 w3 h0 h1 h2 h3
  rw [_mm_srli_epi32, e0, e1, e2, e3]
  rfl

/-- The linear step of the AES-NI kernel on four packed words is `L` on each word. -/
theorem aesni_linear_setr (w0 w1 w2 w3 : Nat) (h0 : w0 < 2 ^ 32) (h1 : w1 < 2 ^ 32)
    (h2 : w2 < 2 ^ 32) (h3 : w3 < 2 ^ 32) :
    aesni_linear (_mm_setr_epi32 w0 w1 w2 w3) =
      _mm_setr_epi32 (SM4.L w0) (SM4.L w1) (SM4.L w2) (SM4.L w3) := by
  have r0 := left_rotate_lt w0 8 h0
  have r1 := left_rotate_lt w1 8 h1
  have r2 := left_rotate_lt w2 8 h2
  have r3 := left_rotate_lt w3 8 h3
  have q0 := left_rotate_lt w0 16 h0
  have q1 := left_rotate_lt w1 16 h1
  have q2 := left_rotate_lt w2 16 h2
  have q3 := left_rotate_lt w3 16 h3
  unfold aesni_linear
  simp only []
  rw [shuffle_r08_setr _ _ _ _ h0 h1 h2 h3, shuffle_r16_setr _ _ _ _ h0 h1 h2 h3,
    shuffle_r24_setr _ _ _ _ h0 h1 h2 h3, xor_setr, xor_setr,
    slli_setr _ _ _ _ _ (Nat.xor_lt_two_pow (Nat.xor_lt_two_pow h0 r0) q0)
      (Nat.xor_lt_two_pow (Nat.xor_lt_two_pow h1 r1) q1)
      (Nat.xor_lt_two_pow (Nat.xor_lt_two_pow h2 r2) q2)
      (Nat.xor_lt_two_pow (Nat.xor_lt_two_pow h3 r3) q3),
    srli_setr _ _ _ _ _ (Nat.xor_lt_two_pow (Nat.xor_lt_two_pow h0 r0) q0)
      (Nat.xor_lt_two_pow (Nat.xor_lt_two_pow h1 r1) q1)
      (Nat.xor_lt_two_pow (Nat.xor_lt_two_pow h2 r2) q2)
      (Nat.xor_lt_two_pow (Nat.xor_lt_two_pow h3 r3) q3),
    xor_setr, xor_setr, xor_setr, aesni_linear_word _ h0, aesni_linear_word _ h1,
    aesni_linear_word _ h2, aesni_linear_word _ h3]

theorem encrypt_4blocks_round_eq (k : Nat) (t : M128 × M128 × M128 × M128) :
    SM4_AESNI.encrypt_4blocks_round k t =
      (t.2.1, t.2.2.1, t.2.2.2,
        _mm_xor_si128 (aesni_linear (SM4_AESNI.sm4_sbox_4x_aesni
          (_mm_xor_si128 (_mm_xor_si128 (_mm_xor_si128 t.2.1 t.2.2.1) t.2.2.2)
            (_mm_setr_epi32 k k k k)))) t.1) := rfl

/-- One round of the AES-NI kernel is one reference round on each of the four blocks. -/
theorem encrypt_4blocks_round_pack (k : Nat) (s0 s1 s2 s3 : Nat × Nat × Nat × Nat) :
    SM4_AESNI.encrypt_4blocks_round k (packState s0 s1 s2 s3) =
      packState (feistelStep SM4.T k s0) (feistelStep SM4.T k s1) (feistelStep SM4.T k s2)
        (feistelStep SM4.T k s3) := by
  rw [encrypt_4blocks_round_eq]
  simp only [packState, feistelStep]
  rw [xor_setr, xor_setr, xor_setr, sm4_sbox_4x_aesni_setr,
    aesni_linear_setr _ _ _ _ (tau_lt _) (tau_lt _) (tau_lt _) (tau_lt _), xor_setr]
  simp only [SM4.T, Nat.xor_comm]

theorem encrypt_4blocks_rounds_pack (kf : Nat → Nat) (n : Nat)
    (s0 s1 s2 s3 : Nat × Nat × Nat × Nat) :
    Nat.fold (fun i t => SM4_AESNI.encrypt_4blocks_round (kf i) t) n (packState s0 s1 s2 s3) =
      packState (feistelRounds SM4.T kf n s0) (feistelRounds SM4.T kf n s1)
        (feistelRounds SM4.T kf n s2) (feistelRounds SM4.T kf n s3) := by
  induction n with
  | zero => rfl
  | succ n ih => rw [nat_fold_succ, ih, encrypt_4blocks_round_pack]; rfl

theorem encrypt_4blocks_aesni_eq (rk src : List Nat) :
    SM4_AESNI.encrypt_4blocks_aesni rk src =
      aesni_store (Nat.fold (fun i t => SM4_AESNI.encrypt_4blocks_round (rk.getD i 0) t) 32
        (aesni_load src)) := rfl

theorem list16_exists (B : List Nat) (h : B.length = 16) :
    ∃ a0 a1 a2 a3 a4 a5 a6 a7 a8 a9 a10 a11 a12 a13 a14 a15,
      B = [a0, a1, a2, a3, a4, a5, a6, a7, a8, a9, a10, a11, a12, a13, a14, a15] := by
  match B, h with
  | [a0, a1, a2, a3, a4, a5, a6, a7, a8, a9, a10, a11, a12, a13, a14, a15], _ =>
    exact ⟨a0, a1, a2, a3, a4, a5, a6, a7, a8, a9, a10, a11, a12, a13, a14, a15, rfl⟩

theorem blockWords_cons (a0 a1 a2 a3 a4 a5 a6 a7 a8 a9 a10 a11 a12 a13 a14 a15 : Nat)
    (h : ∀ b ∈ [a0, a1, a2, a3, a4, a5, a6, a7, a8, a9, a10, a11, a12, a13, a14, a15], b < 256) :
    blockWords [a0, a1, a2, a3, a4, a5, a6, a7, a8, a9, a10, a11, a12, a13, a14, a15] =
      (16777216 * a0 + 65536 * a1 + 256 * a2 + a3, 16777216 * a4 + 65536 * a5 + 256 * a6 + a7,
        16777216 * a8 + 65536 * a9 + 256 * a10 + a11,
        16777216 * a12 + 65536 * a13 + 256 * a14 + a15) := by
  simp only [blockWords, bytes_to_uint32_eq _ _ h]
  rfl

theorem shuffle_flp_set (e3 e2 e1 e0 : Nat) :
    _mm_shuffle_epi8 (_mm_set_epi32 e3 e2 e1 e0) SM4_AESNI.flp =
      [e0 / 16777216 % 256, e0 / 65536 % 256, e0 / 256 % 256, e0 % 256,
        e1 / 16777216 % 256, e1 / 65536 % 256, e1 / 256 % 256, e1 % 256,
        e2 / 16777216 % 256, e2 / 65536 % 256, e2 / 256 % 256, e2 % 256,
        e3 / 16777216 % 256, e3 / 65536 % 256, e3 / 256 % 256, e3 % 256] := by
  rw [flp_eq]
  rfl

theorem bytes32_be (b0 b1 b2 b3 : Nat) (h0 : b0 < 256) (h1 : b1 < 256) (h2 : b2 < 256)
    (h3 : b3 < 256) :
    bytes32 (16777216 * b0 + 65536 * b1 + 256 * b2 + b3) = [b3, b2, b1, b0] := by
  simp only [bytes32, List.cons.injEq, and_true]
  refine ⟨?_, ?_, ?_, ?_⟩ <;> omega

theorem le_sum_byte0 (c0 c1 c2 c3 : Nat) (h0 : c0 < 256) :
    (c0 + 256 * c1 + 65536 * c2 + 16777216 * c3) % 256 = c0 := by omega

theorem le_sum_byte1 (c0 c1 c2 c3 : Nat) (h0 : c0 < 256) (h1 : c1 < 256) :
    (c0 + 256 * c1 + 65536 * c2 + 16777216 * c3) / 256 % 256 = c1 := by omega

theorem le_sum_byte2 (c0 c1 c2 c3 : Nat) (h0 : c0 < 256) (h1 : c1 < 256) (h2 : c2 < 256) :
    (c0 + 256 * c1 + 65536 * c2 + 16777216 * c3) / 65536 % 256 = c2 := by omega

theorem le_sum_byte3 (c0 c1 c2 c3 : Nat) (h0 : c0 < 256) (h1 : c1 < 256) (h2 : c2 < 256)
    (h3 : c3 < 256) :
    (c0 + 256 * c1 + 65536 * c2 + 16777216 * c3) / 16777216 % 256 = c3 := by omega

/-- The registers loaded by the AES-NI kernel hold the big-endian words of the four blocks. -/
theorem aesni_load_pack (B0 B1 B2 B3 : List Nat) (h0 : B0.length = 16) (h1 : B1.length = 16)
    (h2 : B2.length = 16) (h3 : B3.length = 16) (b0 : ∀ b ∈ B0, b < 256)
    (b1 : ∀ b ∈ B1, b < 256) (b2 : ∀ b ∈ B2, b < 256) (b3 : ∀ b ∈ B3, b < 256) :
    aesni_load (B0 ++ B1 ++ B2 ++ B3) =
      packState (blockWords B0) (blockWords B1) (blockWords B2) (blockWords B3) := by
  obtain ⟨a0, a1, a2, a3, a4, a5, a6, a7, a8, a9, a10, a11, a12, a13, a14, a15, rfl⟩ :=
    list16_exists B0 h0
  obtain ⟨c0, c1, c2, c3, c4, c5, c6, c7, c8, c9, c10, c11, c12, c13, c14, c15, rfl⟩ :=
    list16_exists B1 h1
  obtain ⟨d0, d1, d2, d3, d4, d5, d6, d7, d8, d9, d10, d11, d12, d13, d14, d15, rfl⟩ :=
    list16_exists B2 h2
  obtain ⟨e0, e1, e2, e3, e4, e5, e6, e7, e8, e9, e10, e11, e12, e13, e14, e15, rfl⟩ :=
    list16_exists B3 h3
  rw [blockWords_cons _ _ _ _ _ _ _ _ _ _ _ _ _ _ _ _ b0,
    blockWords_cons _ _ _ _ _ _ _ _ _ _ _ _ _ _ _ _ b1,
    blockWords_cons _ _ _ _ _ _ _ _ _ _ _ _ _ _ _ _ b2,
    blockWords_cons _ _ _ _ _ _ _ _ _ _ _ _ _ _ _ _ b3]
  simp only [List.mem_cons, List.mem_singleton, List.not_mem_nil, or_false, forall_eq_or_imp,
    forall_eq] at b0 b1 b2 b3
  obtain ⟨p0, p1, p2, p3, p4, p5, p6, p7, p8, p9, p10, p11, p12, p13, p14, p15⟩ := b0
  obtain ⟨q0, q1, q2, q3, q4, q5, q6, q7, q8, q9, q10, q11, q12, q13, q14, q15⟩ := b1
  obtain ⟨r0, r1, r2, r3, r4, r5, r6, r7, r8, r9, r10, r11, r12, r13, r14, r15⟩ := b2
  obtain ⟨s0, s1, s2, s3, s4, s5, s6, s7, s8, s9, s10, s11, s12, s13, s14, s15⟩ := b3
  simp only [aesni_load, shuffle_flp_set, load32, lane32, List.cons_append, List.nil_append,
    List.getD_cons_zero, List.getD_cons_succ, Nat.reduceMul, Nat.reduceAdd]
  simp only [packState, _mm_setr_epi32]
  simp only [bytes32_be, le_sum_byte0, le_sum_byte1, le_sum_byte2, le_sum_byte3, *]
  rfl

theorem shuffle_flp_setr (w0 w1 w2 w3 : Nat) :
    _mm_shuffle_epi8 (_mm_setr_epi32 w0 w1 w2 w3) SM4_AESNI.flp =
      [w0 / 16777216 % 256, w0 / 65536 % 256, w0 / 256 % 256, w0 % 256,
        w1 / 16777216 % 256, w1 / 65536 % 256, w1 / 256 % 256, w1 % 256,
        w2 / 16777216 % 256, w2 / 65536 % 256, w2 / 256 % 256, w2 % 256,
        w3 / 16777216 % 256, w3 / 65536 % 256, w3 / 256 % 256, w3 % 256] :=
  shuffle_flp_set w3 w2 w1 w0

theorem mod_256_lt (x : Nat) : x % 256 < 256 := Nat.mod_lt _ (by decide)

theorem replicate_64 : List.replicate 64 0 =
    [0, 0, 0, 0, 0, 0, 0, 0, 0, 0, 0, 0, 0, 0, 0, 0, 0, 0, 0, 0, 0, 0, 0, 0, 0, 0, 0, 0, 0, 0, 0, 0,
      0, 0, 0, 0, 0, 0, 0, 0, 0, 0, 0, 0, 0, 0, 0, 0, 0, 0, 0, 0, 0, 0, 0, 0, 0, 0, 0, 0, 0, 0, 0,
      0] := rfl

/-- The bytes stored by the AES-NI kernel are the big-endian words of each block's window, last
word first. -/
theorem aesni_store_pack (s0 s1 s2 s3 : Nat × Nat × Nat × Nat) :
    aesni_store (packState s0 s1 s2 s3) =
      wordsBlock (revWindow s0) ++ wordsBlock (revWindow s1) ++ wordsBlock (revWindow s2) ++
        wordsBlock (revWindow s3) := by
  obtain ⟨a0, a1, a2, a3⟩ := s0
  obtain ⟨b0, b1, b2, b3⟩ := s1
  obtain ⟨c0, c1, c2, c3⟩ := s2
  obtain ⟨d0, d1, d2, d3⟩ := s3
  simp only [aesni_store, packState, shuffle_flp_setr, lane32, List.getD_cons_zero,
    List.getD_cons_succ, Nat.reduceMul, Nat.reduceAdd, store32, replicate_64,
    List.set_cons_zero, List.set_cons_succ]
  simp only [le_sum_byte0, le_sum_byte1, le_sum_byte2, le_sum_byte3, mod_256_lt]
  simp only [wordsBlock, revWindow, uint32_to_bytes_eq]
  rfl

/-- The AES-NI kernel on four blocks is the reference cipher on each block. -/
theorem encrypt_4blocks_aesni_blocks (rk B0 B1 B2 B3 : List Nat) (h0 : B0.length = 16)
    (h1 : B1.length = 16) (h2 : B2.length = 16) (h3 : B3.length = 16) (b0 : ∀ b ∈ B0, b < 256)
    (b1 : ∀ b ∈ B1, b < 256) (b2 : ∀ b ∈ B2, b < 256) (b3 : ∀ b ∈ B3, b < 256) :
    SM4_AESNI.encrypt_4blocks_aesni rk (B0 ++ B1 ++ B2 ++ B3) =
      SM4.encrypt_block B0 rk ++ SM4.encrypt_block B1 rk ++ SM4.encrypt_block B2 rk ++
        SM4.encrypt_block B3 rk := by
  rw [encrypt_4blocks_aesni_eq, aesni_load_pack B0 B1 B2 B3 h0 h1 h2 h3 b0 b1 b2 b3,
    encrypt_4blocks_rounds_pack (fun i => rk.getD i 0) 32, aesni_store_pack, encrypt_block_eq,
    encrypt_block_eq, encrypt_block_eq, encrypt_block_eq]

theorem encrypt_block_length (P rk : List Nat) : (SM4.encrypt_block P rk).length = 16 := by
  rw [encrypt_block_eq]
  exact wordsBlock_length _

theorem encrypt_block_lt (P rk : List Nat) : ∀ b ∈ SM4.encrypt_block P rk, b < 256 := by
  rw [encrypt_block_eq]
  exact wordsBlock_lt _

theorem memcpy_prefix (E rest : List Nat) (h : E.length = 16) :
    memcpy (List.replicate 16 0) 0 (E ++ rest) 16 = E := by
  obtain ⟨a0, a1, a2, a3, a4, a5, a6, a7, a8, a9, a10, a11, a12, a13, a14, a15, rfl⟩ :=
    list16_exists E h
  rfl

theorem memcpy_four (P : List Nat) (h : P.length = 16) :
    Nat.fold (fun i src => memcpy src (i * 16) P 16) 4 (List.replicate 64 0) =
      P ++ P ++ P ++ P := by
  obtain ⟨a0, a1, a2, a3, a4, a5, a6, a7, a8, a9, a10, a11, a12, a13, a14, a15, rfl⟩ :=
    list16_exists P h
  rfl

/-- The AES-NI `encrypt_block` is the reference `encrypt_block`. -/
theorem encrypt_block_aesni_eq (P rk : List Nat) (h : P.length = 16) (hb : ∀ b ∈ P, b < 256) :
    SM4_AESNI.encrypt_block P rk = SM4.encrypt_block P rk := by
  unfold SM4_AESNI.encrypt_block
  simp only []
  rw [memcpy_four P h, encrypt_4blocks_aesni_blocks rk P P P P h h h h hb hb hb hb,
    List.append_assoc, List.append_assoc, memcpy_prefix _ _ (encrypt_block_length P rk)]

theorem hex_to_bytes_spec (s : List Char) :
    ∀ bs, SM4.hex_to_bytes s = Except.ok bs →
      bs.length = (s.length + 1) / 2 ∧ ∀ b ∈ bs, b < 256 := by
  induction s using SM4.hex_to_bytes.induct with
  | case1 =>
    intro bs h
    simp only [SM4.hex_to_bytes] at h
    cases h
    exact ⟨rfl, by simp⟩
  | case2 c =>
    intro bs h
    simp only [SM4.hex_to_bytes] at h
    cases hv : stoul16 [c] with
    | error e => rw [hv] at h; cases h
    | ok v =>
      rw [hv] at h
      cases h
      refine ⟨by simp, ?_⟩
      intro b hb
      simp only [List.mem_singleton] at hb
      subst hb
      exact mod_256_lt _
  | case3 c1 c2 rest ih =>
    intro bs h
    simp only [SM4.hex_to_bytes] at h
    cases hv : stoul16 [c1, c2] with
    | error e => rw [hv] at h; cases h
    | ok v =>
      rw [hv] at h
      cases hr : SM4.hex_to_bytes rest with
      | error e => rw [hr] at h; cases h
      | ok r =>
        rw [hr] at h
        cases h
        obtain ⟨hl, hb⟩ := ih r hr
        refine ⟨?_, ?_⟩
        · simp only [List.length_cons, hl]
          omega
        · intro b hb'
          simp only [List.mem_cons] at hb'
          rcases hb' with rfl | hb'
          · exact mod_256_lt _
          · exact hb b hb'

theorem hexval_lt (c : Char) (d : Nat) (h : hexval c = some d) : d < 16 := by
  unfold hexval at h
  simp only [] at h
  split_ifs at h <;> simp only [Option.some.injEq] at h <;> omega

theorem hexval_some_plain (c : Char) (d : Nat) (h : hexval c = some d) :
    isspace c = false ∧ c.toNat ≠ 45 ∧ c.toNat ≠ 43 := by
  unfold hexval at h
  simp only [] at h
  unfold isspace
  split_ifs at h <;> simp only [Option.some.injEq] at h <;>
    refine ⟨?_, ?_, ?_⟩ <;> first | omega | (simp; omega)

/-- On two hexadecimal digits `stoul` returns their value. -/
theorem stoul16_pair (c1 c2 : Char) (d1 d2 : Nat) (h1 : hexval c1 = some d1)
    (h2 : hexval c2 = some d2) : stoul16 [c1, c2] = Except.ok (16 * d1 + d2) := by
  obtain ⟨hs, hm, hp⟩ := hexval_some_plain c1 d1 h1
  have hd1 := hexval_lt c1 d1 h1
  have hd2 := hexval_lt c2 d2 h2
  have hlt : ¬ (2 ^ 64 ≤ 16 * (16 * 0 + d1) + d2) := by omega
  simp only [stoul16, List.dropWhile, hs, hm, hp, if_false, dropHexPrefix, hexDigits, h1, h2,
    List.foldl, hlt]
  simp

theorem hex_to_bytes_ok (s : List Char) (hs : ∀ c ∈ s, (hexval c).isSome)
    (he : s.length % 2 = 0) : ∃ bs, SM4.hex_to_bytes s = Except.ok bs := by
  induction s using SM4.hex_to_bytes.induct with
  | case1 => exact ⟨[], rfl⟩
  | case2 c => simp at he
  | case3 c1 c2 rest ih =>
    have h1 := hs c1 (by simp)
    have h2 := hs c2 (by simp)
    obtain ⟨d1, e1⟩ := Option.isSome_iff_exists.1 h1
    obtain ⟨d2, e2⟩ := Option.isSome_iff_exists.1 h2
    obtain ⟨r, hr⟩ := ih (fun c hc => hs c (by simp [hc])) (by simp at he; omega)
    refine ⟨(16 * d1 + d2) % 256 :: r, ?_⟩
    simp only [SM4.hex_to_bytes, stoul16_pair c1 c2 d1 d2 e1 e2, hr]
    rfl

/-- The AES-NI `encrypt_block_hex` and the reference one agree on every pair of strings. -/
theorem encrypt_block_hex_aesni_eq (plain_hex key_hex : List Char) :
    SM4_AESNI.encrypt_block_hex plain_hex key_hex = SM4.encrypt_block_hex plain_hex key_hex := by
  unfold SM4_AESNI.encrypt_block_hex SM4.encrypt_block_hex
  by_cases hp : plain_hex.length ≠ 32
  · rw [if_pos hp, if_pos hp]
  · rw [if_neg hp, if_neg hp]
    by_cases hk : key_hex.length ≠ 32
    · rw [if_pos hk, if_pos hk]
    · rw [if_neg hk, if_neg hk]
      cases h1 : SM4.hex_to_bytes plain_hex with
      | error e => simp only [bind, Except.bind]
      | ok P =>
        cases h2 : SM4.hex_to_bytes key_hex with
        | error e => simp only [bind, Except.bind]
        | ok K =>
          obtain ⟨hl, hb⟩ := hex_to_bytes_spec plain_hex P h1
          have hl16 : P.length = 16 := by
            push_neg at hp
            rw [hl, hp]
          simp only [bind, Except.bind]
          rw [key_schedule_aesni_eq, encrypt_block_aesni_eq P _ hl16 hb]

theorem encrypt_block_hex_ok (plain_hex key_hex : List Char) (hp : plain_hex.length = 32)
    (hk : key_hex.length = 32) (hph : ∀ c ∈ plain_hex, (hexval c).isSome)
    (hkh : ∀ c ∈ key_hex, (hexval c).isSome) :
    ∃ c, SM4.encrypt_block_hex plain_hex key_hex = Except.ok c := by
  obtain ⟨P, h1⟩ := hex_to_bytes_ok plain_hex hph (by rw [hp])
  obtain ⟨K, h2⟩ := hex_to_bytes_ok key_hex hkh (by rw [hk])
  refine ⟨SM4.bytes_to_hex (SM4.encrypt_block P (SM4.key_schedule K)), ?_⟩
  unfold SM4.encrypt_block_hex
  rw [if_neg (by simp [hp]), if_neg (by simp [hk]), h1, h2]
  rfl

theorem rol8_mask_eq : _mm_load_si128 SM4_GFNI.ROL_8_MASK = SM4_AESNI.r08 := by decide

theorem rol16_mask_eq : _mm_load_si128 SM4_GFNI.ROL_16_MASK = SM4_AESNI.r16 := by decide

theorem rol24_mask_eq : _mm_load_si128 SM4_GFNI.ROL_24_MASK = SM4_AESNI.r24 := by decide

theorem bswap_mask_eq : _mm_load_si128 SM4_GFNI.BSWAP32_MASK = SM4_AESNI.flp := by decide

theorem gfni_sbox_map (x : M128) (hl : x.length = 16) :
    SM4_GFNI.gfni_sbox x = x.map gfni_sbox_byte := by
  obtain ⟨a0, a1, a2, a3, a4, a5, a6, a7, a8, a9, a10, a11, a12, a13, a14, a15, rfl⟩ :=
    list16_exists x hl
  rfl

theorem gfni_sbox_byte_lt (b : Nat) : gfni_sbox_byte b < 256 := affine_byte_lt _ _ _

theorem gfni_tau_lt (A : Nat) : gfni_tau A < 2 ^ 32 := by
  unfold gfni_tau
  have h0 := gfni_sbox_byte_lt (A / 16777216 % 256)
  have h1 := gfni_sbox_byte_lt (A / 65536 % 256)
  have h2 := gfni_sbox_byte_lt (A / 256 % 256)
  have h3 := gfni_sbox_byte_lt (A % 256)
  omega

theorem bytes32_gfni_tau (w : Nat) : bytes32 (gfni_tau w) = (bytes32 w).map gfni_sbox_byte := by
  unfold gfni_tau
  have h0 := gfni_sbox_byte_lt (w / 16777216 % 256)
  have h1 := gfni_sbox_byte_lt (w / 65536 % 256)
  have h2 := gfni_sbox_byte_lt (w / 256 % 256)
  have h3 := gfni_sbox_byte_lt (w % 256)
  simp only [bytes32, List.map, List.cons.injEq, and_true]
  refine ⟨?_, ?_, ?_, ?_⟩ <;> omega

theorem gfni_sbox_setr (w0 w1 w2 w3 : Nat) :
    SM4_GFNI.gfni_sbox (_mm_setr_epi32 w0 w1 w2 w3) =
      _mm_setr_epi32 (gfni_tau w0) (gfni_tau w1) (gfni_tau w2) (gfni_tau w3) := by
  rw [gfni_sbox_map _ (setr_length _ _ _ _)]
  simp only [_mm_setr_epi32, List.map_append, bytes32_gfni_tau]

theorem or_div_two_pow (a b k : Nat) : (a ||| b) / 2 ^ k = a / 2 ^ k ||| b / 2 ^ k := by
  apply Nat.eq_of_testBit_eq
  intro i
  simp [testBit_div_two_pow]

theorem or_mod_two_pow (a b k : Nat) : (a ||| b) % 2 ^ k = a % 2 ^ k ||| b % 2 ^ k := by
  apply Nat.eq_of_testBit_eq
  intro i
  simp only [Nat.testBit_mod_two_pow, Nat.testBit_or]
  cases decide (i < k) <;> simp

theorem or_byte (a b k : Nat) :
    (a ||| b) / 2 ^ k % 2 ^ 8 = (a / 2 ^ k % 2 ^ 8) ||| (b / 2 ^ k % 2 ^ 8) := by
  rw [or_div_two_pow, or_mod_two_pow]

theorem bytes32_or (a b : Nat) :
    bytes32 (a ||| b) = List.zipWith (fun x y => x ||| y) (bytes32 a) (bytes32 b) := by
  have h0 := or_byte a b 0
  have h1 := or_byte a b 8
  have h2 := or_byte a b 16
  have h3 := or_byte a b 24
  simp only [Nat.reducePow, Nat.div_one] at h0 h1 h2 h3
  simp only [bytes32, List.zipWith, h0, h1, h2, h3]

theorem or_setr (a0 a1 a2 a3 b0 b1 b2 b3 : Nat) :
    _mm_or_si128 (_mm_setr_epi32 a0 a1 a2 a3) (_mm_setr_epi32 b0 b1 b2 b3) =
      _mm_setr_epi32 (a0 ||| b0) (a1 ||| b1) (a2 ||| b2) (a3 ||| b3) := by
  unfold _mm_or_si128 _mm_setr_epi32
  rw [zipWith_append4 _ (bytes32 a0) (bytes32 a1) (bytes32 a2) (bytes32 a3) (bytes32 b0)
    (bytes32 b1) (bytes32 b2) (bytes32 b3) rfl rfl rfl, bytes32_or, bytes32_or, bytes32_or,
    bytes32_or]

/-- The register-level `linear_transform` on four packed words is `gfni_L` on each word. -/
theorem linear_transform_setr (w0 w1 w2 w3 : Nat) (h0 : w0 < 2 ^ 32) (h1 : w1 < 2 ^ 32)
    (h2 : w2 < 2 ^ 32) (h3 : w3 < 2 ^ 32) :
    SM4_GFNI.linear_transform (_mm_setr_epi32 w0 w1 w2 w3) =
      _mm_setr_epi32 (gfni_L w0) (gfni_L w1) (gfni_L w2) (gfni_L w3) := by
  have r0 := left_rotate_lt w0 8 h0
  have r1 := left_rotate_lt w1 8 h1
  have r2 := left_rotate_lt w2 8 h2
  have r3 := left_rotate_lt w3 8 h3
  have q0 := left_rotate_lt w0 16 h0
  have q1 := left_rotate_lt w1 16 h1
  have q2 := left_rotate_lt w2 16 h2
  have q3 := left_rotate_lt w3 16 h3
  unfold SM4_GFNI.linear_transform
  simp only []
  rw [rol8_mask_eq, rol16_mask_eq, rol24_mask_eq, shuffle_r08_setr _ _ _ _ h0 h1 h2 h3,
    shuffle_r16_setr _ _ _ _ h0 h1 h2 h3, shuffle_r24_setr _ _ _ _ h0 h1 h2 h3, xor_setr,
    xor_setr,
    slli_setr _ _ _ _ _ (Nat.xor_lt_two_pow (Nat.xor_lt_two_pow h0 r0) q0)
      (Nat.xor_lt_two_pow (Nat.xor_lt_two_pow h1 r1) q1)
      (Nat.xor_lt_two_pow (Nat.xor_lt_two_pow h2 r2) q2)
      (Nat.xor_lt_two_pow (Nat.xor_lt_two_pow h3 r3) q3),
    srli_setr _ _ _ _ _ (Nat.xor_lt_two_pow (Nat.xor_lt_two_pow h0 r0) q0)
      (Nat.xor_lt_two_pow (Nat.xor_lt_two_pow h1 r1) q1)
      (Nat.xor_lt_two_pow (Nat.xor_lt_two_pow h2 r2) q2)
      (Nat.xor_lt_two_pow (Nat.xor_lt_two_pow h3 r3) q3),
    or_setr, xor_setr, xor_setr]
  rfl

theorem gfni_L_lt (x : Nat) (hx : x < 2 ^ 32) : gfni_L x < 2 ^ 32 := by
  unfold gfni_L
  have h8 := left_rotate_lt x 8 hx
  have h16 := left_rotate_lt x 16 hx
  have ht := Nat.xor_lt_two_pow (Nat.xor_lt_two_pow hx h8) h16
  exact Nat.xor_lt_two_pow (Nat.xor_lt_two_pow ht (left_rotate_lt x 24 hx))
    (left_rotate_lt _ 2 ht)

theorem gfni_T_lt (X : Nat) : gfni_T X < 2 ^ 32 := gfni_L_lt _ (gfni_tau_lt X)

/-- One round of `crypt_4blocks` is one round with `gfni_T` on each of the four blocks. -/
theorem crypt_4blocks_round_pack (rk : Nat) (s0 s1 s2 s3 : Nat × Nat × Nat × Nat) :
    SM4_GFNI.crypt_4blocks_round rk (packState s0 s1 s2 s3) =
      packState (feistelStep gfni_T rk s0) (feistelStep gfni_T rk s1) (feistelStep gfni_T rk s2)
        (feistelStep gfni_T rk s3) := by
  simp only [SM4_GFNI.crypt_4blocks_round, SM4_GFNI.sm4_round, packState, feistelStep]
  have hk : _mm_set1_epi32 rk = _mm_setr_epi32 rk rk rk rk := rfl
  rw [hk, xor_setr, xor_setr, xor_setr, gfni_sbox_setr,
    linear_transform_setr _ _ _ _ (gfni_tau_lt _) (gfni_tau_lt _) (gfni_tau_lt _)
      (gfni_tau_lt _), xor_setr]
  rfl

theorem crypt_4blocks_rounds_pack (kf : Nat → Nat) (n : Nat)
    (s0 s1 s2 s3 : Nat × Nat × Nat × Nat) :
    Nat.fold (fun i x => SM4_GFNI.crypt_4blocks_round (kf i) x) n (packState s0 s1 s2 s3) =
      packState (feistelRounds gfni_T kf n s0) (feistelRounds gfni_T kf n s1)
        (feistelRounds gfni_T kf n s2) (feistelRounds gfni_T kf n s3) := by
  induction n with
  | zero => rfl
  | succ n ih => rw [nat_fold_succ, ih, crypt_4blocks_round_pack]; rfl

theorem unpacklo_epi32_setr (a0 a1 a2 a3 b0 b1 b2 b3 : Nat) (ha0 : a0 < 2 ^ 32)
    (ha1 : a1 < 2 ^ 32) (ha2 : a2 < 2 ^ 32) (ha3 : a3 < 2 ^ 32) (hb0 : b0 < 2 ^ 32)
    (hb1 : b1 < 2 ^ 32) (hb2 : b2 < 2 ^ 32) (hb3 : b3 < 2 ^ 32) :
    _mm_unpacklo_epi32 (_mm_setr_epi32 a0 a1 a2 a3) (_mm_setr_epi32 b0 b1 b2 b3) =
      _mm_setr_epi32 a0 b0 a1 b1 := by
  obtain ⟨e0, e1, _, _⟩ := lane32_setr a0 a1 a2 a3 ha0 ha1 ha2 ha3
  obtain ⟨f0, f1, _, _⟩ := lane32_setr b0 b1 b2 b3 hb0 hb1 hb2 hb3
  rw [_mm_unpacklo_epi32, e0, e1, f0, f1]
  rfl

theorem unpackhi_epi32_setr (a0 a1 a2 a3 b0 b1 b2 b3 : Nat) (ha0 : a0 < 2 ^ 32)
    (ha1 : a1 < 2 ^ 32) (ha2 : a2 < 2 ^ 32) (ha3 : a3 < 2 ^ 32) (hb0 : b0 < 2 ^ 32)
    (hb1 : b1 < 2 ^ 32) (hb2 : b2 < 2 ^ 32) (hb3 : b3 < 2 ^ 32) :
    _mm_unpackhi_epi32 (_mm_setr_epi32 a0 a1 a2 a3) (_mm_setr_epi32 b0 b1 b2 b3) =
      _mm_setr_epi32 a2 b2 a3 b3 := by
  obtain ⟨_, _, e2, e3⟩ := lane32_setr a0 a1 a2 a3 ha0 ha1 ha2 ha3
  obtain ⟨_, _, f2, f3⟩ := lane32_setr b0 b1 b2 b3 hb0 hb1 hb2 hb3
  rw [_mm_unpackhi_epi32, e2, e3, f2, f3]
  rfl

theorem bytes64_pair (p q : Nat) (hp : p < 2 ^ 32) :
    bytes64 (p + 4294967296 * q) = bytes32 p ++ bytes32 q := by
  have e1 : (p + 4294967296 * q) / 4294967296 = q := by omega
  have e2 : bytes32 (p + 4294967296 * q) = bytes32 p := by
    simp only [bytes32, List.cons.injEq, and_true]
    refine ⟨?_, ?_, ?_, ?_⟩ <;> omega
  rw [bytes64, e1, e2]

theorem unpacklo_epi64_setr (a0 a1 a2 a3 b0 b1 b2 b3 : Nat) (ha0 : a0 < 2 ^ 32)
    (ha1 : a1 < 2 ^ 32) (ha2 : a2 < 2 ^ 32) (ha3 : a3 < 2 ^ 32) (hb0 : b0 < 2 ^ 32)
    (hb1 : b1 < 2 ^ 32) (hb2 : b2 < 2 ^ 32) (hb3 : b3 < 2 ^ 32) :
    _mm_unpacklo_epi64 (_mm_setr_epi32 a0 a1 a2 a3) (_mm_setr_epi32 b0 b1 b2 b3) =
      _mm_setr_epi32 a0 a1 b0 b1 := by
  obtain ⟨e0, e1, _, _⟩ := lane32_setr a0 a1 a2 a3 ha0 ha1 ha2 ha3
  obtain ⟨f0, f1, _, _⟩ := lane32_setr b0 b1 b2 b3 hb0 hb1 hb2 hb3
  simp only [_mm_unpacklo_epi64, lane64, Nat.reduceMul, Nat.reduceAdd]
  rw [e0, e1, f0, f1, bytes64_pair _ _ ha0, bytes64_pair _ _ hb0]
  simp only [_mm_setr_epi32, List.append_assoc]

theorem unpackhi_epi64_setr (a0 a1 a2 a3 b0 b1 b2 b3 : Nat) (ha0 : a0 < 2 ^ 32)
    (ha1 : a1 < 2 ^ 32) (ha2 : a2 < 2 ^ 32) (ha3 : a3 < 2 ^ 32) (hb0 : b0 < 2 ^ 32)
    (hb1 : b1 < 2 ^ 32) (hb2 : b2 < 2 ^ 32) (hb3 : b3 < 2 ^ 32) :
    _mm_unpackhi_epi64 (_mm_setr_epi32 a0 a1 a2 a3) (_mm_setr_epi32 b0 b1 b2 b3) =
      _mm_setr_epi32 a2 a3 b2 b3 := by
  obtain ⟨_, _, e2, e3⟩ := lane32_setr a0 a1 a2 a3 ha0 ha1 ha2 ha3
  obtain ⟨_, _, f2, f3⟩ := lane32_setr b0 b1 b2 b3 hb0 hb1 hb2 hb3
  simp only [_mm_unpackhi_epi64, lane64, Nat.reduceMul, Nat.reduceAdd]
  rw [e2, e3, f2, f3, bytes64_pair _ _ ha2, bytes64_pair _ _ hb2]
  simp only [_mm_setr_epi32, List.append_assoc]

/-- The function `transpose_4x4` on four registers of 32-bit words is the matrix transpose. -/
theorem transpose_4x4_setr (a0 a1 a2 a3 b0 b1 b2 b3 c0 c1 c2 c3 d0 d1 d2 d3 : Nat)
    (ha0 : a0 < 2 ^ 32) (ha1 : a1 < 2 ^ 32) (ha2 : a2 < 2 ^ 32) (ha3 : a3 < 2 ^ 32)
    (hb0 : b0 < 2 ^ 32) (hb1 : b1 < 2 ^ 32) (hb2 : b2 < 2 ^ 32) (hb3 : b3 < 2 ^ 32)
    (hc0 : c0 < 2 ^ 32) (hc1 : c1 < 2 ^ 32) (hc2 : c2 < 2 ^ 32) (hc3 : c3 < 2 ^ 32)
    (hd0 : d0 < 2 ^ 32) (hd1 : d1 < 2 ^ 32) (hd2 : d2 < 2 ^ 32) (hd3 : d3 < 2 ^ 32) :
    SM4_GFNI.transpose_4x4 (_mm_setr_epi32 a0 a1 a2 a3, _mm_setr_epi32 b0 b1 b2 b3,
        _mm_setr_epi32 c0 c1 c2 c3, _mm_setr_epi32 d0 d1 d2 d3) =
      (_mm_setr_epi32 a0 b0 c0 d0, _mm_setr_epi32 a1 b1 c1 d1, _mm_setr_epi32 a2 b2 c2 d2,
        _mm_setr_epi32 a3 b3 c3 d3) := by
  simp only [SM4_GFNI.transpose_4x4]
  rw [unpacklo_epi32_setr _ _ _ _ _ _ _ _ ha0 ha1 ha2 ha3 hb0 hb1 hb2 hb3,
    unpackhi_epi32_setr _ _ _ _ _ _ _ _ ha0 ha1 ha2 ha3 hb0 hb1 hb2 hb3,
    unpacklo_epi32_setr _ _ _ _ _ _ _ _ hc0 hc1 hc2 hc3 hd0 hd1 hd2 hd3,
    unpackhi_epi32_setr _ _ _ _ _ _ _ _ hc0 hc1 hc2 hc3 hd0 hd1 hd2 hd3,
    unpacklo_epi64_setr _ _ _ _ _ _ _ _ ha0 hb0 ha1 hb1 hc0 hd0 hc1 hd1,
    unpackhi_epi64_setr _ _ _ _ _ _ _ _ ha0 hb0 ha1 hb1 hc0 hd0 hc1 hd1,
    unpacklo_epi64_setr _ _ _ _ _ _ _ _ ha2 hb2 ha3 hb3 hc2 hd2 hc3 hd3,
    unpackhi_epi64_setr _ _ _ _ _ _ _ _ ha2 hb2 ha3 hb3 hc2 hd2 hc3 hd3]

theorem transpose_rowState (s0 s1 s2 s3 : Nat × Nat × Nat × Nat) (h0 : Window32 s0)
    (h1 : Window32 s1) (h2 : Window32 s2) (h3 : Window32 s3) :
    SM4_GFNI.transpose_4x4 (rowState s0 s1 s2 s3) = packState s0 s1 s2 s3 := by
  obtain ⟨ha0, ha1, ha2, ha3⟩ := h0
  obtain ⟨hb0, hb1, hb2, hb3⟩ := h1
  obtain ⟨hc0, hc1, hc2, hc3⟩ := h2
  obtain ⟨hd0, hd1, hd2, hd3⟩ := h3
  exact transpose_4x4_setr _ _ _ _ _ _ _ _ _ _ _ _ _ _ _ _ ha0 ha1 ha2 ha3 hb0 hb1 hb2 hb3 hc0
    hc1 hc2 hc3 hd0 hd1 hd2 hd3

theorem transpose_packState (s0 s1 s2 s3 : Nat × Nat × Nat × Nat) (h0 : Window32 s0)
    (h1 : Window32 s1) (h2 : Window32 s2) (h3 : Window32 s3) :
    SM4_GFNI.transpose_4x4 (packState s0 s1 s2 s3) = rowState s0 s1 s2 s3 := by
  obtain ⟨ha0, ha1, ha2, ha3⟩ := h0
  obtain ⟨hb0, hb1, hb2, hb3⟩ := h1
  obtain ⟨hc0, hc1, hc2, hc3⟩ := h2
  obtain ⟨hd0, hd1, hd2, hd3⟩ := h3
  exact transpose_4x4_setr _ _ _ _ _ _ _ _ _ _ _ _ _ _ _ _ ha0 hb0 hc0 hd0 ha1 hb1 hc1 hd1 ha2
    hb2 hc2 hd2 ha3 hb3 hc3 hd3

theorem shuffle_flp_block (B : List Nat) (h : B.length = 16) (hb : ∀ b ∈ B, b < 256) :
    _mm_shuffle_epi8 B SM4_AESNI.flp =
      _mm_setr_epi32 (blockWords B).1 (blockWords B).2.1 (blockWords B).2.2.1
        (blockWords B).2.2.2 := by
  obtain ⟨a0, a1, a2, a3, a4, a5, a6, a7, a8, a9, a10, a11, a12, a13, a14, a15, rfl⟩ :=
    list16_exists B h
  rw [blockWords_cons _ _ _ _ _ _ _ _ _ _ _ _ _ _ _ _ hb]
  simp only [List.mem_cons, List.mem_singleton, List.not_mem_nil, or_false, forall_eq_or_imp,
    forall_eq] at hb
  obtain ⟨p0, p1, p2, p3, p4, p5, p6, p7, p8, p9, p10, p11, p12, p13, p14, p15⟩ := hb
  simp only [_mm_setr_epi32]
  rw [bytes32_be _ _ _ _ p0 p1 p2 p3, bytes32_be _ _ _ _ p4 p5 p6 p7,
    bytes32_be _ _ _ _ p8 p9 p10 p11, bytes32_be _ _ _ _ p12 p13 p14 p15, flp_eq]
  rfl

theorem shuffle_flp_window (s : Nat × Nat × Nat × Nat) :
    _mm_shuffle_epi8 (_mm_setr_epi32 s.1 s.2.1 s.2.2.1 s.2.2.2) SM4_AESNI.flp = wordsBlock s := by
  rw [shuffle_flp_setr]
  simp only [wordsBlock, uint32_to_bytes_eq]
  rfl

theorem load_blocks (B0 B1 B2 B3 : List Nat) (h0 : B0.length = 16) (h1 : B1.length = 16)
    (h2 : B2.length = 16) (h3 : B3.length = 16) :
    _mm_load_si128 ((B0 ++ B1 ++ B2 ++ B3).drop 0) = B0 ∧
    _mm_load_si128 ((B0 ++ B1 ++ B2 ++ B3).drop 16) = B1 ∧
    _mm_load_si128 ((B0 ++ B1 ++ B2 ++ B3).drop 32) = B2 ∧
    _mm_load_si128 ((B0 ++ B1 ++ B2 ++ B3).drop 48) = B3 := by
  obtain ⟨a0, a1, a2, a3, a4, a5, a6, a7, a8, a9, a10, a11, a12, a13, a14, a15, rfl⟩ :=
    list16_exists B0 h0
  obtain ⟨c0, c1, c2, c3, c4, c5, c6, c7, c8, c9, c10, c11, c12, c13, c14, c15, rfl⟩ :=
    list16_exists B1 h1
  obtain ⟨d0, d1, d2, d3, d4, d5, d6, d7, d8, d9, d10, d11, d12, d13, d14, d15, rfl⟩ :=
    list16_exists B2 h2
  obtain ⟨e0, e1, e2, e3, e4, e5, e6, e7, e8, e9, e10, e11, e12, e13, e14, e15, rfl⟩ :=
    list16_exists B3 h3
  exact ⟨rfl, rfl, rfl, rfl⟩

theorem crypt_4blocks_fold (round_keys : List Nat) (encrypt : Bool)
    (x : M128 × M128 × M128 × M128) :
    (if encrypt then
      Nat.fold (fun i x => SM4_GFNI.crypt_4blocks_round (round_keys.getD i 0) x) 32 x
    else
      Nat.fold (fun n x => SM4_GFNI.crypt_4blocks_round (round_keys.getD (31 - n) 0) x) 32 x) =
      Nat.fold (fun i x => SM4_GFNI.crypt_4blocks_round (gfni_keys round_keys encrypt i) x)
        32 x := by
  cases encrypt <;> rfl

theorem revWindow_window32 (s : Nat × Nat × Nat × Nat) (h : Window32 s) :
    Window32 (revWindow s) :=
  ⟨h.2.2.2, h.2.2.1, h.2.1, h.1⟩

/-- The method `crypt_4blocks` works on each of the four blocks separately. -/
theorem crypt_4blocks_blocks (round_keys : List Nat) (encrypt : Bool) (B0 B1 B2 B3 : List Nat)
    (h0 : B0.length = 16) (h1 : B1.length = 16) (h2 : B2.length = 16) (h3 : B3.length = 16)
    (b0 : ∀ b ∈ B0, b < 256) (b1 : ∀ b ∈ B1, b < 256) (b2 : ∀ b ∈ B2, b < 256)
    (b3 : ∀ b ∈ B3, b < 256) :
    SM4_GFNI.crypt_4blocks round_keys (B0 ++ B1 ++ B2 ++ B3) encrypt =
      gfni_block round_keys encrypt B0 ++ gfni_block round_keys encrypt B1 ++
        gfni_block round_keys encrypt B2 ++ gfni_block round_keys encrypt B3 := by
  obtain ⟨l0, l1, l2, l3⟩ := load_blocks B0 B1 B2 B3 h0 h1 h2 h3
  have w0 := blockWords_window32 B0 b0
  have w1 := blockWords_window32 B1 b1
  have w2 := blockWords_window32 B2 b2
  have w3 := blockWords_window32 B3 b3
  have hload : (_mm_shuffle_epi8 B0 SM4_AESNI.flp, _mm_shuffle_epi8 B1 SM4_AESNI.flp,
      _mm_shuffle_epi8 B2 SM4_AESNI.flp, _mm_shuffle_epi8 B3 SM4_AESNI.flp) =
      rowState (blockWords B0) (blockWords B1) (blockWords B2) (blockWords B3) := by
    rw [shuffle_flp_block B0 h0 b0, shuffle_flp_block B1 h1 b1, shuffle_flp_block B2 h2 b2,
      shuffle_flp_block B3 h3 b3]
    rfl
  have r0 := feistelRounds_window32 gfni_T gfni_T_lt (gfni_keys round_keys encrypt) 32 _ w0
  have r1 := feistelRounds_window32 gfni_T gfni_T_lt (gfni_keys round_keys encrypt) 32 _ w1
  have r2 := feistelRounds_window32 gfni_T gfni_T_lt (gfni_keys round_keys encrypt) 32 _ w2
  have r3 := feistelRounds_window32 gfni_T gfni_T_lt (gfni_keys round_keys encrypt) 32 _ w3
  unfold SM4_GFNI.crypt_4blocks
  simp only []
  rw [crypt_4blocks_fold, bswap_mask_eq, l0, l1, l2, l3, hload,
    transpose_rowState _ _ _ _ w0 w1 w2 w3, crypt_4blocks_rounds_pack]
  have hrev : ∀ s0 s1 s2 s3 : Nat × Nat × Nat × Nat,
      ((packState s0 s1 s2 s3).2.2.2, (packState s0 s1 s2 s3).2.2.1, (packState s0 s1 s2 s3).2.1,
        (packState s0 s1 s2 s3).1) =
      packState (revWindow s0) (revWindow s1) (revWindow s2) (revWindow s3) := fun _ _ _ _ => rfl
  rw [hrev, transpose_packState _ _ _ _ (revWindow_window32 _ r0) (revWindow_window32 _ r1)
    (revWindow_window32 _ r2) (revWindow_window32 _ r3)]
  simp only [rowState, shuffle_flp_window, gfni_block]

theorem gfni_block_length (rks : List Nat) (e : Bool) (B : List Nat) :
    (gfni_block rks e B).length = 16 := wordsBlock_length _

theorem gfni_block_lt (rks : List Nat) (e : Bool) (B : List Nat) :
    ∀ b ∈ gfni_block rks e B, b < 256 := wordsBlock_lt _

theorem padded_input_eq (P : List Nat) (h : P.length = 16) :
    memset (memcpy (List.replicate 64 0) 0 P 16) 16 0 48 =
      P ++ List.replicate 16 0 ++ List.replicate 16 0 ++ List.replicate 16 0 := by
  obtain ⟨a0, a1, a2, a3, a4, a5, a6, a7, a8, a9, a10, a11, a12, a13, a14, a15, rfl⟩ :=
    list16_exists P h
  rfl

theorem replicate_16_lt : ∀ b ∈ List.replicate 16 0, b < 256 := by decide

/-- The single-block path of the GFNI class: the zero padding does not reach the result. -/
theorem crypt_4blocks_padded (rks : List Nat) (e : Bool) (P : List Nat) (h : P.length = 16)
    (hb : ∀ b ∈ P, b < 256) :
    (SM4_GFNI.crypt_4blocks rks (memset (memcpy (List.replicate 64 0) 0 P 16) 16 0 48)
      e).take 16 = gfni_block rks e P := by
  rw [padded_input_eq P h, crypt_4blocks_blocks rks e P (List.replicate 16 0)
    (List.replicate 16 0) (List.replicate 16 0) h (by rfl) (by rfl) (by rfl) hb replicate_16_lt
    replicate_16_lt replicate_16_lt, List.append_assoc, List.append_assoc]
  exact List.take_left' (gfni_block_length _ _ _)

theorem encrypt_block_gfni_eq (P K : List Nat) (h : P.length = 16) (hb : ∀ b ∈ P, b < 256) :
    SM4_GFNI.encrypt_block P K = gfni_block (SM4_GFNI.expand_key K) true P :=
  crypt_4blocks_padded _ true P h hb

theorem substr_length (s : List Char) (k : Nat) (h : k * 32 + 32 ≤ s.length) :
    (SM4_GFNI.substr s (k * 32) 32).length = 32 := by
  simp only [SM4_GFNI.substr, List.length_take, List.length_drop]
  omega

theorem substr_hex (s : List Char) (pos n : Nat) (hs : ∀ c ∈ s, (hexval c).isSome) :
    ∀ c ∈ SM4_GFNI.substr s pos n, (hexval c).isSome :=
  fun c hc => hs c (List.mem_of_mem_drop (List.mem_of_mem_take hc))

/-- Every block of a hexadecimal text decodes to 16 bytes. -/
theorem decodeBlock_spec (s : List Char) (hs : ∀ c ∈ s, (hexval c).isSome) (k : Nat)
    (h : k * 32 + 32 ≤ s.length) :
    SM4.hex_to_bytes (SM4_GFNI.substr s (k * 32) 32) = Except.ok (decodeBlock s k) ∧
      (decodeBlock s k).length = 16 ∧ ∀ b ∈ decodeBlock s k, b < 256 := by
  have hl := substr_length s k h
  obtain ⟨P, hP⟩ := hex_to_bytes_ok _ (substr_hex s (k * 32) 32 hs) (by rw [hl])
  obtain ⟨h1, h2⟩ := hex_to_bytes_spec _ P hP
  have hd : decodeBlock s k = P := by simp only [decodeBlock, hP]
  rw [hd]
  exact ⟨hP, by rw [h1, hl], h2⟩

theorem memcpy_fill (P0 P1 P2 P3 : List Nat) (h0 : P0.length = 16) (h1 : P1.length = 16)
    (h2 : P2.length = 16) (h3 : P3.length = 16) :
    memcpy (memcpy (memcpy (memcpy (List.replicate 64 0) (0 * 16) P0 16) (1 * 16) P1 16)
      (2 * 16) P2 16) (3 * 16) P3 16 = P0 ++ P1 ++ P2 ++ P3 := by
  obtain ⟨a0, a1, a2, a3, a4, a5, a6, a7, a8, a9, a10, a11, a12, a13, a14, a15, rfl⟩ :=
    list16_exists P0 h0
  obtain ⟨c0, c1, c2, c3, c4, c5, c6, c7, c8, c9, c10, c11, c12, c13, c14, c15, rfl⟩ :=
    list16_exists P1 h1
  obtain ⟨d0, d1, d2, d3, d4, d5, d6, d7, d8, d9, d10, d11, d12, d13, d14, d15, rfl⟩ :=
    list16_exists P2 h2
  obtain ⟨e0, e1, e2, e3, e4, e5, e6, e7, e8, e9, e10, e11, e12, e13, e14, e15, rfl⟩ :=
    list16_exists P3 h3
  rfl

/-- The first inner loop of the batch loop gathers the bytes of blocks `i .. i + 3`. -/
theorem encrypt_hex_fill_eq (s : List Char) (hs : ∀ c ∈ s, (hexval c).isSome) (i : Nat)
    (h : (i + 3) * 32 + 32 ≤ s.length) :
    SM4_GFNI.encrypt_hex_fill s i 4 (List.replicate 64 0) =
      Except.ok (decodeBlock s i ++ decodeBlock s (i + 1) ++ decodeBlock s (i + 2) ++
        decodeBlock s (i + 3)) := by
  obtain ⟨e0, l0, _⟩ := decodeBlock_spec s hs i (by omega)
  obtain ⟨e1, l1, _⟩ := decodeBlock_spec s hs (i + 1) (by omega)
  obtain ⟨e2, l2, _⟩ := decodeBlock_spec s hs (i + 2) (by omega)
  obtain ⟨e3, l3, _⟩ := decodeBlock_spec s hs (i + 3) (by omega)
  simp only [SM4_GFNI.encrypt_hex_fill, Nat.reduceSub, Nat.add_zero, e0, e1, e2, e3, bind,
    Except.bind]
  rw [memcpy_fill _ _ _ _ l0 l1 l2 l3]

theorem drop_take_blocks (G0 G1 G2 G3 : List Nat) (h0 : G0.length = 16) (h1 : G1.length = 16)
    (h2 : G2.length = 16) (h3 : G3.length = 16) :
    ((G0 ++ G1 ++ G2 ++ G3).drop (0 * 16)).take 16 = G0 ∧
    ((G0 ++ G1 ++ G2 ++ G3).drop (1 * 16)).take 16 = G1 ∧
    ((G0 ++ G1 ++ G2 ++ G3).drop (2 * 16)).take 16 = G2 ∧
    ((G0 ++ G1 ++ G2 ++ G3).drop (3 * 16)).take 16 = G3 := by
  obtain ⟨a0, a1, a2, a3, a4, a5, a6, a7, a8, a9, a10, a11, a12, a13, a14, a15, rfl⟩ :=
    list16_exists G0 h0
  obtain ⟨c0, c1, c2, c3, c4, c5, c6, c7, c8, c9, c10, c11, c12, c13, c14, c15, rfl⟩ :=
    list16_exists G1 h1
  obtain ⟨d0, d1, d2, d3, d4, d5, d6, d7, d8, d9, d10, d11, d12, d13, d14, d15, rfl⟩ :=
    list16_exists G2 h2
  obtain ⟨e0, e1, e2, e3, e4, e5, e6, e7, e8, e9, e10, e11, e12, e13, e14, e15, rfl⟩ :=
    list16_exists G3 h3
  exact ⟨rfl, rfl, rfl, rfl⟩

theorem range'_four (i m : Nat) :
    List.range' i (4 * (m + 1)) = i :: (i + 1) :: (i + 2) :: (i + 3) :: List.range' (i + 4) (4 * m) := by
  have h : 4 * (m + 1) = 4 * m + 1 + 1 + 1 + 1 := by omega
  rw [h, List.range'_succ, List.range'_succ, List.range'_succ, List.range'_succ]

/-- The batch loop of `encrypt_hex` appends the ciphertexts of the blocks it passes, in order. -/
theorem encrypt_hex_batch_eq (rks : List Nat) (s : List Char)
    (hs : ∀ c ∈ s, (hexval c).isSome) (N : Nat) (hN : N * 32 ≤ s.length) :
    ∀ fuel i result, (N - i) / 4 ≤ fuel →
      SM4_GFNI.encrypt_hex_batch rks s N fuel i result =
        Except.ok (i + 4 * ((N - i) / 4),
          result ++ (List.range' i (4 * ((N - i) / 4))).flatMap (gfni_hex_block rks s)) := by
  intro fuel
  induction fuel with
  | zero =>
    intro i result hf
    have h0 : (N - i) / 4 = 0 := by omega
    rw [h0]
    simp [SM4_GFNI.encrypt_hex_batch]
  | succ fuel ih =>
    intro i result hf
    by_cases hc : i + 4 ≤ N
    · obtain ⟨m, hm⟩ : ∃ m, (N - (i + 4)) / 4 = m := ⟨_, rfl⟩
      have h1 : (N - i) / 4 = m + 1 := by omega
      obtain ⟨_, l0, b0⟩ := decodeBlock_spec s hs i (by omega)
      obtain ⟨_, l1, b1⟩ := decodeBlock_spec s hs (i + 1) (by omega)
      obtain ⟨_, l2, b2⟩ := decodeBlock_spec s hs (i + 2) (by omega)
      obtain ⟨_, l3, b3⟩ := decodeBlock_spec s hs (i + 3) (by omega)
      obtain ⟨d0, d1, d2, d3⟩ := drop_take_blocks _ _ _ _
        (gfni_block_length rks true (decodeBlock s i))
        (gfni_block_length rks true (decodeBlock s (i + 1)))
        (gfni_block_length rks true (decodeBlock s (i + 2)))
        (gfni_block_length rks true (decodeBlock s (i + 3)))
      rw [SM4_GFNI.encrypt_hex_batch, if_pos hc, encrypt_hex_fill_eq s hs i (by omega)]
      simp only [bind, Except.bind]
      rw [crypt_4blocks_blocks rks true _ _ _ _ l0 l1 l2 l3 b0 b1 b2 b3]
      simp only [nat_fold_succ, nat_fold_zero, d0, d1, d2, d3]
      rw [ih (i + 4) _ (by omega), hm, h1, range'_four]
      simp only [List.flatMap_cons, gfni_hex_block, List.append_assoc, Prod.mk.injEq,
        Except.ok.injEq]
      constructor
      · omega
      · trivial
    · have h0 : (N - i) / 4 = 0 := by omega
      rw [SM4_GFNI.encrypt_hex_batch, if_neg hc, h0]
      simp

/-- The tail loop of `encrypt_hex` appends the ciphertexts of the remaining blocks, in order. -/
theorem encrypt_hex_tail_eq (K : List Nat) (s : List Char) (hs : ∀ c ∈ s, (hexval c).isSome)
    (N : Nat) (hN : N * 32 ≤ s.length) :
    ∀ fuel i result, N - i ≤ fuel →
      SM4_GFNI.encrypt_hex_tail K s N fuel i result =
        Except.ok (result ++
          (List.range' i (N - i)).flatMap (gfni_hex_block (SM4_GFNI.expand_key K) s)) := by
  intro fuel
  induction fuel with
  | zero =>
    intro i result hf
    have h0 : N - i = 0 := by omega
    rw [h0]
    simp [SM4_GFNI.encrypt_hex_tail]
  | succ fuel ih =>
    intro i result hf
    by_cases hc : i < N
    · obtain ⟨e0, l0, b0⟩ := decodeBlock_spec s hs i (by omega)
      have h1 : N - i = (N - (i + 1)) + 1 := by omega
      rw [SM4_GFNI.encrypt_hex_tail, if_pos hc]
      simp only []
      rw [e0]
      simp only [bind, Except.bind]
      rw [ih (i + 1) _ (by omega), encrypt_block_gfni_eq _ _ l0 b0, h1, List.range'_succ]
      simp only [List.flatMap_cons, gfni_hex_block, List.append_assoc]
    · have h0 : N - i = 0 := by omega
      rw [SM4_GFNI.encrypt_hex_tail, if_neg hc, h0]
      simp

/-- The GFNI `encrypt_hex` returns the ciphertexts of the blocks of its input, in order. -/
theorem encrypt_hex_gfni_eq (plain_hex key_hex : List Char) (K : List Nat)
    (hk : key_hex.length = 32) (hK : SM4.hex_to_bytes key_hex = Except.ok K)
    (hp : plain_hex.length % 32 = 0) (hph : ∀ c ∈ plain_hex, (hexval c).isSome) :
    SM4_GFNI.encrypt_hex plain_hex key_hex =
      Except.ok ((List.range (plain_hex.length / 32)).flatMap
        (gfni_hex_block (SM4_GFNI.expand_key K) plain_hex)) := by
  have hN : plain_hex.length / 32 * 32 ≤ plain_hex.length := Nat.div_mul_le_self _ _
  unfold SM4_GFNI.encrypt_hex
  rw [if_neg (by simp [hp]), if_neg (by simp [hk]), hK]
  simp only [bind, Except.bind]
  rw [encrypt_hex_batch_eq (SM4_GFNI.expand_key K) plain_hex hph (plain_hex.length / 32) hN
    (plain_hex.length / 32) 0 [] (by omega)]
  simp only []
  rw [encrypt_hex_tail_eq K plain_hex hph (plain_hex.length / 32) hN (plain_hex.length / 32) _ _
    (by omega), List.nil_append,
    ← List.flatMap_append, List.range_eq_range']
  congr 2
  have h := List.range'_append 0 (4 * ((plain_hex.length / 32 - 0) / 4))
    (plain_hex.length / 32 - (0 + 4 * ((plain_hex.length / 32 - 0) / 4))) 1
  simp only [Nat.one_mul] at h
  rw [h]
  congr 1
  omega

theorem encrypt_block_hex_gfni_block (plain_hex key_hex : List Char) (K : List Nat)
    (hk : key_hex.length = 32) (hK : SM4.hex_to_bytes key_hex = Except.ok K)
    (hph : ∀ c ∈ plain_hex, (hexval c).isSome) (k : Nat) (h : k * 32 + 32 ≤ plain_hex.length) :
    SM4_GFNI.encrypt_block_hex (SM4_GFNI.substr plain_hex (k * 32) 32) key_hex =
      Except.ok (gfni_hex_block (SM4_GFNI.expand_key K) plain_hex k) := by
  obtain ⟨e0, l0, b0⟩ := decodeBlock_spec plain_hex hph k h
  unfold SM4_GFNI.encrypt_block_hex
  rw [if_neg (by simp [substr_length plain_hex k h]), if_neg (by simp [hk]), e0, hK]
  simp only [bind, Except.bind]
  rw [encrypt_block_gfni_eq _ _ l0 b0]
  rfl

/-! ## Main results -/

theorem fold_snd_length (step : Nat → List Nat × List Nat → List Nat × List Nat)
    (h : ∀ i st, (step i st).2.length = st.2.length) (n : Nat) (init : List Nat × List Nat) :
    (Nat.fold step n init).2.length = init.2.length := by
  induction n with
  | zero => rfl
  | succ n ih => rw [nat_fold_succ, h, ih]

theorem key_schedule_length (key : List Nat) : (SM4.key_schedule key).length = 32 := by
  unfold SM4.key_schedule
  simp only []
  rw [fold_snd_length _ (fun i st => by simp only [List.length_set])]
  rfl

/-- C1. Reference round trip: for every 16-byte block `P` and every sequence `rk` of 32 round
keys, `decrypt_block (encrypt_block P rk) rk = P`; in particular this holds for the round keys
`key_schedule K` of every key `K`. -/
theorem SM4_decrypt_encrypt_block (P rk : List Nat) (hP : P.length = 16)
    (hb : ∀ b ∈ P, b < 256) (hrk : rk.length = 32) :
    SM4.decrypt_block (SM4.encrypt_block P rk) rk = P ∧
      ∀ K : List Nat,
        SM4.decrypt_block (SM4.encrypt_block P (SM4.key_schedule K)) (SM4.key_schedule K) = P :=
  ⟨decrypt_encrypt_block P rk hP hb hrk,
    fun K => decrypt_encrypt_block P _ hP hb (key_schedule_length K)⟩

theorem SM4_decrypt_encrypt_block_witness :
    (List.range 16).length = 16 ∧ (∀ b ∈ List.range 16, b < 256) ∧
      (List.replicate 32 7).length = 32 ∧
      (SM4.decrypt_block (SM4.encrypt_block (List.range 16) (List.replicate 32 7))
          (List.replicate 32 7) = List.range 16 ∧
        ∀ K : List Nat,
          SM4.decrypt_block (SM4.encrypt_block (List.range 16) (SM4.key_schedule K))
            (SM4.key_schedule K) = List.range 16) :=
  ⟨by decide, by decide, by decide,
    SM4_decrypt_encrypt_block (List.range 16) (List.replicate 32 7) (by decide) (by decide)
      (by decide)⟩

theorem uint32_to_bytes_tau (A : Nat) :
    SM4.uint32_to_bytes (SM4.tau A) =
      (SM4.uint32_to_bytes A).map (fun b => SM4.SBOX.getD b 0) := by
  rw [uint32_to_bytes_eq, uint32_to_bytes_eq, tau_eq]
  have h0 := SBOX_getD_lt (A / 16777216 % 256)
  have h1 := SBOX_getD_lt (A / 65536 % 256)
  have h2 := SBOX_getD_lt (A / 256 % 256)
  have h3 := SBOX_getD_lt (A % 256)
  simp only [List.map, List.cons.injEq, and_true]
  refine ⟨?_, ?_, ?_, ?_⟩ <;> omega

/-- C2. The AES-NI substitution equals the table substitution: for every word `A`,
`tau_aesni A = tau A`, and each of the four output bytes is the `SBOX` entry of the
corresponding input byte. -/
theorem SM4_AESNI_tau_aesni_eq_tau (A : Nat) :
    SM4_AESNI.tau_aesni A = SM4.tau A ∧
      SM4.uint32_to_bytes (SM4_AESNI.tau_aesni A) =
        (SM4.uint32_to_bytes A).map (fun b => SM4.SBOX.getD b 0) :=
  ⟨tau_aesni_eq_tau A, by rw [tau_aesni_eq_tau]; exact uint32_to_bytes_tau A⟩

/-- C3 (the code at the failing input). On the all-zero register `gfni_sbox` yields `0x73` in
every byte position, while `SBOX[0]` is `0xd6`. -/
theorem SM4_GFNI_gfni_sbox_zero :
    SM4_GFNI.gfni_sbox (List.replicate 16 0) = List.replicate 16 0x73 ∧
      SM4.SBOX.getD 0 0 = 0xd6 := by
  decide!

/-- C4 (the code at the failing input). On the register whose lanes are `1, 0, 0, 0`,
`linear_transform` leaves `0x01050505` in lane 0, while `L 1` is `0x01040405`. -/
theorem SM4_GFNI_linear_transform_one :
    lane32 (SM4_GFNI.linear_transform (_mm_setr_epi32 1 0 0 0)) 0 = 0x01050505 ∧
      SM4.L 1 = 0x01040405 := by
  decide!

/-- C5. Cross-backend equivalence, AES-NI: for every 32-hex-character key and plaintext,
`SM4_AESNI.encrypt_block_hex` returns the same string as `SM4.encrypt_block_hex`. -/
theorem SM4_AESNI_encrypt_block_hex_eq (plain_hex key_hex : List Char)
    (hp : plain_hex.length = 32) (hk : key_hex.length = 32)
    (hph : ∀ c ∈ plain_hex, (hexval c).isSome) (hkh : ∀ c ∈ key_hex, (hexval c).isSome) :
    ∃ c, SM4.encrypt_block_hex plain_hex key_hex = Except.ok c ∧
      SM4_AESNI.encrypt_block_hex plain_hex key_hex = Except.ok c := by
  obtain ⟨c, hc⟩ := encrypt_block_hex_ok plain_hex key_hex hp hk hph hkh
  exact ⟨c, hc, by rw [encrypt_block_hex_aesni_eq, hc]⟩

theorem SM4_AESNI_encrypt_block_hex_eq_witness :
    "00112233445566778899aabbccddeeff".toList.length = 32 ∧
      "0123456789ABCDEFfedcba9876543210".toList.length = 32 ∧
      (∀ c ∈ "00112233445566778899aabbccddeeff".toList, (hexval c).isSome) ∧
      (∀ c ∈ "0123456789ABCDEFfedcba9876543210".toList, (hexval c).isSome) ∧
      ∃ c, SM4.encrypt_block_hex "00112233445566778899aabbccddeeff".toList
          "0123456789ABCDEFfedcba9876543210".toList = Except.ok c ∧
        SM4_AESNI.encrypt_block_hex "00112233445566778899aabbccddeeff".toList
          "0123456789ABCDEFfedcba9876543210".toList = Except.ok c :=
  ⟨by decide, by decide, by decide, by decide,
    SM4_AESNI_encrypt_block_hex_eq "00112233445566778899aabbccddeeff".toList
      "0123456789ABCDEFfedcba9876543210".toList (by decide) (by decide) (by decide) (by decide)⟩

/-- C6 (the code at the failing input). With key and plaintext
`0123456789abcdeffedcba9876543210`, `SM4_GFNI.encrypt_block_hex` returns
`92511e51f3527a70f2aa08c8f8ad18a2`, which is not what `SM4.encrypt_block_hex` returns. -/
theorem SM4_GFNI_encrypt_block_hex_differs :
    SM4_GFNI.encrypt_block_hex "0123456789abcdeffedcba9876543210".toList
        "0123456789abcdeffedcba9876543210".toList =
      Except.ok "92511e51f3527a70f2aa08c8f8ad18a2".toList ∧
    SM4_GFNI.encrypt_block_hex "0123456789abcdeffedcba9876543210".toList
        "0123456789abcdeffedcba9876543210".toList ≠
      SM4.encrypt_block_hex "0123456789abcdeffedcba9876543210".toList
        "0123456789abcdeffedcba9876543210".toList := by
  decide!

/-- C7 (counterexample). With key and plaintext `0123456789abcdeffedcba9876543210` the
reference `encrypt_block_hex` does not return the 31-character string
`681edf34d206965e86b3e94f5364289`. -/
theorem SM4_known_vector_as_stated_fails :
    SM4.encrypt_block_hex "0123456789abcdeffedcba9876543210".toList
        "0123456789abcdeffedcba9876543210".toList ≠
      Except.ok "681edf34d206965e86b3e94f5364289".toList := by
  decide!

/-- C7 (amended). With key and plaintext `0123456789abcdeffedcba9876543210` the reference
`encrypt_block_hex` returns the 32-character string `681edf34d206965e86b3e94f536e4246`. -/
theorem SM4_known_vector :
    SM4.encrypt_block_hex "0123456789abcdeffedcba9876543210".toList
        "0123456789abcdeffedcba9876543210".toList =
      Except.ok "681edf34d206965e86b3e94f536e4246".toList := by
  decide!

/-- C8. Standard example 1 of GB/T 32907-2016: with key and plaintext
`0123456789abcdeffedcba9876543210`, `encrypt_block_hex` returns
`681edf34d206965e86b3e94f536e4246`, and `decrypt_block_hex` of that ciphertext under the same
key returns the plaintext. -/
theorem SM4_standard_example :
    SM4.encrypt_block_hex "0123456789abcdeffedcba9876543210".toList
        "0123456789abcdeffedcba9876543210".toList =
      Except.ok "681edf34d206965e86b3e94f536e4246".toList ∧
    SM4.decrypt_block_hex "681edf34d206965e86b3e94f536e4246".toList
        "0123456789abcdeffedcba9876543210".toList =
      Except.ok "0123456789abcdeffedcba9876543210".toList := by
  decide!

/-- C9. Batch/scalar equivalence of the AES-NI kernel: for every array `rk` of round keys (of
32 entries or of any other length, the kernel and the reference reading the same entries) and
every four 16-byte blocks laid out consecutively in `src`, `encrypt_4blocks_aesni` writes to
`dst` the four reference ciphertexts `SM4.encrypt_block Bj rk`, in the same positions. -/
theorem SM4_AESNI_encrypt_4blocks_aesni_eq (rk B0 B1 B2 B3 : List Nat)
    (h0 : B0.length = 16) (h1 : B1.length = 16) (h2 : B2.length = 16) (h3 : B3.length = 16) (b0 : ∀ b ∈ B0, b < 256)
    (b1 : ∀ b ∈ B1, b < 256) (b2 : ∀ b ∈ B2, b < 256) (b3 : ∀ b ∈ B3, b < 256) :
    SM4_AESNI.encrypt_4blocks_aesni rk (B0 ++ B1 ++ B2 ++ B3) =
      SM4.encrypt_block B0 rk ++ SM4.encrypt_block B1 rk ++ SM4.encrypt_block B2 rk ++
        SM4.encrypt_block B3 rk :=
  encrypt_4blocks_aesni_blocks rk B0 B1 B2 B3 h0 h1 h2 h3 b0 b1 b2 b3

theorem SM4_AESNI_encrypt_4blocks_aesni_eq_witness :
    (List.range 16).length = 16 ∧ (List.replicate 16 1).length = 16 ∧
      (List.replicate 16 2).length = 16 ∧ (List.replicate 16 255).length = 16 ∧
      (∀ b ∈ List.range 16, b < 256) ∧ (∀ b ∈ List.replicate 16 1, b < 256) ∧
      (∀ b ∈ List.replicate 16 2, b < 256) ∧ (∀ b ∈ List.replicate 16 255, b < 256) ∧
      SM4_AESNI.encrypt_4blocks_aesni (List.replicate 32 5)
          (List.range 16 ++ List.replicate 16 1 ++ List.replicate 16 2 ++
            List.replicate 16 255) =
        SM4.encrypt_block (List.range 16) (List.replicate 32 5) ++
          SM4.encrypt_block (List.replicate 16 1) (List.replicate 32 5) ++
          SM4.encrypt_block (List.replicate 16 2) (List.replicate 32 5) ++
          SM4.encrypt_block (List.replicate 16 255) (List.replicate 32 5) :=
  ⟨by decide, by decide, by decide, by decide, by decide, by decide, by decide, by decide,
    SM4_AESNI_encrypt_4blocks_aesni_eq (List.replicate 32 5) (List.range 16)
      (List.replicate 16 1) (List.replicate 16 2) (List.replicate 16 255) (by decide)
      (by decide) (by decide) (by decide) (by decide) (by decide) (by decide) (by decide)⟩

theorem crypt_4blocks_zero_padded (rks : List Nat) (e : Bool) (B : List Nat)
    (h : B.length = 16) (hb : ∀ b ∈ B, b < 256) :
    (SM4_GFNI.crypt_4blocks rks (B ++ List.replicate 48 0) e).take 16 = gfni_block rks e B := by
  have hz : B ++ List.replicate 48 0 =
      B ++ List.replicate 16 0 ++ List.replicate 16 0 ++ List.replicate 16 0 := by
    rw [List.append_assoc, List.append_assoc]
    rfl
  rw [hz, crypt_4blocks_blocks rks e B (List.replicate 16 0) (List.replicate 16 0)
    (List.replicate 16 0) h (by rfl) (by rfl) (by rfl) hb replicate_16_lt replicate_16_lt
    replicate_16_lt, List.append_assoc, List.append_assoc]
  exact List.take_left' (gfni_block_length _ _ _)

/-- With the two matrices read in the opposite byte order, the byte function of `gfni_sbox` is
the table `SBOX`. -/
theorem gfni_sbox_byte_reversed_matrices :
    ∀ b, b < 256 →
      affine_byte 0xd72d8e511e6c8b19 (gf2p8inv (affine_byte 0x34ac259e022dbc52 b 0x65)) 0xd3 =
        SM4.SBOX.getD b 0 := by
  decide!

/-- C10. Multi-block ordering, GFNI: for every key of 32 hexadecimal characters and every
hexadecimal plaintext of `N` blocks of 32 characters (`N` arbitrary), `encrypt_hex` returns the
concatenation, in input order, of what `encrypt_block_hex` returns for each block; and each
16-byte block of the output of `crypt_4blocks` is what the single-block path computes from the
input block at the same position followed by 48 zero bytes. -/
theorem SM4_GFNI_encrypt_hex_blocks (plain_hex key_hex : List Char) (hk : key_hex.length = 32)
    (hkh : ∀ c ∈ key_hex, (hexval c).isSome) (hp : plain_hex.length % 32 = 0)
    (hph : ∀ c ∈ plain_hex, (hexval c).isSome) :
    (∃ cs : Nat → List Char,
      (∀ k, k < plain_hex.length / 32 →
        SM4_GFNI.encrypt_block_hex (SM4_GFNI.substr plain_hex (k * 32) 32) key_hex =
          Except.ok (cs k)) ∧
      SM4_GFNI.encrypt_hex plain_hex key_hex =
        Except.ok ((List.range (plain_hex.length / 32)).flatMap cs)) ∧
    ∀ round_keys B0 B1 B2 B3 : List Nat, B0.length = 16 → B1.length = 16 → B2.length = 16 →
      B3.length = 16 → (∀ b ∈ B0, b < 256) → (∀ b ∈ B1, b < 256) → (∀ b ∈ B2, b < 256) →
      (∀ b ∈ B3, b < 256) →
      SM4_GFNI.crypt_4blocks round_keys (B0 ++ B1 ++ B2 ++ B3) true =
        (SM4_GFNI.crypt_4blocks round_keys (B0 ++ List.replicate 48 0) true).take 16 ++
        (SM4_GFNI.crypt_4blocks round_keys (B1 ++ List.replicate 48 0) true).take 16 ++
        (SM4_GFNI.crypt_4blocks round_keys (B2 ++ List.replicate 48 0) true).take 16 ++
        (SM4_GFNI.crypt_4blocks round_keys (B3 ++ List.replicate 48 0) true).take 16 := by
  constructor
  · obtain ⟨K, hK⟩ := hex_to_bytes_ok key_hex hkh (by rw [hk])
    refine ⟨gfni_hex_block (SM4_GFNI.expand_key K) plain_hex, ?_, ?_⟩
    · intro k hlt
      exact encrypt_block_hex_gfni_block plain_hex key_hex K hk hK hph k (by omega)
    · exact encrypt_hex_gfni_eq plain_hex key_hex K hk hK hp hph
  · intro rks B0 B1 B2 B3 h0 h1 h2 h3 b0 b1 b2 b3
    rw [crypt_4blocks_blocks rks true B0 B1 B2 B3 h0 h1 h2 h3 b0 b1 b2 b3,
      crypt_4blocks_zero_padded rks true B0 h0 b0, crypt_4blocks_zero_padded rks true B1 h1 b1,
      crypt_4blocks_zero_padded rks true B2 h2 b2, crypt_4blocks_zero_padded rks true B3 h3 b3]

theorem SM4_GFNI_encrypt_hex_blocks_witness :
    sampleKey.length = 32 ∧ (∀ c ∈ sampleKey, (hexval c).isSome) ∧
    sampleFiveBlocks.length % 32 = 0 ∧ (∀ c ∈ sampleFiveBlocks, (hexval c).isSome) ∧
    sampleFiveBlocks.length / 32 = 5 ∧
    ((∃ cs : Nat → List Char,
      (∀ k, k < sampleFiveBlocks.length / 32 →
        SM4_GFNI.encrypt_block_hex (SM4_GFNI.substr sampleFiveBlocks (k * 32) 32) sampleKey =
          Except.ok (cs k)) ∧
      SM4_GFNI.encrypt_hex sampleFiveBlocks sampleKey =
        Except.ok ((List.range (sampleFiveBlocks.length / 32)).flatMap cs)) ∧
    ∀ round_keys B0 B1 B2 B3 : List Nat, B0.length = 16 → B1.length = 16 → B2.length = 16 →
      B3.length = 16 → (∀ b ∈ B0, b < 256) → (∀ b ∈ B1, b < 256) → (∀ b ∈ B2, b < 256) →
      (∀ b ∈ B3, b < 256) →
      SM4_GFNI.crypt_4blocks round_keys (B0 ++ B1 ++ B2 ++ B3) true =
        (SM4_GFNI.crypt_4blocks round_keys (B0 ++ List.replicate 48 0) true).take 16 ++
        (SM4_GFNI.crypt_4blocks round_keys (B1 ++ List.replicate 48 0) true).take 16 ++
        (SM4_GFNI.crypt_4blocks round_keys (B2 ++ List.replicate 48 0) true).take 16 ++
        (SM4_GFNI.crypt_4blocks round_keys (B3 ++ List.replicate 48 0) true).take 16) :=
  ⟨by decide, by decide, by decide, by decide, by decide,
    SM4_GFNI_encrypt_hex_blocks sampleFiveBlocks sampleKey (by decide) (by decide) (by decide)
      (by decide)⟩

/-! ## Lemmas on the schedules and the hexadecimal interface -/

theorem nat_fold_congr {α : Type} (f g : Nat → α → α) (n : Nat) (a : α)
    (h : ∀ i, i < n → f i = g i) : Nat.fold f n a = Nat.fold g n a := by
  induction n with
  | zero => rfl
  | succ n ih =>
    rw [nat_fold_succ, nat_fold_succ, h n (by omega), ih (fun i hi => h i (by omega))]

/-- The decryption loop of `crypt_4blocks` is its encryption loop with the keys reversed. -/
theorem crypt_4blocks_reverse (rk input : List Nat) (h : rk.length = 32) :
    SM4_GFNI.crypt_4blocks rk input false = SM4_GFNI.crypt_4blocks rk.reverse input true := by
  have hf : ∀ x : M128 × M128 × M128 × M128,
      Nat.fold (fun n x => SM4_GFNI.crypt_4blocks_round (rk.getD (31 - n) 0) x) 32 x =
        Nat.fold (fun i x => SM4_GFNI.crypt_4blocks_round (rk.reverse.getD i 0) x) 32 x := by
    intro x
    apply nat_fold_congr
    intro i hi
    rw [reverse_getD rk h i hi]
  unfold SM4_GFNI.crypt_4blocks
  simp only [if_true, if_false, Bool.false_eq_true, hf]

/-- The array loop leaves the first four words alone and fills the others by the recurrence. -/
theorem arrayLoop_spec (F : Nat → Nat) (kf : Nat → Nat) (X0 : List Nat) (h : X0.length = 36)
    (n : Nat) (hn : n ≤ 32) :
    (Nat.fold (arrayStep F kf) n X0).length = 36 ∧
    (∀ j, j < 4 → (Nat.fold (arrayStep F kf) n X0).getD j 0 = X0.getD j 0) ∧
    ∀ i, i < n → (Nat.fold (arrayStep F kf) n X0).getD (i + 4) 0 =
      (Nat.fold (arrayStep F kf) n X0).getD i 0 ^^^
        F ((Nat.fold (arrayStep F kf) n X0).getD (i + 1) 0 ^^^
          (Nat.fold (arrayStep F kf) n X0).getD (i + 2) 0 ^^^
          (Nat.fold (arrayStep F kf) n X0).getD (i + 3) 0 ^^^ kf i) := by
  induction n with
  | zero => exact ⟨h, fun _ _ => rfl, fun i hi => absurd hi (Nat.not_lt_zero i)⟩
  | succ n ih =>
    obtain ⟨hl, h4, hr⟩ := ih (by omega)
    rw [nat_fold_succ]
    generalize Nat.fold (arrayStep F kf) n X0 = X at hl h4 hr
    refine ⟨by rw [arrayStep, List.length_set]; exact hl, ?_, ?_⟩
    · intro j hj
      rw [arrayStep, getD_set_ne _ _ _ _ (by omega)]
      exact h4 j hj
    · intro i hi
      by_cases hc : i = n
      · subst hc
        rw [arrayStep, getD_set_eq _ _ _ (by omega), getD_set_ne _ _ _ _ (by omega),
          getD_set_ne _ _ _ _ (by omega), getD_set_ne _ _ _ _ (by omega),
          getD_set_ne _ _ _ _ (by omega)]
      · rw [arrayStep, getD_set_ne _ _ _ _ (by omega), getD_set_ne _ _ _ _ (by omega),
          getD_set_ne _ _ _ _ (by omega), getD_set_ne _ _ _ _ (by omega),
          getD_set_ne _ _ _ _ (by omega)]
        exact hr i (by omega)

/-- The body of the round-key loop of `SM4.key_schedule`. -/
theorem key_schedule_loop (K0 R0 : List Nat) (hK : K0.length = 36) (hR : R0.length = 32)
    (n : Nat) (hn : n ≤ 32) :
    (Nat.fold (fun i (st : List Nat × List Nat) =>
      let K := st.1.set (i + 4)
        (st.1.getD i 0 ^^^
          SM4.T_prime (st.1.getD (i + 1) 0 ^^^ st.1.getD (i + 2) 0 ^^^ st.1.getD (i + 3) 0 ^^^
            SM4.CK.getD i 0))
      (K, st.2.set i (K.getD (i + 4) 0))) n (K0, R0)).1 =
      Nat.fold (arrayStep SM4.T_prime (fun i => SM4.CK.getD i 0)) n K0 ∧
    (Nat.fold (fun i (st : List Nat × List Nat) =>
      let K := st.1.set (i + 4)
        (st.1.getD i 0 ^^^
          SM4.T_prime (st.1.getD (i + 1) 0 ^^^ st.1.getD (i + 2) 0 ^^^ st.1.getD (i + 3) 0 ^^^
            SM4.CK.getD i 0))
      (K, st.2.set i (K.getD (i + 4) 0))) n (K0, R0)).2.length = 32 ∧
    ∀ i, i < n →
      (Nat.fold (fun i (st : List Nat × List Nat) =>
        let K := st.1.set (i + 4)
          (st.1.getD i 0 ^^^
            SM4.T_prime (st.1.getD (i + 1) 0 ^^^ st.1.getD (i + 2) 0 ^^^ st.1.getD (i + 3) 0 ^^^
              SM4.CK.getD i 0))
        (K, st.2.set i (K.getD (i + 4) 0))) n (K0, R0)).2.getD i 0 =
      (Nat.fold (arrayStep SM4.T_prime (fun i => SM4.CK.getD i 0)) n K0).getD (i + 4) 0 := by
  induction n with
  | zero => exact ⟨rfl, hR, fun i hi => absurd hi (Nat.not_lt_zero i)⟩
  | succ n ih =>
    obtain ⟨h1, h2, h3⟩ := ih (by omega)
    have hl := (arrayLoop_spec SM4.T_prime (fun i => SM4.CK.getD i 0) K0 hK n (by omega)).1
    rw [nat_fold_succ, nat_fold_succ]
    generalize Nat.fold (fun i (st : List Nat × List Nat) =>
      let K := st.1.set (i + 4)
        (st.1.getD i 0 ^^^
          SM4.T_prime (st.1.getD (i + 1) 0 ^^^ st.1.getD (i + 2) 0 ^^^ st.1.getD (i + 3) 0 ^^^
            SM4.CK.getD i 0))
      (K, st.2.set i (K.getD (i + 4) 0))) n (K0, R0) = st at h1 h2 h3
    generalize Nat.fold (arrayStep SM4.T_prime (fun i => SM4.CK.getD i 0)) n K0 = X at h1 h3 hl
    obtain ⟨K, R⟩ := st
    simp only [] at h1 h2 h3
    subst h1
    simp only []
    refine ⟨rfl, by rw [List.length_set]; exact h2, ?_⟩
    intro i hi
    by_cases hc : i = n
    · subst hc
      rw [getD_set_eq _ _ _ (by omega)]
      rfl
    · rw [getD_set_ne _ _ _ _ (by omega), arrayStep, getD_set_ne _ _ _ _ (by omega)]
      exact h3 i (by omega)

theorem spec_rotl_eq (w n : Nat) (hn : n ≤ 32) (hw : w < 2 ^ 32) :
    spec_rotl w n = SM4.left_rotate w n :=
  (left_rotate_eq_add w n hn hw).symm

theorem spec_L_prime_eq (w : Nat) (hw : w < 2 ^ 32) : spec_L_prime w = SM4.L_prime w := by
  rw [spec_L_prime, SM4.L_prime, spec_rotl_eq w 13 (by omega) hw, spec_rotl_eq w 23 (by omega) hw]

theorem spec_L_eq (w : Nat) (hw : w < 2 ^ 32) : spec_L w = SM4.L w := by
  rw [spec_L, SM4.L, spec_rotl_eq w 2 (by omega) hw, spec_rotl_eq w 10 (by omega) hw,
    spec_rotl_eq w 18 (by omega) hw, spec_rotl_eq w 24 (by omega) hw]

theorem spec_be_word_eq (P : List Nat) (i : Nat) (h : ∀ b ∈ P, b < 256) :
    spec_be_word P i = SM4.bytes_to_uint32 P (i * 4) := by
  rw [bytes_to_uint32_eq P (i * 4) h, spec_be_word, Nat.mul_comm 4 i]

theorem spec_be_bytes_eq (w : Nat) : spec_be_bytes w = SM4.uint32_to_bytes w := by
  rw [uint32_to_bytes_eq, spec_be_bytes]

/-- The array `K` of `SM4.key_schedule` obeys the recurrence and the round keys are its words
4 to 35. -/
theorem key_schedule_recurrence (key : List Nat) :
    ∃ K : List Nat,
      (∀ i, i < 4 → K.getD i 0 = SM4.bytes_to_uint32 key (i * 4) ^^^ SM4.FK.getD i 0) ∧
      (∀ i, i < 32 → K.getD (i + 4) 0 = K.getD i 0 ^^^
        SM4.T_prime (K.getD (i + 1) 0 ^^^ K.getD (i + 2) 0 ^^^ K.getD (i + 3) 0 ^^^
          SM4.CK.getD i 0)) ∧
      ∀ i, i < 32 → (SM4.key_schedule key).getD i 0 = K.getD (i + 4) 0 := by
  obtain ⟨K0, hK0⟩ : ∃ K0, K0 = Nat.fold (fun i K => K.set i
      ((Nat.fold (fun i MK => MK.set i (SM4.bytes_to_uint32 key (i * 4))) 4
        (List.replicate 4 0)).getD i 0 ^^^ SM4.FK.getD i 0)) 4 (List.replicate 36 0) := ⟨_, rfl⟩
  have hl : K0.length = 36 := by rw [hK0]; rfl
  have h0 : ∀ i, i < 4 → K0.getD i 0 = SM4.bytes_to_uint32 key (i * 4) ^^^ SM4.FK.getD i 0 := by
    intro i hi
    rw [hK0]
    interval_cases i <;> rfl
  obtain ⟨_, a4, ar⟩ := arrayLoop_spec SM4.T_prime (fun i => SM4.CK.getD i 0) K0 hl 32
    (le_refl _)
  obtain ⟨k1, _, k3⟩ := key_schedule_loop K0 (List.replicate 32 0) hl rfl 32 (le_refl _)
  refine ⟨Nat.fold (arrayStep SM4.T_prime (fun i => SM4.CK.getD i 0)) 32 K0, ?_, ar, ?_⟩
  · intro i hi
    rw [a4 i hi]
    exact h0 i hi
  · intro i hi
    rw [← k3 i hi, hK0]
    rfl

/-- The array `X` of `SM4.encrypt_block` obeys the recurrence and the ciphertext holds its last
four words in reverse order. -/
theorem encrypt_block_recurrence (P rk : List Nat) :
    ∃ X : List Nat,
      (∀ i, i < 4 → X.getD i 0 = SM4.bytes_to_uint32 P (i * 4)) ∧
      (∀ i, i < 32 → X.getD (i + 4) 0 = X.getD i 0 ^^^
        SM4.T (X.getD (i + 1) 0 ^^^ X.getD (i + 2) 0 ^^^ X.getD (i + 3) 0 ^^^ rk.getD i 0)) ∧
      SM4.encrypt_block P rk = SM4.uint32_to_bytes (X.getD 35 0) ++
        SM4.uint32_to_bytes (X.getD 34 0) ++ SM4.uint32_to_bytes (X.getD 33 0) ++
        SM4.uint32_to_bytes (X.getD 32 0) := by
  obtain ⟨X0, hX0⟩ : ∃ X0, X0 = Nat.fold (fun i X => X.set i (SM4.bytes_to_uint32 P (i * 4))) 4
      (List.replicate 36 0) := ⟨_, rfl⟩
  have hl : X0.length = 36 := by rw [hX0]; rfl
  have h0 : ∀ i, i < 4 → X0.getD i 0 = SM4.bytes_to_uint32 P (i * 4) := by
    intro i hi
    rw [hX0]
    interval_cases i <;> rfl
  obtain ⟨_, a4, ar⟩ := arrayLoop_spec SM4.T (fun i => rk.getD i 0) X0 hl 32 (le_refl _)
  refine ⟨Nat.fold (arrayStep SM4.T (fun i => rk.getD i 0)) 32 X0, ?_, ar, ?_⟩
  · intro i hi
    rw [a4 i hi]
    exact h0 i hi
  · rw [hX0]
    rfl

theorem hexval_hexChar (d : Nat) (hd : d < 16) : hexval (SM4.hexChar d) = some d := by
  interval_cases d <;> rfl

theorem bytes_to_hex_cons (b : Nat) (bs : List Nat) :
    SM4.bytes_to_hex (b :: bs) =
      SM4.hexChar (b / 16) :: SM4.hexChar (b % 16) :: SM4.bytes_to_hex bs := by
  simp only [SM4.bytes_to_hex, List.flatMap_cons, List.cons_append, List.nil_append]

theorem bytes_to_hex_append (as bs : List Nat) :
    SM4.bytes_to_hex (as ++ bs) = SM4.bytes_to_hex as ++ SM4.bytes_to_hex bs := by
  simp only [SM4.bytes_to_hex, List.flatMap_append]

theorem bytes_to_hex_length (bs : List Nat) : (SM4.bytes_to_hex bs).length = 2 * bs.length := by
  induction bs with
  | nil => rfl
  | cons b bs ih =>
    rw [bytes_to_hex_cons, List.length_cons, List.length_cons, List.length_cons, ih]
    omega

/-- Printing bytes gives lowercase hexadecimal digits. -/
theorem bytes_to_hex_lower (bs : List Nat) (h : ∀ b ∈ bs, b < 256) :
    ∀ c ∈ SM4.bytes_to_hex bs, isLowerHex c = true := by
  induction bs with
  | nil =>
    intro c hc
    simp [SM4.bytes_to_hex] at hc
  | cons b bs ih =>
    intro c hc
    rw [bytes_to_hex_cons] at hc
    have hb : b < 256 := h b (by simp)
    have h1 : ∀ d, d < 16 → isLowerHex (SM4.hexChar d) = true := by
      intro d hd
      interval_cases d <;> rfl
    rcases List.mem_cons.1 hc with rfl | hc
    · exact h1 _ (by omega)
    · rcases List.mem_cons.1 hc with rfl | hc
      · exact h1 _ (by omega)
      · exact ih (fun x hx => h x (by simp [hx])) c hc

theorem isLowerHex_hexval (c : Char) (h : isLowerHex c = true) : (hexval c).isSome := by
  unfold isLowerHex at h
  simp only [decide_eq_true_eq] at h
  unfold hexval
  simp only []
  split_ifs <;> first | rfl | omega

theorem bytes_to_hex_hex (bs : List Nat) (h : ∀ b ∈ bs, b < 256) :
    ∀ c ∈ SM4.bytes_to_hex bs, (hexval c).isSome :=
  fun c hc => isLowerHex_hexval c (bytes_to_hex_lower bs h c hc)

/-- Decoding what was printed gives the bytes back. -/
theorem hex_to_bytes_bytes_to_hex (bs : List Nat) (h : ∀ b ∈ bs, b < 256) :
    SM4.hex_to_bytes (SM4.bytes_to_hex bs) = Except.ok bs := by
  induction bs with
  | nil => rfl
  | cons b bs ih =>
    have hb : b < 256 := h b (by simp)
    rw [bytes_to_hex_cons, SM4.hex_to_bytes,
      stoul16_pair _ _ (b / 16) (b % 16) (hexval_hexChar _ (by omega))
        (hexval_hexChar _ (by omega)),
      ih (fun x hx => h x (by simp [hx]))]
    simp only [bind, Except.bind, Except.ok.injEq, List.cons.injEq, and_true]
    omega

theorem hexChar_hexval (c : Char) (d : Nat) (hl : isLowerHex c = true)
    (h : hexval c = some d) : SM4.hexChar d = c := by
  unfold isLowerHex at hl
  simp only [decide_eq_true_eq] at hl
  unfold hexval at h
  simp only [] at h
  unfold SM4.hexChar
  split_ifs at h with h1 h2 h3
  · simp only [Option.some.injEq] at h
    have e : (if d < 10 then 48 + d else 87 + d) = c.toNat := by
      rw [if_pos (by omega)]
      omega
    rw [e, Char.ofNat_toNat]
  · simp only [Option.some.injEq] at h
    have e : (if d < 10 then 48 + d else 87 + d) = c.toNat := by
      rw [if_neg (by omega)]
      omega
    rw [e, Char.ofNat_toNat]
  · omega

/-- Printing what was decoded from lowercase text of even length gives the text back. -/
theorem bytes_to_hex_hex_to_bytes (s : List Char) :
    ∀ bs, (∀ c ∈ s, isLowerHex c = true) → s.length % 2 = 0 →
      SM4.hex_to_bytes s = Except.ok bs → SM4.bytes_to_hex bs = s := by
  induction s using SM4.hex_to_bytes.induct with
  | case1 =>
    intro bs _ _ h
    simp only [SM4.hex_to_bytes, Except.ok.injEq] at h
    rw [← h]
    rfl
  | case2 c =>
    intro bs _ he
    simp at he
  | case3 c1 c2 rest ih =>
    intro bs hl he h
    have l1 := hl c1 (by simp)
    have l2 := hl c2 (by simp)
    obtain ⟨d1, e1⟩ := Option.isSome_iff_exists.1 (isLowerHex_hexval c1 l1)
    obtain ⟨d2, e2⟩ := Option.isSome_iff_exists.1 (isLowerHex_hexval c2 l2)
    have g1 := hexval_lt c1 d1 e1
    have g2 := hexval_lt c2 d2 e2
    obtain ⟨r, hr⟩ := hex_to_bytes_ok rest
      (fun c hc => isLowerHex_hexval c (hl c (by simp [hc]))) (by simp at he; omega)
    rw [SM4.hex_to_bytes, stoul16_pair c1 c2 d1 d2 e1 e2, hr] at h
    simp only [bind, Except.bind, Except.ok.injEq] at h
    rw [← h, bytes_to_hex_cons, ih r (fun c hc => hl c (by simp [hc])) (by simp at he; omega) hr]
    have q1 : (16 * d1 + d2) % 256 / 16 = d1 := by omega
    have q2 : (16 * d1 + d2) % 256 % 16 = d2 := by omega
    rw [q1, q2, hexChar_hexval c1 d1 l1 e1, hexChar_hexval c2 d2 l2 e2]

/-- For one block, the decryption of the GFNI class undoes its encryption. -/
theorem gfni_block_round_trip (rks P : List Nat) (h : P.length = 16) (hb : ∀ b ∈ P, b < 256) :
    gfni_block rks false (gfni_block rks true P) = P := by
  unfold gfni_block
  rw [blockWords_wordsBlock _ (revWindow_window32 _
    (feistelRounds_window32 gfni_T gfni_T_lt _ 32 _ (blockWords_window32 P hb)))]
  have hk : gfni_keys rks false = fun i => (gfni_keys rks true) (32 - 1 - i) := rfl
  rw [hk, feistelRounds_rev gfni_T (gfni_keys rks true) 32 _ 32 (le_refl _)]
  exact wordsBlock_blockWords P h hb

theorem decrypt_block_gfni_eq (C K : List Nat) (h : C.length = 16) (hb : ∀ b ∈ C, b < 256) :
    SM4_GFNI.decrypt_block C K = gfni_block (SM4_GFNI.expand_key K) false C :=
  crypt_4blocks_padded _ false C h hb

/-- The two block entry points of the GFNI class on decoded text. -/
theorem decrypt_encrypt_block_hex_gfni (P K : List Char) (Pb Kb : List Nat)
    (hp : P.length = 32) (hk : K.length = 32) (hpl : ∀ c ∈ P, isLowerHex c = true)
    (hP : SM4.hex_to_bytes P = Except.ok Pb) (hK : SM4.hex_to_bytes K = Except.ok Kb) :
    SM4_GFNI.encrypt_block_hex P K =
        Except.ok (SM4.bytes_to_hex (gfni_block (SM4_GFNI.expand_key Kb) true Pb)) ∧
      SM4_GFNI.decrypt_block_hex
        (SM4.bytes_to_hex (gfni_block (SM4_GFNI.expand_key Kb) true Pb)) K = Except.ok P := by
  obtain ⟨lP, bP⟩ := hex_to_bytes_spec P Pb hP
  rw [hp] at lP
  have lP16 : Pb.length = 16 := by omega
  constructor
  · unfold SM4_GFNI.encrypt_block_hex
    rw [if_neg (by simp [hp]), if_neg (by simp [hk]), hP, hK]
    simp only [bind, Except.bind]
    rw [encrypt_block_gfni_eq _ _ lP16 bP]
  · have hl : (SM4.bytes_to_hex (gfni_block (SM4_GFNI.expand_key Kb) true Pb)).length = 32 := by
      rw [bytes_to_hex_length, gfni_block_length]
    unfold SM4_GFNI.decrypt_block_hex
    rw [if_neg (by simp [hl]), if_neg (by simp [hk]),
      hex_to_bytes_bytes_to_hex _ (gfni_block_lt _ _ _), hK]
    simp only [bind, Except.bind]
    rw [decrypt_block_gfni_eq _ _ (gfni_block_length _ _ _) (gfni_block_lt _ _ _),
      gfni_block_round_trip _ _ lP16 bP,
      bytes_to_hex_hex_to_bytes P Pb hpl (by rw [hp]) hP]

theorem flatMap_range_succ {α : Type} (f : Nat → List α) (n : Nat) :
    (List.range (n + 1)).flatMap f = (List.range n).flatMap f ++ f n := by
  rw [List.range_succ, List.flatMap_append]
  simp only [List.flatMap_cons, List.flatMap_nil, List.append_nil]

theorem flatMap_range_congr {α : Type} (f g : Nat → List α) (N : Nat)
    (h : ∀ k, k < N → f k = g k) : (List.range N).flatMap f = (List.range N).flatMap g := by
  induction N with
  | zero => rfl
  | succ n ih =>
    rw [flatMap_range_succ, flatMap_range_succ, ih (fun k hk => h k (by omega)), h n (by omega)]

theorem flatMap_range_length {α : Type} (f : Nat → List α) (N : Nat)
    (h : ∀ k, k < N → (f k).length = 32) : ((List.range N).flatMap f).length = N * 32 := by
  induction N with
  | zero => rfl
  | succ n ih =>
    rw [flatMap_range_succ, List.length_append, ih (fun k hk => h k (by omega)), h n (by omega)]
    omega

theorem flatMap_range_mem {α : Type} (f : Nat → List α) (p : α → Prop) (N : Nat)
    (h : ∀ k, k < N → ∀ c ∈ f k, p c) : ∀ c ∈ (List.range N).flatMap f, p c := by
  induction N with
  | zero =>
    intro c hc
    simp at hc
  | succ n ih =>
    intro c hc
    rw [flatMap_range_succ] at hc
    rcases List.mem_append.1 hc with hc | hc
    · exact ih (fun k hk => h k (by omega)) c hc
    · exact h n (by omega) c hc

/-- Block `k` of a concatenation of blocks of 32 characters is the `k`-th of them. -/
theorem substr_flatMap (f : Nat → List Char) (N : Nat) (h : ∀ k, k < N → (f k).length = 32)
    (k : Nat) (hk : k < N) : SM4_GFNI.substr ((List.range N).flatMap f) (k * 32) 32 = f k := by
  induction N with
  | zero => omega
  | succ n ih =>
    have hl := flatMap_range_length f n (fun j hj => h j (by omega))
    rw [flatMap_range_succ]
    by_cases hc : k = n
    · subst hc
      rw [SM4_GFNI.substr, List.drop_left' hl]
      exact List.take_of_length_le (by rw [h k (by omega)])
    · have hlt : k < n := by omega
      rw [SM4_GFNI.substr, List.drop_append_of_le_length (by omega),
        List.take_append_of_le_length (by rw [List.length_drop]; omega)]
      exact ih (fun j hj => h j (by omega)) hlt

theorem flatMap_substr_take (P : List Char) (n : Nat) :
    (List.range n).flatMap (fun k => SM4_GFNI.substr P (k * 32) 32) = P.take (n * 32) := by
  induction n with
  | zero => simp
  | succ n ih =>
    rw [flatMap_range_succ, ih, SM4_GFNI.substr, ← List.take_add]
    congr 1
    omega

/-- A text of `N` blocks is the concatenation of its blocks. -/
theorem flatMap_substr (P : List Char) (N : Nat) (h : P.length = N * 32) :
    (List.range N).flatMap (fun k => SM4_GFNI.substr P (k * 32) 32) = P := by
  rw [flatMap_substr_take]
  exact List.take_of_length_le (by omega)

theorem substr_lower (s : List Char) (pos n : Nat) (hs : ∀ c ∈ s, isLowerHex c = true) :
    ∀ c ∈ SM4_GFNI.substr s pos n, isLowerHex c = true :=
  fun c hc => hs c (List.mem_of_mem_drop (List.mem_of_mem_take hc))

/-- Printing the decoded block `k` of a lowercase text gives the block back. -/
theorem bytes_to_hex_decodeBlock (s : List Char) (hs : ∀ c ∈ s, isLowerHex c = true) (k : Nat)
    (h : k * 32 + 32 ≤ s.length) :
    SM4.bytes_to_hex (decodeBlock s k) = SM4_GFNI.substr s (k * 32) 32 := by
  obtain ⟨e, _, _⟩ := decodeBlock_spec s (fun c hc => isLowerHex_hexval c (hs c hc)) k h
  exact bytes_to_hex_hex_to_bytes _ _ (substr_lower s _ _ hs)
    (by rw [substr_length s k h]) e

/-- Block `k` of printed blocks decodes to the `k`-th of them. -/
theorem decodeBlock_flatMap (E : Nat → List Nat) (N : Nat) (hl : ∀ k, k < N → (E k).length = 16)
    (hb : ∀ k, k < N → ∀ b ∈ E k, b < 256) (k : Nat) (hk : k < N) :
    decodeBlock ((List.range N).flatMap (fun j => SM4.bytes_to_hex (E j))) k = E k := by
  rw [decodeBlock, substr_flatMap (fun j => SM4.bytes_to_hex (E j)) N
    (fun j hj => by rw [bytes_to_hex_length, hl j hj]) k hk,
    hex_to_bytes_bytes_to_hex _ (hb k hk)]

/-- The loop of the reference `encrypt_hex` appends the ciphertexts of the blocks, in order. -/
theorem encrypt_hex_loop_eq (rks : List Nat) (s : List Char)
    (hs : ∀ c ∈ s, (hexval c).isSome) (N : Nat) (hN : s.length = N * 32) :
    ∀ fuel k result, N - k ≤ fuel →
      SM4.encrypt_hex_loop rks s fuel (k * 32) result =
        Except.ok (result ++
          (List.range' k (N - k)).flatMap (mapBlock (fun B => SM4.encrypt_block B rks) s)) := by
  intro fuel
  induction fuel with
  | zero =>
    intro k result hf
    have h0 : N - k = 0 := by omega
    rw [h0]
    simp [SM4.encrypt_hex_loop]
  | succ fuel ih =>
    intro k result hf
    by_cases hc : k < N
    · obtain ⟨e0, _, _⟩ := decodeBlock_spec s hs k (by omega)
      have h1 : N - k = (N - (k + 1)) + 1 := by omega
      have h2 : k * 32 + 32 = (k + 1) * 32 := by omega
      rw [SM4.encrypt_hex_loop, if_pos (by omega)]
      simp only []
      rw [e0]
      simp only [bind, Except.bind]
      rw [h2, ih (k + 1) _ (by omega), h1, List.range'_succ]
      simp only [List.flatMap_cons, mapBlock, List.append_assoc]
    · have h0 : N - k = 0 := by omega
      rw [SM4.encrypt_hex_loop, if_neg (by omega), h0]
      simp

/-- The loop of the reference `decrypt_hex` appends the plaintexts of the blocks, in order. -/
theorem decrypt_hex_loop_eq (rks : List Nat) (s : List Char)
    (hs : ∀ c ∈ s, (hexval c).isSome) (N : Nat) (hN : s.length = N * 32) :
    ∀ fuel k result, N - k ≤ fuel →
      SM4.decrypt_hex_loop rks s fuel (k * 32) result =
        Except.ok (result ++
          (List.range' k (N - k)).flatMap (mapBlock (fun B => SM4.decrypt_block B rks) s)) := by
  intro fuel
  induction fuel with
  | zero =>
    intro k result hf
    have h0 : N - k = 0 := by omega
    rw [h0]
    simp [SM4.decrypt_hex_loop]
  | succ fuel ih =>
    intro k result hf
    by_cases hc : k < N
    · obtain ⟨e0, _, _⟩ := decodeBlock_spec s hs k (by omega)
      have h1 : N - k = (N - (k + 1)) + 1 := by omega
      have h2 : k * 32 + 32 = (k + 1) * 32 := by omega
      rw [SM4.decrypt_hex_loop, if_pos (by omega)]
      simp only []
      rw [e0]
      simp only [bind, Except.bind]
      rw [h2, ih (k + 1) _ (by omega), h1, List.range'_succ]
      simp only [List.flatMap_cons, mapBlock, List.append_assoc]
    · have h0 : N - k = 0 := by omega
      rw [SM4.decrypt_hex_loop, if_neg (by omega), h0]
      simp

/-- The reference `encrypt_hex` returns the ciphertexts of the blocks of its input, in order. -/
theorem encrypt_hex_ref_eq (plain_hex key_hex : List Char) (K : List Nat)
    (hk : key_hex.length = 32) (hK : SM4.hex_to_bytes key_hex = Except.ok K)
    (hp : plain_hex.length % 32 = 0) (hph : ∀ c ∈ plain_hex, (hexval c).isSome) :
    SM4.encrypt_hex plain_hex key_hex =
      Except.ok ((List.range (plain_hex.length / 32)).flatMap
        (mapBlock (fun B => SM4.encrypt_block B (SM4.key_schedule K)) plain_hex)) := by
  have hN : plain_hex.length = plain_hex.length / 32 * 32 := by omega
  unfold SM4.encrypt_hex
  rw [if_neg (by simp [hp]), if_neg (by simp [hk]), hK]
  simp only [bind, Except.bind]
  have h := encrypt_hex_loop_eq (SM4.key_schedule K) plain_hex hph (plain_hex.length / 32) hN
    plain_hex.length 0 [] (by omega)
  rw [Nat.zero_mul] at h
  rw [h, List.nil_append, List.range_eq_range', Nat.sub_zero]

/-- The reference `decrypt_hex` returns the plaintexts of the blocks of its input, in order. -/
theorem decrypt_hex_ref_eq (cipher_hex key_hex : List Char) (K : List Nat)
    (hk : key_hex.length = 32) (hK : SM4.hex_to_bytes key_hex = Except.ok K)
    (hp : cipher_hex.length % 32 = 0) (hph : ∀ c ∈ cipher_hex, (hexval c).isSome) :
    SM4.decrypt_hex cipher_hex key_hex =
      Except.ok ((List.range (cipher_hex.length / 32)).flatMap
        (mapBlock (fun B => SM4.decrypt_block B (SM4.key_schedule K)) cipher_hex)) := by
  have hN : cipher_hex.length = cipher_hex.length / 32 * 32 := by omega
  unfold SM4.decrypt_hex
  rw [if_neg (by simp [hp]), if_neg (by simp [hk]), hK]
  simp only [bind, Except.bind]
  have h := decrypt_hex_loop_eq (SM4.key_schedule K) cipher_hex hph (cipher_hex.length / 32) hN
    cipher_hex.length 0 [] (by omega)
  rw [Nat.zero_mul] at h
  rw [h, List.nil_append, List.range_eq_range', Nat.sub_zero]

/-- Decrypting the blocks of a ciphertext made of encrypted blocks gives the text back. -/
theorem decrypt_blocks_encrypt_blocks (P : List Char) (rks : List Nat) (N : Nat)
    (hP : P.length = N * 32) (hl : ∀ c ∈ P, isLowerHex c = true) (hrk : rks.length = 32) :
    ((List.range N).flatMap (mapBlock (fun B => SM4.encrypt_block B rks) P)).length = N * 32 ∧
    (∀ c ∈ (List.range N).flatMap (mapBlock (fun B => SM4.encrypt_block B rks) P),
      (hexval c).isSome) ∧
    (List.range N).flatMap (mapBlock (fun B => SM4.decrypt_block B rks)
      ((List.range N).flatMap (mapBlock (fun B => SM4.encrypt_block B rks) P))) = P := by
  have hh : ∀ c ∈ P, (hexval c).isSome := fun c hc => isLowerHex_hexval c (hl c hc)
  have hlen : ∀ k, k < N → (mapBlock (fun B => SM4.encrypt_block B rks) P k).length = 32 := by
    intro k _
    rw [mapBlock, bytes_to_hex_length, encrypt_block_length]
  refine ⟨flatMap_range_length _ N hlen, ?_, ?_⟩
  · apply flatMap_range_mem
    intro k _
    exact bytes_to_hex_hex _ (encrypt_block_lt _ _)
  · have hd : ∀ k, k < N →
        mapBlock (fun B => SM4.decrypt_block B rks)
          ((List.range N).flatMap (mapBlock (fun B => SM4.encrypt_block B rks) P)) k =
        SM4_GFNI.substr P (k * 32) 32 := by
      intro k hk
      obtain ⟨_, l0, b0⟩ := decodeBlock_spec P hh k (by omega)
      have hE := decodeBlock_flatMap (fun j => SM4.encrypt_block (decodeBlock P j) rks) N
        (fun j _ => encrypt_block_length _ _) (fun j _ => encrypt_block_lt _ _) k hk
      have hm : (mapBlock (fun B => SM4.encrypt_block B rks) P) =
          fun j => SM4.bytes_to_hex (SM4.encrypt_block (decodeBlock P j) rks) := rfl
      rw [mapBlock, hm, hE]
      simp only []
      rw [decrypt_encrypt_block _ _ l0 b0 hrk, bytes_to_hex_decodeBlock P hl k (by omega)]
    rw [flatMap_range_congr _ _ N hd, flatMap_substr P N hP]

/-- The reference round trip at the hexadecimal interface, on a decoded key. -/
theorem decrypt_encrypt_hex_ref (P key_hex : List Char) (K : List Nat)
    (hk : key_hex.length = 32) (hK : SM4.hex_to_bytes key_hex = Except.ok K)
    (hp : P.length % 32 = 0) (hl : ∀ c ∈ P, isLowerHex c = true) :
    ∃ c, SM4.encrypt_hex P key_hex = Except.ok c ∧ SM4.decrypt_hex c key_hex = Except.ok P := by
  have hN : P.length = P.length / 32 * 32 := by omega
  obtain ⟨c1, c2, c3⟩ := decrypt_blocks_encrypt_blocks P (SM4.key_schedule K) (P.length / 32) hN
    hl (key_schedule_length K)
  refine ⟨_, encrypt_hex_ref_eq P key_hex K hk hK hp
    (fun c hc => isLowerHex_hexval c (hl c hc)), ?_⟩
  rw [decrypt_hex_ref_eq _ key_hex K hk hK (by rw [c1]; omega) c2, c1,
    Nat.mul_div_cancel _ (by omega), c3]

theorem encrypt_hex_fill_aesni_eq (s : List Char) (hs : ∀ c ∈ s, (hexval c).isSome) (i : Nat)
    (h : (i + 3) * 32 + 32 ≤ s.length) :
    SM4_AESNI.encrypt_hex_fill s i 4 (List.replicate 64 0) =
      Except.ok (decodeBlock s i ++ decodeBlock s (i + 1) ++ decodeBlock s (i + 2) ++
        decodeBlock s (i + 3)) := by
  obtain ⟨e0, l0, _⟩ := decodeBlock_spec s hs i (by omega)
  obtain ⟨e1, l1, _⟩ := decodeBlock_spec s hs (i + 1) (by omega)
  obtain ⟨e2, l2, _⟩ := decodeBlock_spec s hs (i + 2) (by omega)
  obtain ⟨e3, l3, _⟩ := decodeBlock_spec s hs (i + 3) (by omega)
  simp only [SM4_AESNI.encrypt_hex_fill, Nat.reduceSub, Nat.add_zero, e0, e1, e2, e3, bind,
    Except.bind]
  rw [memcpy_fill _ _ _ _ l0 l1 l2 l3]

/-- The batch loop of the AES-NI `encrypt_hex` appends the ciphertexts of the blocks it passes,
in order. -/
theorem encrypt_hex_batch_aesni_eq (rks : List Nat) (s : List Char)
    (hs : ∀ c ∈ s, (hexval c).isSome) (N : Nat) (hN : N * 32 ≤ s.length) :
    ∀ fuel i result, (N - i) / 4 ≤ fuel →
      SM4_AESNI.encrypt_hex_batch rks s N fuel i result =
        Except.ok (i + 4 * ((N - i) / 4),
          result ++ (List.range' i (4 * ((N - i) / 4))).flatMap
            (mapBlock (fun B => SM4.encrypt_block B rks) s)) := by
  intro fuel
  induction fuel with
  | zero =>
    intro i result hf
    have h0 : (N - i) / 4 = 0 := by omega
    rw [h0]
    simp [SM4_AESNI.encrypt_hex_batch]
  | succ fuel ih =>
    intro i result hf
    by_cases hc : i + 4 ≤ N
    · obtain ⟨m, hm⟩ : ∃ m, (N - (i + 4)) / 4 = m := ⟨_, rfl⟩
      have h1 : (N - i) / 4 = m + 1 := by omega
      obtain ⟨_, l0, b0⟩ := decodeBlock_spec s hs i (by omega)
      obtain ⟨_, l1, b1⟩ := decodeBlock_spec s hs (i + 1) (by omega)
      obtain ⟨_, l2, b2⟩ := decodeBlock_spec s hs (i + 2) (by omega)
      obtain ⟨_, l3, b3⟩ := decodeBlock_spec s hs (i + 3) (by omega)
      obtain ⟨d0, d1, d2, d3⟩ := drop_take_blocks _ _ _ _
        (encrypt_block_length (decodeBlock s i) rks)
        (encrypt_block_length (decodeBlock s (i + 1)) rks)
        (encrypt_block_length (decodeBlock s (i + 2)) rks)
        (encrypt_block_length (decodeBlock s (i + 3)) rks)
      rw [SM4_AESNI.encrypt_hex_batch, if_pos hc, encrypt_hex_fill_aesni_eq s hs i (by omega)]
      simp only [bind, Except.bind]
      rw [encrypt_4blocks_aesni_blocks rks _ _ _ _ l0 l1 l2 l3 b0 b1 b2 b3]
      simp only [nat_fold_succ, nat_fold_zero, d0, d1, d2, d3]
      rw [ih (i + 4) _ (by omega), hm, h1, range'_four]
      simp only [List.flatMap_cons, mapBlock, List.append_assoc, Prod.mk.injEq,
        Except.ok.injEq]
      constructor
      · omega
      · trivial
    · have h0 : (N - i) / 4 = 0 := by omega
      rw [SM4_AESNI.encrypt_hex_batch, if_neg hc, h0]
      simp

/-- The tail loop of the AES-NI `encrypt_hex` appends the ciphertexts of the remaining blocks,
in order. -/
theorem encrypt_hex_tail_aesni_eq (rks : List Nat) (s : List Char)
    (hs : ∀ c ∈ s, (hexval c).isSome) (N : Nat) (hN : N * 32 ≤ s.length) :
    ∀ fuel i result, N - i ≤ fuel →
      SM4_AESNI.encrypt_hex_tail rks s N fuel i result =
        Except.ok (result ++
          (List.range' i (N - i)).flatMap (mapBlock (fun B => SM4.encrypt_block B rks) s)) := by
  intro fuel
  induction fuel with
  | zero =>
    intro i result hf
    have h0 : N - i = 0 := by omega
    rw [h0]
    simp [SM4_AESNI.encrypt_hex_tail]
  | succ fuel ih =>
    intro i result hf
    by_cases hc : i < N
    · obtain ⟨e0, l0, b0⟩ := decodeBlock_spec s hs i (by omega)
      have h1 : N - i = (N - (i + 1)) + 1 := by omega
      rw [SM4_AESNI.encrypt_hex_tail, if_pos hc]
      simp only []
      rw [e0]
      simp only [bind, Except.bind]
      rw [ih (i + 1) _ (by omega), encrypt_block_aesni_eq _ _ l0 b0, h1, List.range'_succ]
      simp only [List.flatMap_cons, mapBlock, List.append_assoc]
    · have h0 : N - i = 0 := by omega
      rw [SM4_AESNI.encrypt_hex_tail, if_neg hc, h0]
      simp

/-- The AES-NI `encrypt_hex` returns the ciphertexts of the blocks of its input, in order. -/
theorem encrypt_hex_aesni_eq (plain_hex key_hex : List Char) (K : List Nat)
    (hk : key_hex.length = 32) (hK : SM4.hex_to_bytes key_hex = Except.ok K)
    (hp : plain_hex.length % 32 = 0) (hph : ∀ c ∈ plain_hex, (hexval c).isSome) :
    SM4_AESNI.encrypt_hex plain_hex key_hex =
      Except.ok ((List.range (plain_hex.length / 32)).flatMap
        (mapBlock (fun B => SM4.encrypt_block B (SM4.key_schedule K)) plain_hex)) := by
  have hN : plain_hex.length / 32 * 32 ≤ plain_hex.length := Nat.div_mul_le_self _ _
  unfold SM4_AESNI.encrypt_hex
  rw [if_neg (by simp [hp]), if_neg (by simp [hk]), hK]
  simp only [bind, Except.bind]
  rw [key_schedule_aesni_eq,
    encrypt_hex_batch_aesni_eq (SM4.key_schedule K) plain_hex hph (plain_hex.length / 32) hN
    (plain_hex.length / 32) 0 [] (by omega)]
  simp only []
  rw [encrypt_hex_tail_aesni_eq (SM4.key_schedule K) plain_hex hph (plain_hex.length / 32) hN
    (plain_hex.length / 32) _ _ (by omega), List.nil_append,
    ← List.flatMap_append, List.range_eq_range']
  congr 2
  have h := List.range'_append 0 (4 * ((plain_hex.length / 32 - 0) / 4))
    (plain_hex.length / 32 - (0 + 4 * ((plain_hex.length / 32 - 0) / 4))) 1
  simp only [Nat.one_mul] at h
  rw [h]
  congr 1
  omega

theorem encrypt_block_hex_aesni_block (plain_hex key_hex : List Char) (K : List Nat)
    (hk : key_hex.length = 32) (hK : SM4.hex_to_bytes key_hex = Except.ok K)
    (hph : ∀ c ∈ plain_hex, (hexval c).isSome) (k : Nat) (h : k * 32 + 32 ≤ plain_hex.length) :
    SM4_AESNI.encrypt_block_hex (SM4_GFNI.substr plain_hex (k * 32) 32) key_hex =
      Except.ok (mapBlock (fun B => SM4.encrypt_block B (SM4.key_schedule K)) plain_hex k) := by
  obtain ⟨e0, l0, b0⟩ := decodeBlock_spec plain_hex hph k h
  unfold SM4_AESNI.encrypt_block_hex
  rw [if_neg (by simp [substr_length plain_hex k h]), if_neg (by simp [hk]), e0, hK]
  simp only [bind, Except.bind]
  rw [key_schedule_aesni_eq, encrypt_block_aesni_eq _ _ l0 b0]
  rfl

/-- With no block to process each `encrypt_hex` returns the empty string. -/
theorem encrypt_hex_nil (key_hex : List Char) (hk : key_hex.length = 32)
    (hkh : ∀ c ∈ key_hex, (hexval c).isSome) :
    SM4.encrypt_hex [] key_hex = Except.ok [] ∧ SM4_AESNI.encrypt_hex [] key_hex = Except.ok [] ∧
      SM4_GFNI.encrypt_hex [] key_hex = Except.ok [] := by
  obtain ⟨K, hK⟩ := hex_to_bytes_ok key_hex hkh (by rw [hk])
  refine ⟨?_, ?_, ?_⟩
  · unfold SM4.encrypt_hex
    rw [if_neg (by simp), if_neg (by simp [hk]), hK]
    rfl
  · unfold SM4_AESNI.encrypt_hex
    rw [if_neg (by simp), if_neg (by simp [hk]), hK]
    rfl
  · unfold SM4_GFNI.encrypt_hex
    rw [if_neg (by simp), if_neg (by simp [hk]), hK]
    rfl

/-- The only exceptions of `stoul` are its own two. -/
theorem stoul16_error (s : List Char) (e : Failure) (h : stoul16 s = Except.error e) :
    e = Failure.invalid_argument ∨ e = Failure.out_of_range := by
  unfold stoul16 at h
  simp only [] at h
  split_ifs at h
  · left
    cases h
    rfl
  · right
    cases h
    rfl

theorem hex_to_bytes_error (s : List Char) :
    ∀ e, SM4.hex_to_bytes s = Except.error e →
      e = Failure.invalid_argument ∨ e = Failure.out_of_range := by
  induction s using SM4.hex_to_bytes.induct with
  | case1 =>
    intro e h
    simp [SM4.hex_to_bytes] at h
  | case2 c =>
    intro e h
    rw [SM4.hex_to_bytes] at h
    cases hv : stoul16 [c] with
    | error e1 =>
      rw [hv] at h
      simp only [bind, Except.bind] at h
      cases h
      exact stoul16_error _ _ hv
    | ok v =>
      rw [hv] at h
      simp only [bind, Except.bind] at h
      cases h
  | case3 c1 c2 rest ih =>
    intro e h
    rw [SM4.hex_to_bytes] at h
    cases hv : stoul16 [c1, c2] with
    | error e1 =>
      rw [hv] at h
      simp only [bind, Except.bind] at h
      cases h
      exact stoul16_error _ _ hv
    | ok v =>
      rw [hv] at h
      cases hr : SM4.hex_to_bytes rest with
      | error e2 =>
        rw [hr] at h
        simp only [bind, Except.bind] at h
        cases h
        exact ih _ hr
      | ok r =>
        rw [hr] at h
        simp only [bind, Except.bind] at h
        cases h

theorem encrypt_hex_loop_error (rks : List Nat) (s : List Char) :
    ∀ fuel i result e, SM4.encrypt_hex_loop rks s fuel i result = Except.error e →
      e = Failure.invalid_argument ∨ e = Failure.out_of_range := by
  intro fuel
  induction fuel with
  | zero =>
    intro i result e h
    simp [SM4.encrypt_hex_loop] at h
  | succ fuel ih =>
    intro i result e h
    rw [SM4.encrypt_hex_loop] at h
    split_ifs at h with hc
    · cases hb : SM4.hex_to_bytes (SM4_GFNI.substr s i 32) with
      | error e1 =>
        simp only [hb, bind, Except.bind] at h
        cases h
        exact hex_to_bytes_error _ _ hb
      | ok bs =>
        simp only [hb, bind, Except.bind] at h
        exact ih _ _ _ h

theorem decrypt_hex_loop_error (rks : List Nat) (s : List Char) :
    ∀ fuel i result e, SM4.decrypt_hex_loop rks s fuel i result = Except.error e →
      e = Failure.invalid_argument ∨ e = Failure.out_of_range := by
  intro fuel
  induction fuel with
  | zero =>
    intro i result e h
    simp [SM4.decrypt_hex_loop] at h
  | succ fuel ih =>
    intro i result e h
    rw [SM4.decrypt_hex_loop] at h
    split_ifs at h with hc
    · cases hb : SM4.hex_to_bytes (SM4_GFNI.substr s i 32) with
      | error e1 =>
        simp only [hb, bind, Except.bind] at h
        cases h
        exact hex_to_bytes_error _ _ hb
      | ok bs =>
        simp only [hb, bind, Except.bind] at h
        exact ih _ _ _ h

/-- Past its two assertions a block entry point of the reference class stops only with an
exception of `stoul`. -/
theorem encrypt_block_hex_error (plain_hex key_hex : List Char) (e : Failure)
    (hp : plain_hex.length = 32) (hk : key_hex.length = 32)
    (h : SM4.encrypt_block_hex plain_hex key_hex = Except.error e) :
    e = Failure.invalid_argument ∨ e = Failure.out_of_range := by
  unfold SM4.encrypt_block_hex at h
  rw [if_neg (by simp [hp]), if_neg (by simp [hk])] at h
  cases h1 : SM4.hex_to_bytes plain_hex with
  | error e1 =>
    simp only [h1, bind, Except.bind] at h
    cases h
    exact hex_to_bytes_error _ _ h1
  | ok P =>
    cases h2 : SM4.hex_to_bytes key_hex with
    | error e2 =>
      simp only [h1, h2, bind, Except.bind] at h
      cases h
      exact hex_to_bytes_error _ _ h2
    | ok K =>
      simp only [h1, h2, bind, Except.bind] at h
      cases h

theorem decrypt_block_hex_error (cipher_hex key_hex : List Char) (e : Failure)
    (hp : cipher_hex.length = 32) (hk : key_hex.length = 32)
    (h : SM4.decrypt_block_hex cipher_hex key_hex = Except.error e) :
    e = Failure.invalid_argument ∨ e = Failure.out_of_range := by
  unfold SM4.decrypt_block_hex at h
  rw [if_neg (by simp [hp]), if_neg (by simp [hk])] at h
  cases h1 : SM4.hex_to_bytes cipher_hex with
  | error e1 =>
    simp only [h1, bind, Except.bind] at h
    cases h
    exact hex_to_bytes_error _ _ h1
  | ok P =>
    cases h2 : SM4.hex_to_bytes key_hex with
    | error e2 =>
      simp only [h1, h2, bind, Except.bind] at h
      cases h
      exact hex_to_bytes_error _ _ h2
    | ok K =>
      simp only [h1, h2, bind, Except.bind] at h
      cases h

theorem encrypt_hex_error (plain_hex key_hex : List Char) (e : Failure)
    (hp : plain_hex.length % 32 = 0) (hk : key_hex.length = 32)
    (h : SM4.encrypt_hex plain_hex key_hex = Except.error e) :
    e = Failure.invalid_argument ∨ e = Failure.out_of_range := by
  unfold SM4.encrypt_hex at h
  rw [if_neg (by simp [hp]), if_neg (by simp [hk])] at h
  cases h2 : SM4.hex_to_bytes key_hex with
  | error e2 =>
    simp only [h2, bind, Except.bind] at h
    cases h
    exact hex_to_bytes_error _ _ h2
  | ok K =>
    simp only [h2, bind, Except.bind] at h
    exact encrypt_hex_loop_error _ _ _ _ _ _ h

theorem decrypt_hex_error (cipher_hex key_hex : List Char) (e : Failure)
    (hp : cipher_hex.length % 32 = 0) (hk : key_hex.length = 32)
    (h : SM4.decrypt_hex cipher_hex key_hex = Except.error e) :
    e = Failure.invalid_argument ∨ e = Failure.out_of_range := by
  unfold SM4.decrypt_hex at h
  rw [if_neg (by simp [hp]), if_neg (by simp [hk])] at h
  cases h2 : SM4.hex_to_bytes key_hex with
  | error e2 =>
    simp only [h2, bind, Except.bind] at h
    cases h
    exact hex_to_bytes_error _ _ h2
  | ok K =>
    simp only [h2, bind, Except.bind] at h
    exact decrypt_hex_loop_error _ _ _ _ _ _ h

/-- What two assertions in a row, on the text and then on the key, make of a result. -/
theorem key_check_iff {α : Type} (r : Except Failure α) (cin ckey : Prop)
    (h1 : ¬ cin → r = Except.error Failure.input_length_assertion)
    (h2 : cin → ¬ ckey → r = Except.error Failure.key_length_assertion)
    (h3 : cin → ckey → ∀ e, r = Except.error e →
      e = Failure.invalid_argument ∨ e = Failure.out_of_range) :
    (r = Except.error Failure.key_length_assertion ↔ cin ∧ ¬ ckey) ∧
    (r = Except.error Failure.input_length_assertion ↔ ¬ cin) ∧
    (∀ v, r = Except.ok v → cin ∧ ckey) := by
  by_cases hc : cin
  · by_cases hk : ckey
    · refine ⟨⟨fun h => ?_, fun h => absurd hk h.2⟩, ⟨fun h => ?_, fun h => absurd hc h⟩,
        fun _ _ => ⟨hc, hk⟩⟩
      · rcases h3 hc hk _ h with h | h <;> cases h
      · rcases h3 hc hk _ h with h | h <;> cases h
    · have hr := h2 hc hk
      refine ⟨⟨fun _ => ⟨hc, hk⟩, fun _ => hr⟩, ⟨fun h => ?_, fun h => absurd hc h⟩,
        fun v h => ?_⟩
      · rw [hr] at h
        cases h
      · rw [hr] at h
        cases h
  · have hr := h1 hc
    refine ⟨⟨fun h => ?_, fun h => absurd h.1 hc⟩, ⟨fun _ => hc, fun _ => hr⟩, fun v h => ?_⟩
    · rw [hr] at h
      cases h
    · rw [hr] at h
      cases h

theorem encrypt_block_hex_checks (plain_hex key_hex : List Char) :
    (SM4.encrypt_block_hex plain_hex key_hex = Except.error Failure.key_length_assertion ↔
      plain_hex.length = 32 ∧ ¬ key_hex.length = 32) ∧
    (SM4.encrypt_block_hex plain_hex key_hex = Except.error Failure.input_length_assertion ↔
      ¬ plain_hex.length = 32) ∧
    (∀ v, SM4.encrypt_block_hex plain_hex key_hex = Except.ok v →
      plain_hex.length = 32 ∧ key_hex.length = 32) := by
  apply key_check_iff
  · intro hp
    unfold SM4.encrypt_block_hex
    rw [if_pos hp]
  · intro hp hk
    unfold SM4.encrypt_block_hex
    rw [if_neg (by simp [hp]), if_pos hk]
  · intro hp hk e h
    exact encrypt_block_hex_error _ _ e hp hk h

theorem decrypt_block_hex_checks (cipher_hex key_hex : List Char) :
    (SM4.decrypt_block_hex cipher_hex key_hex = Except.error Failure.key_length_assertion ↔
      cipher_hex.length = 32 ∧ ¬ key_hex.length = 32) ∧
    (SM4.decrypt_block_hex cipher_hex key_hex = Except.error Failure.input_length_assertion ↔
      ¬ cipher_hex.length = 32) ∧
    (∀ v, SM4.decrypt_block_hex cipher_hex key_hex = Except.ok v →
      cipher_hex.length = 32 ∧ key_hex.length = 32) := by
  apply key_check_iff
  · intro hp
    unfold SM4.decrypt_block_hex
    rw [if_pos hp]
  · intro hp hk
    unfold SM4.decrypt_block_hex
    rw [if_neg (by simp [hp]), if_pos hk]
  · intro hp hk e h
    exact decrypt_block_hex_error _ _ e hp hk h

theorem encrypt_hex_checks (plain_hex key_hex : List Char) :
    (SM4.encrypt_hex plain_hex key_hex = Except.error Failure.key_length_assertion ↔
      plain_hex.length % 32 = 0 ∧ ¬ key_hex.length = 32) ∧
    (SM4.encrypt_hex plain_hex key_hex = Except.error Failure.input_length_assertion ↔
      ¬ plain_hex.length % 32 = 0) ∧
    (∀ v, SM4.encrypt_hex plain_hex key_hex = Except.ok v →
      plain_hex.length % 32 = 0 ∧ key_hex.length = 32) := by
  apply key_check_iff
  · intro hp
    unfold SM4.encrypt_hex
    rw [if_pos hp]
  · intro hp hk
    unfold SM4.encrypt_hex
    rw [if_neg (by simp [hp]), if_pos hk]
  · intro hp hk e h
    exact encrypt_hex_error _ _ e hp hk h

theorem decrypt_hex_checks (cipher_hex key_hex : List Char) :
    (SM4.decrypt_hex cipher_hex key_hex = Except.error Failure.key_length_assertion ↔
      cipher_hex.length % 32 = 0 ∧ ¬ key_hex.length = 32) ∧
    (SM4.decrypt_hex cipher_hex key_hex = Except.error Failure.input_length_assertion ↔
      ¬ cipher_hex.length % 32 = 0) ∧
    (∀ v, SM4.decrypt_hex cipher_hex key_hex = Except.ok v →
      cipher_hex.length % 32 = 0 ∧ key_hex.length = 32) := by
  apply key_check_iff
  · intro hp
    unfold SM4.decrypt_hex
    rw [if_pos hp]
  · intro hp hk
    unfold SM4.decrypt_hex
    rw [if_neg (by simp [hp]), if_pos hk]
  · intro hp hk e h
    exact decrypt_hex_error _ _ e hp hk h

/-! ## Main results on the schedules and the hexadecimal interface -/

/-- C11. Multi-block ordering, AES-NI: for every key of 32 hexadecimal characters and every
hexadecimal plaintext of `N` blocks of 32 characters (`N` arbitrary, so also `N = 0` and
`N = 5` with its split into 4 and 1), `SM4_AESNI.encrypt_hex` returns the concatenation, in
input order, of what `SM4_AESNI.encrypt_block_hex` returns for each block. -/
theorem SM4_AESNI_encrypt_hex_blocks (plain_hex key_hex : List Char) (hk : key_hex.length = 32)
    (hkh : ∀ c ∈ key_hex, (hexval c).isSome) (hp : plain_hex.length % 32 = 0)
    (hph : ∀ c ∈ plain_hex, (hexval c).isSome) :
    ∃ cs : Nat → List Char,
      (∀ k, k < plain_hex.length / 32 →
        SM4_AESNI.encrypt_block_hex (SM4_GFNI.substr plain_hex (k * 32) 32) key_hex =
          Except.ok (cs k)) ∧
      SM4_AESNI.encrypt_hex plain_hex key_hex =
        Except.ok ((List.range (plain_hex.length / 32)).flatMap cs) := by
  obtain ⟨K, hK⟩ := hex_to_bytes_ok key_hex hkh (by rw [hk])
  refine ⟨mapBlock (fun B => SM4.encrypt_block B (SM4.key_schedule K)) plain_hex, ?_, ?_⟩
  · intro k hlt
    exact encrypt_block_hex_aesni_block plain_hex key_hex K hk hK hph k (by omega)
  · exact encrypt_hex_aesni_eq plain_hex key_hex K hk hK hp hph

theorem SM4_AESNI_encrypt_hex_blocks_witness :
    sampleKey.length = 32 ∧ (∀ c ∈ sampleKey, (hexval c).isSome) ∧
    sampleFiveBlocks.length % 32 = 0 ∧ (∀ c ∈ sampleFiveBlocks, (hexval c).isSome) ∧
    sampleFiveBlocks.length / 32 = 5 ∧
    ∃ cs : Nat → List Char,
      (∀ k, k < sampleFiveBlocks.length / 32 →
        SM4_AESNI.encrypt_block_hex (SM4_GFNI.substr sampleFiveBlocks (k * 32) 32) sampleKey =
          Except.ok (cs k)) ∧
      SM4_AESNI.encrypt_hex sampleFiveBlocks sampleKey =
        Except.ok ((List.range (sampleFiveBlocks.length / 32)).flatMap cs) :=
  ⟨by decide, by decide, by decide, by decide, by decide,
    SM4_AESNI_encrypt_hex_blocks sampleFiveBlocks sampleKey (by decide) (by decide) (by decide)
      (by decide)⟩

/-- C12. GFNI round trip: for every key `K` of 32 hexadecimal characters and every plaintext `P`
of 32 lowercase hexadecimal characters, `SM4_GFNI.encrypt_block_hex P K` returns a string `c`,
and `SM4_GFNI.decrypt_block_hex c K` returns `P`. -/
theorem SM4_GFNI_decrypt_encrypt_block_hex (P K : List Char) (hp : P.length = 32)
    (hk : K.length = 32) (hpl : ∀ c ∈ P, isLowerHex c = true)
    (hkh : ∀ c ∈ K, (hexval c).isSome) :
    ∃ c, SM4_GFNI.encrypt_block_hex P K = Except.ok c ∧
      SM4_GFNI.decrypt_block_hex c K = Except.ok P := by
  obtain ⟨Pb, hP⟩ := hex_to_bytes_ok P (fun c hc => isLowerHex_hexval c (hpl c hc))
    (by rw [hp])
  obtain ⟨Kb, hK⟩ := hex_to_bytes_ok K hkh (by rw [hk])
  obtain ⟨h1, h2⟩ := decrypt_encrypt_block_hex_gfni P K Pb Kb hp hk hpl hP hK
  exact ⟨_, h1, h2⟩

theorem SM4_GFNI_decrypt_encrypt_block_hex_witness :
    sampleKey.length = 32 ∧ (∀ c ∈ sampleKey, isLowerHex c = true) ∧
    (∀ c ∈ sampleKey, (hexval c).isSome) ∧
    ∃ c, SM4_GFNI.encrypt_block_hex sampleKey sampleKey = Except.ok c ∧
      SM4_GFNI.decrypt_block_hex c sampleKey = Except.ok sampleKey :=
  ⟨by decide, by decide, by decide,
    SM4_GFNI_decrypt_encrypt_block_hex sampleKey sampleKey (by decide) (by decide) (by decide)
      (by decide)⟩

/-- C13. Key schedule definition: for every key of bytes, `SM4.key_schedule` returns exactly 32
words `rk` with `rk[i] = K[i+4]`, where `K[i] = MK[i] XOR FK[i]` for `i = 0..3` (`MK` the
big-endian words of the key) and `K[i+4] = K[i] XOR L'(tau(K[i+1] XOR K[i+2] XOR K[i+3] XOR
CK[i]))` for `i = 0..31`, with `L'(x) = x XOR rotl(x,13) XOR rotl(x,23)`. -/
theorem SM4_key_schedule_spec (key : List Nat) (hb : ∀ b ∈ key, b < 256) :
    (SM4.key_schedule key).length = 32 ∧
    ∃ K : Nat → Nat,
      (∀ i, i < 4 → K i = spec_be_word key i ^^^ SM4.FK.getD i 0) ∧
      (∀ i, i < 32 → K (i + 4) = K i ^^^
        spec_L_prime (SM4.tau (K (i + 1) ^^^ K (i + 2) ^^^ K (i + 3) ^^^ SM4.CK.getD i 0))) ∧
      ∀ i, i < 32 → (SM4.key_schedule key).getD i 0 = K (i + 4) := by
  obtain ⟨K, h0, hr, hk⟩ := key_schedule_recurrence key
  refine ⟨key_schedule_length key, fun i => K.getD i 0, ?_, ?_, hk⟩
  · intro i hi
    rw [spec_be_word_eq key i hb]
    exact h0 i hi
  · intro i hi
    rw [spec_L_prime_eq _ (tau_lt _)]
    exact hr i hi

theorem SM4_key_schedule_spec_witness :
    (∀ b ∈ sampleKeyBytes, b < 256) ∧
    (SM4.key_schedule sampleKeyBytes).length = 32 ∧
    ∃ K : Nat → Nat,
      (∀ i, i < 4 → K i = spec_be_word sampleKeyBytes i ^^^ SM4.FK.getD i 0) ∧
      (∀ i, i < 32 → K (i + 4) = K i ^^^
        spec_L_prime (SM4.tau (K (i + 1) ^^^ K (i + 2) ^^^ K (i + 3) ^^^ SM4.CK.getD i 0))) ∧
      ∀ i, i < 32 → (SM4.key_schedule sampleKeyBytes).getD i 0 = K (i + 4) :=
  ⟨by decide, SM4_key_schedule_spec sampleKeyBytes (by decide)⟩

/-- C14 (the code at the failing input). `SM4_AESNI.key_schedule` returns the round keys of
`SM4.key_schedule` for every key, but `SM4_GFNI.expand_key` does not: for the key
`0123456789abcdeffedcba9876543210` its first round key is `0x3daf5b1d`, where the reference
has `0xf12186f9`. -/
theorem SM4_GFNI_expand_key_differs :
    (∀ key : List Nat, SM4_AESNI.key_schedule key = SM4.key_schedule key) ∧
    (SM4.key_schedule sampleKeyBytes).getD 0 0 = 0xf12186f9 ∧
    (SM4_GFNI.expand_key sampleKeyBytes).getD 0 0 = 0x3daf5b1d ∧
    SM4_GFNI.expand_key sampleKeyBytes ≠ SM4.key_schedule sampleKeyBytes := by
  refine ⟨key_schedule_aesni_eq, ?_, ?_, ?_⟩ <;> decide!

/-- C15. Block encryption definition: for every plaintext of bytes and every sequence `rk` of
round keys, `SM4.encrypt_block` returns the 16 bytes that are the big-endian encodings of
`X[35]`, `X[34]`, `X[33]`, `X[32]` in that order, where `X[0..3]` are the big-endian words of
the plaintext and `X[i+4] = X[i] XOR L(tau(X[i+1] XOR X[i+2] XOR X[i+3] XOR rk[i]))` for
`i = 0..31`, with `L(x) = x XOR rotl(x,2) XOR rotl(x,10) XOR rotl(x,18) XOR rotl(x,24)`. -/
theorem SM4_encrypt_block_spec (plaintext rk : List Nat) (hb : ∀ b ∈ plaintext, b < 256) :
    (SM4.encrypt_block plaintext rk).length = 16 ∧
    ∃ X : Nat → Nat,
      (∀ i, i < 4 → X i = spec_be_word plaintext i) ∧
      (∀ i, i < 32 → X (i + 4) = X i ^^^
        spec_L (SM4.tau (X (i + 1) ^^^ X (i + 2) ^^^ X (i + 3) ^^^ rk.getD i 0))) ∧
      SM4.encrypt_block plaintext rk =
        spec_be_bytes (X 35) ++ spec_be_bytes (X 34) ++ spec_be_bytes (X 33) ++
          spec_be_bytes (X 32) := by
  obtain ⟨X, h0, hr, hc⟩ := encrypt_block_recurrence plaintext rk
  refine ⟨encrypt_block_length plaintext rk, fun i => X.getD i 0, ?_, ?_, ?_⟩
  · intro i hi
    rw [spec_be_word_eq plaintext i hb]
    exact h0 i hi
  · intro i hi
    rw [spec_L_eq _ (tau_lt _)]
    exact hr i hi
  · simp only [spec_be_bytes_eq]
    exact hc

theorem SM4_encrypt_block_spec_witness :
    (∀ b ∈ sampleKeyBytes, b < 256) ∧
    (SM4.encrypt_block sampleKeyBytes (SM4.key_schedule sampleKeyBytes)).length = 16 ∧
    ∃ X : Nat → Nat,
      (∀ i, i < 4 → X i = spec_be_word sampleKeyBytes i) ∧
      (∀ i, i < 32 → X (i + 4) = X i ^^^
        spec_L (SM4.tau (X (i + 1) ^^^ X (i + 2) ^^^ X (i + 3) ^^^
          (SM4.key_schedule sampleKeyBytes).getD i 0))) ∧
      SM4.encrypt_block sampleKeyBytes (SM4.key_schedule sampleKeyBytes) =
        spec_be_bytes (X 35) ++ spec_be_bytes (X 34) ++ spec_be_bytes (X 33) ++
          spec_be_bytes (X 32) :=
  ⟨by decide, SM4_encrypt_block_spec sampleKeyBytes (SM4.key_schedule sampleKeyBytes)
    (by decide)⟩

/-- C16. Decryption is encryption with reversed keys, GFNI kernel: for every array `rk` of 32
round keys and every input, `crypt_4blocks` with `encrypt = false` and the keys `rk` returns
the same output bytes as `crypt_4blocks` with `encrypt = true` and the keys `rk` reversed end to
end. -/
theorem SM4_GFNI_crypt_4blocks_reverse (rk input : List Nat) (h : rk.length = 32) :
    SM4_GFNI.crypt_4blocks rk input false = SM4_GFNI.crypt_4blocks rk.reverse input true :=
  crypt_4blocks_reverse rk input h

theorem SM4_GFNI_crypt_4blocks_reverse_witness :
    (List.range 32).length = 32 ∧ (List.range 64).length = 64 ∧
    SM4_GFNI.crypt_4blocks (List.range 32) (List.range 64) false =
      SM4_GFNI.crypt_4blocks (List.range 32).reverse (List.range 64) true :=
  ⟨by decide, by decide,
    SM4_GFNI_crypt_4blocks_reverse (List.range 32) (List.range 64) (by decide)⟩

/-- C17. Multi-block round trip at the hex interface: for every key `K` of 32 hexadecimal
characters and every plaintext `P` of lowercase hexadecimal characters whose length is a
multiple of 32, `SM4.encrypt_hex P K` returns a string `c`, and `SM4.decrypt_hex c K` returns
`P`. -/
theorem SM4_decrypt_encrypt_hex (P K : List Char) (hk : K.length = 32)
    (hkh : ∀ c ∈ K, (hexval c).isSome) (hp : P.length % 32 = 0)
    (hpl : ∀ c ∈ P, isLowerHex c = true) :
    ∃ c, SM4.encrypt_hex P K = Except.ok c ∧ SM4.decrypt_hex c K = Except.ok P := by
  obtain ⟨Kb, hK⟩ := hex_to_bytes_ok K hkh (by rw [hk])
  exact decrypt_encrypt_hex_ref P K Kb hk hK hp hpl

theorem SM4_decrypt_encrypt_hex_witness :
    sampleKey.length = 32 ∧ (∀ c ∈ sampleKey, (hexval c).isSome) ∧
    sampleLowerBlocks.length % 32 = 0 ∧ (∀ c ∈ sampleLowerBlocks, isLowerHex c = true) ∧
    sampleLowerBlocks.length / 32 = 5 ∧
    ∃ c, SM4.encrypt_hex sampleLowerBlocks sampleKey = Except.ok c ∧
      SM4.decrypt_hex c sampleKey = Except.ok sampleLowerBlocks :=
  ⟨by decide, by decide, by decide, by decide, by decide,
    SM4_decrypt_encrypt_hex sampleLowerBlocks sampleKey (by decide) (by decide) (by decide)
      (by decide)⟩

/-- C18. Empty input: for every key `K` of 32 hexadecimal characters, `encrypt_hex` on the empty
string and `K` returns the empty string, in each of the three classes `SM4`, `SM4_AESNI` and
`SM4_GFNI`. -/
theorem SM4_encrypt_hex_empty (key_hex : List Char) (hk : key_hex.length = 32)
    (hkh : ∀ c ∈ key_hex, (hexval c).isSome) :
    SM4.encrypt_hex [] key_hex = Except.ok [] ∧ SM4_AESNI.encrypt_hex [] key_hex = Except.ok [] ∧
      SM4_GFNI.encrypt_hex [] key_hex = Except.ok [] :=
  encrypt_hex_nil key_hex hk hkh

theorem SM4_encrypt_hex_empty_witness :
    sampleKey.length = 32 ∧ (∀ c ∈ sampleKey, (hexval c).isSome) ∧
    SM4.encrypt_hex [] sampleKey = Except.ok [] ∧
    SM4_AESNI.encrypt_hex [] sampleKey = Except.ok [] ∧
    SM4_GFNI.encrypt_hex [] sampleKey = Except.ok [] :=
  ⟨by decide, by decide, SM4_encrypt_hex_empty sampleKey (by decide) (by decide)⟩

/-- C19. Alignment rejection: for every key and every input whose length in hexadecimal
characters is not a multiple of 32, `encrypt_hex` and `decrypt_hex` stop at the assertion on the
length of the input and return no string, in each of the three classes. -/
theorem SM4_hex_alignment_rejected (input key_hex : List Char) (h : input.length % 32 ≠ 0) :
    SM4.encrypt_hex input key_hex = Except.error Failure.input_length_assertion ∧
    SM4.decrypt_hex input key_hex = Except.error Failure.input_length_assertion ∧
    SM4_AESNI.encrypt_hex input key_hex = Except.error Failure.input_length_assertion ∧
    SM4_AESNI.decrypt_hex input key_hex = Except.error Failure.input_length_assertion ∧
    SM4_GFNI.encrypt_hex input key_hex = Except.error Failure.input_length_assertion ∧
    SM4_GFNI.decrypt_hex input key_hex = Except.error Failure.input_length_assertion := by
  refine ⟨?_, ?_, ?_, ?_, ?_, ?_⟩
  · unfold SM4.encrypt_hex
    rw [if_pos h]
  · unfold SM4.decrypt_hex
    rw [if_pos h]
  · unfold SM4_AESNI.encrypt_hex
    rw [if_pos h]
  · unfold SM4_AESNI.decrypt_hex
    rw [if_pos h]
  · unfold SM4_GFNI.encrypt_hex
    rw [if_pos h]
  · unfold SM4_GFNI.decrypt_hex
    rw [if_pos h]

theorem SM4_hex_alignment_rejected_witness :
    "00112233445566778899aabbccddeeff00".toList.length % 32 ≠ 0 ∧
    SM4.encrypt_hex "00112233445566778899aabbccddeeff00".toList sampleKey =
      Except.error Failure.input_length_assertion ∧
    SM4.decrypt_hex "00112233445566778899aabbccddeeff00".toList sampleKey =
      Except.error Failure.input_length_assertion ∧
    SM4_AESNI.encrypt_hex "00112233445566778899aabbccddeeff00".toList sampleKey =
      Except.error Failure.input_length_assertion ∧
    SM4_AESNI.decrypt_hex "00112233445566778899aabbccddeeff00".toList sampleKey =
      Except.error Failure.input_length_assertion ∧
    SM4_GFNI.encrypt_hex "00112233445566778899aabbccddeeff00".toList sampleKey =
      Except.error Failure.input_length_assertion ∧
    SM4_GFNI.decrypt_hex "00112233445566778899aabbccddeeff00".toList sampleKey =
      Except.error Failure.input_length_assertion :=
  ⟨by decide,
    SM4_hex_alignment_rejected "00112233445566778899aabbccddeeff00".toList sampleKey
      (by decide)⟩

/-- C20 (counterexample). With a key of 30 hexadecimal characters and an input of 34,
`SM4.encrypt_hex` stops at the assertion on the length of the input, not at the one on the
length of the key; with the same key and the empty input, so does `SM4.encrypt_block_hex`. -/
theorem SM4_key_length_as_stated_fails :
    "0123456789abcdeffedcba98765432".toList.length ≠ 32 ∧
    SM4.encrypt_hex "00112233445566778899aabbccddeeff00".toList
        "0123456789abcdeffedcba98765432".toList =
      Except.error Failure.input_length_assertion ∧
    SM4.encrypt_hex "00112233445566778899aabbccddeeff00".toList
        "0123456789abcdeffedcba98765432".toList ≠
      Except.error Failure.key_length_assertion ∧
    SM4.encrypt_block_hex [] "0123456789abcdeffedcba98765432".toList ≠
      Except.error Failure.key_length_assertion := by
  decide

/-- C20 (amended). For every key and every input, each of the four public entry points of `SM4`
stops at the assertion on the length of the key exactly when the input passes the assertion on
its own length (32 characters for the block entry points, a multiple of 32 for the others) and
the key has not 32 hexadecimal characters; it stops at the assertion on the length of the input
exactly when the input does not pass it; and it returns a string only when the key has 32
characters. -/
theorem SM4_key_length_check (input key_hex : List Char) :
    ((SM4.encrypt_block_hex input key_hex = Except.error Failure.key_length_assertion ↔
        input.length = 32 ∧ ¬ key_hex.length = 32) ∧
      (SM4.encrypt_block_hex input key_hex = Except.error Failure.input_length_assertion ↔
        ¬ input.length = 32) ∧
      (∀ v, SM4.encrypt_block_hex input key_hex = Except.ok v →
        input.length = 32 ∧ key_hex.length = 32)) ∧
    ((SM4.decrypt_block_hex input key_hex = Except.error Failure.key_length_assertion ↔
        input.length = 32 ∧ ¬ key_hex.length = 32) ∧
      (SM4.decrypt_block_hex input key_hex = Except.error Failure.input_length_assertion ↔
        ¬ input.length = 32) ∧
      (∀ v, SM4.decrypt_block_hex input key_hex = Except.ok v →
        input.length = 32 ∧ key_hex.length = 32)) ∧
    ((SM4.encrypt_hex input key_hex = Except.error Failure.key_length_assertion ↔
        input.length % 32 = 0 ∧ ¬ key_hex.length = 32) ∧
      (SM4.encrypt_hex input key_hex = Except.error Failure.input_length_assertion ↔
        ¬ input.length % 32 = 0) ∧
      (∀ v, SM4.encrypt_hex input key_hex = Except.ok v →
        input.length % 32 = 0 ∧ key_hex.length = 32)) ∧
    ((SM4.decrypt_hex input key_hex = Except.error Failure.key_length_assertion ↔
        input.length % 32 = 0 ∧ ¬ key_hex.length = 32) ∧
      (SM4.decrypt_hex input key_hex = Except.error Failure.input_length_assertion ↔
        ¬ input.length % 32 = 0) ∧
      (∀ v, SM4.decrypt_hex input key_hex = Except.ok v →
        input.length % 32 = 0 ∧ key_hex.length = 32)) :=
  ⟨encrypt_block_hex_checks input key_hex, decrypt_block_hex_checks input key_hex,
    encrypt_hex_checks input key_hex, decrypt_hex_checks input key_hex⟩

/-! ## Lemmas on the SM3 compression function -/

/-- A loop that writes `f j` to entry `j` leaves `f j` there. -/
theorem fold_set_getD (f : Nat → Nat) (n : Nat) (L : List Nat) (h : n ≤ L.length) (j : Nat)
    (hj : j < n) : (Nat.fold (fun j L => L.set j (f j)) n L).getD j 0 = f j := by
  induction n with
  | zero => omega
  | succ n ih =>
    have hl : (Nat.fold (fun j L => L.set j (f j)) n L).length = L.length := by
      clear ih hj
      induction n with
      | zero => rfl
      | succ m ihm => rw [nat_fold_succ, List.length_set, ihm (by omega)]
    rw [nat_fold_succ]
    by_cases hc : j = n
    · subst hc
      exact getD_set_eq _ _ _ (by omega)
    · rw [getD_set_ne _ _ _ _ (by omega)]
      exact ih (by omega) (by omega)

theorem unrolled_W_eq (block : List Nat) : SM3_Unrolled.processBlock_W block = sm3_words block :=
  rfl

theorem unrolled_W_prime_getD (W : List Nat) (j : Nat) (hj : j < 64) :
    (SM3_Unrolled.processBlock_W_prime W).getD j 0 = W.getD j 0 ^^^ W.getD (j + 4) 0 :=
  fold_set_getD (fun j => W.getD j 0 ^^^ W.getD (j + 4) 0) 64 (List.replicate 64 0)
    (by simp) j hj

theorem unrolled_ROUND_low (j : Nat) (W W_prime : List Nat) (v : SM3_Vars) (hj : j ≤ 15) :
    SM3_Unrolled.ROUND j SM3_Unrolled.FF_0_15 SM3_Unrolled.GG_0_15 W W_prime v =
      sm3_round j (W.getD j 0) (W_prime.getD j 0) v := by
  simp only [SM3_Unrolled.ROUND, sm3_round, SM3_Unrolled.Tj, SM3_Unrolled.FF_0_15,
    SM3_Unrolled.GG_0_15, if_pos hj]

theorem unrolled_ROUND_high (j : Nat) (W W_prime : List Nat) (v : SM3_Vars) (h1 : 16 ≤ j)
    (h2 : j ≤ 63) :
    SM3_Unrolled.ROUND j SM3_Unrolled.FF_16_63 SM3_Unrolled.GG_16_63 W W_prime v =
      sm3_round j (W.getD j 0) (W_prime.getD j 0) v := by
  have hn : ¬ j ≤ 15 := by omega
  simp only [SM3_Unrolled.ROUND, sm3_round, SM3_Unrolled.Tj, SM3_Unrolled.FF_16_63,
    SM3_Unrolled.GG_16_63, if_neg hn, if_pos (And.intro h1 h2)]

/-- The 64 invocations of `ROUND` are the loop over `j`. -/
theorem unrolled_rounds_eq (W W_prime : List Nat) (v : SM3_Vars) :
    SM3_Unrolled.processBlock_rounds W W_prime v =
      Nat.fold (fun j v => sm3_round j (W.getD j 0) (W_prime.getD j 0) v) 64 v := by
  unfold SM3_Unrolled.processBlock_rounds
  simp (disch := omega) only [unrolled_ROUND_low, unrolled_ROUND_high, nat_fold_succ,
    nat_fold_zero]

theorem unrolled_processBlock_eq (H block : List Nat) :
    SM3_Unrolled.processBlock H block = sm3_compress H block := by
  unfold SM3_Unrolled.processBlock sm3_compress sm3_rounds
  simp only []
  rw [unrolled_rounds_eq, unrolled_W_eq]
  rw [nat_fold_congr _ (fun j v => sm3_round j ((sm3_words block).getD j 0)
    ((sm3_words block).getD j 0 ^^^ (sm3_words block).getD (j + 4) 0) v) 64 _
    (fun j hj => by rw [unrolled_W_prime_getD _ j hj])]
  rfl

theorem flatten_EXPAND_W_eq (j : Nat) (W : List Nat) :
    SM3_Flatten.EXPAND_W j W = sm3_expand j W := rfl

/-- The 68 statements of the flattened word expansion are the two loops. -/
theorem flatten_W_eq (block : List Nat) : SM3_Flatten.processBlock_W block = sm3_words block := by
  unfold SM3_Flatten.processBlock_W sm3_words
  simp only [flatten_EXPAND_W_eq, nat_fold_succ, nat_fold_zero, Nat.reduceMul, Nat.reduceAdd]

/-- The 64 statements for `W_prime` are the loop. -/
theorem flatten_W_prime_eq (W : List Nat) :
    SM3_Flatten.processBlock_W_prime W = SM3_Unrolled.processBlock_W_prime W := by
  unfold SM3_Flatten.processBlock_W_prime SM3_Unrolled.processBlock_W_prime
  simp only [nat_fold_succ, nat_fold_zero, Nat.reduceAdd]

theorem flatten_ROUND_0_15 (j : Nat) (v : SM3_Vars) (W_j W_prime_j : Nat) (hj : j ≤ 15) :
    SM3_Flatten.ROUND_0_15 j v W_j W_prime_j = sm3_round j W_j W_prime_j v := by
  simp only [SM3_Flatten.ROUND_0_15, sm3_round, SM3_Flatten.TJ_0_15, SM3_Flatten.FF_0_15,
    SM3_Flatten.GG_0_15, if_pos hj]
  rfl

theorem flatten_ROUND_16_63 (j : Nat) (v : SM3_Vars) (W_j W_prime_j : Nat) (hj : 16 ≤ j) :
    SM3_Flatten.ROUND_16_63 j v W_j W_prime_j = sm3_round j W_j W_prime_j v := by
  have hn : ¬ j ≤ 15 := by omega
  simp only [SM3_Flatten.ROUND_16_63, sm3_round, SM3_Flatten.TJ_16_63, SM3_Flatten.FF_16_63,
    SM3_Flatten.GG_16_63, if_neg hn]
  rfl

/-- The 64 flattened rounds are the loop over `j`. -/
theorem flatten_rounds_eq (W W_prime : List Nat) (v : SM3_Vars) :
    SM3_Flatten.processBlock_rounds W W_prime v =
      Nat.fold (fun j v => sm3_round j (W.getD j 0) (W_prime.getD j 0) v) 64 v := by
  unfold SM3_Flatten.processBlock_rounds
  simp (disch := omega) only [flatten_ROUND_0_15, flatten_ROUND_16_63, nat_fold_succ,
    nat_fold_zero]

theorem flatten_processBlock_eq (H block : List Nat) :
    SM3_Flatten.processBlock H block = sm3_compress H block := by
  rw [← unrolled_processBlock_eq]
  unfold SM3_Flatten.processBlock SM3_Unrolled.processBlock
  simp only []
  rw [flatten_W_eq, flatten_W_prime_eq, flatten_rounds_eq, unrolled_rounds_eq, unrolled_W_eq]

theorem regalloc_load_eq (i : Nat) (block W : List Nat) :
    W.set i (be32 block (i * 4) (i * 4 + 1) (i * 4 + 2) (i * 4 + 3)) =
      SM3_RegAlloc.load i (i * 4) (i * 4 + 1) (i * 4 + 2) (i * 4 + 3) block W := rfl

theorem regalloc_expand_eq (j : Nat) (W : List Nat) :
    sm3_expand j W = SM3_RegAlloc.expand j (j - 16) (j - 9) (j - 3) (j - 13) (j - 6) W := rfl

/-- The 68 assignments to the scalar variables are the two loops. -/
theorem regalloc_W_eq (block : List Nat) :
    SM3_RegAlloc.processBlock_W block = sm3_words block := by
  unfold SM3_RegAlloc.processBlock_W sm3_words
  simp only [regalloc_load_eq, regalloc_expand_eq, nat_fold_succ, nat_fold_zero, Nat.reduceMul,
    Nat.reduceAdd, Nat.reduceSub]

/-- The first switch selects the variable `Wj`. -/
theorem switch_W_val_eq (W : List Nat) (j : Nat) (hj : j < 64) :
    SM3_RegAlloc.switch_W_val W j = W.getD j 0 := by
  interval_cases j <;> rfl

/-- The second switch selects `Wj ^ W(j+4)`. -/
theorem switch_W_prime_val_eq (W : List Nat) (j : Nat) (hj : j < 64) :
    SM3_RegAlloc.switch_W_prime_val W j = W.getD j 0 ^^^ W.getD (j + 4) 0 := by
  interval_cases j <;> rfl

theorem regalloc_round_eq (W : List Nat) (j : Nat) (v : SM3_Vars) (hj : j < 64) :
    SM3_RegAlloc.processBlock_round W j v =
      sm3_round j (W.getD j 0) (W.getD j 0 ^^^ W.getD (j + 4) 0) v := by
  unfold SM3_RegAlloc.processBlock_round
  rw [switch_W_val_eq W j hj, switch_W_prime_val_eq W j hj]
  rfl

theorem regalloc_processBlock_eq (H block : List Nat) :
    SM3_RegAlloc.processBlock H block = sm3_compress H block := by
  unfold SM3_RegAlloc.processBlock sm3_compress sm3_rounds
  simp only []
  rw [regalloc_W_eq,
    nat_fold_congr _ (fun j v => sm3_round j ((sm3_words block).getD j 0)
      ((sm3_words block).getD j 0 ^^^ (sm3_words block).getD (j + 4) 0) v) 64 _
      (fun j hj => funext fun v => regalloc_round_eq _ j v hj)]
  rfl

/-- The expansion loop leaves the first 16 words alone and fills the others by the
recurrence. -/
theorem expandLoop_spec (W0 : List Nat) (h : W0.length = 68) (n : Nat) (hn : n ≤ 52) :
    (Nat.fold (fun n W => sm3_expand (n + 16) W) n W0).length = 68 ∧
    (∀ j, j < 16 → (Nat.fold (fun n W => sm3_expand (n + 16) W) n W0).getD j 0 = W0.getD j 0) ∧
    ∀ j, j < n + 16 → 16 ≤ j →
      (Nat.fold (fun n W => sm3_expand (n + 16) W) n W0).getD j 0 =
        SM3_Unrolled.P1 ((Nat.fold (fun n W => sm3_expand (n + 16) W) n W0).getD (j - 16) 0 ^^^
          (Nat.fold (fun n W => sm3_expand (n + 16) W) n W0).getD (j - 9) 0 ^^^
          SM3_Unrolled.rotl ((Nat.fold (fun n W => sm3_expand (n + 16) W) n W0).getD (j - 3) 0)
            15) ^^^
        SM3_Unrolled.rotl ((Nat.fold (fun n W => sm3_expand (n + 16) W) n W0).getD (j - 13) 0)
          7 ^^^
        (Nat.fold (fun n W => sm3_expand (n + 16) W) n W0).getD (j - 6) 0 := by
  induction n with
  | zero => exact ⟨h, fun _ _ => rfl, fun j h1 h2 => by omega⟩
  | succ n ih =>
    obtain ⟨hl, h16, hr⟩ := ih (by omega)
    rw [nat_fold_succ]
    generalize Nat.fold (fun n W => sm3_expand (n + 16) W) n W0 = X at hl h16 hr
    refine ⟨by rw [sm3_expand, List.length_set]; exact hl, ?_, ?_⟩
    · intro j hj
      rw [sm3_expand, getD_set_ne _ _ _ _ (by omega)]
      exact h16 j hj
    · intro j h1 h2
      by_cases hc : j = n + 16
      · subst hc
        rw [sm3_expand, getD_set_eq _ _ _ (by omega), getD_set_ne _ _ _ _ (by omega),
          getD_set_ne _ _ _ _ (by omega), getD_set_ne _ _ _ _ (by omega),
          getD_set_ne _ _ _ _ (by omega), getD_set_ne _ _ _ _ (by omega)]
      · rw [sm3_expand, getD_set_ne _ _ _ _ (by omega), getD_set_ne _ _ _ _ (by omega),
          getD_set_ne _ _ _ _ (by omega), getD_set_ne _ _ _ _ (by omega),
          getD_set_ne _ _ _ _ (by omega), getD_set_ne _ _ _ _ (by omega)]
        exact hr j (by omega) h2

theorem fold_set_length (f : Nat → Nat) (n : Nat) (L : List Nat) :
    (Nat.fold (fun j L => L.set j (f j)) n L).length = L.length := by
  induction n with
  | zero => rfl
  | succ m ihm => rw [nat_fold_succ, List.length_set, ihm]

/-- The first 16 words of `sm3_words` are the big-endian words of the block. -/
theorem sm3_words_base (block : List Nat) (i : Nat) (hi : i < 16) :
    (sm3_words block).getD i 0 = be32 block (i * 4) (i * 4 + 1) (i * 4 + 2) (i * 4 + 3) := by
  unfold sm3_words
  rw [(expandLoop_spec _ (by rw [fold_set_length]; rfl) 52 (le_refl _)).2.1 i hi]
  exact fold_set_getD (fun i => be32 block (i * 4) (i * 4 + 1) (i * 4 + 2) (i * 4 + 3)) 16
    (List.replicate 68 0) (by simp) i hi

/-- The other words of `sm3_words` obey the recurrence. -/
theorem sm3_words_rec (block : List Nat) (j : Nat) (h1 : j < 68) (h2 : 16 ≤ j) :
    (sm3_words block).getD j 0 =
      SM3_Unrolled.P1 ((sm3_words block).getD (j - 16) 0 ^^^ (sm3_words block).getD (j - 9) 0 ^^^
        SM3_Unrolled.rotl ((sm3_words block).getD (j - 3) 0) 15) ^^^
      SM3_Unrolled.rotl ((sm3_words block).getD (j - 13) 0) 7 ^^^
      (sm3_words block).getD (j - 6) 0 :=
  (expandLoop_spec _ (by rw [fold_set_length]; rfl) 52 (le_refl _)).2.2 j (by omega) h2

theorem sm3_words_length (block : List Nat) : (sm3_words block).length = 68 :=
  (expandLoop_spec _ (by rw [fold_set_length]; rfl) 52 (le_refl _)).1

theorem getD_set_cases (L : List Nat) (j k x : Nat) :
    (L.set j x).getD k 0 = L.getD k 0 ∨ (k = j ∧ (L.set j x).getD k 0 = x) := by
  by_cases hc : k = j
  · subst hc
    by_cases hl : k < L.length
    · exact Or.inr ⟨rfl, getD_set_eq _ _ _ hl⟩
    · left
      rw [List.set_eq_of_length_le (by omega)]
  · left
    exact getD_set_ne _ _ _ _ (fun h => hc h.symm)

/-- The memoised `computeW` returns the word of the recurrence and keeps the cache sound, also
when a word equals the sentinel. -/
theorem computeW_spec (W_base : List Nat) (W : Nat → Nat)
    (hbase : ∀ j, j < 16 → W j = W_base.getD j 0)
    (hrec : ∀ j, j < 68 → 16 ≤ j →
      W j = SM3_OnTheFly.P1 (W (j - 16) ^^^ W (j - 9) ^^^ SM3_OnTheFly.rotl (W (j - 3)) 15) ^^^
        SM3_OnTheFly.rotl (W (j - 13)) 7 ^^^ W (j - 6)) :
    ∀ fuel j W_cache, j < fuel → j < 68 →
      (∀ k, k < 68 → 16 ≤ k → W_cache.getD k 0 = 0xFFFFFFFF ∨ W_cache.getD k 0 = W k) →
      ∃ c, SM3_OnTheFly.computeW W_base fuel j W_cache = some (W j, c) ∧
        ∀ k, k < 68 → 16 ≤ k → c.getD k 0 = 0xFFFFFFFF ∨ c.getD k 0 = W k := by
  intro fuel
  induction fuel with
  | zero =>
    intro j _ hj
    omega
  | succ fuel ih =>
    intro j W_cache hf hj hc
    rw [SM3_OnTheFly.computeW]
    by_cases h16 : j < 16
    · rw [if_pos h16, ← hbase j h16]
      exact ⟨W_cache, rfl, hc⟩
    · rw [if_neg h16]
      by_cases hs : W_cache.getD j 0 ≠ 0xFFFFFFFF
      · rw [if_pos hs]
        rcases hc j hj (by omega) with h | h
        · exact absurd h hs
        · rw [h]
          exact ⟨W_cache, rfl, hc⟩
      · rw [if_neg hs]
        obtain ⟨c1, e1, v1⟩ := ih (j - 16) W_cache (by omega) (by omega) hc
        obtain ⟨c2, e2, v2⟩ := ih (j - 9) c1 (by omega) (by omega) v1
        obtain ⟨c3, e3, v3⟩ := ih (j - 3) c2 (by omega) (by omega) v2
        obtain ⟨c4, e4, v4⟩ := ih (j - 13) c3 (by omega) (by omega) v3
        obtain ⟨c5, e5, v5⟩ := ih (j - 6) c4 (by omega) (by omega) v4
        rw [e1]
        simp only [Option.some_bind]
        rw [e2]
        simp only [Option.some_bind]
        rw [e3]
        simp only [Option.some_bind]
        rw [e4]
        simp only [Option.some_bind]
        rw [e5]
        simp only [Option.some_bind]
        rw [← hrec j hj (by omega)]
        refine ⟨_, rfl, ?_⟩
        intro k hk hk16
        rcases getD_set_cases c5 j k (W j) with h | ⟨h1, h2⟩
        · rw [h]
          exact v5 k hk hk16
        · right
          rw [h2, h1]

/-- The second loop at the start of `processBlock` fills `W_base` and leaves the entries of the
cache from 16 on alone. -/
theorem onthefly_init_loop (block : List Nat) (C0 : List Nat) (n : Nat) (hn : n ≤ 16) :
    (Nat.fold (fun i (st : List Nat × List Nat) =>
      let W_base := st.1.set i ((block.getD (i * 4) 0 <<< 24) |||
        (block.getD (i * 4 + 1) 0 <<< 16) ||| (block.getD (i * 4 + 2) 0 <<< 8) |||
        block.getD (i * 4 + 3) 0)
      (W_base, st.2.set i (W_base.getD i 0))) n (List.replicate 16 0, C0)).1.length = 16 ∧
    (∀ i, i < n → (Nat.fold (fun i (st : List Nat × List Nat) =>
      let W_base := st.1.set i ((block.getD (i * 4) 0 <<< 24) |||
        (block.getD (i * 4 + 1) 0 <<< 16) ||| (block.getD (i * 4 + 2) 0 <<< 8) |||
        block.getD (i * 4 + 3) 0)
      (W_base, st.2.set i (W_base.getD i 0))) n (List.replicate 16 0, C0)).1.getD i 0 =
        be32 block (i * 4) (i * 4 + 1) (i * 4 + 2) (i * 4 + 3)) ∧
    ∀ k, 16 ≤ k → (Nat.fold (fun i (st : List Nat × List Nat) =>
      let W_base := st.1.set i ((block.getD (i * 4) 0 <<< 24) |||
        (block.getD (i * 4 + 1) 0 <<< 16) ||| (block.getD (i * 4 + 2) 0 <<< 8) |||
        block.getD (i * 4 + 3) 0)
      (W_base, st.2.set i (W_base.getD i 0))) n (List.replicate 16 0, C0)).2.getD k 0 =
        C0.getD k 0 := by
  induction n with
  | zero => exact ⟨rfl, fun i hi => absurd hi (Nat.not_lt_zero i), fun _ _ => rfl⟩
  | succ n ih =>
    obtain ⟨hl, hb, hc⟩ := ih (by omega)
    rw [nat_fold_succ]
    generalize Nat.fold (fun i (st : List Nat × List Nat) =>
      let W_base := st.1.set i ((block.getD (i * 4) 0 <<< 24) |||
        (block.getD (i * 4 + 1) 0 <<< 16) ||| (block.getD (i * 4 + 2) 0 <<< 8) |||
        block.getD (i * 4 + 3) 0)
      (W_base, st.2.set i (W_base.getD i 0))) n (List.replicate 16 0, C0) = st at hl hb hc
    obtain ⟨B, C⟩ := st
    simp only [] at hl hb hc
    simp only []
    refine ⟨by rw [List.length_set]; exact hl, ?_, ?_⟩
    · intro i hi
      by_cases hc : i = n
      · subst hc
        rw [getD_set_eq _ _ _ (by omega)]
        rfl
      · rw [getD_set_ne _ _ _ _ (by omega)]
        exact hb i (by omega)
    · intro k hk
      rw [getD_set_ne _ _ _ _ (by omega)]
      exact hc k hk

theorem onthefly_init_base (block : List Nat) (i : Nat) (hi : i < 16) :
    (SM3_OnTheFly.processBlock_init block).1.getD i 0 =
      be32 block (i * 4) (i * 4 + 1) (i * 4 + 2) (i * 4 + 3) :=
  (onthefly_init_loop block _ 16 (le_refl _)).2.1 i hi

theorem onthefly_init_cache (block : List Nat) (k : Nat) (hk : k < 68) (h16 : 16 ≤ k) :
    (SM3_OnTheFly.processBlock_init block).2.getD k 0 = 0xFFFFFFFF := by
  unfold SM3_OnTheFly.processBlock_init
  simp only []
  rw [(onthefly_init_loop block _ 16 (le_refl _)).2.2 k h16]
  exact fold_set_getD (fun _ => 0xFFFFFFFF) 68 (List.replicate 68 0) (by simp) k hk

/-- One iteration of the round loop of the on-the-fly variant is round `j` on the words of the
recurrence, and keeps the cache sound. -/
theorem onthefly_round_eq (W_base : List Nat) (W : Nat → Nat)
    (hbase : ∀ j, j < 16 → W j = W_base.getD j 0)
    (hrec : ∀ j, j < 68 → 16 ≤ j →
      W j = SM3_OnTheFly.P1 (W (j - 16) ^^^ W (j - 9) ^^^ SM3_OnTheFly.rotl (W (j - 3)) 15) ^^^
        SM3_OnTheFly.rotl (W (j - 13)) 7 ^^^ W (j - 6))
    (j : Nat) (hj : j < 64) (v : SM3_Vars) (c : List Nat)
    (hc : ∀ k, k < 68 → 16 ≤ k → c.getD k 0 = 0xFFFFFFFF ∨ c.getD k 0 = W k) :
    ∃ c1, SM3_OnTheFly.processBlock_round W_base j (v, c) =
        some (sm3_round j (W j) (W j ^^^ W (j + 4)) v, c1) ∧
      ∀ k, k < 68 → 16 ≤ k → c1.getD k 0 = 0xFFFFFFFF ∨ c1.getD k 0 = W k := by
  obtain ⟨c1, e1, v1⟩ := computeW_spec W_base W hbase hrec 68 j c (by omega) (by omega) hc
  obtain ⟨c2, e2, v2⟩ := computeW_spec W_base W hbase hrec 68 (j + 4) c1 (by omega) (by omega) v1
  refine ⟨c2, ?_, v2⟩
  unfold SM3_OnTheFly.processBlock_round
  simp only []
  rw [e1]
  simp only [Option.some_bind]
  rw [e2]
  simp only [Option.some_bind]
  have hcache : (if j ≥ 16 then if j - 16 < 52 then c2 else c2.set (j - 16) 0xFFFFFFFF else c2) =
      c2 := by
    split_ifs <;> first | rfl | omega
  rw [hcache]
  rfl

/-- The round loop of the on-the-fly variant is the loop over `j` on the words of the
recurrence. -/
theorem onthefly_rounds_eq (W_base : List Nat) (W : Nat → Nat)
    (hbase : ∀ j, j < 16 → W j = W_base.getD j 0)
    (hrec : ∀ j, j < 68 → 16 ≤ j →
      W j = SM3_OnTheFly.P1 (W (j - 16) ^^^ W (j - 9) ^^^ SM3_OnTheFly.rotl (W (j - 3)) 15) ^^^
        SM3_OnTheFly.rotl (W (j - 13)) 7 ^^^ W (j - 6))
    (v : SM3_Vars) (c : List Nat)
    (hc : ∀ k, k < 68 → 16 ≤ k → c.getD k 0 = 0xFFFFFFFF ∨ c.getD k 0 = W k) (n : Nat)
    (hn : n ≤ 64) :
    ∃ c1, Nat.fold (fun j st => st.bind (SM3_OnTheFly.processBlock_round W_base j)) n
        (some (v, c)) =
        some (Nat.fold (fun j v => sm3_round j (W j) (W j ^^^ W (j + 4)) v) n v, c1) ∧
      ∀ k, k < 68 → 16 ≤ k → c1.getD k 0 = 0xFFFFFFFF ∨ c1.getD k 0 = W k := by
  induction n with
  | zero => exact ⟨c, rfl, hc⟩
  | succ n ih =>
    obtain ⟨c1, e1, v1⟩ := ih (by omega)
    obtain ⟨c2, e2, v2⟩ := onthefly_round_eq W_base W hbase hrec n (by omega)
      (Nat.fold (fun j v => sm3_round j (W j) (W j ^^^ W (j + 4)) v) n v) c1 v1
    refine ⟨c2, ?_, v2⟩
    rw [nat_fold_succ, e1, Option.some_bind, e2]
    rfl

theorem onthefly_processBlock_eq (H block : List Nat) :
    SM3_OnTheFly.processBlock H block = some (sm3_compress H block) := by
  obtain ⟨c1, e1, _⟩ := onthefly_rounds_eq (SM3_OnTheFly.processBlock_init block).1
    (fun j => (sm3_words block).getD j 0)
    (fun j hj => by
      simp only []
      rw [sm3_words_base block j hj, onthefly_init_base block j hj])
    (fun j h1 h2 => sm3_words_rec block j h1 h2)
    (sm3_init H) (SM3_OnTheFly.processBlock_init block).2
    (fun k h1 h2 => Or.inl (onthefly_init_cache block k h1 h2)) 64 (le_refl _)
  have hdef : SM3_OnTheFly.processBlock H block =
      (Nat.fold (fun j st => st.bind (SM3_OnTheFly.processBlock_round
        (SM3_OnTheFly.processBlock_init block).1 j)) 64
        (some (sm3_init H, (SM3_OnTheFly.processBlock_init block).2))).bind
        (fun st => some (sm3_finish H st.1)) := rfl
  rw [hdef, e1, Option.some_bind]
  rfl

theorem sm3_rotl_lt (x n : Nat) (hx : x < 2 ^ 32) : SM3_Unrolled.rotl x n < 2 ^ 32 :=
  left_rotate_lt x n hx

theorem sm3_P0_lt (x : Nat) (hx : x < 2 ^ 32) : SM3_Unrolled.P0 x < 2 ^ 32 :=
  Nat.xor_lt_two_pow (Nat.xor_lt_two_pow hx (sm3_rotl_lt x 9 hx)) (sm3_rotl_lt x 17 hx)

theorem sm3_P1_lt (x : Nat) (hx : x < 2 ^ 32) : SM3_Unrolled.P1 x < 2 ^ 32 :=
  Nat.xor_lt_two_pow (Nat.xor_lt_two_pow hx (sm3_rotl_lt x 15 hx)) (sm3_rotl_lt x 23 hx)

theorem be32_lt (block : List Nat) (hb : ∀ b ∈ block, b < 256) (i : Nat) :
    be32 block (i * 4) (i * 4 + 1) (i * 4 + 2) (i * 4 + 3) < 2 ^ 32 :=
  bytes_to_uint32_lt block (i * 4) hb

theorem forall_set_lt (L : List Nat) (i v n : Nat) (h : ∀ w ∈ L, w < n) (hv : v < n) :
    ∀ w ∈ L.set i v, w < n := by
  intro w hw
  rcases List.mem_or_eq_of_mem_set hw with h1 | h1
  · exact h w h1
  · rw [h1]
    exact hv

/-- Every word of a block of bytes fits in 32 bits. -/
theorem sm3_words_lt (block : List Nat) (hb : ∀ b ∈ block, b < 256) :
    ∀ w ∈ sm3_words block, w < 2 ^ 32 := by
  unfold sm3_words
  have h1 : ∀ n, ∀ w ∈ Nat.fold (fun i W =>
      W.set i (be32 block (i * 4) (i * 4 + 1) (i * 4 + 2) (i * 4 + 3))) n
      (List.replicate 68 0), w < 2 ^ 32 := by
    intro n
    induction n with
    | zero =>
      intro w hw
      rw [nat_fold_zero] at hw
      rw [List.eq_of_mem_replicate hw]
      decide
    | succ n ih =>
      rw [nat_fold_succ]
      exact forall_set_lt _ _ _ _ ih (be32_lt block hb n)
  have h2 : ∀ n (W0 : List Nat), (∀ w ∈ W0, w < 2 ^ 32) →
      ∀ w ∈ Nat.fold (fun n W => sm3_expand (n + 16) W) n W0, w < 2 ^ 32 := by
    intro n W0 h0
    induction n with
    | zero => exact h0
    | succ n ih =>
      rw [nat_fold_succ, sm3_expand]
      have g : ∀ k, (Nat.fold (fun n W => sm3_expand (n + 16) W) n W0).getD k 0 < 2 ^ 32 :=
        fun k => getD_lt_of_forall ih (by decide) k
      exact forall_set_lt _ _ _ _ ih
        (Nat.xor_lt_two_pow (Nat.xor_lt_two_pow
          (sm3_P1_lt _ (Nat.xor_lt_two_pow (Nat.xor_lt_two_pow (g _) (g _))
            (sm3_rotl_lt _ 15 (g _))))
          (sm3_rotl_lt _ 7 (g _))) (g _))
  exact h2 52 _ (h1 16)

theorem getD_drop_four (W : List Nat) (k : Nat) : (W.drop 4).getD k 0 = W.getD (k + 4) 0 := by
  simp only [List.getD_eq_getElem?_getD, List.getElem?_drop, Nat.add_comm]

/-- One iteration of the vector loop of `xor_arrays_simd` writes four words. -/
theorem simd_step (dest src1 src2 : List Nat) (i : Nat) (h1 : ∀ k, src1.getD k 0 < 2 ^ 32)
    (h2 : ∀ k, src2.getD k 0 < 2 ^ 32) :
    _mm_storeu_si128_u32 dest i
        (_mm_xor_si128 (_mm_loadu_si128_u32 src1 i) (_mm_loadu_si128_u32 src2 i)) =
      (((dest.set i (src1.getD i 0 ^^^ src2.getD i 0)).set (i + 1)
        (src1.getD (i + 1) 0 ^^^ src2.getD (i + 1) 0)).set (i + 2)
        (src1.getD (i + 2) 0 ^^^ src2.getD (i + 2) 0)).set (i + 3)
        (src1.getD (i + 3) 0 ^^^ src2.getD (i + 3) 0) := by
  have e1 : _mm_loadu_si128_u32 src1 i = _mm_setr_epi32 (src1.getD i 0) (src1.getD (i + 1) 0)
      (src1.getD (i + 2) 0) (src1.getD (i + 3) 0) := rfl
  have e2 : _mm_loadu_si128_u32 src2 i = _mm_setr_epi32 (src2.getD i 0) (src2.getD (i + 1) 0)
      (src2.getD (i + 2) 0) (src2.getD (i + 3) 0) := rfl
  obtain ⟨l0, l1, l2, l3⟩ := lane32_setr _ _ _ _
    (Nat.xor_lt_two_pow (h1 i) (h2 i)) (Nat.xor_lt_two_pow (h1 (i + 1)) (h2 (i + 1)))
    (Nat.xor_lt_two_pow (h1 (i + 2)) (h2 (i + 2))) (Nat.xor_lt_two_pow (h1 (i + 3)) (h2 (i + 3)))
  rw [e1, e2, xor_setr, _mm_storeu_si128_u32, l0, l1, l2, l3]

/-- A loop that writes `f` to four entries at a time leaves `f j` in entry `j`. -/
theorem fold_set4_getD (f : Nat → Nat) (n : Nat) (L : List Nat) (h : 4 * n ≤ L.length) :
    (Nat.fold (fun n L => (((L.set (4 * n) (f (4 * n))).set (4 * n + 1) (f (4 * n + 1))).set
      (4 * n + 2) (f (4 * n + 2))).set (4 * n + 3) (f (4 * n + 3))) n L).length = L.length ∧
    ∀ j, j < 4 * n →
      (Nat.fold (fun n L => (((L.set (4 * n) (f (4 * n))).set (4 * n + 1) (f (4 * n + 1))).set
        (4 * n + 2) (f (4 * n + 2))).set (4 * n + 3) (f (4 * n + 3))) n L).getD j 0 = f j := by
  induction n with
  | zero => exact ⟨rfl, fun j hj => by omega⟩
  | succ n ih =>
    obtain ⟨hl, hg⟩ := ih (by omega)
    rw [nat_fold_succ]
    generalize Nat.fold (fun n L => (((L.set (4 * n) (f (4 * n))).set (4 * n + 1)
      (f (4 * n + 1))).set (4 * n + 2) (f (4 * n + 2))).set (4 * n + 3) (f (4 * n + 3))) n L = X
      at hl hg
    refine ⟨by simp only [List.length_set]; exact hl, ?_⟩
    intro j hj
    by_cases c3 : j = 4 * n + 3
    · subst c3
      exact getD_set_eq _ _ _ (by simp only [List.length_set]; omega)
    · rw [getD_set_ne _ _ _ _ (by omega)]
      by_cases c2 : j = 4 * n + 2
      · subst c2
        exact getD_set_eq _ _ _ (by simp only [List.length_set]; omega)
      · rw [getD_set_ne _ _ _ _ (by omega)]
        by_cases c1 : j = 4 * n + 1
        · subst c1
          exact getD_set_eq _ _ _ (by simp only [List.length_set]; omega)
        · rw [getD_set_ne _ _ _ _ (by omega)]
          by_cases c0 : j = 4 * n
          · subst c0
            exact getD_set_eq _ _ _ (by omega)
          · rw [getD_set_ne _ _ _ _ (by omega)]
            exact hg j (by omega)

/-- The array that `xor_arrays_simd` fills for `processBlock` holds `W[j] ^ W[j+4]`. -/
theorem xor_arrays_simd_getD (W : List Nat) (hW : ∀ w ∈ W, w < 2 ^ 32) (j : Nat) (hj : j < 64) :
    (SM3.xor_arrays_simd (List.replicate 64 0) W (W.drop 4) 64).getD j 0 =
      W.getD j 0 ^^^ W.getD (j + 4) 0 := by
  have h1 : ∀ k, W.getD k 0 < 2 ^ 32 := fun k => getD_lt_of_forall hW (by decide) k
  have h2 : ∀ k, (W.drop 4).getD k 0 < 2 ^ 32 := fun k => by
    rw [getD_drop_four]
    exact h1 _
  have hstep : (fun n dest =>
      let i := 4 * n
      let a := _mm_loadu_si128_u32 W i
      let b := _mm_loadu_si128_u32 (W.drop 4) i
      let result := _mm_xor_si128 a b
      _mm_storeu_si128_u32 dest i result) =
      (fun n L => (((L.set (4 * n) ((fun k => W.getD k 0 ^^^ W.getD (k + 4) 0) (4 * n))).set
        (4 * n + 1) ((fun k => W.getD k 0 ^^^ W.getD (k + 4) 0) (4 * n + 1))).set (4 * n + 2)
        ((fun k => W.getD k 0 ^^^ W.getD (k + 4) 0) (4 * n + 2))).set (4 * n + 3)
        ((fun k => W.getD k 0 ^^^ W.getD (k + 4) 0) (4 * n + 3))) := by
    funext n dest
    simp only []
    rw [simd_step dest W (W.drop 4) (4 * n) h1 h2, getD_drop_four, getD_drop_four,
      getD_drop_four, getD_drop_four]
  have hdef : SM3.xor_arrays_simd (List.replicate 64 0) W (W.drop 4) 64 =
      Nat.fold (fun n dest =>
        let i := 4 * n
        let a := _mm_loadu_si128_u32 W i
        let b := _mm_loadu_si128_u32 (W.drop 4) i
        let result := _mm_xor_si128 a b
        _mm_storeu_si128_u32 dest i result) 16 (List.replicate 64 0) := rfl
  rw [hdef, hstep]
  exact (fold_set4_getD (fun k => W.getD k 0 ^^^ W.getD (k + 4) 0) 16 (List.replicate 64 0)
    (by simp)).2 j (by omega)

theorem simd_round_eq (W W_prime : List Nat) (j : Nat) (v : SM3_Vars) (hj : j < 64) :
    SM3.processBlock_round W W_prime j v = sm3_round j (W.getD j 0) (W_prime.getD j 0) v := by
  by_cases h : j ≤ 15
  · simp only [SM3.processBlock_round, sm3_round, SM3.Tj, SM3.FF, SM3.GG, if_pos h]
    rfl
  · have h2 : 16 ≤ j ∧ j ≤ 63 := by omega
    simp only [SM3.processBlock_round, sm3_round, SM3.Tj, SM3.FF, SM3.GG, if_neg h, if_pos h2]
    rfl

theorem sm3_round_vars32 (j W_j W_prime_j : Nat) (v : SM3_Vars) (hv : SM3_Vars32 v) :
    SM3_Vars32 (sm3_round j W_j W_prime_j v) := by
  obtain ⟨hA, hB, hC, hD, hE, hF, hG, hH⟩ := hv
  exact ⟨Nat.mod_lt _ (by decide), hA, sm3_rotl_lt _ 9 hB, hC,
    sm3_P0_lt _ (Nat.mod_lt _ (by decide)), hE, sm3_rotl_lt _ 19 hF, hG⟩

theorem sm3_init_vars32 (H : List Nat) (hH : ∀ h ∈ H, h < 2 ^ 32) : SM3_Vars32 (sm3_init H) :=
  ⟨getD_lt_of_forall hH (by decide) 0, getD_lt_of_forall hH (by decide) 1,
    getD_lt_of_forall hH (by decide) 2, getD_lt_of_forall hH (by decide) 3,
    getD_lt_of_forall hH (by decide) 4, getD_lt_of_forall hH (by decide) 5,
    getD_lt_of_forall hH (by decide) 6, getD_lt_of_forall hH (by decide) 7⟩

theorem sm3_rounds_vars32 (W : List Nat) (v : SM3_Vars) (hv : SM3_Vars32 v) :
    SM3_Vars32 (sm3_rounds W v) := by
  unfold sm3_rounds
  generalize 64 = n
  induction n with
  | zero => exact hv
  | succ n ih =>
    rw [nat_fold_succ]
    exact sm3_round_vars32 _ _ _ _ ih

/-- The vector form of the last eight statements of `processBlock` is the scalar form. -/
theorem simd_finish_eq (H : List Nat) (v : SM3_Vars) (hH : ∀ h ∈ H, h < 2 ^ 32)
    (hv : SM3_Vars32 v) :
    _mm_storeu_si128_u32
        (_mm_storeu_si128_u32 H 0
          (_mm_xor_si128 (_mm_loadu_si128_u32 H 0) (_mm_set_epi32 v.D v.C v.B v.A))) 4
        (_mm_xor_si128 (_mm_loadu_si128_u32 H 4) (_mm_set_epi32 v.H_var v.G v.F v.E)) =
      sm3_finish H v := by
  obtain ⟨hA, hB, hC, hD, hE, hF, hG, hHv⟩ := hv
  have g : ∀ k, H.getD k 0 < 2 ^ 32 := fun k => getD_lt_of_forall hH (by decide) k
  have e1 : _mm_loadu_si128_u32 H 0 = _mm_setr_epi32 (H.getD 0 0) (H.getD 1 0) (H.getD 2 0)
      (H.getD 3 0) := rfl
  have e2 : _mm_loadu_si128_u32 H 4 = _mm_setr_epi32 (H.getD 4 0) (H.getD 5 0) (H.getD 6 0)
      (H.getD 7 0) := rfl
  have e3 : _mm_set_epi32 v.D v.C v.B v.A = _mm_setr_epi32 v.A v.B v.C v.D := rfl
  have e4 : _mm_set_epi32 v.H_var v.G v.F v.E = _mm_setr_epi32 v.E v.F v.G v.H_var := rfl
  obtain ⟨l0, l1, l2, l3⟩ := lane32_setr _ _ _ _
    (Nat.xor_lt_two_pow (g 0) hA) (Nat.xor_lt_two_pow (g 1) hB)
    (Nat.xor_lt_two_pow (g 2) hC) (Nat.xor_lt_two_pow (g 3) hD)
  obtain ⟨m0, m1, m2, m3⟩ := lane32_setr _ _ _ _
    (Nat.xor_lt_two_pow (g 4) hE) (Nat.xor_lt_two_pow (g 5) hF)
    (Nat.xor_lt_two_pow (g 6) hG) (Nat.xor_lt_two_pow (g 7) hHv)
  rw [e1, e2, e3, e4, xor_setr, xor_setr, _mm_storeu_si128_u32, _mm_storeu_si128_u32, l0, l1, l2,
    l3, m0, m1, m2, m3]
  unfold sm3_finish
  simp (disch := omega) only [getD_set_ne, Nat.reduceAdd]

theorem simd_processBlock_eq (H block : List Nat) (hH : ∀ h ∈ H, h < 2 ^ 32)
    (hb : ∀ b ∈ block, b < 256) :
    SM3.processBlock H block = sm3_compress H block := by
  have hW := sm3_words_lt block hb
  have hr : Nat.fold (fun j v => SM3.processBlock_round (sm3_words block)
      (SM3.xor_arrays_simd (List.replicate 64 0) (sm3_words block) ((sm3_words block).drop 4) 64)
      j v) 64 (sm3_init H) = sm3_rounds (sm3_words block) (sm3_init H) := by
    unfold sm3_rounds
    exact nat_fold_congr _ _ 64 _ (fun j hj => funext fun v => by
      rw [simd_round_eq _ _ j v hj, xor_arrays_simd_getD _ hW j hj])
  have hdef : SM3.processBlock H block =
      _mm_storeu_si128_u32
        (_mm_storeu_si128_u32 H 0
          (_mm_xor_si128 (_mm_loadu_si128_u32 H 0)
            (_mm_set_epi32
              (Nat.fold (fun j v => SM3.processBlock_round (sm3_words block)
                (SM3.xor_arrays_simd (List.replicate 64 0) (sm3_words block)
                  ((sm3_words block).drop 4) 64) j v) 64 (sm3_init H)).D
              (Nat.fold (fun j v => SM3.processBlock_round (sm3_words block)
                (SM3.xor_arrays_simd (List.replicate 64 0) (sm3_words block)
                  ((sm3_words block).drop 4) 64) j v) 64 (sm3_init H)).C
              (Nat.fold (fun j v => SM3.processBlock_round (sm3_words block)
                (SM3.xor_arrays_simd (List.replicate 64 0) (sm3_words block)
                  ((sm3_words block).drop 4) 64) j v) 64 (sm3_init H)).B
              (Nat.fold (fun j v => SM3.processBlock_round (sm3_words block)
                (SM3.xor_arrays_simd (List.replicate 64 0) (sm3_words block)
                  ((sm3_words block).drop 4) 64) j v) 64 (sm3_init H)).A))) 4
        (_mm_xor_si128 (_mm_loadu_si128_u32 H 4)
          (_mm_set_epi32
            (Nat.fold (fun j v => SM3.processBlock_round (sm3_words block)
              (SM3.xor_arrays_simd (List.replicate 64 0) (sm3_words block)
                ((sm3_words block).drop 4) 64) j v) 64 (sm3_init H)).H_var
            (Nat.fold (fun j v => SM3.processBlock_round (sm3_words block)
              (SM3.xor_arrays_simd (List.replicate 64 0) (sm3_words block)
                ((sm3_words block).drop 4) 64) j v) 64 (sm3_init H)).G
            (Nat.fold (fun j v => SM3.processBlock_round (sm3_words block)
              (SM3.xor_arrays_simd (List.replicate 64 0) (sm3_words block)
                ((sm3_words block).drop 4) 64) j v) 64 (sm3_init H)).F
            (Nat.fold (fun j v => SM3.processBlock_round (sm3_words block)
              (SM3.xor_arrays_simd (List.replicate 64 0) (sm3_words block)
                ((sm3_words block).drop 4) 64) j v) 64 (sm3_init H)).E)) := rfl
  rw [hdef, hr, sm3_compress]
  exact simd_finish_eq H _ hH (sm3_rounds_vars32 _ _ (sm3_init_vars32 H hH))

/-! ## Lemmas on the length of the output and on the hexadecimal decoding -/

theorem decrypt_block_aesni_eq (C rk : List Nat) (h : C.length = 16) (hb : ∀ b ∈ C, b < 256) :
    SM4_AESNI.decrypt_block C rk = SM4.decrypt_block C rk :=
  encrypt_block_aesni_eq C rk.reverse h hb

theorem decrypt_block_length (C rk : List Nat) : (SM4.decrypt_block C rk).length = 16 :=
  encrypt_block_length C rk.reverse

/-- The loop of the AES-NI `decrypt_hex` appends the plaintexts of the blocks, in order. -/
theorem decrypt_hex_loop_aesni_eq (rks : List Nat) (s : List Char)
    (hs : ∀ c ∈ s, (hexval c).isSome) (N : Nat) (hN : s.length = N * 32) :
    ∀ fuel k result, N - k ≤ fuel →
      SM4_AESNI.decrypt_hex_loop rks s fuel (k * 32) result =
        Except.ok (result ++
          (List.range' k (N - k)).flatMap (mapBlock (fun B => SM4.decrypt_block B rks) s)) := by
  intro fuel
  induction fuel with
  | zero =>
    intro k result hf
    have h0 : N - k = 0 := by omega
    rw [h0]
    simp [SM4_AESNI.decrypt_hex_loop]
  | succ fuel ih =>
    intro k result hf
    by_cases hc : k < N
    · obtain ⟨e0, l0, b0⟩ := decodeBlock_spec s hs k (by omega)
      have h1 : N - k = (N - (k + 1)) + 1 := by omega
      have h2 : k * 32 + 32 = (k + 1) * 32 := by omega
      rw [SM4_AESNI.decrypt_hex_loop, if_pos (by omega)]
      simp only []
      rw [e0]
      simp only [bind, Except.bind]
      rw [h2, ih (k + 1) _ (by omega), decrypt_block_aesni_eq _ _ l0 b0, h1, List.range'_succ]
      simp only [List.flatMap_cons, mapBlock, List.append_assoc]
    · have h0 : N - k = 0 := by omega
      rw [SM4_AESNI.decrypt_hex_loop, if_neg (by omega), h0]
      simp

/-- The AES-NI `decrypt_hex` returns what the reference `decrypt_hex` returns. -/
theorem decrypt_hex_aesni_eq (cipher_hex key_hex : List Char) (K : List Nat)
    (hk : key_hex.length = 32) (hK : SM4.hex_to_bytes key_hex = Except.ok K)
    (hp : cipher_hex.length % 32 = 0) (hph : ∀ c ∈ cipher_hex, (hexval c).isSome) :
    SM4_AESNI.decrypt_hex cipher_hex key_hex =
      Except.ok ((List.range (cipher_hex.length / 32)).flatMap
        (mapBlock (fun B => SM4.decrypt_block B (SM4.key_schedule K)) cipher_hex)) := by
  have hN : cipher_hex.length = cipher_hex.length / 32 * 32 := by omega
  unfold SM4_AESNI.decrypt_hex
  rw [if_neg (by simp [hp]), if_neg (by simp [hk]), hK]
  simp only [bind, Except.bind]
  have h := decrypt_hex_loop_aesni_eq (SM4.key_schedule K) cipher_hex hph
    (cipher_hex.length / 32) hN cipher_hex.length 0 [] (by omega)
  rw [Nat.zero_mul] at h
  rw [key_schedule_aesni_eq, h, List.nil_append, List.range_eq_range', Nat.sub_zero]

/-- The batch loop of the GFNI `decrypt_hex` appends the plaintexts of the blocks it passes, in
order. -/
theorem decrypt_hex_batch_eq (rks : List Nat) (s : List Char)
    (hs : ∀ c ∈ s, (hexval c).isSome) (N : Nat) (hN : N * 32 ≤ s.length) :
    ∀ fuel i result, (N - i) / 4 ≤ fuel →
      SM4_GFNI.decrypt_hex_batch rks s N fuel i result =
        Except.ok (i + 4 * ((N - i) / 4),
          result ++ (List.range' i (4 * ((N - i) / 4))).flatMap
            (mapBlock (gfni_block rks false) s)) := by
  intro fuel
  induction fuel with
  | zero =>
    intro i result hf
    have h0 : (N - i) / 4 = 0 := by omega
    rw [h0]
    simp [SM4_GFNI.decrypt_hex_batch]
  | succ fuel ih =>
    intro i result hf
    by_cases hc : i + 4 ≤ N
    · obtain ⟨m, hm⟩ : ∃ m, (N - (i + 4)) / 4 = m := ⟨_, rfl⟩
      have h1 : (N - i) / 4 = m + 1 := by omega
      obtain ⟨_, l0, b0⟩ := decodeBlock_spec s hs i (by omega)
      obtain ⟨_, l1, b1⟩ := decodeBlock_spec s hs (i + 1) (by omega)
      obtain ⟨_, l2, b2⟩ := decodeBlock_spec s hs (i + 2) (by omega)
      obtain ⟨_, l3, b3⟩ := decodeBlock_spec s hs (i + 3) (by omega)
      obtain ⟨d0, d1, d2, d3⟩ := drop_take_blocks _ _ _ _
        (gfni_block_length rks false (decodeBlock s i))
        (gfni_block_length rks false (decodeBlock s (i + 1)))
        (gfni_block_length rks false (decodeBlock s (i + 2)))
        (gfni_block_length rks false (decodeBlock s (i + 3)))
      rw [SM4_GFNI.decrypt_hex_batch, if_pos hc, encrypt_hex_fill_eq s hs i (by omega)]
      simp only [bind, Except.bind]
      rw [crypt_4blocks_blocks rks false _ _ _ _ l0 l1 l2 l3 b0 b1 b2 b3]
      simp only [nat_fold_succ, nat_fold_zero, d0, d1, d2, d3]
      rw [ih (i + 4) _ (by omega), hm, h1, range'_four]
      simp only [List.flatMap_cons, mapBlock, List.append_assoc, Prod.mk.injEq,
        Except.ok.injEq]
      constructor
      · omega
      · trivial
    · have h0 : (N - i) / 4 = 0 := by omega
      rw [SM4_GFNI.decrypt_hex_batch, if_neg hc, h0]
      simp

/-- The tail loop of the GFNI `decrypt_hex` appends the plaintexts of the remaining blocks, in
order. -/
theorem decrypt_hex_tail_eq (K : List Nat) (s : List Char) (hs : ∀ c ∈ s, (hexval c).isSome)
    (N : Nat) (hN : N * 32 ≤ s.length) :
    ∀ fuel i result, N - i ≤ fuel →
      SM4_GFNI.decrypt_hex_tail K s N fuel i result =
        Except.ok (result ++
          (List.range' i (N - i)).flatMap
            (mapBlock (gfni_block (SM4_GFNI.expand_key K) false) s)) := by
  intro fuel
  induction fuel with
  | zero =>
    intro i result hf
    have h0 : N - i = 0 := by omega
    rw [h0]
    simp [SM4_GFNI.decrypt_hex_tail]
  | succ fuel ih =>
    intro i result hf
    by_cases hc : i < N
    · obtain ⟨e0, l0, b0⟩ := decodeBlock_spec s hs i (by omega)
      have h1 : N - i = (N - (i + 1)) + 1 := by omega
      rw [SM4_GFNI.decrypt_hex_tail, if_pos hc]
      simp only []
      rw [e0]
      simp only [bind, Except.bind]
      rw [ih (i + 1) _ (by omega), decrypt_block_gfni_eq _ _ l0 b0, h1, List.range'_succ]
      simp only [List.flatMap_cons, mapBlock, List.append_assoc]
    · have h0 : N - i = 0 := by omega
      rw [SM4_GFNI.decrypt_hex_tail, if_neg hc, h0]
      simp

/-- The GFNI `decrypt_hex` returns the plaintexts of the blocks of its input, in order. -/
theorem decrypt_hex_gfni_eq (cipher_hex key_hex : List Char) (K : List Nat)
    (hk : key_hex.length = 32) (hK : SM4.hex_to_bytes key_hex = Except.ok K)
    (hp : cipher_hex.length % 32 = 0) (hph : ∀ c ∈ cipher_hex, (hexval c).isSome) :
    SM4_GFNI.decrypt_hex cipher_hex key_hex =
      Except.ok ((List.range (cipher_hex.length / 32)).flatMap
        (mapBlock (gfni_block (SM4_GFNI.expand_key K) false) cipher_hex)) := by
  have hN : cipher_hex.length / 32 * 32 ≤ cipher_hex.length := Nat.div_mul_le_self _ _
  unfold SM4_GFNI.decrypt_hex
  rw [if_neg (by simp [hp]), if_neg (by simp [hk]), hK]
  simp only [bind, Except.bind]
  rw [decrypt_hex_batch_eq (SM4_GFNI.expand_key K) cipher_hex hph (cipher_hex.length / 32) hN
    (cipher_hex.length / 32) 0 [] (by omega)]
  simp only []
  rw [decrypt_hex_tail_eq K cipher_hex hph (cipher_hex.length / 32) hN (cipher_hex.length / 32)
    _ _ (by omega), List.nil_append, ← List.flatMap_append, List.range_eq_range']
  congr 2
  have h := List.range'_append 0 (4 * ((cipher_hex.length / 32 - 0) / 4))
    (cipher_hex.length / 32 - (0 + 4 * ((cipher_hex.length / 32 - 0) / 4))) 1
  simp only [Nat.one_mul] at h
  rw [h]
  congr 1
  omega

/-- Blocks of 16 bytes print as 32 characters each. -/
theorem mapBlock_flatMap_length (f : List Nat → List Nat) (s : List Char) (N : Nat)
    (hf : ∀ B, (f B).length = 16) :
    ((List.range N).flatMap (mapBlock f s)).length = 32 * N := by
  rw [flatMap_range_length _ N (fun k _ => by rw [mapBlock, bytes_to_hex_length, hf])]
  omega

/-- For a decoded key, the six multi-block entry points return as many characters as they are
given. -/
theorem hex_output_length (input key_hex : List Char) (K : List Nat) (hk : key_hex.length = 32)
    (hK : SM4.hex_to_bytes key_hex = Except.ok K) (hp : input.length % 32 = 0)
    (hph : ∀ c ∈ input, (hexval c).isSome) :
    (∃ c, SM4.encrypt_hex input key_hex = Except.ok c ∧ c.length = 32 * (input.length / 32)) ∧
    (∃ c, SM4.decrypt_hex input key_hex = Except.ok c ∧ c.length = 32 * (input.length / 32)) ∧
    (∃ c, SM4_AESNI.encrypt_hex input key_hex = Except.ok c ∧
      c.length = 32 * (input.length / 32)) ∧
    (∃ c, SM4_AESNI.decrypt_hex input key_hex = Except.ok c ∧
      c.length = 32 * (input.length / 32)) ∧
    (∃ c, SM4_GFNI.encrypt_hex input key_hex = Except.ok c ∧
      c.length = 32 * (input.length / 32)) ∧
    (∃ c, SM4_GFNI.decrypt_hex input key_hex = Except.ok c ∧
      c.length = 32 * (input.length / 32)) :=
  ⟨⟨_, encrypt_hex_ref_eq input key_hex K hk hK hp hph,
      mapBlock_flatMap_length _ _ _ (fun B => encrypt_block_length B _)⟩,
    ⟨_, decrypt_hex_ref_eq input key_hex K hk hK hp hph,
      mapBlock_flatMap_length _ _ _ (fun B => decrypt_block_length B _)⟩,
    ⟨_, encrypt_hex_aesni_eq input key_hex K hk hK hp hph,
      mapBlock_flatMap_length _ _ _ (fun B => encrypt_block_length B _)⟩,
    ⟨_, decrypt_hex_aesni_eq input key_hex K hk hK hp hph,
      mapBlock_flatMap_length _ _ _ (fun B => decrypt_block_length B _)⟩,
    ⟨_, encrypt_hex_gfni_eq input key_hex K hk hK hp hph,
      mapBlock_flatMap_length (gfni_block (SM4_GFNI.expand_key K) true) _ _
        (fun B => gfni_block_length _ _ B)⟩,
    ⟨_, decrypt_hex_gfni_eq input key_hex K hk hK hp hph,
      mapBlock_flatMap_length _ _ _ (fun B => gfni_block_length _ _ B)⟩⟩

/-- A register of 16 bytes is its four lanes. -/
theorem setr_lanes (x : M128) (h : x.length = 16) (hb : ∀ b ∈ x, b < 256) :
    _mm_setr_epi32 (lane32 x 0) (lane32 x 1) (lane32 x 2) (lane32 x 3) = x ∧
      lane32 x 0 < 2 ^ 32 ∧ lane32 x 1 < 2 ^ 32 ∧ lane32 x 2 < 2 ^ 32 ∧ lane32 x 3 < 2 ^ 32 := by
  obtain ⟨a0, a1, a2, a3, a4, a5, a6, a7, a8, a9, a10, a11, a12, a13, a14, a15, rfl⟩ :=
    list16_exists x h
  simp only [List.mem_cons, List.mem_singleton, List.not_mem_nil, or_false, forall_eq_or_imp,
    forall_eq] at hb
  obtain ⟨h0, h1, h2, h3, h4, h5, h6, h7, h8, h9, h10, h11, h12, h13, h14, h15⟩ := hb
  simp only [_mm_setr_epi32, lane32, bytes32, Nat.reduceMul, Nat.reduceAdd, List.getD_cons_zero,
    List.getD_cons_succ, List.cons_append, List.nil_append, List.cons.injEq, and_true,
    Nat.reducePow]
  refine ⟨⟨?_, ?_, ?_, ?_, ?_, ?_, ?_, ?_, ?_, ?_, ?_, ?_, ?_, ?_, ?_, ?_⟩, ?_, ?_, ?_, ?_⟩ <;>
    omega

/-- The three statements after the S-box leave `L` of each lane in that lane. -/
theorem aesni_linear_lanes (x : M128) (h : x.length = 16) (hb : ∀ b ∈ x, b < 256) :
    aesni_linear x =
      _mm_setr_epi32 (SM4.L (lane32 x 0)) (SM4.L (lane32 x 1)) (SM4.L (lane32 x 2))
        (SM4.L (lane32 x 3)) := by
  obtain ⟨e, l0, l1, l2, l3⟩ := setr_lanes x h hb
  rw [← aesni_linear_setr _ _ _ _ l0 l1 l2 l3, e]

/-! ## Main results on the hexadecimal interface, continued -/

/-- C21. No truncation or padding: for every key of 32 hexadecimal characters and every
hexadecimal input of `N` blocks of 32 characters, `encrypt_hex` and `decrypt_hex` return a string
of exactly `32 * N` characters, in each of the three classes `SM4`, `SM4_AESNI` and
`SM4_GFNI`. -/
theorem SM4_hex_output_length (input key_hex : List Char) (hk : key_hex.length = 32)
    (hkh : ∀ c ∈ key_hex, (hexval c).isSome) (hp : input.length % 32 = 0)
    (hph : ∀ c ∈ input, (hexval c).isSome) :
    (∃ c, SM4.encrypt_hex input key_hex = Except.ok c ∧ c.length = 32 * (input.length / 32)) ∧
    (∃ c, SM4.decrypt_hex input key_hex = Except.ok c ∧ c.length = 32 * (input.length / 32)) ∧
    (∃ c, SM4_AESNI.encrypt_hex input key_hex = Except.ok c ∧
      c.length = 32 * (input.length / 32)) ∧
    (∃ c, SM4_AESNI.decrypt_hex input key_hex = Except.ok c ∧
      c.length = 32 * (input.length / 32)) ∧
    (∃ c, SM4_GFNI.encrypt_hex input key_hex = Except.ok c ∧
      c.length = 32 * (input.length / 32)) ∧
    (∃ c, SM4_GFNI.decrypt_hex input key_hex = Except.ok c ∧
      c.length = 32 * (input.length / 32)) := by
  obtain ⟨K, hK⟩ := hex_to_bytes_ok key_hex hkh (by rw [hk])
  exact hex_output_length input key_hex K hk hK hp hph

theorem SM4_hex_output_length_witness :
    sampleKey.length = 32 ∧ (∀ c ∈ sampleKey, (hexval c).isSome) ∧
    sampleFiveBlocks.length % 32 = 0 ∧ (∀ c ∈ sampleFiveBlocks, (hexval c).isSome) ∧
    sampleFiveBlocks.length / 32 = 5 ∧
    ((∃ c, SM4.encrypt_hex sampleFiveBlocks sampleKey = Except.ok c ∧
      c.length = 32 * (sampleFiveBlocks.length / 32)) ∧
    (∃ c, SM4.decrypt_hex sampleFiveBlocks sampleKey = Except.ok c ∧
      c.length = 32 * (sampleFiveBlocks.length / 32)) ∧
    (∃ c, SM4_AESNI.encrypt_hex sampleFiveBlocks sampleKey = Except.ok c ∧
      c.length = 32 * (sampleFiveBlocks.length / 32)) ∧
    (∃ c, SM4_AESNI.decrypt_hex sampleFiveBlocks sampleKey = Except.ok c ∧
      c.length = 32 * (sampleFiveBlocks.length / 32)) ∧
    (∃ c, SM4_GFNI.encrypt_hex sampleFiveBlocks sampleKey = Except.ok c ∧
      c.length = 32 * (sampleFiveBlocks.length / 32)) ∧
    (∃ c, SM4_GFNI.decrypt_hex sampleFiveBlocks sampleKey = Except.ok c ∧
      c.length = 32 * (sampleFiveBlocks.length / 32))) :=
  ⟨by decide, by decide, by decide, by decide, by decide,
    SM4_hex_output_length sampleFiveBlocks sampleKey (by decide) (by decide) (by decide)
      (by decide)⟩

/-- C22. Hex coding is lossless: for every list `b` of bytes, `hex_to_bytes (bytes_to_hex b)`
returns `b`, and `bytes_to_hex b` has two characters per byte, all of them lowercase
hexadecimal digits; and for every string `s` of lowercase hexadecimal digits of even length,
`hex_to_bytes s` returns bytes that `bytes_to_hex` prints as `s`. -/
theorem SM4_hex_coding_lossless (b : List Nat) (s : List Char) (hb : ∀ x ∈ b, x < 256)
    (hs : ∀ c ∈ s, isLowerHex c = true) (he : s.length % 2 = 0) :
    (SM4.hex_to_bytes (SM4.bytes_to_hex b) = Except.ok b ∧
      (SM4.bytes_to_hex b).length = 2 * b.length ∧
      ∀ c ∈ SM4.bytes_to_hex b, isLowerHex c = true) ∧
    ∃ bs, SM4.hex_to_bytes s = Except.ok bs ∧ SM4.bytes_to_hex bs = s := by
  refine ⟨⟨hex_to_bytes_bytes_to_hex b hb, bytes_to_hex_length b, bytes_to_hex_lower b hb⟩, ?_⟩
  obtain ⟨bs, h⟩ := hex_to_bytes_ok s (fun c hc => isLowerHex_hexval c (hs c hc)) he
  exact ⟨bs, h, bytes_to_hex_hex_to_bytes s bs hs he h⟩

theorem SM4_hex_coding_lossless_witness :
    (∀ x ∈ sampleKeyBytes, x < 256) ∧ (∀ c ∈ sampleKey, isLowerHex c = true) ∧
    sampleKey.length % 2 = 0 ∧
    ((SM4.hex_to_bytes (SM4.bytes_to_hex sampleKeyBytes) = Except.ok sampleKeyBytes ∧
      (SM4.bytes_to_hex sampleKeyBytes).length = 2 * sampleKeyBytes.length ∧
      ∀ c ∈ SM4.bytes_to_hex sampleKeyBytes, isLowerHex c = true) ∧
    ∃ bs, SM4.hex_to_bytes sampleKey = Except.ok bs ∧ SM4.bytes_to_hex bs = sampleKey) :=
  ⟨by decide, by decide, by decide,
    SM4_hex_coding_lossless sampleKeyBytes sampleKey (by decide) (by decide) (by decide)⟩

/-- C23 (the code at the failing inputs). `hex_to_bytes` returns bytes for the string `abc` of
odd length and for the strings `0g`, ` 1` and `-1`, which hold a character that is no
hexadecimal digit; it throws only when no digit starts a pair, as for `zz`.  So
`encrypt_block_hex` on the 32 characters `0g0g...0g` returns a ciphertext, the one of the
plaintext `00...00`. -/
theorem SM4_hex_to_bytes_accepts_malformed :
    SM4.hex_to_bytes "abc".toList = Except.ok [0xab, 0x0c] ∧
    SM4.hex_to_bytes "0g".toList = Except.ok [0] ∧
    SM4.hex_to_bytes " 1".toList = Except.ok [1] ∧
    SM4.hex_to_bytes "-1".toList = Except.ok [255] ∧
    SM4.hex_to_bytes "zz".toList = Except.error Failure.invalid_argument ∧
    SM4.encrypt_block_hex "0g0g0g0g0g0g0g0g0g0g0g0g0g0g0g0g".toList sampleKey =
      Except.ok "2677f46b09c122cc975533105bd4a22a".toList ∧
    SM4.encrypt_block_hex "00000000000000000000000000000000".toList sampleKey =
      Except.ok "2677f46b09c122cc975533105bd4a22a".toList := by
  decide!

/-- C24 (the code at the failing input). With the registers that a processor without GFNI gives
to `__get_cpuid_count(7, 0, ...)`, or with the call failing, `is_supported` is false; the four
entry points of `SM4_GFNI` do not call it: they return the output of `crypt_4blocks` all the
same. -/
theorem SM4_GFNI_entry_points_ignore_is_supported :
    SM4_GFNI.is_supported none = false ∧
    SM4_GFNI.is_supported (some (0, 0, 0, 0)) = false ∧
    SM4_GFNI.is_supported (some (0, 1 <<< 5, 0, 0)) = false ∧
    SM4_GFNI.is_supported (some (0, 1 <<< 5, 1 <<< 8, 0)) = true ∧
    SM4_GFNI.encrypt_block_hex sampleKey sampleKey =
      Except.ok (SM4.bytes_to_hex ((SM4_GFNI.crypt_4blocks (SM4_GFNI.expand_key sampleKeyBytes)
        (sampleKeyBytes ++ List.replicate 48 0) true).take 16)) ∧
    SM4_GFNI.encrypt_block_hex sampleKey sampleKey =
      Except.ok "92511e51f3527a70f2aa08c8f8ad18a2".toList ∧
    SM4_GFNI.decrypt_block_hex sampleKey sampleKey =
      Except.ok "98179e188ae8eee29e51b477838cbb19".toList ∧
    SM4_GFNI.encrypt_hex sampleKey sampleKey =
      Except.ok "92511e51f3527a70f2aa08c8f8ad18a2".toList ∧
    SM4_GFNI.decrypt_hex sampleKey sampleKey =
      Except.ok "98179e188ae8eee29e51b477838cbb19".toList := by
  decide!

/-! ## Main results on the SM3 variants and the AES-NI linear step -/

/-- C26. Memoized word expansion equals the recurrence: for every 16-word block `W_base`, every
sequence `W` with `W[j] = W_base[j]` for `j < 16` and `W[j] = P1(W[j-16] XOR W[j-9] XOR
rotl(W[j-3],15)) XOR rotl(W[j-13],7) XOR W[j-6]` for `16 <= j < 68`, and every cache whose
entries 16 to 67 are each the sentinel `0xFFFFFFFF` or the word `W[j]`, `computeW(j)` returns
`W[j]` for every `j < 68` (with any bound on the depth above `j`, so it terminates) and leaves a
cache of the same kind; no assumption keeps `W[j]` different from the sentinel. -/
theorem SM3_OnTheFly_computeW_spec (W_base W_cache : List Nat) (W : Nat → Nat) (fuel j : Nat)
    (hbase : ∀ i, i < 16 → W i = W_base.getD i 0)
    (hrec : ∀ i, i < 68 → 16 ≤ i →
      W i = SM3_OnTheFly.P1 (W (i - 16) ^^^ W (i - 9) ^^^ SM3_OnTheFly.rotl (W (i - 3)) 15) ^^^
        SM3_OnTheFly.rotl (W (i - 13)) 7 ^^^ W (i - 6))
    (hcache : ∀ k, k < 68 → 16 ≤ k → W_cache.getD k 0 = 0xFFFFFFFF ∨ W_cache.getD k 0 = W k)
    (hj : j < 68) (hf : j < fuel) :
    ∃ c, SM3_OnTheFly.computeW W_base fuel j W_cache = some (W j, c) ∧
      ∀ k, k < 68 → 16 ≤ k → c.getD k 0 = 0xFFFFFFFF ∨ c.getD k 0 = W k :=
  computeW_spec W_base W hbase hrec fuel j W_cache hf hj hcache

theorem SM3_OnTheFly_computeW_spec_witness :
    (∀ i, i < 16 → (sm3_expand_base sampleSentinelBase).getD i 0 =
      sampleSentinelBase.getD i 0) ∧
    (∀ i, i < 68 → 16 ≤ i →
      (sm3_expand_base sampleSentinelBase).getD i 0 =
        SM3_OnTheFly.P1 ((sm3_expand_base sampleSentinelBase).getD (i - 16) 0 ^^^
          (sm3_expand_base sampleSentinelBase).getD (i - 9) 0 ^^^
          SM3_OnTheFly.rotl ((sm3_expand_base sampleSentinelBase).getD (i - 3) 0) 15) ^^^
        SM3_OnTheFly.rotl ((sm3_expand_base sampleSentinelBase).getD (i - 13) 0) 7 ^^^
        (sm3_expand_base sampleSentinelBase).getD (i - 6) 0) ∧
    (∀ k, k < 68 → 16 ≤ k → (List.replicate 68 0xFFFFFFFF).getD k 0 = 0xFFFFFFFF ∨
      (List.replicate 68 0xFFFFFFFF).getD k 0 = (sm3_expand_base sampleSentinelBase).getD k 0) ∧
    (sm3_expand_base sampleSentinelBase).getD 16 0 = 0xFFFFFFFF ∧
    ∃ c, SM3_OnTheFly.computeW sampleSentinelBase 68 16 (List.replicate 68 0xFFFFFFFF) =
        some ((sm3_expand_base sampleSentinelBase).getD 16 0, c) ∧
      ∀ k, k < 68 → 16 ≤ k → c.getD k 0 = 0xFFFFFFFF ∨
        c.getD k 0 = (sm3_expand_base sampleSentinelBase).getD k 0 :=
  ⟨by decide!, by decide!, by decide!, by decide!,
    SM3_OnTheFly_computeW_spec sampleSentinelBase (List.replicate 68 0xFFFFFFFF)
      (fun i => (sm3_expand_base sampleSentinelBase).getD i 0) 68 16 (by decide!) (by decide!)
      (by decide!) (by decide) (by decide)⟩

/-- C27. Register-allocated SM3 has no semantic effect: for every chaining value `H` and every
block, `SM3_RegAlloc.processBlock` (68 assignments to the scalar variables, two switches on `j`)
returns the `H` that `SM3_Unrolled.processBlock` returns. -/
theorem SM3_RegAlloc_processBlock_eq (H block : List Nat) :
    SM3_RegAlloc.processBlock H block = SM3_Unrolled.processBlock H block := by
  rw [regalloc_processBlock_eq, unrolled_processBlock_eq]

/-- C28. Unrolled SM3 equals the looped SM3: for every chaining value `H` of 32-bit words and
every block of bytes, the 64 macro-expanded rounds of `SM3_Flatten.processBlock` and of
`SM3_Unrolled.processBlock` return the `H` that the loop over `j = 0 .. 63` of
`SM3.processBlock` returns, whose array `W_prime` comes from `xor_arrays_simd`. -/
theorem SM3_unrolled_eq_looped (H block : List Nat) (hH : ∀ h ∈ H, h < 2 ^ 32)
    (hb : ∀ b ∈ block, b < 256) :
    SM3_Flatten.processBlock H block = SM3.processBlock H block ∧
      SM3_Unrolled.processBlock H block = SM3.processBlock H block := by
  rw [flatten_processBlock_eq, unrolled_processBlock_eq, simd_processBlock_eq H block hH hb]
  exact ⟨rfl, rfl⟩

theorem SM3_unrolled_eq_looped_witness :
    (∀ h ∈ SM3_Unrolled.IV, h < 2 ^ 32) ∧ (∀ b ∈ sampleSM3Block, b < 256) ∧
    sampleSM3Block.length = 64 ∧
    (SM3_Flatten.processBlock SM3_Unrolled.IV sampleSM3Block =
        SM3.processBlock SM3_Unrolled.IV sampleSM3Block ∧
      SM3_Unrolled.processBlock SM3_Unrolled.IV sampleSM3Block =
        SM3.processBlock SM3_Unrolled.IV sampleSM3Block) :=
  ⟨by decide, by decide, by decide,
    SM3_unrolled_eq_looped SM3_Unrolled.IV sampleSM3Block (by decide) (by decide)⟩

/-- C29. On-the-fly SM3 has no semantic effect: for every chaining value `H` and every block,
`SM3_OnTheFly.processBlock` (words fetched through `computeW` with the cache, the branch at
`j >= 16` included) returns a value, the `H` that `SM3_Unrolled.processBlock` returns. -/
theorem SM3_OnTheFly_processBlock_eq (H block : List Nat) :
    SM3_OnTheFly.processBlock H block = some (SM3_Unrolled.processBlock H block) := by
  rw [onthefly_processBlock_eq, unrolled_processBlock_eq]

/-- C30. AES-NI in-kernel linear step is `L`: for every vector `x` of 16 bytes, the three
statements `y = x ^ shuffle(x, r08) ^ shuffle(x, r16)`, `y = (y << 2) ^ (y >> 30)`,
`x = x ^ y ^ shuffle(x, r24)` leave in each 32-bit lane `L(v) = v XOR rotl(v,2) XOR rotl(v,10)
XOR rotl(v,18) XOR rotl(v,24)` of the value `v` that the lane had; they are the statements
between the S-box and the exclusive-or with `t0` in the round of `encrypt_4blocks_aesni`. -/
theorem SM4_AESNI_linear_step_is_L (x : M128) (h : x.length = 16) (hb : ∀ b ∈ x, b < 256) :
    (∀ j, j < 4 → lane32 (aesni_linear x) j = spec_L (lane32 x j)) ∧
    ∀ (k : Nat) (t : M128 × M128 × M128 × M128),
      SM4_AESNI.encrypt_4blocks_round k t =
        (t.2.1, t.2.2.1, t.2.2.2,
          _mm_xor_si128 (aesni_linear (SM4_AESNI.sm4_sbox_4x_aesni
            (_mm_xor_si128 (_mm_xor_si128 (_mm_xor_si128 t.2.1 t.2.2.1) t.2.2.2)
              (_mm_setr_epi32 k k k k)))) t.1) := by
  obtain ⟨_, l0, l1, l2, l3⟩ := setr_lanes x h hb
  obtain ⟨e0, e1, e2, e3⟩ := lane32_setr _ _ _ _ (L_lt _ l0) (L_lt _ l1) (L_lt _ l2) (L_lt _ l3)
  refine ⟨?_, encrypt_4blocks_round_eq⟩
  intro j hj
  rw [aesni_linear_lanes x h hb]
  interval_cases j
  · rw [e0, spec_L_eq _ l0]
  · rw [e1, spec_L_eq _ l1]
  · rw [e2, spec_L_eq _ l2]
  · rw [e3, spec_L_eq _ l3]

theorem SM4_AESNI_linear_step_is_L_witness :
    (List.range 16).length = 16 ∧ (∀ b ∈ List.range 16, b < 256) ∧
    ((∀ j, j < 4 → lane32 (aesni_linear (List.range 16)) j = spec_L (lane32 (List.range 16) j)) ∧
    ∀ (k : Nat) (t : M128 × M128 × M128 × M128),
      SM4_AESNI.encrypt_4blocks_round k t =
        (t.2.1, t.2.2.1, t.2.2.2,
          _mm_xor_si128 (aesni_linear (SM4_AESNI.sm4_sbox_4x_aesni
            (_mm_xor_si128 (_mm_xor_si128 (_mm_xor_si128 t.2.1 t.2.2.1) t.2.2.2)
              (_mm_setr_epi32 k k k k)))) t.1)) :=
  ⟨by decide, by decide, SM4_AESNI_linear_step_is_L (List.range 16) (by decide) (by decide)⟩

/-- No value occurs twice in the S-box table. -/
theorem sbox_nodup : SM4.SBOX.Nodup := by decide!

theorem sbox_length : SM4.SBOX.length = 256 := by decide

/-- Every byte occurs in the S-box table. -/
theorem sbox_mem : ∀ y, y < 256 → y ∈ SM4.SBOX := by decide!

theorem sbox_injective (x y : Nat) (hx : x < 256) (hy : y < 256)
    (h : SM4.SBOX.getD x 0 = SM4.SBOX.getD y 0) : x = y := by
  have hx2 : x < SM4.SBOX.length := by rw [sbox_length]; exact hx
  have hy2 : y < SM4.SBOX.length := by rw [sbox_length]; exact hy
  rw [List.getD_eq_getElem _ _ hx2, List.getD_eq_getElem _ _ hy2] at h
  exact (List.Nodup.getElem_inj_iff sbox_nodup).1 h

theorem sbox_surjective (y : Nat) (hy : y < 256) : ∃ x, x < 256 ∧ SM4.SBOX.getD x 0 = y := by
  obtain ⟨x, hx, hxy⟩ := List.getElem_of_mem (sbox_mem y hy)
  refine ⟨x, by rw [← sbox_length]; exact hx, ?_⟩
  rw [List.getD_eq_getElem _ _ hx]
  exact hxy

theorem tau_injOn (A B : Nat) (hA : A < 2 ^ 32) (hB : B < 2 ^ 32) (h : SM4.tau A = SM4.tau B) :
    A = B := by
  rw [tau_eq, tau_eq] at h
  have a0 := SBOX_getD_lt (A / 16777216 % 256)
  have a1 := SBOX_getD_lt (A / 65536 % 256)
  have a2 := SBOX_getD_lt (A / 256 % 256)
  have a3 := SBOX_getD_lt (A % 256)
  have b0 := SBOX_getD_lt (B / 16777216 % 256)
  have b1 := SBOX_getD_lt (B / 65536 % 256)
  have b2 := SBOX_getD_lt (B / 256 % 256)
  have b3 := SBOX_getD_lt (B % 256)
  have e0 := sbox_injective (A / 16777216 % 256) (B / 16777216 % 256) (by omega) (by omega)
    (by omega)
  have e1 := sbox_injective (A / 65536 % 256) (B / 65536 % 256) (by omega) (by omega) (by omega)
  have e2 := sbox_injective (A / 256 % 256) (B / 256 % 256) (by omega) (by omega) (by omega)
  have e3 := sbox_injective (A % 256) (B % 256) (by omega) (by omega) (by omega)
  omega

theorem tau_surjOn (w : Nat) (hw : w < 2 ^ 32) : ∃ A, A < 2 ^ 32 ∧ SM4.tau A = w := by
  obtain ⟨x0, hx0, e0⟩ := sbox_surjective (w / 16777216 % 256) (by omega)
  obtain ⟨x1, hx1, e1⟩ := sbox_surjective (w / 65536 % 256) (by omega)
  obtain ⟨x2, hx2, e2⟩ := sbox_surjective (w / 256 % 256) (by omega)
  obtain ⟨x3, hx3, e3⟩ := sbox_surjective (w % 256) (by omega)
  refine ⟨16777216 * x0 + 65536 * x1 + 256 * x2 + x3, by omega, ?_⟩
  rw [tau_eq]
  have r0 : (16777216 * x0 + 65536 * x1 + 256 * x2 + x3) / 16777216 % 256 = x0 := by omega
  have r1 : (16777216 * x0 + 65536 * x1 + 256 * x2 + x3) / 65536 % 256 = x1 := by omega
  have r2 : (16777216 * x0 + 65536 * x1 + 256 * x2 + x3) / 256 % 256 = x2 := by omega
  have r3 : (16777216 * x0 + 65536 * x1 + 256 * x2 + x3) % 256 = x3 := by omega
  rw [r0, r1, r2, r3, e0, e1, e2, e3]
  omega

/-- The transpose of four registers given by their lanes. -/
theorem transpose_4x4_lanes (x0 x1 x2 x3 : M128) (h0 : x0.length = 16 ∧ ∀ b ∈ x0, b < 256)
    (h1 : x1.length = 16 ∧ ∀ b ∈ x1, b < 256) (h2 : x2.length = 16 ∧ ∀ b ∈ x2, b < 256)
    (h3 : x3.length = 16 ∧ ∀ b ∈ x3, b < 256) :
    SM4_GFNI.transpose_4x4 (x0, x1, x2, x3) =
      (_mm_setr_epi32 (lane32 x0 0) (lane32 x1 0) (lane32 x2 0) (lane32 x3 0),
        _mm_setr_epi32 (lane32 x0 1) (lane32 x1 1) (lane32 x2 1) (lane32 x3 1),
        _mm_setr_epi32 (lane32 x0 2) (lane32 x1 2) (lane32 x2 2) (lane32 x3 2),
        _mm_setr_epi32 (lane32 x0 3) (lane32 x1 3) (lane32 x2 3) (lane32 x3 3)) := by
  obtain ⟨e0, a0, a1, a2, a3⟩ := setr_lanes x0 h0.1 h0.2
  obtain ⟨e1, b0, b1, b2, b3⟩ := setr_lanes x1 h1.1 h1.2
  obtain ⟨e2, c0, c1, c2, c3⟩ := setr_lanes x2 h2.1 h2.2
  obtain ⟨e3, d0, d1, d2, d3⟩ := setr_lanes x3 h3.1 h3.2
  have key := transpose_4x4_setr _ _ _ _ _ _ _ _ _ _ _ _ _ _ _ _ a0 a1 a2 a3 b0 b1 b2 b3 c0 c1 c2
    c3 d0 d1 d2 d3
  rw [e0, e1, e2, e3] at key
  exact key

/-- The zero-padding loop appends the number of zeros that brings the length to 56 modulo 64. -/
theorem padMessage_loop_spec (fuel : Nat) : ∀ buffer : List Nat,
    (120 - buffer.length % 64) % 64 ≤ fuel →
    SM3_Unrolled.padMessage_loop fuel buffer =
      buffer ++ List.replicate ((120 - buffer.length % 64) % 64) 0 := by
  induction fuel with
  | zero =>
    intro buffer h
    have hk : (120 - buffer.length % 64) % 64 = 0 := by omega
    rw [hk]
    simp only [SM3_Unrolled.padMessage_loop, List.replicate_zero, List.append_nil]
  | succ fuel ih =>
    intro buffer h
    unfold SM3_Unrolled.padMessage_loop
    by_cases hc : buffer.length % 64 ≠ 56
    · rw [if_pos hc]
      have hl : (buffer ++ [0x00]).length = buffer.length + 1 := by simp
      have hk : (120 - buffer.length % 64) % 64 =
          (120 - (buffer.length + 1) % 64) % 64 + 1 := by omega
      rw [ih (buffer ++ [0x00]) (by rw [hl]; omega), hl, hk, List.replicate_succ,
        List.append_assoc]
      rfl
    · rw [if_neg hc]
      have hk : (120 - buffer.length % 64) % 64 = 0 := by omega
      rw [hk, List.replicate_zero, List.append_nil]

/-- The buffer after `padMessage`, written out. -/
theorem padMessage_buffer (st : SM3_Unrolled.State) :
    (SM3_Unrolled.padMessage st).buffer =
      st.buffer ++ [0x80] ++ List.replicate ((120 - (st.buffer.length + 1) % 64) % 64) 0 ++
        spec_be64 ((st.total_length * 8) % 2 ^ 64) := by
  have hl : (st.buffer ++ [0x80]).length = st.buffer.length + 1 := by simp
  have hloop := padMessage_loop_spec 64 (st.buffer ++ [0x80]) (by omega)
  rw [hl] at hloop
  simp only [SM3_Unrolled.padMessage, hloop, nat_fold_succ, nat_fold_zero, and_255,
    Nat.shiftRight_eq_div_pow, spec_be64, Nat.reduceSub, Nat.reduceMul, Nat.reduceAdd,
    List.append_assoc, List.singleton_append, List.cons_append, List.nil_append, pow_zero,
    Nat.div_one]

theorem spec_be64_length (x : Nat) : (spec_be64 x).length = 8 := rfl

/-- The parts of a list made of a prefix, the byte `0x80`, zeros, and eight last bytes. -/
theorem padded_shape (B T : List Nat) (k : Nat) (hT : T.length = 8) :
    (B ++ [0x80] ++ List.replicate k 0 ++ T).length = B.length + 1 + k + 8 ∧
    (B ++ [0x80] ++ List.replicate k 0 ++ T).take B.length = B ∧
    (B ++ [0x80] ++ List.replicate k 0 ++ T).getD B.length 0 = 0x80 ∧
    (∀ i, B.length < i → i < (B ++ [0x80] ++ List.replicate k 0 ++ T).length - 8 →
      (B ++ [0x80] ++ List.replicate k 0 ++ T).getD i 0 = 0) ∧
    (B ++ [0x80] ++ List.replicate k 0 ++ T).drop
      ((B ++ [0x80] ++ List.replicate k 0 ++ T).length - 8) = T := by
  have hlen : (B ++ [0x80] ++ List.replicate k 0 ++ T).length = B.length + 1 + k + 8 := by
    simp only [List.length_append, List.length_replicate, List.length_singleton, hT]
  refine ⟨hlen, ?_, ?_, ?_, ?_⟩
  · rw [List.append_assoc, List.append_assoc]
    exact List.take_left' rfl
  · rw [List.append_assoc, List.append_assoc, List.getD_append_right _ _ _ _ (le_refl _),
      Nat.sub_self]
    rfl
  · intro i h1 h2
    rw [hlen] at h2
    have hl2 : (B ++ [0x80]).length = B.length + 1 := by simp
    rw [List.append_assoc (B ++ [0x80]), List.getD_append_right _ _ _ _ (by rw [hl2]; omega),
      List.getD_append _ _ _ _ (by rw [hl2, List.length_replicate]; omega),
      List.getD_eq_getElem _ _ (by rw [hl2, List.length_replicate]; omega),
      List.getElem_replicate]
  · rw [hlen]
    have hl3 : (B ++ [0x80] ++ List.replicate k 0).length = B.length + 1 + k := by
      simp only [List.length_append, List.length_replicate, List.length_singleton]
    exact List.drop_left' (by rw [hl3]; omega)

/-- The copying loop of `update` appends the data to the buffer. -/
theorem update_push_loop (data : List Nat) (n : Nat) (hn : n ≤ data.length) (buffer : List Nat) :
    Nat.fold (fun i buffer => buffer ++ [data.getD i 0]) n buffer = buffer ++ data.take n := by
  induction n with
  | zero => simp only [nat_fold_zero, List.take_zero, List.append_nil]
  | succ n ih =>
    rw [nat_fold_succ, ih (by omega), List.take_succ, List.append_assoc,
      List.getD_eq_getElem _ _ (by omega), List.getElem?_eq_getElem (by omega)]
    rfl

/-- The word expansion reads only the first 64 bytes of its argument. -/
theorem sm3_words_congr (a b : List Nat) (h : ∀ k, k < 64 → a.getD k 0 = b.getD k 0) :
    sm3_words a = sm3_words b := by
  have e : Nat.fold (fun i W => W.set i (be32 a (i * 4) (i * 4 + 1) (i * 4 + 2) (i * 4 + 3))) 16
      (List.replicate 68 0) =
      Nat.fold (fun i W => W.set i (be32 b (i * 4) (i * 4 + 1) (i * 4 + 2) (i * 4 + 3))) 16
        (List.replicate 68 0) := by
    apply nat_fold_congr
    intro i hi
    funext W
    simp only [be32]
    rw [h (i * 4) (by omega), h (i * 4 + 1) (by omega), h (i * 4 + 2) (by omega),
      h (i * 4 + 3) (by omega)]
  unfold sm3_words
  rw [e]

/-- The function `processBlock` reads only the first 64 bytes at the address it is given. -/
theorem processBlock_congr (H a b : List Nat) (h : ∀ k, k < 64 → a.getD k 0 = b.getD k 0) :
    SM3_Unrolled.processBlock H a = SM3_Unrolled.processBlock H b := by
  rw [unrolled_processBlock_eq, unrolled_processBlock_eq]
  unfold sm3_compress
  rw [sm3_words_congr a b h]

theorem processBlock_append (H a b : List Nat) (h : 64 ≤ a.length) :
    SM3_Unrolled.processBlock H (a ++ b) = SM3_Unrolled.processBlock H a :=
  processBlock_congr H _ _ (fun k hk => List.getD_append _ _ _ _ (by omega))

/-- With enough iterations allowed, the block loop of `update` does not depend on the bound. -/
theorem update_loop_fuel (f1 : Nat) : ∀ (f2 : Nat) (H buffer : List Nat),
    buffer.length / 64 ≤ f1 → buffer.length / 64 ≤ f2 →
    SM3_Unrolled.update_loop f1 H buffer = SM3_Unrolled.update_loop f2 H buffer := by
  induction f1 with
  | zero =>
    intro f2 H buffer h1 _
    have hlt : ¬ 64 ≤ buffer.length := by omega
    cases f2 with
    | zero => rfl
    | succ f2 => simp only [SM3_Unrolled.update_loop, if_neg hlt]
  | succ f1 ih =>
    intro f2 H buffer h1 h2
    by_cases hc : 64 ≤ buffer.length
    · cases f2 with
      | zero => omega
      | succ f2 =>
        simp only [SM3_Unrolled.update_loop, if_pos hc]
        have hd : (buffer.drop 64).length = buffer.length - 64 := List.length_drop _ _
        exact ih f2 _ _ (by rw [hd]; omega) (by rw [hd]; omega)
    · cases f2 with
      | zero => simp only [SM3_Unrolled.update_loop, if_neg hc]
      | succ f2 => simp only [SM3_Unrolled.update_loop, if_neg hc]

/-- Bytes that arrive after the block loop has run give the same result as bytes that were
there from the start. -/
theorem update_loop_append (f1 : Nat) : ∀ (f2 f3 : Nat) (H buffer b : List Nat),
    buffer.length / 64 ≤ f1 →
    ((SM3_Unrolled.update_loop f1 H buffer).2 ++ b).length / 64 ≤ f2 →
    (buffer ++ b).length / 64 ≤ f3 →
    SM3_Unrolled.update_loop f3 H (buffer ++ b) =
      SM3_Unrolled.update_loop f2 (SM3_Unrolled.update_loop f1 H buffer).1
        ((SM3_Unrolled.update_loop f1 H buffer).2 ++ b) := by
  induction f1 with
  | zero =>
    intro f2 f3 H buffer b _ h2 h3
    simp only [SM3_Unrolled.update_loop] at h2 ⊢
    exact update_loop_fuel f3 f2 H _ h3 h2
  | succ f1 ih =>
    intro f2 f3 H buffer b h1 h2 h3
    by_cases hc : 64 ≤ buffer.length
    · simp only [SM3_Unrolled.update_loop, if_pos hc] at h2 ⊢
      have hab : (buffer ++ b).length = buffer.length + b.length := List.length_append _ _
      have hd : (buffer.drop 64).length = buffer.length - 64 := List.length_drop _ _
      cases f3 with
      | zero => omega
      | succ f3 =>
        have hc2 : 64 ≤ (buffer ++ b).length := by omega
        simp only [SM3_Unrolled.update_loop, if_pos hc2]
        rw [processBlock_append H buffer b hc, List.drop_append_of_le_length hc]
        have hdb : (buffer.drop 64 ++ b).length = buffer.length - 64 + b.length := by
          rw [List.length_append, hd]
        exact ih f2 f3 _ _ b (by rw [hd]; omega) h2 (by rw [hdb]; omega)
    · simp only [SM3_Unrolled.update_loop, if_neg hc] at h2 ⊢
      exact update_loop_fuel f3 f2 H _ h3 h2

/-- What the block loop of `update` leaves in the buffer. -/
theorem update_loop_buffer (f : Nat) : ∀ (H buffer : List Nat), buffer.length / 64 ≤ f →
    (SM3_Unrolled.update_loop f H buffer).2 = buffer.drop (64 * (buffer.length / 64)) := by
  induction f with
  | zero =>
    intro H buffer h
    have h0 : buffer.length / 64 = 0 := by omega
    simp only [SM3_Unrolled.update_loop, h0, Nat.mul_zero, List.drop_zero]
  | succ f ih =>
    intro H buffer h
    by_cases hc : 64 ≤ buffer.length
    · simp only [SM3_Unrolled.update_loop, if_pos hc]
      have hd : (buffer.drop 64).length = buffer.length - 64 := List.length_drop _ _
      rw [ih _ _ (by rw [hd]; omega), hd, List.drop_drop]
      congr 1
      omega
    · have h0 : buffer.length / 64 = 0 := by omega
      simp only [SM3_Unrolled.update_loop, if_neg hc, h0, Nat.mul_zero, List.drop_zero]

/-- The function `update`, with its two loops resolved. -/
theorem update_eq (st : SM3_Unrolled.State) (data : List Nat) :
    SM3_Unrolled.update st data =
      { H := (SM3_Unrolled.update_loop (st.buffer ++ data).length st.H (st.buffer ++ data)).1
        buffer := (SM3_Unrolled.update_loop (st.buffer ++ data).length st.H
          (st.buffer ++ data)).2
        total_length := (st.total_length + data.length) % 2 ^ 64 } := by
  have hp := update_push_loop data data.length (le_refl _) st.buffer
  rw [List.take_length] at hp
  simp only [SM3_Unrolled.update, hp]

/-- Two calls of `update` in a row are one call on the concatenated data. -/
theorem update_update (st : SM3_Unrolled.State) (a b : List Nat) :
    SM3_Unrolled.update (SM3_Unrolled.update st a) b = SM3_Unrolled.update st (a ++ b) := by
  rw [update_eq (SM3_Unrolled.update st a) b, update_eq st (a ++ b), update_eq st a]
  simp only []
  rw [← List.append_assoc]
  have key := update_loop_append (st.buffer ++ a).length
    ((SM3_Unrolled.update_loop (st.buffer ++ a).length st.H (st.buffer ++ a)).2 ++ b).length
    (st.buffer ++ a ++ b).length st.H (st.buffer ++ a) b (Nat.div_le_self _ _)
    (Nat.div_le_self _ _) (Nat.div_le_self _ _)
  rw [key]
  have ht : ((st.total_length + a.length) % 2 ^ 64 + b.length) % 2 ^ 64 =
      (st.total_length + (a ++ b).length) % 2 ^ 64 := by
    rw [List.length_append]
    omega
  rw [ht]

/-- A sequence of `update` calls is one call on the concatenated data. -/
theorem updates_eq (ds : List (List Nat)) : ∀ (st : SM3_Unrolled.State) (d0 : List Nat),
    ds.foldl SM3_Unrolled.update (SM3_Unrolled.update st d0) =
      SM3_Unrolled.update st (d0 ++ concatInputs ds) := by
  induction ds with
  | nil =>
    intro st d0
    simp only [List.foldl_nil, concatInputs, List.foldr_nil, List.append_nil]
  | cons d ds ih =>
    intro st d0
    rw [List.foldl_cons, update_update, ih st (d0 ++ d), List.append_assoc]
    rfl

theorem concatInputs_length (ds : List (List Nat)) :
    (concatInputs ds).length = (ds.map List.length).sum := by
  induction ds with
  | nil => rfl
  | cons d ds ih =>
    have e : concatInputs (d :: ds) = d ++ concatInputs ds := rfl
    rw [e, List.length_append, ih, List.map_cons, List.sum_cons]

theorem reset_update_nil : SM3_Unrolled.update SM3_Unrolled.reset [] = SM3_Unrolled.reset := by
  decide

/-- The state after `reset` and one `update`. -/
theorem reset_update (data : List Nat) :
    (SM3_Unrolled.update SM3_Unrolled.reset data).buffer =
        data.drop (64 * (data.length / 64)) ∧
      (SM3_Unrolled.update SM3_Unrolled.reset data).total_length = data.length % 2 ^ 64 := by
  rw [update_eq]
  have hb : SM3_Unrolled.reset.buffer = [] := rfl
  have ht : SM3_Unrolled.reset.total_length = 0 := rfl
  simp only [hb, ht, List.nil_append, Nat.zero_add, and_true]
  exact update_loop_buffer _ _ _ (Nat.div_le_self _ _)

/-- C31: `transpose_4x4` is the matrix transpose.  For four registers of 16 bytes, word `j` of
the new `x_i` is the old word `i` of `x_j` for all `i, j` in `0 .. 3`, and a second
`transpose_4x4` gives back the four registers. -/
theorem SM4_GFNI_transpose_4x4_spec (x0 x1 x2 x3 : M128)
    (h0 : x0.length = 16 ∧ ∀ b ∈ x0, b < 256) (h1 : x1.length = 16 ∧ ∀ b ∈ x1, b < 256)
    (h2 : x2.length = 16 ∧ ∀ b ∈ x2, b < 256) (h3 : x3.length = 16 ∧ ∀ b ∈ x3, b < 256) :
    (∀ i j, i < 4 → j < 4 →
      lane32 (quadReg (SM4_GFNI.transpose_4x4 (x0, x1, x2, x3)) i) j =
        lane32 (quadReg (x0, x1, x2, x3) j) i) ∧
    SM4_GFNI.transpose_4x4 (SM4_GFNI.transpose_4x4 (x0, x1, x2, x3)) = (x0, x1, x2, x3) := by
  obtain ⟨e0, a0, a1, a2, a3⟩ := setr_lanes x0 h0.1 h0.2
  obtain ⟨e1, b0, b1, b2, b3⟩ := setr_lanes x1 h1.1 h1.2
  obtain ⟨e2, c0, c1, c2, c3⟩ := setr_lanes x2 h2.1 h2.2
  obtain ⟨e3, d0, d1, d2, d3⟩ := setr_lanes x3 h3.1 h3.2
  have key := transpose_4x4_lanes x0 x1 x2 x3 h0 h1 h2 h3
  obtain ⟨r00, r01, r02, r03⟩ := lane32_setr _ _ _ _ a0 b0 c0 d0
  obtain ⟨r10, r11, r12, r13⟩ := lane32_setr _ _ _ _ a1 b1 c1 d1
  obtain ⟨r20, r21, r22, r23⟩ := lane32_setr _ _ _ _ a2 b2 c2 d2
  obtain ⟨r30, r31, r32, r33⟩ := lane32_setr _ _ _ _ a3 b3 c3 d3
  have back := transpose_4x4_setr _ _ _ _ _ _ _ _ _ _ _ _ _ _ _ _ a0 b0 c0 d0 a1 b1 c1 d1 a2 b2
    c2 d2 a3 b3 c3 d3
  rw [e0, e1, e2, e3] at back
  refine ⟨?_, ?_⟩
  · intro i j hi hj
    rw [key]
    interval_cases i <;> interval_cases j <;>
      simp only [quadReg, r00, r01, r02, r03, r10, r11, r12, r13, r20, r21, r22, r23, r30, r31,
        r32, r33]
  · rw [key]
    exact back

/-- C31 at four registers with distinct words. -/
theorem SM4_GFNI_transpose_4x4_spec_witness :
    (∀ i j, i < 4 → j < 4 →
      lane32 (quadReg (SM4_GFNI.transpose_4x4 (sampleQuad.1, sampleQuad.2.1, sampleQuad.2.2.1,
        sampleQuad.2.2.2)) i) j =
        lane32 (quadReg (sampleQuad.1, sampleQuad.2.1, sampleQuad.2.2.1, sampleQuad.2.2.2) j)
          i) ∧
    SM4_GFNI.transpose_4x4 (SM4_GFNI.transpose_4x4 (sampleQuad.1, sampleQuad.2.1,
      sampleQuad.2.2.1, sampleQuad.2.2.2)) =
        (sampleQuad.1, sampleQuad.2.1, sampleQuad.2.2.1, sampleQuad.2.2.2) :=
  SM4_GFNI_transpose_4x4_spec sampleQuad.1 sampleQuad.2.1 sampleQuad.2.2.1 sampleQuad.2.2.2
    (by decide) (by decide) (by decide) (by decide)

/-- C32: the table `SM4::SBOX` has no repeated entry, so distinct bytes have distinct images,
and `SM4::tau` is a bijection of the 32-bit words onto themselves. -/
theorem SM4_SBOX_permutation :
    (∀ x y, x < 256 → y < 256 → x ≠ y → SM4.SBOX.getD x 0 ≠ SM4.SBOX.getD y 0) ∧
      Set.BijOn SM4.tau (Set.Iio (2 ^ 32)) (Set.Iio (2 ^ 32)) := by
  refine ⟨fun x y hx hy hne h => hne (sbox_injective x y hx hy h), ?_, ?_, ?_⟩
  · intro A _
    exact tau_lt A
  · intro A hA B hB h
    exact tau_injOn A B hA hB h
  · intro w hw
    obtain ⟨A, hA, e⟩ := tau_surjOn w hw
    exact ⟨A, hA, e⟩

/-- C33: byte `j` of `SM4::CK[i]`, counted from the most significant one, is
`((4 * i + j) * 7) mod 256`, for every `i` in `0 .. 31` and `j` in `0 .. 3`. -/
theorem SM4_CK_generating_rule (i j : Nat) (hi : i < 32) (hj : j < 4) :
    SM4.CK.getD i 0 / 2 ^ (8 * (3 - j)) % 256 = ((4 * i + j) * 7) % 256 := by
  interval_cases i <;> interval_cases j <;> decide

/-- C33 at the last byte of the last constant. -/
theorem SM4_CK_generating_rule_witness :
    SM4.CK.getD 31 0 / 2 ^ (8 * (3 - 3)) % 256 = ((4 * 31 + 3) * 7) % 256 :=
  SM4_CK_generating_rule 31 3 (by decide) (by decide)

/-- C34: the shape of the SM3 padding.  For a buffer of fewer than 64 bytes and any
`total_length`, after `padMessage` the buffer has 64 or 128 bytes; it starts with the bytes it
had; the next byte is `0x80`; every byte after that and before the last eight is `0x00`; and the
last eight bytes are the big-endian encoding of `(total_length * 8) mod 2^64`. -/
theorem SM3_Unrolled_padMessage_shape (st : SM3_Unrolled.State) (h : st.buffer.length < 64) :
    ((SM3_Unrolled.padMessage st).buffer.length = 64 ∨
      (SM3_Unrolled.padMessage st).buffer.length = 128) ∧
    (SM3_Unrolled.padMessage st).buffer.take st.buffer.length = st.buffer ∧
    (SM3_Unrolled.padMessage st).buffer.getD st.buffer.length 0 = 0x80 ∧
    (∀ i, st.buffer.length < i → i < (SM3_Unrolled.padMessage st).buffer.length - 8 →
      (SM3_Unrolled.padMessage st).buffer.getD i 0 = 0x00) ∧
    (SM3_Unrolled.padMessage st).buffer.drop ((SM3_Unrolled.padMessage st).buffer.length - 8) =
      spec_be64 ((st.total_length * 8) % 2 ^ 64) := by
  rw [padMessage_buffer st]
  obtain ⟨hlen, htake, h80, hzero, hlast⟩ := padded_shape st.buffer
    (spec_be64 ((st.total_length * 8) % 2 ^ 64)) ((120 - (st.buffer.length + 1) % 64) % 64)
    (spec_be64_length _)
  refine ⟨?_, htake, h80, hzero, hlast⟩
  rw [hlen]
  omega

/-- C34 at a buffer of 60 bytes, where the padding spills into a second block. -/
theorem SM3_Unrolled_padMessage_shape_witness :
    ((SM3_Unrolled.padMessage (SM3_Unrolled.State.mk SM3_Unrolled.IV (List.replicate 60 7)
        60)).buffer.length = 64 ∨
      (SM3_Unrolled.padMessage (SM3_Unrolled.State.mk SM3_Unrolled.IV (List.replicate 60 7)
        60)).buffer.length = 128) ∧
    (SM3_Unrolled.padMessage (SM3_Unrolled.State.mk SM3_Unrolled.IV (List.replicate 60 7)
        60)).buffer.take
      (SM3_Unrolled.State.mk SM3_Unrolled.IV (List.replicate 60 7) 60).buffer.length =
        (SM3_Unrolled.State.mk SM3_Unrolled.IV (List.replicate 60 7) 60).buffer ∧
    (SM3_Unrolled.padMessage (SM3_Unrolled.State.mk SM3_Unrolled.IV (List.replicate 60 7)
        60)).buffer.getD
      (SM3_Unrolled.State.mk SM3_Unrolled.IV (List.replicate 60 7) 60).buffer.length 0 = 0x80 ∧
    (∀ i, (SM3_Unrolled.State.mk SM3_Unrolled.IV (List.replicate 60 7) 60).buffer.length < i →
      i < (SM3_Unrolled.padMessage (SM3_Unrolled.State.mk SM3_Unrolled.IV (List.replicate 60 7)
        60)).buffer.length - 8 →
      (SM3_Unrolled.padMessage (SM3_Unrolled.State.mk SM3_Unrolled.IV (List.replicate 60 7)
        60)).buffer.getD i 0 = 0x00) ∧
    (SM3_Unrolled.padMessage (SM3_Unrolled.State.mk SM3_Unrolled.IV (List.replicate 60 7)
        60)).buffer.drop
      ((SM3_Unrolled.padMessage (SM3_Unrolled.State.mk SM3_Unrolled.IV (List.replicate 60 7)
        60)).buffer.length - 8) =
      spec_be64 (((SM3_Unrolled.State.mk SM3_Unrolled.IV (List.replicate 60 7)
        60).total_length * 8) % 2 ^ 64) :=
  SM3_Unrolled_padMessage_shape (SM3_Unrolled.State.mk SM3_Unrolled.IV (List.replicate 60 7) 60)
    (by decide)

/-- C35: the buffer invariant of the SM3 stream.  After `reset` and any sequence of `update`
calls the buffer holds fewer than 64 bytes, `total_length` is the sum of the lengths passed
modulo `2^64`, and the buffer is the last `total_length mod 64` bytes of the concatenated
input. -/
theorem SM3_Unrolled_buffer_invariant (ds : List (List Nat)) :
    (ds.foldl SM3_Unrolled.update SM3_Unrolled.reset).buffer.length < 64 ∧
    (ds.foldl SM3_Unrolled.update SM3_Unrolled.reset).total_length =
      (ds.map List.length).sum % 2 ^ 64 ∧
    (ds.foldl SM3_Unrolled.update SM3_Unrolled.reset).buffer =
      (concatInputs ds).drop ((concatInputs ds).length -
        (ds.foldl SM3_Unrolled.update SM3_Unrolled.reset).total_length % 64) := by
  have e : ds.foldl SM3_Unrolled.update SM3_Unrolled.reset =
      SM3_Unrolled.update SM3_Unrolled.reset (concatInputs ds) := by
    have h := updates_eq ds SM3_Unrolled.reset []
    rw [reset_update_nil, List.nil_append] at h
    exact h
  obtain ⟨hb, ht⟩ := reset_update (concatInputs ds)
  rw [e, hb, ht, ← concatInputs_length]
  refine ⟨?_, rfl, ?_⟩
  · rw [List.length_drop]
    omega
  · congr 1
    omega

/-- C36: the SM3 stream does not depend on how the input is split.  After `reset`, `update(a)`
then `update(b)` leaves the same `H`, buffer and `total_length` as `update(a ++ b)`, and
`finalize` returns the same digest. -/
theorem SM3_Unrolled_update_split (a b : List Nat) :
    SM3_Unrolled.update (SM3_Unrolled.update SM3_Unrolled.reset a) b =
      SM3_Unrolled.update SM3_Unrolled.reset (a ++ b) ∧
    (SM3_Unrolled.finalize (SM3_Unrolled.update (SM3_Unrolled.update SM3_Unrolled.reset a) b)).1 =
      (SM3_Unrolled.finalize (SM3_Unrolled.update SM3_Unrolled.reset (a ++ b))).1 := by
  rw [update_update]
  exact ⟨rfl, rfl⟩

/-- C37: the shift counts of `rotl` are not all in range.  In rounds 0 and 32 the call
`rotl(Tj(j), j % 32)` has the count 0, so `x >> (32 - 0)` shifts a 32-bit value by 32 bits,
whatever the working variables and the words are; in every other round `j` of `0 .. 63` all
the calls of `rotl` in `ROUND` have a count in `1 .. 31`. -/
theorem SM3_Unrolled_ROUND_shift_out_of_range (FF_func GG_func : Nat → Nat → Nat → Nat)
    (W W_prime : List Nat) (v : SM3_Vars) :
    SM3_Unrolled.rotl_checked (SM3_Unrolled.Tj 0) (0 % 32) = none ∧
    SM3_Unrolled.rotl_checked (SM3_Unrolled.Tj 32) (32 % 32) = none ∧
    SM3_Unrolled.ROUND_checked 0 FF_func GG_func W W_prime v = none ∧
    SM3_Unrolled.ROUND_checked 32 FF_func GG_func W W_prime v = none ∧
    (∀ j, j < 64 → j % 32 ≠ 0 →
      SM3_Unrolled.ROUND_checked j FF_func GG_func W W_prime v =
        some (SM3_Unrolled.ROUND j FF_func GG_func W W_prime v)) := by
  have hc : ∀ x n, 1 ≤ n → n ≤ 31 →
      SM3_Unrolled.rotl_checked x n = some (SM3_Unrolled.rotl x n) := by
    intro x n h1 h2
    have hcond : n < 32 ∧ 32 - n < 32 := by omega
    simp only [SM3_Unrolled.rotl_checked, if_pos hcond]
  have h0 : ∀ x, SM3_Unrolled.rotl_checked x 0 = none := by
    intro x
    have hcond : ¬ (0 < 32 ∧ 32 - 0 < 32) := by decide
    simp only [SM3_Unrolled.rotl_checked, if_neg hcond]
  refine ⟨h0 _, h0 _, ?_, ?_, ?_⟩
  · simp only [SM3_Unrolled.ROUND_checked, hc _ 12 (by decide) (by decide), Nat.zero_mod, h0,
      Option.bind_eq_bind, Option.some_bind, Option.none_bind]
  · simp only [SM3_Unrolled.ROUND_checked, hc _ 12 (by decide) (by decide), Nat.mod_self, h0,
      Option.bind_eq_bind, Option.some_bind, Option.none_bind]
  · intro j hj hne
    simp only [SM3_Unrolled.ROUND_checked, SM3_Unrolled.P0_checked, SM3_Unrolled.ROUND,
      SM3_Unrolled.P0, hc _ 12 (by decide) (by decide), hc _ 7 (by decide) (by decide),
      hc _ 9 (by decide) (by decide), hc _ 19 (by decide) (by decide),
      hc _ 17 (by decide) (by decide), hc _ (j % 32) (by omega) (by omega),
      Option.bind_eq_bind, Option.some_bind, Option.pure_def]

/-- C38: the standard example of GB/T 32905-2016.  After `reset` and `update` with the three
bytes `abc`, `finalize` returns
`66c7f0f462eeedd9d1f2d46bdc10e4e24167c4875cf2f7a2297da02b8f4ba8e0`. -/
theorem SM3_Unrolled_standard_example :
    (SM3_Unrolled.finalize (SM3_Unrolled.update SM3_Unrolled.reset sampleAbc)).1 =
      "66c7f0f462eeedd9d1f2d46bdc10e4e24167c4875cf2f7a2297da02b8f4ba8e0".toList := by
  decide!
